import Mathlib

/-!
# A verification model of the `scheme` interpreter

A shallow embedding of `src/scheme/*.h`:

* `object.h`    : `Ref` (a `std::shared_ptr<Object>`), `Cell`, `Object.Repr`, `Cell.ToVector`
* `scope.h`     : `Scope`, `Scope.DefineVariable`, `Scope.SetVariable`, `Scope.HasVariable`,
                  `Scope.GetVariable`
* `function.h`  : `CustomLambdaFunction`
* `std-lib.h`   : one `Apply` per built-in class, `Builtin.ApprovesNumberOfArguments`
* `eval.h`      : `EvalSymbol`, `EvalInstruction`, `Eval`
* `tokenizer.h` : `Tokenizer`
* `parser.h`    : `Read`, `ReadList`
* `scheme.h`    : `SchemeEngine.Init`, `SchemeEngine.Interpret`

Objects that the program never mutates and never compares by address (numbers, symbols, the two
booleans, the built-in function objects) are identified with their payload.  Cells, scopes and user
lambdas live in a store and are referred to by address; address `0` of the cell store is the global
`kSchemeNull`.  Nothing is ever freed: reference counting is not observable by the program.
-/

namespace Scheme

/-! ## Outcomes -/

/-- How a call can end other than by returning.  The first three are the exception classes of
`error.h`; `StdOutOfRange` is the `std::out_of_range` thrown by `std::stoi`;
`UndefinedBehaviour` marks an operation whose behaviour C++ leaves undefined (indexing a deque
outside its bounds, dereferencing a null pointer, integer division by zero);
`NonTermination` marks a loop or recursion over a cyclic structure that never ends;
`OutOfFuel` is produced only by the recursion bound of this model. -/
inductive Fault where
  | SyntaxError
  | NameError
  | RuntimeError
  | StdOutOfRange
  | UndefinedBehaviour
  | NonTermination
  | OutOfFuel
  deriving DecidableEq

deriving instance DecidableEq for Except

/-- The classes of `std-lib.h`, one constructor per class. -/
inductive Builtin where
  | QuoteFunction | MaxFunction | MinFunction | AbsFunction | LambdaFunction
  | ConsFunction | CarFunction | CdrFunction | ListFunction | ListRefFunction
  | ListTailFunction | DefineFunction | SetFunction | SetCarFunction | SetCdrFunction
  | PlusOperator | MinusOperator | MultiplyOperator | DivisionOperator | IfOperator
  | AndOperator | OrOperator | NotOperator
  | LessOperator | LeqOperator | GreaterOperator | GeqOperator | EqualsOperator
  | BooleanPredicate | NumberPredicate | SymbolPredicate | PairPredicate | ListPredicate
  | NullPredicate
  deriving DecidableEq

/-- A `std::shared_ptr<Object>`: null, or a pointer to an object of one of the dynamic types. -/
inductive Ref where
  | null
  | number (value : Int)
  | symbol (name : String)
  | boolean (value : Bool)
  | cell (addr : Nat)
  | builtin (f : Builtin)
  | lambda (id : Nat)
  deriving DecidableEq

/-- The two slots `first_`, `second_` of a `Cell`. -/
structure Cell where
  first : Ref
  second : Ref
  deriving DecidableEq

/-- A `Scope`: the parent pointer and `namespace_` (an association list, later entries never
shadowed: a name occurs at most once). -/
structure Scope where
  parent : Option Nat
  namespace_ : List (String × Ref)
  deriving DecidableEq

/-- The fields of a `CustomLambdaFunction`. -/
structure CustomLambdaFunction where
  lambda_birth_scope : Nat
  arg_names : List String
  expressions : List Ref
  deriving DecidableEq

/-- The store: all cells, scopes and user lambdas allocated so far. -/
structure State where
  cells : List Cell
  scopes : List Scope
  lambdas : List CustomLambdaFunction
  deriving DecidableEq

/-- Result of a call: a value or a fault, each with the store it leaves behind. -/
inductive Res (α : Type) where
  | ok (val : α) (st : State)
  | fail (f : Fault) (st : State)
  deriving DecidableEq

/-- A computation over the store. -/
def M (α : Type) : Type := State → Res α

/-- Sequencing of two computations; a fault ends the sequence and keeps the store. -/
def M.bind {α β : Type} (m : M α) (f : α → M β) : M β := fun st =>
  match m st with
  | .ok a st1 => f a st1
  | .fail e st1 => .fail e st1

instance : Monad M where
  pure a := fun st => .ok a st
  bind := M.bind

/-- A `throw` (or one of the non-returning outcomes). -/
def raise {α : Type} (f : Fault) : M α := fun st => .fail f st

/-- The value or fault of a result, without the store. -/
def Res.outcome {α : Type} : Res α → Except Fault α
  | .ok a _ => .ok a
  | .fail f _ => .error f

/-- The store a result leaves behind. -/
def Res.state {α : Type} : Res α → State
  | .ok _ st => st
  | .fail _ st => st

/-- Lift a store-independent computation. -/
def liftExcept {α : Type} : Except Fault α → M α
  | .ok a => pure a
  | .error f => raise f

/-! ## object.h -/

/-- The global `kSchemeNull`: the cell allocated first. -/
def kSchemeNull : Ref := .cell 0

/-- `kSchemeTrue`. -/
def kSchemeTrue : Ref := .boolean true

/-- `kSchemeFalse`. -/
def kSchemeFalse : Ref := .boolean false

/-- Read a cell of the store.  Addresses are only created by allocation, so an address found in a
store is in range; outside the range the read gives an empty cell. -/
def State.cell (st : State) (a : Nat) : Cell := st.cells.getD a ⟨.null, .null⟩

/-- The current store. -/
def getState : M State := fun st => .ok st st

/-- `std::make_shared<Cell>(first, second)`. -/
def makeCell (first second : Ref) : M Ref := fun st =>
  .ok (.cell st.cells.length) { st with cells := st.cells ++ [⟨first, second⟩] }

/-- `std::string::substr(1)`. -/
def substr1 (s : String) : String := ⟨s.data.drop 1⟩

/-- `Builtin` names: the string each class passes to the `Function` constructor, returned by
`Function::Repr`. -/
def Builtin.name : Builtin → String
  | .QuoteFunction => "quote" | .MaxFunction => "max" | .MinFunction => "min"
  | .AbsFunction => "abs" | .LambdaFunction => "lambda" | .ConsFunction => "cons"
  | .CarFunction => "car" | .CdrFunction => "cdr" | .ListFunction => "list"
  | .ListRefFunction => "list-ref" | .ListTailFunction => "list-tail"
  | .DefineFunction => "define" | .SetFunction => "set!" | .SetCarFunction => "set-car!"
  | .SetCdrFunction => "set-cdr!" | .PlusOperator => "+" | .MinusOperator => "-"
  | .MultiplyOperator => "*" | .DivisionOperator => "/" | .IfOperator => "if"
  | .AndOperator => "and" | .OrOperator => "or" | .NotOperator => "not"
  | .LessOperator => "<" | .LeqOperator => "<=" | .GreaterOperator => ">"
  | .GeqOperator => ">=" | .EqualsOperator => "=" | .BooleanPredicate => "boolean?"
  | .NumberPredicate => "number?" | .SymbolPredicate => "symbol?" | .PairPredicate => "pair?"
  | .ListPredicate => "list?" | .NullPredicate => "null?"

/-- `std::to_string(int)`. -/
def to_string (value : Int) : String := toString value

/-- `Object::Repr` with a bound on the nesting of `Cell::Repr` calls on non-empty cells.  On a null
pointer the call is a null dereference.  At bound `0` a non-empty cell is reported as
`NonTermination`: see `Object.Repr`. -/
def Object.ReprFuel (st : State) : Nat → Ref → Except Fault String
  | _, .null => .error .UndefinedBehaviour
  | _, .number value => .ok (to_string value)
  | _, .symbol name => .ok name
  | _, .boolean value => .ok (if value then "#t" else "#f")
  | _, .builtin f => .ok f.name
  | _, .lambda _ => .ok "lambda-function"
  | 0, .cell a => if (st.cell a).first = .null then .ok "()" else .error .NonTermination
  | fuel + 1, .cell a =>
    let first_ := (st.cell a).first
    let second_ := (st.cell a).second
    if first_ = .null then .ok "()"
    else
      match Object.ReprFuel st fuel first_ with
      | .error f => .error f
      | .ok r1 =>
        let repr := "(" ++ r1
        if second_ = .null then .ok (repr ++ ")")
        else
          let repr := repr ++ " "
          match Object.ReprFuel st fuel second_ with
          | .error f => .error f
          | .ok r2 =>
            match second_ with
            | .cell _ => .ok (repr ++ substr1 r2)
            | _ => .ok (repr ++ ". " ++ r2 ++ ")")

/-- `Object::Repr`.  A chain of nested `Cell::Repr` calls on more non-empty cells than the store
holds visits some cell twice, so the recursion of the program never ends on it; below that length
the bound is not reached. -/
def Object.Repr (st : State) (object : Ref) : Except Fault String :=
  Object.ReprFuel st st.cells.length object

/-- `Object::AsBoolean`: only `kSchemeFalse` is false. -/
def Object.AsBoolean : Ref → M Bool
  | .null => raise .UndefinedBehaviour
  | .boolean value => pure value
  | _ => pure true

/-- The loop of `Cell::ToVector`, from the current `second`; `null_` is the empty cell the function
allocated. -/
def Cell.ToVector.loop (st : State) (null_ : Ref) : Nat → Ref → Except Fault (List Ref)
  | _, .null => .ok []
  | 0, .cell _ => .error .NonTermination
  | fuel + 1, .cell t =>
    let tail := st.cell t
    match Cell.ToVector.loop st null_ fuel tail.second with
    | .error f => .error f
    | .ok rest => .ok ((if tail.first = .null then null_ else tail.first) :: rest)
  | _, second => .ok [second]

/-- `Cell::ToVector` of the cell at address `a`.  The loop follows `second_` links; more
iterations than there are cells means a cell was reached twice and the loop of the program never
ends. -/
def Cell.ToVector (a : Nat) : M (List Ref) := fun st =>
  let first_ := (st.cell a).first
  let second_ := (st.cell a).second
  if first_ = .null then .ok [] st
  else
    match makeCell .null .null st with
    | .fail f st1 => .fail f st1
    | .ok null_ st1 =>
      match Cell.ToVector.loop st1 null_ st1.cells.length second_ with
      | .error f => .fail f st1
      | .ok rest => .ok (first_ :: rest) st1

/-- `operator[]` of `std::deque`: outside the bounds the behaviour is undefined. -/
def subscript (objects : List Ref) (i : Nat) : M Ref :=
  match objects[i]? with
  | some x => pure x
  | none => raise .UndefinedBehaviour

/-- A `throw` whose message is built from the `Repr()` of the listed objects: the exception is
thrown only if those calls return. -/
def raiseWithRepr {α : Type} : List Ref → Fault → M α
  | [], f => raise f
  | object :: rest, f => fun st =>
    match Object.Repr st object with
    | .ok _ => raiseWithRepr rest f st
    | .error g => .fail g st

/-! ## scope.h -/

/-- Read a scope of the store (see `State.cell` for addresses outside the range). -/
def State.scope (st : State) (s : Nat) : Scope := st.scopes.getD s ⟨none, []⟩

/-- `std::unordered_map::find`. -/
def Scope.find : List (String × Ref) → String → Option Ref
  | [], _ => none
  | (key, value) :: rest, name => if key = name then some value else Scope.find rest name

/-- `std::unordered_map::insert_or_assign`. -/
def Scope.insert_or_assign : List (String × Ref) → String → Ref → List (String × Ref)
  | [], name, value => [(name, value)]
  | (key, old) :: rest, name, value =>
    if key = name then (key, value) :: rest
    else (key, old) :: Scope.insert_or_assign rest name value

/-- The store after `namespace_.insert_or_assign(name, value)` in scope `s`. -/
def State.assign (st : State) (s : Nat) (name : String) (value : Ref) : State :=
  let updated : Scope :=
    ⟨(st.scope s).parent, Scope.insert_or_assign (st.scope s).namespace_ name value⟩
  { st with scopes := st.scopes.set s updated }

/-- `new Scope(parent)`; `none` for the root scope of the engine. -/
def makeScope (parent : Option Nat) : M Nat := fun st =>
  .ok st.scopes.length { st with scopes := st.scopes ++ [⟨parent, []⟩] }

/-- `Scope::DefineVariable`. -/
def Scope.DefineVariable (s : Nat) (name : String) (value : Ref) : M Unit := fun st =>
  .ok () (st.assign s name value)

/-- `Scope::SetVariable`, bounded by the length of the parent chain. -/
def Scope.SetVariableFuel (st : State) : Nat → Nat → String → Ref → State
  | 0, _, _, _ => st
  | fuel + 1, s, name, value =>
    if (Scope.find (st.scope s).namespace_ name).isSome then st.assign s name value
    else
      match (st.scope s).parent with
      | some parent_ => Scope.SetVariableFuel st fuel parent_ name value
      | none => st

/-- `Scope::SetVariable`.  A parent is always allocated before its children, so a parent chain is
never longer than the number of scopes. -/
def Scope.SetVariable (s : Nat) (name : String) (value : Ref) : M Unit := fun st =>
  .ok () (Scope.SetVariableFuel st st.scopes.length s name value)

/-- `Scope::HasVariable`, bounded by the length of the parent chain. -/
def Scope.HasVariableFuel (st : State) : Nat → Nat → String → Bool
  | 0, _, _ => false
  | fuel + 1, s, name =>
    if (Scope.find (st.scope s).namespace_ name).isSome then true
    else
      match (st.scope s).parent with
      | some parent_ => Scope.HasVariableFuel st fuel parent_ name
      | none => false

/-- `Scope::HasVariable`. -/
def Scope.HasVariable (st : State) (s : Nat) (name : String) : Bool :=
  Scope.HasVariableFuel st st.scopes.length s name

/-- `Scope::GetVariable`, bounded by the length of the parent chain. -/
def Scope.GetVariableFuel (st : State) : Nat → Nat → String → Ref
  | 0, _, _ => .null
  | fuel + 1, s, name =>
    match Scope.find (st.scope s).namespace_ name with
    | some value => value
    | none =>
      match (st.scope s).parent with
      | some parent_ => Scope.GetVariableFuel st fuel parent_ name
      | none => .null

/-- `Scope::GetVariable`. -/
def Scope.GetVariable (st : State) (s : Nat) (name : String) : Ref :=
  Scope.GetVariableFuel st st.scopes.length s name

/-! ## function.h and std-lib.h -/

/-- The recursive entry points a function body calls back into: `Eval(expression, scope)` and the
virtual `Function::Apply(arguments, scope)` of a function object. -/
structure Interp where
  Eval : Ref → Nat → M Ref
  Apply : Ref → List Ref → Nat → M Ref

/-- The order in which the compiler evaluates the two arguments of the `std::make_shared<Cell>`
call in `ConsFunction::Apply`; C++ leaves it unspecified. -/
inductive ArgOrder where
  | leftToRight
  | rightToLeft
  deriving DecidableEq

/-- Type `int`: the value of a signed 32-bit result, wrapped around on overflow. -/
def wrap (x : Int) : Int := (x + 2147483648) % 4294967296 - 2147483648

/-- `RequireNumberArgument`. -/
def RequireNumberArgument (object : Ref) : M Int :=
  match object with
  | .number value => pure value
  | _ => raiseWithRepr [object] .RuntimeError

/-- `RequireSymbolArgument`. -/
def RequireSymbolArgument (object : Ref) : M String :=
  match object with
  | .symbol name => pure name
  | _ => raiseWithRepr [object] .RuntimeError

/-- `RequirePairArgument`; the result is the address of the cell. -/
def RequirePairArgument (object : Ref) : M Nat :=
  match object with
  | .cell a => pure a
  | _ => raiseWithRepr [object] .RuntimeError

/-- `Function::ApprovesNumberOfArguments` of the built-in classes. -/
def Builtin.ApprovesNumberOfArguments (f : Builtin) (arguments : List Ref) : Bool :=
  match f with
  | .QuoteFunction => arguments.length == 1
  | .MaxFunction => !arguments.isEmpty
  | .MinFunction => !arguments.isEmpty
  | .AbsFunction => arguments.length == 1
  | .LambdaFunction => arguments.length > 1
  | .ConsFunction => arguments.length == 2
  | .CarFunction => arguments.length == 1
  | .CdrFunction => arguments.length == 1
  | .ListFunction => true
  | .ListRefFunction => arguments.length == 2
  | .ListTailFunction => arguments.length == 2
  | .DefineFunction => arguments.length == 2
  | .SetFunction => arguments.length == 2
  | .SetCarFunction => arguments.length == 2
  | .SetCdrFunction => arguments.length == 2
  | .PlusOperator => true
  | .MinusOperator => !arguments.isEmpty
  | .MultiplyOperator => true
  | .DivisionOperator => arguments.length > 1
  | .IfOperator => arguments.length > 1 && arguments.length < 4
  | .AndOperator => true
  | .OrOperator => true
  | .NotOperator => arguments.length == 1
  | .LessOperator => arguments.isEmpty || arguments.length > 1
  | .LeqOperator => arguments.isEmpty || arguments.length > 1
  | .GreaterOperator => arguments.isEmpty || arguments.length > 1
  | .GeqOperator => arguments.isEmpty || arguments.length > 1
  | .EqualsOperator => arguments.isEmpty || arguments.length > 1
  | .BooleanPredicate => arguments.length == 1
  | .NumberPredicate => arguments.length == 1
  | .SymbolPredicate => arguments.length == 1
  | .PairPredicate => arguments.length == 1
  | .ListPredicate => arguments.length == 1
  | .NullPredicate => arguments.length == 1

/-- `Is<SpecialFormFunction>`: the classes declared `: public SpecialFormFunction`. -/
def Builtin.IsSpecialFormFunction : Builtin → Bool
  | .LambdaFunction => true
  | .DefineFunction => true
  | .SetFunction => true
  | .SetCarFunction => true
  | .SetCdrFunction => true
  | .IfOperator => true
  | _ => false

/-- `CustomLambdaFunction::ApprovesNumberOfArguments`. -/
def CustomLambdaFunction.ApprovesNumberOfArguments (self : CustomLambdaFunction)
    (arguments : List Ref) : Bool :=
  arguments.length == self.arg_names.length

/-- `CustomLambdaFunction::PopulateExecutionScope`: the loop over `arg_names_`, with `arguments`
advanced in step. -/
def CustomLambdaFunction.PopulateExecutionScope (rec : Interp) :
    List String → List Ref → Nat → Nat → M Unit
  | [], _, _, _ => pure ()
  | _ :: _, [], _, _ => raise .UndefinedBehaviour
  | name :: names, argument :: arguments, exec_scope, caller_scope => do
    let value ← rec.Eval argument caller_scope
    Scope.DefineVariable exec_scope name value
    CustomLambdaFunction.PopulateExecutionScope rec names arguments exec_scope caller_scope

/-- The two loops over `expressions_` in `CustomLambdaFunction::Apply`: all but the last
expression are evaluated for effect, the value of the last is the result. -/
def CustomLambdaFunction.body (rec : Interp) : List Ref → Nat → M Ref
  | [], _ => raise .UndefinedBehaviour
  | [last] , execution_scope => rec.Eval last execution_scope
  | it :: rest, execution_scope => do
    let _ ← rec.Eval it execution_scope
    CustomLambdaFunction.body rec rest execution_scope

/-- `CustomLambdaFunction::Apply`. -/
def CustomLambdaFunction.Apply (rec : Interp) (self : CustomLambdaFunction)
    (arguments : List Ref) (scope : Nat) : M Ref := do
  let execution_scope ← makeScope (some self.lambda_birth_scope)
  CustomLambdaFunction.PopulateExecutionScope rec self.arg_names arguments execution_scope scope
  CustomLambdaFunction.body rec self.expressions execution_scope

/-- `std::make_shared<CustomLambdaFunction>(scope, parameters, arguments)`. -/
def makeLambda (scope : Nat) (parameters : List String) (expressions : List Ref) : M Ref :=
  fun st => .ok (.lambda st.lambdas.length)
    { st with lambdas := st.lambdas ++ [⟨scope, parameters, expressions⟩] }

/-- `QuoteFunction::Apply`. -/
def QuoteFunction.Apply (arguments : List Ref) : M Ref := do
  let argument ← subscript arguments 0
  if argument = .null then pure kSchemeNull else pure argument

/-- The `while (++it < end)` loop of `MaxFunction::Apply`. -/
def MaxFunction.loop (rec : Interp) (scope : Nat) : List Ref → Int → M Int
  | [], max => pure max
  | it :: rest, max => do
    let element ← RequireNumberArgument (← rec.Eval it scope)
    MaxFunction.loop rec scope rest (Max.max max element)

/-- `MaxFunction::Apply`. -/
def MaxFunction.Apply (rec : Interp) (arguments : List Ref) (scope : Nat) : M Ref := do
  let element ← RequireNumberArgument (← rec.Eval (← subscript arguments 0) scope)
  let max ← MaxFunction.loop rec scope (arguments.drop 1) element
  pure (.number max)

/-- The `while (++it < end)` loop of `MinFunction::Apply`. -/
def MinFunction.loop (rec : Interp) (scope : Nat) : List Ref → Int → M Int
  | [], min => pure min
  | it :: rest, min => do
    let element ← RequireNumberArgument (← rec.Eval it scope)
    MinFunction.loop rec scope rest (Min.min min element)

/-- `MinFunction::Apply`. -/
def MinFunction.Apply (rec : Interp) (arguments : List Ref) (scope : Nat) : M Ref := do
  let element ← RequireNumberArgument (← rec.Eval (← subscript arguments 0) scope)
  let min ← MinFunction.loop rec scope (arguments.drop 1) element
  pure (.number min)

/-- `AbsFunction::Apply`. -/
def AbsFunction.Apply (rec : Interp) (arguments : List Ref) (scope : Nat) : M Ref := do
  let element ← RequireNumberArgument (← rec.Eval (← subscript arguments 0) scope)
  pure (.number (wrap |element|))

/-- The `for` loop of `LambdaFunction::Apply` over the flattened parameter list. -/
def LambdaFunction.parameters : List Ref → M (List String)
  | [] => pure []
  | object :: rest => do
    let name ← RequireSymbolArgument object
    let names ← LambdaFunction.parameters rest
    pure (name :: names)

/-- `LambdaFunction::Apply`. -/
def LambdaFunction.Apply (arguments : List Ref) (scope : Nat) : M Ref := do
  let bindings ← subscript arguments 0
  let arguments := arguments.drop 1
  match bindings with
  | .cell a =>
    let parameters ← LambdaFunction.parameters (← Cell.ToVector a)
    makeLambda scope parameters arguments
  | .symbol name => makeLambda scope [name] arguments
  | _ => raiseWithRepr [bindings] .SyntaxError

/-- `ConsFunction::Apply`. -/
def ConsFunction.Apply (ord : ArgOrder) (rec : Interp) (arguments : List Ref) (scope : Nat) :
    M Ref := do
  match ord with
  | .leftToRight =>
    let first ← rec.Eval (← subscript arguments 0) scope
    let second ← rec.Eval (← subscript arguments 1) scope
    makeCell first second
  | .rightToLeft =>
    let second ← rec.Eval (← subscript arguments 1) scope
    let first ← rec.Eval (← subscript arguments 0) scope
    makeCell first second

/-- `CarFunction::Apply`. -/
def CarFunction.Apply (rec : Interp) (arguments : List Ref) (scope : Nat) : M Ref := do
  let elem ← RequirePairArgument (← rec.Eval (← subscript arguments 0) scope)
  let st ← getState
  if (st.cell elem).first = .null then raiseWithRepr [.cell elem] .RuntimeError
  else pure (st.cell elem).first

/-- `CdrFunction::Apply`. -/
def CdrFunction.Apply (rec : Interp) (arguments : List Ref) (scope : Nat) : M Ref := do
  let elem ← RequirePairArgument (← rec.Eval (← subscript arguments 0) scope)
  let st ← getState
  if (st.cell elem).first = .null then raiseWithRepr [.cell elem] .RuntimeError
  else if (st.cell elem).second = .null then pure kSchemeNull
  else pure (st.cell elem).second

/-- `ListFunction::BuildList`. -/
def ListFunction.BuildList (rec : Interp) (scope : Nat) : List Ref → M Ref
  | [] => pure .null
  | argument :: arguments => do
    let head ← rec.Eval argument scope
    let tail ← ListFunction.BuildList rec scope arguments
    makeCell head tail

/-- `ListFunction::Apply`. -/
def ListFunction.Apply (rec : Interp) (arguments : List Ref) (scope : Nat) : M Ref :=
  if arguments.isEmpty then pure kSchemeNull
  else ListFunction.BuildList rec scope arguments

/-- `ListRefFunction::Apply`.  The bounds test compares as `int64_t` and has no lower bound; the
deque is then indexed with the `int` converted to `size_t`. -/
def ListRefFunction.Apply (rec : Interp) (arguments : List Ref) (scope : Nat) : M Ref := do
  let pair ← RequirePairArgument (← rec.Eval (← subscript arguments 0) scope)
  let index ← RequireNumberArgument (← rec.Eval (← subscript arguments 1) scope)
  let list ← Cell.ToVector pair
  if index ≥ (list.length : Int) then raiseWithRepr [.cell pair, .number index] .RuntimeError
  else if index < 0 then raise .UndefinedBehaviour
  else subscript list index.toNat

/-- The `while (index > 0 && Is<Cell>(tail))` loop of `ListTailFunction::Apply`. -/
def ListTailFunction.loop (st : State) : Nat → Ref → Ref
  | 0, tail => tail
  | index + 1, .cell a => ListTailFunction.loop st index (st.cell a).second
  | _ + 1, tail => tail

/-- `ListTailFunction::Apply`. -/
def ListTailFunction.Apply (rec : Interp) (arguments : List Ref) (scope : Nat) : M Ref := do
  let pair ← RequirePairArgument (← rec.Eval (← subscript arguments 0) scope)
  let index ← RequireNumberArgument (← rec.Eval (← subscript arguments 1) scope)
  let list ← Cell.ToVector pair
  if index > (list.length : Int) then raiseWithRepr [.cell pair] .RuntimeError
  else
    let st ← getState
    let tail := ListTailFunction.loop st index.toNat (.cell pair)
    if tail = .null then pure kSchemeNull else pure tail

/-- `DefineFunction::HandleLambdaSugar`, for `arguments[0]` the cell at `lambda_signature`.  The
function bound to `lambda` in the current scope is called through a `Function` pointer without a
test of the cast. -/
def DefineFunction.HandleLambdaSugar (rec : Interp) (lambda_signature : Nat)
    (arguments : List Ref) (scope : Nat) : M Unit := do
  let st ← getState
  if (st.cell lambda_signature).first = .null then
    raiseWithRepr [.cell lambda_signature] .SyntaxError
  else
    let lambda_name ← RequireSymbolArgument (st.cell lambda_signature).first
    let arguments :=
      if (st.cell lambda_signature).second ≠ .null
      then arguments.set 0 (st.cell lambda_signature).second
      else arguments.set 0 kSchemeNull
    let value ← rec.Apply (Scope.GetVariable st scope "lambda") arguments scope
    Scope.DefineVariable scope lambda_name value

/-- `DefineFunction::Apply`. -/
def DefineFunction.Apply (rec : Interp) (arguments : List Ref) (scope : Nat) : M Ref := do
  let target ← subscript arguments 0
  match target with
  | .cell lambda_signature =>
    DefineFunction.HandleLambdaSugar rec lambda_signature arguments scope
    pure kSchemeNull
  | _ =>
    let name ← RequireSymbolArgument target
    let value ← rec.Eval (← subscript arguments 1) scope
    Scope.DefineVariable scope name value
    pure kSchemeNull

/-- `SetFunction::Apply`. -/
def SetFunction.Apply (rec : Interp) (arguments : List Ref) (scope : Nat) : M Ref := do
  let var_name ← RequireSymbolArgument (← subscript arguments 0)
  let st ← getState
  if !Scope.HasVariable st scope var_name then raise .NameError
  else
    let value ← rec.Eval (← subscript arguments 1) scope
    Scope.SetVariable scope var_name value
    pure kSchemeNull

/-- `Cell::SetFirst` on the cell at address `a`. -/
def Cell.SetFirst (a : Nat) (object : Ref) : M Unit := fun st =>
  .ok () { st with cells := st.cells.set a ⟨object, (st.cell a).second⟩ }

/-- `Cell::SetSecond` on the cell at address `a`. -/
def Cell.SetSecond (a : Nat) (object : Ref) : M Unit := fun st =>
  .ok () { st with cells := st.cells.set a ⟨(st.cell a).first, object⟩ }

/-- `SetCarFunction::Apply`. -/
def SetCarFunction.Apply (rec : Interp) (arguments : List Ref) (scope : Nat) : M Ref := do
  let element ← RequirePairArgument (← rec.Eval (← subscript arguments 0) scope)
  let value ← rec.Eval (← subscript arguments 1) scope
  Cell.SetFirst element value
  pure kSchemeNull

/-- `SetCdrFunction::Apply`. -/
def SetCdrFunction.Apply (rec : Interp) (arguments : List Ref) (scope : Nat) : M Ref := do
  let element ← RequirePairArgument (← rec.Eval (← subscript arguments 0) scope)
  let value ← rec.Eval (← subscript arguments 1) scope
  Cell.SetSecond element value
  pure kSchemeNull

/-- The `for` loop of `PlusOperator::Apply`. -/
def PlusOperator.loop (rec : Interp) (scope : Nat) : List Ref → Int → M Int
  | [], sum => pure sum
  | arg :: rest, sum => do
    let number ← RequireNumberArgument (← rec.Eval arg scope)
    PlusOperator.loop rec scope rest (wrap (sum + number))

/-- `PlusOperator::Apply`. -/
def PlusOperator.Apply (rec : Interp) (arguments : List Ref) (scope : Nat) : M Ref := do
  let sum ← PlusOperator.loop rec scope arguments 0
  pure (.number sum)

/-- The `while (it < end)` loop of `MinusOperator::Apply`. -/
def MinusOperator.loop (rec : Interp) (scope : Nat) : List Ref → Int → M Int
  | [], result => pure result
  | it :: rest, result => do
    let element ← RequireNumberArgument (← rec.Eval it scope)
    MinusOperator.loop rec scope rest (wrap (result - element))

/-- `MinusOperator::Apply`. -/
def MinusOperator.Apply (rec : Interp) (arguments : List Ref) (scope : Nat) : M Ref := do
  let result ← RequireNumberArgument (← rec.Eval (← subscript arguments 0) scope)
  if (arguments.drop 1).isEmpty then pure (.number (wrap (-result)))
  else
    let result ← MinusOperator.loop rec scope (arguments.drop 1) result
    pure (.number result)

/-- The `for` loop of `MultiplyOperator::Apply`. -/
def MultiplyOperator.loop (rec : Interp) (scope : Nat) : List Ref → Int → M Int
  | [], product => pure product
  | arg :: rest, product => do
    let number ← RequireNumberArgument (← rec.Eval arg scope)
    MultiplyOperator.loop rec scope rest (wrap (product * number))

/-- `MultiplyOperator::Apply`. -/
def MultiplyOperator.Apply (rec : Interp) (arguments : List Ref) (scope : Nat) : M Ref := do
  let product ← MultiplyOperator.loop rec scope arguments 1
  pure (.number product)

/-- The `while (++it < end)` loop of `DivisionOperator::Apply`.  `result /= value` on `int` is
undefined for a zero divisor and for `INT_MIN / -1`; otherwise it truncates toward zero. -/
def DivisionOperator.loop (rec : Interp) (scope : Nat) : List Ref → Int → M Int
  | [], result => pure result
  | it :: rest, result => do
    let element ← RequireNumberArgument (← rec.Eval it scope)
    if element = 0 then raise .UndefinedBehaviour
    else if result = -2147483648 ∧ element = -1 then raise .UndefinedBehaviour
    else DivisionOperator.loop rec scope rest (Int.tdiv result element)

/-- `DivisionOperator::Apply`. -/
def DivisionOperator.Apply (rec : Interp) (arguments : List Ref) (scope : Nat) : M Ref := do
  let result ← RequireNumberArgument (← rec.Eval (← subscript arguments 0) scope)
  let result ← DivisionOperator.loop rec scope (arguments.drop 1) result
  pure (.number result)

/-- `IfOperator::Apply`. -/
def IfOperator.Apply (rec : Interp) (arguments : List Ref) (scope : Nat) : M Ref := do
  let test ← rec.Eval (← subscript arguments 0) scope
  if (← Object.AsBoolean test) then rec.Eval (← subscript arguments 1) scope
  else if arguments.length > 2 then rec.Eval (← subscript arguments 2) scope
  else pure kSchemeNull

/-- The loop of `AndOperator::Apply` up to `last`, then the evaluation of `*last`. -/
def AndOperator.loop (rec : Interp) (scope : Nat) : List Ref → M Ref
  | [] => raise .UndefinedBehaviour
  | [last] => rec.Eval last scope
  | it :: rest => do
    let element ← rec.Eval it scope
    if !(← Object.AsBoolean element) then pure element
    else AndOperator.loop rec scope rest

/-- `AndOperator::Apply`. -/
def AndOperator.Apply (rec : Interp) (arguments : List Ref) (scope : Nat) : M Ref :=
  if arguments.isEmpty then pure kSchemeTrue
  else AndOperator.loop rec scope arguments

/-- The loop of `OrOperator::Apply` up to `last`, then the evaluation of `*last`. -/
def OrOperator.loop (rec : Interp) (scope : Nat) : List Ref → M Ref
  | [] => raise .UndefinedBehaviour
  | [last] => rec.Eval last scope
  | it :: rest => do
    let element ← rec.Eval it scope
    if (← Object.AsBoolean element) then pure element
    else OrOperator.loop rec scope rest

/-- `OrOperator::Apply`. -/
def OrOperator.Apply (rec : Interp) (arguments : List Ref) (scope : Nat) : M Ref :=
  if arguments.isEmpty then pure kSchemeFalse
  else OrOperator.loop rec scope arguments

/-- `NotOperator::Apply`. -/
def NotOperator.Apply (rec : Interp) (arguments : List Ref) (scope : Nat) : M Ref := do
  let value ← rec.Eval (← subscript arguments 0) scope
  if (← Object.AsBoolean value) then pure kSchemeFalse else pure kSchemeTrue

/-- The `while (++it < end)` loop shared, up to the relation tested, by `LessOperator`,
`LeqOperator`, `GreaterOperator`, `GeqOperator` and `EqualsOperator`. -/
def CompareOperator.loop (rel : Int → Int → Bool) (rec : Interp) (scope : Nat) :
    List Ref → Int → M Ref
  | [], _ => pure kSchemeTrue
  | it :: rest, previous => do
    let current ← RequireNumberArgument (← rec.Eval it scope)
    if !(rel previous current) then pure kSchemeFalse
    else CompareOperator.loop rel rec scope rest current

/-- `Apply` of the five comparison classes, which differ in the relation only. -/
def CompareOperator.Apply (rel : Int → Int → Bool) (rec : Interp) (arguments : List Ref)
    (scope : Nat) : M Ref :=
  if arguments.isEmpty then pure kSchemeTrue
  else do
    let previous ← RequireNumberArgument (← rec.Eval (← subscript arguments 0) scope)
    CompareOperator.loop rel rec scope (arguments.drop 1) previous

/-- `TypeCheckPredicate<T>::Apply`, with `Is<T>` as a parameter. -/
def TypeCheckPredicate.Apply (Is : Ref → Bool) (rec : Interp) (arguments : List Ref)
    (scope : Nat) : M Ref := do
  if Is (← rec.Eval (← subscript arguments 0) scope) then pure kSchemeTrue else pure kSchemeFalse

/-- `Is<Boolean>`. -/
def Ref.IsBoolean : Ref → Bool
  | .boolean _ => true
  | _ => false

/-- `Is<Number>`. -/
def Ref.IsNumber : Ref → Bool
  | .number _ => true
  | _ => false

/-- `Is<Symbol>`. -/
def Ref.IsSymbol : Ref → Bool
  | .symbol _ => true
  | _ => false

/-- `Is<Cell>`. -/
def Ref.IsCell : Ref → Bool
  | .cell _ => true
  | _ => false

/-- `PairPredicate::Apply`. -/
def PairPredicate.Apply (rec : Interp) (arguments : List Ref) (scope : Nat) : M Ref := do
  let elem ← rec.Eval (← subscript arguments 0) scope
  let st ← getState
  match elem with
  | .cell a => if (st.cell a).first ≠ .null then pure kSchemeTrue else pure kSchemeFalse
  | _ => pure kSchemeFalse

/-- The `while (elem && Is<Cell>(elem))` loop of `ListPredicate::Apply`; the result is the final
`elem`. -/
def ListPredicate.loop (st : State) : Nat → Ref → Except Fault Ref
  | 0, .cell _ => .error .NonTermination
  | fuel + 1, .cell a => ListPredicate.loop st fuel (st.cell a).second
  | _, elem => .ok elem

/-- `ListPredicate::Apply`.  As in `Cell.ToVector`, more iterations than cells means the loop
of the program never ends. -/
def ListPredicate.Apply (rec : Interp) (arguments : List Ref) (scope : Nat) : M Ref := do
  let elem ← rec.Eval (← subscript arguments 0) scope
  if !elem.IsCell then pure kSchemeFalse
  else
    let st ← getState
    let elem ← liftExcept (ListPredicate.loop st st.cells.length elem)
    if elem ≠ .null then pure kSchemeFalse else pure kSchemeTrue

/-- `NullPredicate::Apply`. -/
def NullPredicate.Apply (rec : Interp) (arguments : List Ref) (scope : Nat) : M Ref := do
  let elem ← rec.Eval (← subscript arguments 0) scope
  let st ← getState
  match elem with
  | .cell a =>
    if elem = kSchemeNull ∨ (st.cell a).first = .null then pure kSchemeTrue else pure kSchemeFalse
  | _ => pure kSchemeFalse

/-- The virtual call `function->Apply(arguments, scope)` on a built-in. -/
def Builtin.Apply (ord : ArgOrder) (rec : Interp) (f : Builtin) (arguments : List Ref)
    (scope : Nat) : M Ref :=
  match f with
  | .QuoteFunction => QuoteFunction.Apply arguments
  | .MaxFunction => MaxFunction.Apply rec arguments scope
  | .MinFunction => MinFunction.Apply rec arguments scope
  | .AbsFunction => AbsFunction.Apply rec arguments scope
  | .LambdaFunction => LambdaFunction.Apply arguments scope
  | .ConsFunction => ConsFunction.Apply ord rec arguments scope
  | .CarFunction => CarFunction.Apply rec arguments scope
  | .CdrFunction => CdrFunction.Apply rec arguments scope
  | .ListFunction => ListFunction.Apply rec arguments scope
  | .ListRefFunction => ListRefFunction.Apply rec arguments scope
  | .ListTailFunction => ListTailFunction.Apply rec arguments scope
  | .DefineFunction => DefineFunction.Apply rec arguments scope
  | .SetFunction => SetFunction.Apply rec arguments scope
  | .SetCarFunction => SetCarFunction.Apply rec arguments scope
  | .SetCdrFunction => SetCdrFunction.Apply rec arguments scope
  | .PlusOperator => PlusOperator.Apply rec arguments scope
  | .MinusOperator => MinusOperator.Apply rec arguments scope
  | .MultiplyOperator => MultiplyOperator.Apply rec arguments scope
  | .DivisionOperator => DivisionOperator.Apply rec arguments scope
  | .IfOperator => IfOperator.Apply rec arguments scope
  | .AndOperator => AndOperator.Apply rec arguments scope
  | .OrOperator => OrOperator.Apply rec arguments scope
  | .NotOperator => NotOperator.Apply rec arguments scope
  | .LessOperator => CompareOperator.Apply (fun x y => decide (x < y)) rec arguments scope
  | .LeqOperator => CompareOperator.Apply (fun x y => decide (x ≤ y)) rec arguments scope
  | .GreaterOperator => CompareOperator.Apply (fun x y => decide (x > y)) rec arguments scope
  | .GeqOperator => CompareOperator.Apply (fun x y => decide (x ≥ y)) rec arguments scope
  | .EqualsOperator => CompareOperator.Apply (fun x y => decide (x = y)) rec arguments scope
  | .BooleanPredicate => TypeCheckPredicate.Apply Ref.IsBoolean rec arguments scope
  | .NumberPredicate => TypeCheckPredicate.Apply Ref.IsNumber rec arguments scope
  | .SymbolPredicate => TypeCheckPredicate.Apply Ref.IsSymbol rec arguments scope
  | .PairPredicate => PairPredicate.Apply rec arguments scope
  | .ListPredicate => ListPredicate.Apply rec arguments scope
  | .NullPredicate => NullPredicate.Apply rec arguments scope

/-- The virtual call `As<Function>(function)->Apply(arguments, scope)`.  When the cast gives a null
pointer the call dereferences it. -/
def Function.Apply (ord : ArgOrder) (rec : Interp) (function : Ref) (arguments : List Ref)
    (scope : Nat) : M Ref :=
  match function with
  | .builtin f => f.Apply ord rec arguments scope
  | .lambda id => do
    let st ← getState
    match st.lambdas[id]? with
    | some self => CustomLambdaFunction.Apply rec self arguments scope
    | none => raise .UndefinedBehaviour
  | _ => raise .UndefinedBehaviour

/-! ## eval.h -/

/-- `EvalSymbol`. -/
def EvalSymbol (name : String) (scope : Nat) : M Ref := do
  let st ← getState
  if Scope.HasVariable st scope name then pure (Scope.GetVariable st scope name)
  else raise .NameError

/-- `EvalInstruction` on the cell at address `expression`. -/
def EvalInstruction (ord : ArgOrder) (rec : Interp) (expression : Nat) (scope : Nat) : M Ref := do
  let objects ← Cell.ToVector expression
  let function ← rec.Eval (← subscript objects 0) scope
  match function with
  | .builtin f =>
    let objects := objects.drop 1
    if !f.ApprovesNumberOfArguments objects then
      if f.IsSpecialFormFunction then raise .SyntaxError else raise .RuntimeError
    else f.Apply ord rec objects scope
  | .lambda id =>
    let objects := objects.drop 1
    let st ← getState
    match st.lambdas[id]? with
    | none => raise .UndefinedBehaviour
    | some self =>
      if !self.ApprovesNumberOfArguments objects then raise .RuntimeError
      else CustomLambdaFunction.Apply rec self objects scope
  | _ => raiseWithRepr [.cell expression] .RuntimeError

/-- The body of `Eval`, with the recursive calls going through `rec`. -/
def Eval.body (ord : ArgOrder) (rec : Interp) (expression : Ref) (scope : Nat) : M Ref :=
  if expression = .null ∨ expression = kSchemeNull then raise .RuntimeError
  else
    match expression with
    | .number _ => pure expression
    | .boolean _ => pure expression
    | .symbol name => EvalSymbol name scope
    | .cell a => EvalInstruction ord rec a scope
    | _ => raise .SyntaxError

/-- The interpreter with at most `fuel` nested calls of `Eval` and `Function::Apply` through
pointers. -/
def interp (ord : ArgOrder) : Nat → Interp
  | 0 => ⟨fun _ _ => raise .OutOfFuel, fun _ _ _ => raise .OutOfFuel⟩
  | fuel + 1 => ⟨Eval.body ord (interp ord fuel), Function.Apply ord (interp ord fuel)⟩

/-- `Eval(expression, scope)`, with nesting bound `fuel`. -/
def Eval (ord : ArgOrder) (fuel : Nat) (expression : Ref) (scope : Nat) : M Ref :=
  (interp ord fuel).Eval expression scope

/-! ## tokenizer.h -/

/-- The alternatives of the `Token` variant (`BracketToken::OPEN` and `BracketToken::CLOSE` as two
constructors). -/
inductive Token where
  | ConstantToken (value : Int)
  | BracketOpen
  | BracketClose
  | SymbolToken (name : String)
  | QuoteToken
  | DotToken
  | UnknownToken (value : Char)
  deriving DecidableEq

/-- The fields of a `Tokenizer`; `in_` is what is left of the stream. -/
structure Tokenizer where
  in_ : List Char
  token_ : Token
  terminated_ : Bool
  deriving DecidableEq

/-- `std::isgraph` in the "C" locale. -/
def isgraph (c : Char) : Bool := 33 ≤ c.toNat && c.toNat ≤ 126

/-- `std::isdigit`. -/
def isdigit (c : Char) : Bool := 48 ≤ c.toNat && c.toNat ≤ 57

/-- `std::isalpha` in the "C" locale. -/
def isalpha (c : Char) : Bool :=
  (65 ≤ c.toNat && c.toNat ≤ 90) || (97 ≤ c.toNat && c.toNat ≤ 122)

/-- `Tokenizer::IsSymbolBeginning`. -/
def Tokenizer.IsSymbolBeginning (symbol : Char) : Bool :=
  isalpha symbol || symbol == '<' || symbol == '>' || symbol == '=' || symbol == '*' ||
    symbol == '#'

/-- `Tokenizer::IsSymbolCharacter`. -/
def Tokenizer.IsSymbolCharacter (symbol : Char) : Bool :=
  Tokenizer.IsSymbolBeginning symbol || isdigit symbol || symbol == '?' || symbol == '!' ||
    symbol == '-'

/-- `std::stoi` on a run of decimal digits: the value, or `std::out_of_range` when it does not
fit an `int`. -/
def stoi (number : List Char) : Except Fault Int :=
  let value : Nat := number.foldl (fun acc c => acc * 10 + (c.toNat - 48)) 0
  if value > 2147483647 then .error .StdOutOfRange else .ok (value : Int)

/-- `Tokenizer::ReadInt(first)` with `rest` the stream after `first`: the value and the stream
after the digit run. -/
def Tokenizer.ReadInt (first : Char) (rest : List Char) : Except Fault (Int × List Char) :=
  match stoi (first :: rest.takeWhile isdigit) with
  | .error f => .error f
  | .ok value => .ok (value, rest.dropWhile isdigit)

/-- `Tokenizer::Next`. -/
def Tokenizer.Next (self : Tokenizer) : Except Fault Tokenizer :=
  match self.in_.dropWhile (fun c => !isgraph c) with
  | [] => .ok { self with in_ := [], terminated_ := true }
  | symbol :: rest =>
    if Tokenizer.IsSymbolBeginning symbol then
      .ok { self with
        in_ := rest.dropWhile Tokenizer.IsSymbolCharacter,
        token_ := .SymbolToken ⟨symbol :: rest.takeWhile Tokenizer.IsSymbolCharacter⟩ }
    else if isdigit symbol then
      match Tokenizer.ReadInt symbol rest with
      | .error f => .error f
      | .ok (value, rest) => .ok { self with in_ := rest, token_ := .ConstantToken value }
    else if symbol = '(' then .ok { self with in_ := rest, token_ := .BracketOpen }
    else if symbol = ')' then .ok { self with in_ := rest, token_ := .BracketClose }
    else if symbol = Char.ofNat 39 then .ok { self with in_ := rest, token_ := .QuoteToken }
    else if symbol = '.' then .ok { self with in_ := rest, token_ := .DotToken }
    else if symbol = '+' then
      match rest with
      | digit :: rest1 =>
        if isdigit digit then
          match Tokenizer.ReadInt digit rest1 with
          | .error f => .error f
          | .ok (value, rest) => .ok { self with in_ := rest, token_ := .ConstantToken value }
        else .ok { self with in_ := rest, token_ := .SymbolToken "+" }
      | [] => .ok { self with in_ := rest, token_ := .SymbolToken "+" }
    else if symbol = '-' then
      match rest with
      | digit :: rest1 =>
        if isdigit digit then
          match Tokenizer.ReadInt digit rest1 with
          | .error f => .error f
          | .ok (value, rest) => .ok { self with in_ := rest, token_ := .ConstantToken (-value) }
        else .ok { self with in_ := rest, token_ := .SymbolToken "-" }
      | [] => .ok { self with in_ := rest, token_ := .SymbolToken "-" }
    else if symbol = '/' then .ok { self with in_ := rest, token_ := .SymbolToken "/" }
    else .ok { self with in_ := rest, token_ := .UnknownToken symbol }

/-- The constructor `Tokenizer(std::istream* in)`: a default-constructed `token_`, then `Next()`. -/
def Tokenizer.new (in_ : List Char) : Except Fault Tokenizer :=
  Tokenizer.Next ⟨in_, .ConstantToken 0, false⟩

/-- `Tokenizer::IsEnd`. -/
def Tokenizer.IsEnd (self : Tokenizer) : Bool := self.terminated_

/-- `Tokenizer::GetToken`. -/
def Tokenizer.GetToken (self : Tokenizer) : Token := self.token_

/-! ## parser.h -/

/-- `RequireNotEnd`. -/
def RequireNotEnd (tokenizer : Tokenizer) : M Unit :=
  if tokenizer.IsEnd then raise .SyntaxError else pure ()

mutual

/-- `Read`, with a bound on the nesting of `Read` and `ReadList` calls. -/
def Read : Nat → Tokenizer → M (Ref × Tokenizer)
  | 0, _ => raise .OutOfFuel
  | fuel + 1, tokenizer =>
    if tokenizer.IsEnd then pure (.null, tokenizer)
    else do
      let token := tokenizer.GetToken
      let tokenizer ← liftExcept tokenizer.Next
      match token with
      | .ConstantToken value => pure (.number value, tokenizer)
      | .SymbolToken name =>
        if name = "#t" then pure (kSchemeTrue, tokenizer)
        else if name = "#f" then pure (kSchemeFalse, tokenizer)
        else pure (.symbol name, tokenizer)
      | .QuoteToken =>
        let (quoted, tokenizer) ← Read fuel tokenizer
        let inner ← makeCell quoted .null
        let outer ← makeCell (.symbol "quote") inner
        pure (outer, tokenizer)
      | .BracketOpen => ReadList fuel tokenizer
      | _ => raise .SyntaxError

/-- `ReadList`, with a bound on the nesting of `Read` and `ReadList` calls. -/
def ReadList : Nat → Tokenizer → M (Ref × Tokenizer)
  | 0, _ => raise .OutOfFuel
  | fuel + 1, tokenizer => do
    RequireNotEnd tokenizer
    match tokenizer.GetToken with
    | .BracketClose =>
      let tokenizer ← liftExcept tokenizer.Next
      pure (.null, tokenizer)
    | .DotToken => raise .SyntaxError
    | _ =>
      let (first, tokenizer) ← Read fuel tokenizer
      RequireNotEnd tokenizer
      match tokenizer.GetToken with
      | .BracketClose =>
        let tokenizer ← liftExcept tokenizer.Next
        let result ← makeCell first .null
        pure (result, tokenizer)
      | .DotToken =>
        let tokenizer ← liftExcept tokenizer.Next
        let (second, tokenizer) ← Read fuel tokenizer
        RequireNotEnd tokenizer
        if tokenizer.GetToken ≠ .BracketClose then raise .SyntaxError
        else
          let tokenizer ← liftExcept tokenizer.Next
          let result ← makeCell first second
          pure (result, tokenizer)
      | _ =>
        let (rest, tokenizer) ← ReadList fuel tokenizer
        let result ← makeCell first rest
        pure (result, tokenizer)

end

/-! ## scheme.h -/

/-- The store when the `SchemeEngine` constructor returns: the global `kSchemeNull` cell and the
empty root scope `scope_`, at address `0` of their stores. -/
def SchemeEngine.new : State :=
  { cells := [⟨.null, .null⟩], scopes := [⟨none, []⟩], lambdas := [] }

/-- `SchemeEngine::AddFunctionToScope`. -/
def SchemeEngine.AddFunctionToScope (function : Builtin) : M Unit :=
  Scope.DefineVariable 0 function.name (.builtin function)

/-- The functions `SchemeEngine::PopulateScope` adds, in its order. -/
def SchemeEngine.functions : List Builtin :=
  [.QuoteFunction, .MaxFunction, .MinFunction, .AbsFunction, .LambdaFunction, .ConsFunction,
   .CarFunction, .CdrFunction, .ListFunction, .ListRefFunction, .ListTailFunction,
   .DefineFunction, .SetFunction, .SetCarFunction, .SetCdrFunction,
   .PlusOperator, .MinusOperator, .MultiplyOperator, .DivisionOperator, .IfOperator,
   .AndOperator, .OrOperator, .NotOperator, .LessOperator, .LeqOperator, .GreaterOperator,
   .GeqOperator, .EqualsOperator,
   .BooleanPredicate, .NumberPredicate, .SymbolPredicate, .PairPredicate, .ListPredicate,
   .NullPredicate]

/-- `SchemeEngine::PopulateScope`. -/
def SchemeEngine.PopulateScope : List Builtin → M Unit
  | [] => pure ()
  | function :: rest => do
    SchemeEngine.AddFunctionToScope function
    SchemeEngine.PopulateScope rest

/-- `SchemeEngine::Init`. -/
def SchemeEngine.Init : M Unit := SchemeEngine.PopulateScope SchemeEngine.functions

/-- The final `->Repr()` of `SchemeEngine::Interpret`. -/
def SchemeEngine.print (value : Ref) : M String := fun st =>
  match Object.Repr st value with
  | .ok text => .ok text st
  | .error f => .fail f st

/-- `SchemeEngine::Interpret`; `fuel` bounds the nesting of `Eval`.  The nesting of `Read` and
`ReadList` calls is at most twice the number of characters plus two. -/
def SchemeEngine.Interpret (ord : ArgOrder) (fuel : Nat) (expression : String) : M String := do
  let tokenizer ← liftExcept (Tokenizer.new expression.data)
  let (obj, tokenizer) ← Read (2 * expression.length + 2) tokenizer
  if !tokenizer.IsEnd then raise .SyntaxError
  else
    let value ← Eval ord fuel obj 0
    SchemeEngine.print value

/-- The store of an engine after the constructor and `Init()`. -/
def SchemeEngine.initial : State := (SchemeEngine.Init SchemeEngine.new).state

/-- A session: `Interpret` called on each text in turn, going on after a fault as the shell does;
the result lists the outcome of each call. -/
def SchemeEngine.session (ord : ArgOrder) (fuel : Nat) :
    List String → State → List (Except Fault String) × State
  | [], st => ([], st)
  | text :: rest, st =>
    let r := SchemeEngine.Interpret ord fuel text st
    let tail := SchemeEngine.session ord fuel rest r.state
    (r.outcome :: tail.1, tail.2)

/-- The outcomes of a session started on a freshly initialised engine. -/
def SchemeEngine.outcomes (ord : ArgOrder) (fuel : Nat) (texts : List String) :
    List (Except Fault String) :=
  (SchemeEngine.session ord fuel texts SchemeEngine.initial).1

/-- The reading step of `Interpret` on `text`, in the store left by a session `defs` on a freshly
initialised engine: the expression read, the tokenizer, and the store with the cells of the
expression. -/
def Example.read (defs : List String) (text : String) : Res (Ref × Tokenizer) :=
  (do
    let tokenizer ← liftExcept (Tokenizer.new text.data)
    Read (2 * text.length + 2) tokenizer)
    (SchemeEngine.session .leftToRight 100 defs SchemeEngine.initial).2

/-! ## The counter session of the closure test

Stores reached by the session `(define range (lambda (x) (lambda () (set! x (+ x 1)) x)))`,
`(define r (range n))`, `(define s (range m))` followed by calls `(r)` and `(s)`. -/

/-- The text that defines `range`. -/
def Counter.rangeText : String := "(define range (lambda (x) (lambda () (set! x (+ x 1)) x)))"

/-- The text `(define c (range n))` for a one-letter name `c` and the decimal literal of `n`. -/
def Counter.defineText (c : Char) (n : Int) : String :=
  "(define " ++ String.singleton c ++ " (range " ++ to_string n ++ "))"

/-- The text of a call of one of the two counters: `(r)` for `true`, `(s)` for `false`. -/
def Counter.callText (which : Bool) : String := if which then "(r)" else "(s)"

/-- The store of a freshly initialised engine after `Interpret` of the definition of `range`. -/
@[irreducible]
def Counter.defined : State :=
  (SchemeEngine.session .leftToRight 100
    ["(define range (lambda (x) (lambda () (set! x (+ x 1)) x)))"] SchemeEngine.initial).2

/-- The root namespace of `Counter.defined` with `r` and `s` bound to the second and the third
lambda of the store. -/
@[irreducible]
def Counter.root : List (String × Ref) :=
  Scope.insert_or_assign
    (Scope.insert_or_assign (Counter.defined.scope 0).namespace_ "r" (.lambda 1)) "s" (.lambda 2)

/-- The stores the session runs through once `r` and `s` are defined: the cells of the definition
of `range` followed by `extra`, the root scope, the scope of the call `(range n)` where `x` holds
the count `n` of `r`, the scope of `(range m)` where `x` holds the count `m` of `s`, then the
scopes `extraS` of finished calls, and the three lambdas `range`, `r`, `s`. -/
def Counter.store (n m : Int) (extra : List Cell) (extraS : List Scope) : State :=
  { cells := Counter.defined.cells ++ extra,
    scopes := ⟨none, Counter.root⟩ :: ⟨some 0, [("x", .number n)]⟩ ::
      ⟨some 0, [("x", .number m)]⟩ :: extraS,
    lambdas := [⟨0, ["x"], [.cell 11]⟩, ⟨1, [], [.cell 7, .symbol "x"]⟩,
      ⟨2, [], [.cell 7, .symbol "x"]⟩] }

/-- The cells the reader allocates for `(define name (range n))`, from address `base`. -/
def Counter.defineCells (name : String) (n : Int) (base : Nat) : List Cell :=
  [⟨.number n, .null⟩, ⟨.symbol "range", .cell base⟩, ⟨.cell (base + 1), .null⟩,
   ⟨.symbol name, .cell (base + 2)⟩, ⟨.symbol "define", .cell (base + 3)⟩]

/-- The outputs the specification gives for a sequence of calls of the two counters, `r` standing
at `n` and `s` at `m`: the k-th call of `r` prints `n + k`, the j-th call of `s` prints `m + j`,
whatever the interleaving. -/
def Counter.expected : Int → Int → List Bool → List (Except Fault String)
  | _, _, [] => []
  | n, m, true :: rest => .ok (to_string (n + 1)) :: Counter.expected (n + 1) m rest
  | n, m, false :: rest => .ok (to_string (m + 1)) :: Counter.expected n (m + 1) rest

/-- The cells from `object` on are linked through their second fields, hold `heads` in their first
fields and end in `last`, which is not a cell: the traversal of `Cell::ToVector`. -/
inductive Chain (st : State) : Ref → List Ref → Ref → Prop
  | done (last : Ref) : (∀ a, last ≠ .cell a) → Chain st last [] last
  | step (a : Nat) (heads : List Ref) (last : Ref) :
      Chain st (st.cell a).second heads last →
      Chain st (.cell a) ((st.cell a).first :: heads) last

/-- The value `std::stoi` computes from a run of digits. -/
def digitsValue (number : List Char) : Nat :=
  number.foldl (fun acc c => acc * 10 + (c.toNat - 48)) 0

/-! ## Notions used to state the claims -/

/-- The expressions `expressions` evaluated one after the other, from left to right, in `scope`:
the values in the same order.  Used to state what a call does once a run of its arguments has
been evaluated. -/
def Eval.each (rec : Interp) (scope : Nat) : List Ref → M (List Ref)
  | [] => pure []
  | expression :: rest => do
    let value ← rec.Eval expression scope
    let values ← Eval.each rec scope rest
    pure (value :: values)

/-- Every scope of the store was allocated after its parent: the parent of scope `s`, if any, has
a smaller address.  `new Scope(parent)` can only be given a scope that exists already and
`parent_` is never reassigned, so every store the program builds has this property. -/
def State.WellScoped (st : State) : Bool :=
  (List.range st.scopes.length).all fun s =>
    match (st.scope s).parent with
    | some parent_ => decide (parent_ < s)
    | none => true

/-- The frames reached from frame `s` by following `parent_` pointers, `s` included. -/
inductive Scope.Reaches (st : State) : Nat → Nat → Prop
  | here (s : Nat) : Scope.Reaches st s s
  | up (s p d : Nat) : (st.scope s).parent = some p → Scope.Reaches st p d → Scope.Reaches st s d

/-- Lookup of `name` from frame `s` ends in frame `d`: `d` binds `name`, and it is `s` itself or
an ancestor of `s` such that neither `s` nor any frame between them binds `name`. -/
inductive Scope.Resolves (st : State) (name : String) : Nat → Nat → Prop
  | here (d : Nat) : (Scope.find (st.scope d).namespace_ name).isSome = true →
      Scope.Resolves st name d d
  | up (s p d : Nat) : Scope.find (st.scope s).namespace_ name = none →
      (st.scope s).parent = some p → Scope.Resolves st name p d → Scope.Resolves st name s d

/-- The value of an integer literal written as the sign `sign` (empty, `+` or `-`) followed by
the digits `digits`. -/
def Literal.value (sign digits : List Char) : Int :=
  if sign = ['-'] then -(digitsValue digits : Int) else (digitsValue digits : Int)

/-- The text of an integer literal: the sign, then the digits. -/
def Literal.text (sign digits : List Char) : String := ⟨sign ++ digits⟩

/-- The tokens a tokenizer holds from its current token on: the token of `GetToken`, then those
the following calls of `Next` produce, up to the end of the stream; every call of `Next` on the
way returns. -/
inductive Tokenizer.Yields : Tokenizer → List Token → Prop
  | done (t : Tokenizer) : t.IsEnd = true → Tokenizer.Yields t []
  | next (t t1 : Tokenizer) (rest : List Token) : t.IsEnd = false → t.Next = .ok t1 →
      Tokenizer.Yields t1 rest → Tokenizer.Yields t (t.GetToken :: rest)

/-- No token of `tokens` closes the list that is open when the first of them is read, `depth`
further lists being open inside it: every closing bracket matches an opening bracket of
`tokens` or one of the `depth` inner lists. -/
def Token.neverCloses : Nat → List Token → Bool
  | _, [] => true
  | depth, .BracketOpen :: rest => Token.neverCloses (depth + 1) rest
  | 0, .BracketClose :: _ => false
  | depth + 1, .BracketClose :: rest => Token.neverCloses depth rest
  | depth, _ :: rest => Token.neverCloses depth rest

/-- The tokens of an expression that starts, after any number of quote marks, with a list whose
closing bracket is missing: end of input is reached while that list is open. -/
def Token.endsInsideList : List Token → Bool
  | .QuoteToken :: rest => Token.endsInsideList rest
  | .BracketOpen :: rest => Token.neverCloses 0 rest
  | _ => false

/-- Every cell address held in a cell of the store is the address of a cell of the store.
Addresses are only created by allocation, so every store the program builds has this
property. -/
def State.Closed (st : State) : Bool :=
  st.cells.all fun c =>
    (match c.first with
      | .cell a => decide (a < st.cells.length)
      | _ => true) &&
    (match c.second with
      | .cell a => decide (a < st.cells.length)
      | _ => true)

/-- The object is not a cell outside the store. -/
def Ref.InStore (st : State) : Ref → Bool
  | .cell a => decide (a < st.cells.length)
  | _ => true

/-- The cells `ListFunction::BuildList` allocates for the values `values`, from address `base`:
the cell of the last value first, each other cell pointing to the one allocated before it. -/
def ListFunction.cells (base : Nat) : List Ref → List Cell
  | [] => []
  | value :: values =>
    ListFunction.cells base values ++
      [⟨value, if values = [] then .null else .cell (base + values.length - 1)⟩]

/-- The evaluating step of `Interpret` on `text`, after the session `defs` on a freshly
initialised engine: the value of the expression read and the store the evaluation leaves. -/
def Example.value (defs : List String) (text : String) : Res Ref :=
  match Example.read defs text with
  | .ok (obj, _) st => Eval .leftToRight 100 obj 0 st
  | .fail f st => .fail f st

/-- The store `st1` is the store `st` with cells allocated at the end: the frames and the
lambdas are the same, and every cell of `st` is in place. -/
def State.Extends (st1 st : State) : Prop :=
  st1.scopes = st.scopes ∧ st1.lambdas = st.lambdas ∧ ∃ extra, st1.cells = st.cells ++ extra

/-- The token sequences of the grammar the reader accepts.  With `false`: one expression, that
is a number, a symbol, a quote mark before an expression, or an opening bracket before the rest
of a list.  With `true`: the rest of a list after its opening bracket or after one of its
elements, that is a closing bracket, or an expression before the rest of the list, or an
expression, a dot, an expression and a closing bracket. -/
inductive Token.Parses : Bool → List Token → Prop
  | constant (value : Int) : Token.Parses false [.ConstantToken value]
  | symbol (name : String) : Token.Parses false [.SymbolToken name]
  | quote (e : List Token) : Token.Parses false e → Token.Parses false (.QuoteToken :: e)
  | list (body : List Token) : Token.Parses true body →
      Token.Parses false (.BracketOpen :: body)
  | close : Token.Parses true [.BracketClose]
  | cons (e rest : List Token) : Token.Parses false e → Token.Parses true rest →
      Token.Parses true (e ++ rest)
  | dotted (e1 e2 : List Token) : Token.Parses false e1 → Token.Parses false e2 →
      Token.Parses true (e1 ++ .DotToken :: (e2 ++ [.BracketClose]))

/-! ## Basic facts about the store monad and the evaluator -/

theorem bind_apply {α β : Type} (m : M α) (f : α → M β) (st : State) :
    (m >>= f) st = match m st with
      | .ok a st1 => f a st1
      | .fail e st1 => .fail e st1 := rfl

theorem pure_apply {α : Type} (a : α) (st : State) : (pure a : M α) st = .ok a st := rfl

theorem raise_apply {α : Type} (f : Fault) (st : State) : (raise f : M α) st = .fail f st := rfl

theorem getState_apply (st : State) : getState st = .ok st st := rfl

theorem subscript_zero (x : Ref) (xs : List Ref) (st : State) :
    subscript (x :: xs) 0 st = .ok x st := by simp [subscript, pure_apply]

/-- An empty cell renders as `()` whatever the store. -/
theorem Repr_of_empty (st : State) (a : Nat) (h : (st.cell a).first = .null) :
    Object.Repr st (.cell a) = .ok "()" := by
  unfold Object.Repr
  cases st.cells.length <;> simp [Object.ReprFuel, h]

/-- `EvalInstruction` when the head evaluates to a built-in: the arity test, then `Apply`. -/
theorem EvalInstruction_builtin (ord : ArgOrder) (rec : Interp) (expression scope : Nat)
    (head : Ref) (args : List Ref) (f : Builtin) (st st1 st2 : State)
    (hvec : Cell.ToVector expression st = .ok (head :: args) st1)
    (hfun : rec.Eval head scope st1 = .ok (.builtin f) st2) :
    EvalInstruction ord rec expression scope st =
      if f.ApprovesNumberOfArguments args then f.Apply ord rec args scope st2
      else if f.IsSpecialFormFunction then .fail .SyntaxError st2
      else .fail .RuntimeError st2 := by
  simp only [EvalInstruction, bind_apply, hvec, subscript_zero, hfun, List.drop_one, List.tail_cons]
  cases hA : f.ApprovesNumberOfArguments args <;> cases hS : f.IsSpecialFormFunction <;>
    simp [raise_apply]

/-- `EvalInstruction` when the head evaluates to a user lambda: the arity test, then `Apply`. -/
theorem EvalInstruction_lambda (ord : ArgOrder) (rec : Interp) (expression scope id : Nat)
    (head : Ref) (args : List Ref) (self : CustomLambdaFunction) (st st1 st2 : State)
    (hvec : Cell.ToVector expression st = .ok (head :: args) st1)
    (hfun : rec.Eval head scope st1 = .ok (.lambda id) st2)
    (hlam : st2.lambdas[id]? = some self) :
    EvalInstruction ord rec expression scope st =
      if self.ApprovesNumberOfArguments args then
        CustomLambdaFunction.Apply rec self args scope st2
      else .fail .RuntimeError st2 := by
  simp only [EvalInstruction, bind_apply, hvec, subscript_zero, hfun, List.drop_one, List.tail_cons,
    getState_apply, hlam]
  cases hA : self.ApprovesNumberOfArguments args <;> simp [raise_apply]

/-! ## Symbolic execution of the counter session -/

theorem Counter.length_cells : Counter.defined.cells.length = 21 := by decide!

theorem Counter.tokenizer_r : Tokenizer.new ['(', 'r', ')'] = .ok ⟨['r', ')'], .BracketOpen, false⟩ := by decide!
theorem Counter.next_r1 : Tokenizer.Next ⟨['r', ')'], .BracketOpen, false⟩ = .ok ⟨[')'], .SymbolToken "r", false⟩ := by decide!
theorem Counter.next_r2 : Tokenizer.Next ⟨[')'], .SymbolToken "r", false⟩ = .ok ⟨[], .BracketClose, false⟩ := by decide!
theorem Counter.next_r3 : Tokenizer.Next ⟨[], .BracketClose, false⟩ = .ok ⟨[], .BracketClose, true⟩ := by decide!

theorem Counter.read_r (st : State) :
    Read 8 ⟨['r', ')'], .BracketOpen, false⟩ st =
      .ok (.cell st.cells.length, ⟨[], .BracketClose, true⟩)
        { st with cells := st.cells ++ [⟨.symbol "r", .null⟩] } := by
  simp only [Read, ReadList, Tokenizer.IsEnd, Tokenizer.GetToken, bind_apply, liftExcept, Counter.next_r1,
    Counter.next_r2, Counter.next_r3, pure_apply, Bool.false_eq_true, if_false, RequireNotEnd, makeCell,
    String.reduceEq]

theorem interp_Eval (ord : ArgOrder) (k : Nat) :
    (interp ord (k + 1)).Eval = Eval.body ord (interp ord k) := rfl

/-- Cells of the definition of `range` are not moved by later allocations. -/
theorem Counter.cell_defined (i : Nat) (hi : i < 21) (extra : List Cell) (d : Cell) :
    (Counter.defined.cells ++ extra).getD i d = Counter.defined.cells.getD i d := by
  rw [List.getD_append]
  rw [Counter.length_cells]; exact hi

theorem Counter.cell_new (extra : List Cell) (c : Cell) (rest : List Cell) (d : Cell) :
    (Counter.defined.cells ++ (extra ++ c :: rest)).getD (21 + extra.length) d = c := by
  rw [List.getD_append_right _ _ _ _ (by rw [Counter.length_cells]; omega)]
  rw [Counter.length_cells, Nat.add_sub_cancel_left]
  rw [List.getD_append_right _ _ _ _ (by omega)]
  simp

theorem Counter.cell2 (extra : List Cell) :
    (Counter.defined.cells ++ extra).getD 2 ⟨.null, .null⟩ = ⟨.number 1, .null⟩ := by
  rw [Counter.cell_defined 2 (by omega)]; decide!

theorem Counter.cell3 (extra : List Cell) :
    (Counter.defined.cells ++ extra).getD 3 ⟨.null, .null⟩ = ⟨.symbol "x", .cell 2⟩ := by
  rw [Counter.cell_defined 3 (by omega)]; decide!

theorem Counter.cell4 (extra : List Cell) :
    (Counter.defined.cells ++ extra).getD 4 ⟨.null, .null⟩ = ⟨.symbol "+", .cell 3⟩ := by
  rw [Counter.cell_defined 4 (by omega)]; decide!

theorem Counter.cell5 (extra : List Cell) :
    (Counter.defined.cells ++ extra).getD 5 ⟨.null, .null⟩ = ⟨.cell 4, .null⟩ := by
  rw [Counter.cell_defined 5 (by omega)]; decide!

theorem Counter.cell6 (extra : List Cell) :
    (Counter.defined.cells ++ extra).getD 6 ⟨.null, .null⟩ = ⟨.symbol "x", .cell 5⟩ := by
  rw [Counter.cell_defined 6 (by omega)]; decide!

theorem Counter.cell7 (extra : List Cell) :
    (Counter.defined.cells ++ extra).getD 7 ⟨.null, .null⟩ = ⟨.symbol "set!", .cell 6⟩ := by
  rw [Counter.cell_defined 7 (by omega)]; decide!

theorem Chain.cons {st : State} {a : Nat} {x y : Ref} {heads : List Ref} {last : Ref}
    (h : st.cell a = ⟨x, y⟩) (hc : Chain st y heads last) :
    Chain st (.cell a) (x :: heads) last := by
  have := Chain.step a heads last (by rw [h]; exact hc)
  rw [h] at this
  exact this

theorem ToVector_loop_of_chain (st : State) (null_ : Ref) (r : Ref) (heads : List Ref) (last : Ref)
    (hc : Chain st r heads last) :
    ∀ fuel, heads.length ≤ fuel →
      Cell.ToVector.loop st null_ fuel r =
        .ok (heads.map (fun h => if h = .null then null_ else h) ++
          (if last = .null then [] else [last])) := by
  induction hc with
  | done last hlast =>
    intro fuel _
    cases last with
    | cell a => exact absurd rfl (hlast a)
    | null => cases fuel <;> simp [Cell.ToVector.loop]
    | _ => cases fuel <;> simp [Cell.ToVector.loop]
  | step a heads last _ ih =>
    intro fuel hfuel
    cases fuel with
    | zero => simp at hfuel
    | succ fuel =>
      simp only [Cell.ToVector.loop]
      rw [ih fuel (by simpa using hfuel)]
      simp

theorem ToVector_of_chain (st : State) (a : Nat) (x rest : Ref) (heads : List Ref) (last : Ref)
    (hcell : st.cell a = ⟨x, rest⟩) (hx : x ≠ .null)
    (hc : Chain { st with cells := st.cells ++ [⟨.null, .null⟩] } rest heads last)
    (hlen : heads.length ≤ st.cells.length + 1) :
    Cell.ToVector a st =
      .ok (x :: (heads.map (fun h => if h = .null then .cell st.cells.length else h) ++
          (if last = .null then [] else [last])))
        { st with cells := st.cells ++ [⟨.null, .null⟩] } := by
  simp only [Cell.ToVector, hcell, hx, if_false, makeCell]
  rw [ToVector_loop_of_chain _ _ _ heads last hc _ (by simpa using hlen)]

theorem HasVariableFuel_here (st : State) (fuel s : Nat) (name : String)
    (h : (Scope.find (st.scope s).namespace_ name).isSome = true) :
    Scope.HasVariableFuel st (fuel + 1) s name = true := by
  simp [Scope.HasVariableFuel, h]

theorem HasVariableFuel_up (st : State) (fuel s p : Nat) (name : String)
    (h : Scope.find (st.scope s).namespace_ name = none) (hp : (st.scope s).parent = some p) :
    Scope.HasVariableFuel st (fuel + 1) s name = Scope.HasVariableFuel st fuel p name := by
  simp [Scope.HasVariableFuel, h, hp]

theorem GetVariableFuel_here (st : State) (fuel s : Nat) (name : String) (value : Ref)
    (h : Scope.find (st.scope s).namespace_ name = some value) :
    Scope.GetVariableFuel st (fuel + 1) s name = value := by
  simp [Scope.GetVariableFuel, h]

theorem GetVariableFuel_up (st : State) (fuel s p : Nat) (name : String)
    (h : Scope.find (st.scope s).namespace_ name = none) (hp : (st.scope s).parent = some p) :
    Scope.GetVariableFuel st (fuel + 1) s name = Scope.GetVariableFuel st fuel p name := by
  simp [Scope.GetVariableFuel, h, hp]

theorem SetVariableFuel_here (st : State) (fuel s : Nat) (name : String) (value : Ref)
    (h : (Scope.find (st.scope s).namespace_ name).isSome = true) :
    Scope.SetVariableFuel st (fuel + 1) s name value = st.assign s name value := by
  simp [Scope.SetVariableFuel, h]

theorem SetVariableFuel_up (st : State) (fuel s p : Nat) (name : String) (value : Ref)
    (h : Scope.find (st.scope s).namespace_ name = none) (hp : (st.scope s).parent = some p) :
    Scope.SetVariableFuel st (fuel + 1) s name value =
      Scope.SetVariableFuel st fuel p name value := by
  simp [Scope.SetVariableFuel, h, hp]

/-- What a name resolves to from a fresh scope (own namespace empty) whose parent `S` binds only
`x` and has the root scope `0` as parent. -/
theorem Counter.lookup (cells : List Cell) (scopes : List Scope)
    (lambdas : List CustomLambdaFunction) (S : Nat) (v : Ref) (ns : List (String × Ref))
    (hroot : scopes.getD 0 ⟨none, []⟩ = ⟨none, ns⟩)
    (hS : scopes.getD S ⟨none, []⟩ = ⟨some 0, [("x", v)]⟩)
    (hpos : 0 < S) (hlt : S < scopes.length) (name : String) (value : Ref)
    (hname : (name = "x" ∧ value = v) ∨ (name ≠ "x" ∧ Scope.find ns name = some value)) :
    Scope.HasVariable ⟨cells, scopes ++ [⟨some S, []⟩], lambdas⟩ scopes.length name = true ∧
    Scope.GetVariable ⟨cells, scopes ++ [⟨some S, []⟩], lambdas⟩ scopes.length name = value := by
  obtain ⟨j, hj⟩ : ∃ j, scopes.length = j + 2 := ⟨scopes.length - 2, by omega⟩
  have hexec : State.scope ⟨cells, scopes ++ [⟨some S, []⟩], lambdas⟩ scopes.length =
      ⟨some S, []⟩ := by
    simp [State.scope, List.getD_append_right]
  have hS1 : State.scope ⟨cells, scopes ++ [⟨some S, []⟩], lambdas⟩ S =
      ⟨some 0, [("x", v)]⟩ := by
    simp only [State.scope]
    rw [List.getD_append _ _ _ _ hlt, hS]
  have hroot1 : State.scope ⟨cells, scopes ++ [⟨some S, []⟩], lambdas⟩ 0 = ⟨none, ns⟩ := by
    simp only [State.scope]
    rw [List.getD_append _ _ _ _ (by omega), hroot]
  have hlen : (scopes ++ [(⟨some S, []⟩ : Scope)]).length = j + 1 + 1 + 1 := by
    simp [hj]
  simp only [Scope.HasVariable, Scope.GetVariable, hlen]
  rw [HasVariableFuel_up _ _ _ S _ (by rw [hexec]; rfl) (by rw [hexec]),
    GetVariableFuel_up _ _ _ S _ (by rw [hexec]; rfl) (by rw [hexec])]
  rcases hname with ⟨hn, hv⟩ | ⟨hn, hf⟩
  · subst hn; subst hv
    rw [HasVariableFuel_here _ _ _ _ (by rw [hS1]; simp [Scope.find]),
      GetVariableFuel_here _ _ _ _ value (by rw [hS1]; simp [Scope.find])]
    simp
  · have hnone : Scope.find [("x", v)] name = none := by
      simp [Scope.find, Ne.symm hn]
    rw [HasVariableFuel_up _ _ _ 0 _ (by rw [hS1]; exact hnone) (by rw [hS1]),
      GetVariableFuel_up _ _ _ 0 _ (by rw [hS1]; exact hnone) (by rw [hS1]),
      HasVariableFuel_here _ _ _ _ (by rw [hroot1]; simp [hf]),
      GetVariableFuel_here _ _ _ _ value (by rw [hroot1]; exact hf)]
    simp

theorem Counter.lookup_symbol (cells : List Cell) (scopes : List Scope)
    (lambdas : List CustomLambdaFunction) (S : Nat) (v : Ref) (ns : List (String × Ref))
    (hroot : scopes.getD 0 ⟨none, []⟩ = ⟨none, ns⟩)
    (hS : scopes.getD S ⟨none, []⟩ = ⟨some 0, [("x", v)]⟩)
    (hpos : 0 < S) (hlt : S < scopes.length) (name : String) (value : Ref)
    (hname : (name = "x" ∧ value = v) ∨ (name ≠ "x" ∧ Scope.find ns name = some value)) :
    EvalSymbol name scopes.length ⟨cells, scopes ++ [⟨some S, []⟩], lambdas⟩ =
      .ok value ⟨cells, scopes ++ [⟨some S, []⟩], lambdas⟩ := by
  have h := Counter.lookup cells scopes lambdas S v ns hroot hS hpos hlt name value hname
  simp [EvalSymbol, bind_apply, getState_apply, h.1, h.2, pure_apply]

/-- Assignment to `x` from the fresh scope replaces the binding in scope `S`. -/
theorem Counter.assign (cells : List Cell) (scopes : List Scope)
    (lambdas : List CustomLambdaFunction) (S : Nat) (v value : Ref)
    (hS : scopes.getD S ⟨none, []⟩ = ⟨some 0, [("x", v)]⟩)
    (hpos : 0 < S) (hlt : S < scopes.length) :
    Scope.SetVariable scopes.length "x" value ⟨cells, scopes ++ [⟨some S, []⟩], lambdas⟩ =
      .ok () ⟨cells, (scopes ++ [Scope.mk (some S) []]).set S (Scope.mk (some 0) [("x", value)]), lambdas⟩ := by
  obtain ⟨j, hj⟩ : ∃ j, scopes.length = j + 2 := ⟨scopes.length - 2, by omega⟩
  have hexec : State.scope ⟨cells, scopes ++ [⟨some S, []⟩], lambdas⟩ scopes.length =
      ⟨some S, []⟩ := by
    simp [State.scope, List.getD_append_right]
  have hS1 : State.scope ⟨cells, scopes ++ [⟨some S, []⟩], lambdas⟩ S =
      ⟨some 0, [("x", v)]⟩ := by
    simp only [State.scope]
    rw [List.getD_append _ _ _ _ hlt, hS]
  have hlen : (scopes ++ [(⟨some S, []⟩ : Scope)]).length = j + 1 + 1 + 1 := by
    simp [hj]
  simp only [Scope.SetVariable, hlen]
  rw [SetVariableFuel_up _ _ _ S _ _ (by rw [hexec]; rfl) (by rw [hexec]),
    SetVariableFuel_here _ _ _ _ _ (by rw [hS1]; simp [Scope.find])]
  simp [State.assign, hS1, Scope.insert_or_assign]

theorem wrap_of_range (x : Int) (hlo : -2147483648 ≤ x) (hhi : x ≤ 2147483647) : wrap x = x := by
  unfold wrap
  omega

theorem Eval_symbol (ord : ArgOrder) (k : Nat) (name : String) (scope : Nat) :
    (interp ord (k + 1)).Eval (.symbol name) scope = EvalSymbol name scope := by
  funext st
  simp [interp_Eval, Eval.body, kSchemeNull]

theorem Eval_number (ord : ArgOrder) (k : Nat) (value : Int) (scope : Nat) (st : State) :
    (interp ord (k + 1)).Eval (.number value) scope st = .ok (.number value) st := by
  simp [interp_Eval, Eval.body, kSchemeNull, pure_apply]

theorem Eval_cell (ord : ArgOrder) (k a : Nat) (scope : Nat) (ha : a ≠ 0) :
    (interp ord (k + 1)).Eval (.cell a) scope = EvalInstruction ord (interp ord k) a scope := by
  funext st
  simp [interp_Eval, Eval.body, kSchemeNull, ha]

theorem Counter.body (ord : ArgOrder) (k : Nat) (extra : List Cell) (scopes : List Scope)
    (lambdas : List CustomLambdaFunction) (S caller : Nat) (v : Int) (ns : List (String × Ref))
    (hroot : scopes.getD 0 ⟨none, []⟩ = ⟨none, ns⟩)
    (hset : Scope.find ns "set!" = some (.builtin .SetFunction))
    (hplus : Scope.find ns "+" = some (.builtin .PlusOperator))
    (hS : scopes.getD S ⟨none, []⟩ = ⟨some 0, [("x", .number v)]⟩)
    (hpos : 0 < S) (hlt : S < scopes.length)
    (hlo : -2147483648 ≤ v) (hhi : v < 2147483647) :
    CustomLambdaFunction.Apply (interp ord (k + 3))
        (CustomLambdaFunction.mk S [] [.cell 7, .symbol "x"]) [] caller
        (State.mk (Counter.defined.cells ++ extra) scopes lambdas) =
      .ok (.number (v + 1))
        (State.mk (Counter.defined.cells ++ (extra ++ [⟨.null, .null⟩, ⟨.null, .null⟩]))
          ((scopes ++ [Scope.mk (some S) []]).set S (Scope.mk (some 0) [("x", .number (v + 1))])) lambdas) := by
  have hvec7 : Cell.ToVector 7
      (State.mk (Counter.defined.cells ++ extra) (scopes ++ [⟨some S, []⟩]) lambdas) =
      .ok [.symbol "set!", .symbol "x", .cell 4]
        (State.mk (Counter.defined.cells ++ (extra ++ [⟨.null, .null⟩]))
          (scopes ++ [⟨some S, []⟩]) lambdas) := by
    rw [ToVector_of_chain _ 7 (.symbol "set!") (.cell 6) [.symbol "x", .cell 4] .null
      (by simp only [State.cell, Counter.cell7]) (by simp)
      (Chain.cons (x := .symbol "x") (y := .cell 5)
        (by simp only [State.cell, List.append_assoc, Counter.cell6])
        (Chain.cons (x := .cell 4) (y := .null)
          (by simp only [State.cell, List.append_assoc, Counter.cell5])
          (Chain.done _ (by simp))))
      (by simp [Counter.length_cells]; omega)]
    simp
  have hvec4 : Cell.ToVector 4
      (State.mk (Counter.defined.cells ++ (extra ++ [⟨.null, .null⟩]))
        (scopes ++ [⟨some S, []⟩]) lambdas) =
      .ok [.symbol "+", .symbol "x", .number 1]
        (State.mk (Counter.defined.cells ++ (extra ++ [⟨.null, .null⟩, ⟨.null, .null⟩]))
          (scopes ++ [⟨some S, []⟩]) lambdas) := by
    rw [ToVector_of_chain _ 4 (.symbol "+") (.cell 3) [.symbol "x", .number 1] .null
      (by simp only [State.cell, Counter.cell4]) (by simp)
      (Chain.cons (x := .symbol "x") (y := .cell 2)
        (by simp only [State.cell, List.append_assoc, Counter.cell3])
        (Chain.cons (x := .number 1) (y := .null)
          (by simp only [State.cell, List.append_assoc, Counter.cell2])
          (Chain.done _ (by simp))))
      (by simp [Counter.length_cells]; omega)]
    simp
  have look := fun cells name value h =>
    Counter.lookup cells scopes lambdas S (.number v) ns hroot hS hpos hlt name value h
  have looks := fun cells name value h =>
    Counter.lookup_symbol cells scopes lambdas S (.number v) ns hroot hS hpos hlt name value h
  simp only [CustomLambdaFunction.Apply, bind_apply, makeScope,
    CustomLambdaFunction.PopulateExecutionScope, pure_apply, CustomLambdaFunction.body]
  rw [Eval_cell ord (k + 2) 7 _ (by decide)]
  rw [EvalInstruction_builtin ord _ 7 _ (.symbol "set!") [.symbol "x", .cell 4] .SetFunction _ _ _
    hvec7 (by rw [Eval_symbol]; exact looks _ "set!" _ (Or.inr ⟨by decide, hset⟩))]
  have hplusArgs : PlusOperator.Apply (interp ord (k + 1)) [.symbol "x", .number 1] scopes.length
      (State.mk (Counter.defined.cells ++ (extra ++ [⟨.null, .null⟩, ⟨.null, .null⟩]))
        (scopes ++ [⟨some S, []⟩]) lambdas) =
      .ok (.number (v + 1))
        (State.mk (Counter.defined.cells ++ (extra ++ [⟨.null, .null⟩, ⟨.null, .null⟩]))
          (scopes ++ [⟨some S, []⟩]) lambdas) := by
    simp only [PlusOperator.Apply, PlusOperator.loop, bind_apply, Eval_symbol, Eval_number,
      looks _ "x" _ (Or.inl ⟨rfl, rfl⟩), RequireNumberArgument, pure_apply, zero_add]
    rw [wrap_of_range v hlo (by omega), wrap_of_range (v + 1) (by omega) (by omega)]
  have hplusEval : (interp ord (k + 2)).Eval (.cell 4) scopes.length
      (State.mk (Counter.defined.cells ++ (extra ++ [⟨.null, .null⟩]))
        (scopes ++ [⟨some S, []⟩]) lambdas) =
      .ok (.number (v + 1))
        (State.mk (Counter.defined.cells ++ (extra ++ [⟨.null, .null⟩, ⟨.null, .null⟩]))
          (scopes ++ [⟨some S, []⟩]) lambdas) := by
    rw [Eval_cell ord (k + 1) 4 _ (by decide)]
    rw [EvalInstruction_builtin ord _ 4 _ (.symbol "+") [.symbol "x", .number 1] .PlusOperator
      _ _ _ hvec4 (by rw [Eval_symbol]; exact looks _ "+" _ (Or.inr ⟨by decide, hplus⟩))]
    simp only [Builtin.ApprovesNumberOfArguments, Builtin.Apply, if_true, hplusArgs]
  simp only [Builtin.ApprovesNumberOfArguments, Builtin.Apply, SetFunction.Apply, bind_apply,
    subscript_zero, RequireSymbolArgument, pure_apply, getState_apply,
    (look _ "x" _ (Or.inl ⟨rfl, rfl⟩)).1, List.length_cons, List.length_nil, subscript,
    List.getElem?_cons_succ, List.getElem?_cons_zero, hplusEval,
    Counter.assign _ scopes lambdas S (.number v) (.number (v + 1)) hS hpos hlt]
  have hsetapp : (scopes ++ [Scope.mk (some S) []]).set S
      (Scope.mk (some 0) [("x", .number (v + 1))]) =
      scopes.set S (Scope.mk (some 0) [("x", .number (v + 1))]) ++ [Scope.mk (some S) []] := by
    rw [List.set_append_left _ _ hlt]
  have hfinal := Counter.lookup_symbol
    (Counter.defined.cells ++ (extra ++ [⟨.null, .null⟩, ⟨.null, .null⟩]))
    (scopes.set S (Scope.mk (some 0) [("x", .number (v + 1))])) lambdas S (.number (v + 1)) ns
    (by rw [List.getD_eq_getElem?_getD, List.getElem?_set_ne (by omega),
          ← List.getD_eq_getElem?_getD]; exact hroot)
    (by rw [List.getD_eq_getElem?_getD, List.getElem?_set_self hlt]; rfl)
    hpos (by simpa using hlt) "x" (.number (v + 1)) (Or.inl ⟨rfl, rfl⟩)
  rw [List.length_set] at hfinal
  simp [bind_apply, pure_apply, hplusEval,
    Counter.assign _ scopes lambdas S (.number v) (.number (v + 1)) hS hpos hlt, Eval_symbol,
    hsetapp, hfinal]

theorem digitChar_isdigit (d : Nat) (h : d < 10) :
    isdigit (Nat.digitChar d) = true ∧ (Nat.digitChar d).toNat - 48 = d := by
  interval_cases d <;> decide

theorem foldl_digits_append (xs ys : List Char) (a : Nat) :
    List.foldl (fun acc c => acc * 10 + (c.toNat - 48)) a (xs ++ ys) =
      List.foldl (fun acc c => acc * 10 + (c.toNat - 48))
        (List.foldl (fun acc c => acc * 10 + (c.toNat - 48)) a xs) ys := by
  simp

theorem toDigitsCore_spec (fuel : Nat) : ∀ (n : Nat) (ds : List Char), n < fuel →
    ∃ pre : List Char, Nat.toDigitsCore 10 fuel n ds = pre ++ ds ∧ pre ≠ [] ∧
      (∀ c ∈ pre, isdigit c = true) ∧ digitsValue pre = n := by
  induction fuel with
  | zero => intro n ds h; omega
  | succ fuel ih =>
    intro n ds h
    have hd := digitChar_isdigit (n % 10) (Nat.mod_lt _ (by decide))
    by_cases hq : n / 10 = 0
    · refine ⟨[Nat.digitChar (n % 10)], ?_, by simp, ?_, ?_⟩
      · simp [Nat.toDigitsCore, hq]
      · intro c hc
        simp at hc
        subst hc
        exact hd.1
      · simp [digitsValue, hd.2]
        omega
    · obtain ⟨pre, hpre, _, hdig, hval⟩ := ih (n / 10) (Nat.digitChar (n % 10) :: ds) (by omega)
      refine ⟨pre ++ [Nat.digitChar (n % 10)], ?_, by simp, ?_, ?_⟩
      · simp [Nat.toDigitsCore, hq, hpre]
      · intro c hc
        simp at hc
        rcases hc with hc | hc
        · exact hdig c hc
        · subst hc; exact hd.1
      · unfold digitsValue at hval ⊢
        rw [foldl_digits_append, hval]
        simp [hd.2]
        omega

/-- The decimal text of a natural number is a non-empty digit run with that value. -/
theorem Nat_repr_spec (n : Nat) :
    ∃ (c : Char) (cs : List Char), (toString n).data = c :: cs ∧
      (∀ d ∈ c :: cs, isdigit d = true) ∧ digitsValue (c :: cs) = n := by
  obtain ⟨pre, hpre, hne, hdig, hval⟩ := toDigitsCore_spec (n + 1) n [] (by omega)
  have hdata : (toString n).data = pre := by
    show (Nat.repr n).data = pre
    simp [Nat.repr, Nat.toDigits, hpre, List.asString]
  cases pre with
  | nil => exact absurd rfl hne
  | cons c cs => exact ⟨c, cs, hdata, hdig, hval⟩

theorem isdigit_cases (c : Char) (h : isdigit c = true) :
    c = '0' ∨ c = '1' ∨ c = '2' ∨ c = '3' ∨ c = '4' ∨ c = '5' ∨ c = '6' ∨ c = '7' ∨ c = '8' ∨
      c = '9' := by
  have h1 : 48 ≤ c.toNat ∧ c.toNat ≤ 57 := by
    simpa [isdigit] using h
  have h2 : Char.ofNat c.toNat = c := Char.ofNat_toNat c
  obtain ⟨hlo, hhi⟩ := h1
  rw [← h2]
  interval_cases c.toNat <;> decide

theorem takeWhile_digits (cs : List Char) (stop : Char) (rest : List Char)
    (hcs : ∀ d ∈ cs, isdigit d = true) (hstop : isdigit stop = false) :
    (cs ++ stop :: rest).takeWhile isdigit = cs ∧
      (cs ++ stop :: rest).dropWhile isdigit = stop :: rest := by
  induction cs with
  | nil => simp [List.takeWhile, List.dropWhile, hstop]
  | cons c cs ih =>
    have hc := hcs c (by simp)
    have := ih (fun d hd => hcs d (by simp [hd]))
    simp [List.takeWhile, List.dropWhile, hc, this]

theorem ReadInt_digits (c : Char) (cs : List Char) (stop : Char) (rest : List Char)
    (hcs : ∀ d ∈ c :: cs, isdigit d = true) (hstop : isdigit stop = false)
    (hval : digitsValue (c :: cs) ≤ 2147483647) :
    Tokenizer.ReadInt c (cs ++ stop :: rest) =
      .ok ((digitsValue (c :: cs) : Int), stop :: rest) := by
  have h := takeWhile_digits cs stop rest (fun d hd => hcs d (by simp [hd])) hstop
  unfold Tokenizer.ReadInt stoi
  rw [h.1, h.2]
  unfold digitsValue at hval
  simp only [digitsValue]
  rw [if_neg (by omega)]

/-- An `int` literal (other than `INT_MIN`) followed by a character that is not a digit is lexed
as one `ConstantToken` with its value. -/
theorem Tokenizer_Next_literal (n : Int) (hlo : -2147483647 ≤ n) (hhi : n ≤ 2147483647)
    (stop : Char) (hstop : isdigit stop = false) (rest : List Char) (token_ : Token)
    (terminated_ : Bool) :
    Tokenizer.Next ⟨(to_string n).data ++ stop :: rest, token_, terminated_⟩ =
      .ok ⟨stop :: rest, .ConstantToken n, terminated_⟩ := by
  cases n with
  | ofNat m =>
    have hm : m ≤ 2147483647 := by
      have : (Int.ofNat m) = (m : Int) := rfl
      omega
    obtain ⟨c, cs, hdata, hdig, hval⟩ := Nat_repr_spec m
    have hdata1 : (to_string (Int.ofNat m)).data = c :: cs := hdata
    have hc := hdig c (by simp)
    have hread := ReadInt_digits c cs stop rest hdig hstop (by rw [hval]; omega)
    rw [hdata1]
    rcases isdigit_cases c hc with h | h | h | h | h | h | h | h | h | h <;> subst h <;>
      simp [Tokenizer.Next, List.dropWhile, isgraph, Tokenizer.IsSymbolBeginning, isalpha,
        isdigit, hread, hval]
  | negSucc m =>
    have hm : m + 1 ≤ 2147483647 := by
      have : (Int.negSucc m) = -((m : Int) + 1) := Int.negSucc_eq m
      omega
    obtain ⟨c, cs, hdata, hdig, hval⟩ := Nat_repr_spec (m + 1)
    have hdata1 : (to_string (Int.negSucc m)).data = '-' :: c :: cs := by
      show ("-" ++ toString (m + 1)).data = _
      rw [String.data_append, hdata]
      rfl
    have hc := hdig c (by simp)
    have hread := ReadInt_digits c cs stop rest hdig hstop (by rw [hval]; omega)
    rw [hdata1]
    simp [Tokenizer.Next, List.dropWhile, isgraph, Tokenizer.IsSymbolBeginning, isalpha,
        isdigit, hread, hval, hc]
    have hc1 : 48 ≤ c.toNat ∧ c.toNat ≤ 57 := by simpa [isdigit] using hc
    rw [if_pos hc1, Int.negSucc_eq]
    congr 3
    omega

theorem Counter.eval_call (ord : ArgOrder) (k : Nat) (name : String) (id S : Nat) (v : Int)
    (extra : List Cell) (scopes : List Scope) (lambdas : List CustomLambdaFunction)
    (ns : List (String × Ref))
    (hroot : scopes.getD 0 ⟨none, []⟩ = ⟨none, ns⟩)
    (hset : Scope.find ns "set!" = some (.builtin .SetFunction))
    (hplus : Scope.find ns "+" = some (.builtin .PlusOperator))
    (hname : Scope.find ns name = some (.lambda id))
    (hlam : lambdas[id]? = some (CustomLambdaFunction.mk S [] [.cell 7, .symbol "x"]))
    (hS : scopes.getD S ⟨none, []⟩ = ⟨some 0, [("x", .number v)]⟩)
    (hpos : 0 < S) (hlt : S < scopes.length)
    (hlo : -2147483648 ≤ v) (hhi : v < 2147483647) :
    Eval ord (k + 4) (.cell (21 + extra.length)) 0
        (State.mk (Counter.defined.cells ++ (extra ++ [⟨.symbol name, .null⟩])) scopes lambdas) =
      .ok (.number (v + 1))
        (State.mk (Counter.defined.cells ++ (extra ++
            [⟨.symbol name, .null⟩, ⟨.null, .null⟩, ⟨.null, .null⟩, ⟨.null, .null⟩]))
          ((scopes ++ [Scope.mk (some S) []]).set S
            (Scope.mk (some 0) [("x", .number (v + 1))])) lambdas) := by
  have hvec : Cell.ToVector (21 + extra.length)
      (State.mk (Counter.defined.cells ++ (extra ++ [⟨.symbol name, .null⟩])) scopes lambdas) =
      .ok [.symbol name]
        (State.mk (Counter.defined.cells ++ (extra ++ [⟨.symbol name, .null⟩, ⟨.null, .null⟩]))
          scopes lambdas) := by
    rw [ToVector_of_chain _ _ (.symbol name) .null [] .null
      (by simp only [State.cell, Counter.cell_new]) (by simp)
      (Chain.done _ (by simp)) (by simp)]
    simp
  have hfun : (interp ord (k + 3)).Eval (.symbol name) 0
      (State.mk (Counter.defined.cells ++ (extra ++ [⟨.symbol name, .null⟩, ⟨.null, .null⟩]))
          scopes lambdas) =
      .ok (.lambda id)
        (State.mk (Counter.defined.cells ++ (extra ++ [⟨.symbol name, .null⟩, ⟨.null, .null⟩]))
          scopes lambdas) := by
    obtain ⟨j, hj⟩ : ∃ j, scopes.length = j + 1 := ⟨scopes.length - 1, by omega⟩
    rw [Eval_symbol]
    simp only [EvalSymbol, bind_apply, getState_apply, Scope.HasVariable, Scope.GetVariable, hj]
    rw [HasVariableFuel_here _ _ _ _ (by simp only [State.scope, hroot, hname]; rfl),
      GetVariableFuel_here _ _ _ _ (.lambda id) (by simp only [State.scope, hroot, hname])]
    simp [pure_apply]
  unfold Eval
  rw [Eval_cell ord (k + 3) _ 0 (by omega)]
  rw [EvalInstruction_lambda ord _ _ 0 id (.symbol name) [] _ _ _ _ hvec hfun hlam]
  simp only [CustomLambdaFunction.ApprovesNumberOfArguments, List.length_nil, beq_self_eq_true,
    if_true]
  have hb := Counter.body ord k (extra ++ [⟨.symbol name, .null⟩, ⟨.null, .null⟩]) scopes lambdas
    S 0 v ns hroot hset hplus hS hpos hlt hlo hhi
  simp only [List.append_assoc, List.cons_append, List.nil_append] at hb
  exact hb

theorem Counter.tokenizer_s : Tokenizer.new ['(', 's', ')'] = .ok ⟨['s', ')'], .BracketOpen, false⟩ := by decide!
theorem Counter.next_s1 : Tokenizer.Next ⟨['s', ')'], .BracketOpen, false⟩ = .ok ⟨[')'], .SymbolToken "s", false⟩ := by decide!
theorem Counter.next_s2 : Tokenizer.Next ⟨[')'], .SymbolToken "s", false⟩ = .ok ⟨[], .BracketClose, false⟩ := by decide!

theorem Counter.read_s (st : State) :
    Read 8 ⟨['s', ')'], .BracketOpen, false⟩ st =
      .ok (.cell st.cells.length, ⟨[], .BracketClose, true⟩)
        { st with cells := st.cells ++ [⟨.symbol "s", .null⟩] } := by
  simp only [Read, ReadList, Tokenizer.IsEnd, Tokenizer.GetToken, bind_apply, liftExcept, Counter.next_s1,
    Counter.next_s2, Counter.next_r3, pure_apply, Bool.false_eq_true, if_false, RequireNotEnd, makeCell,
    String.reduceEq]

theorem Counter.root_set : Scope.find Counter.root "set!" = some (.builtin .SetFunction) := by decide!
theorem Counter.root_plus : Scope.find Counter.root "+" = some (.builtin .PlusOperator) := by decide!
theorem Counter.root_r : Scope.find Counter.root "r" = some (.lambda 1) := by decide!
theorem Counter.root_s : Scope.find Counter.root "s" = some (.lambda 2) := by decide!

theorem print_number (value : Int) (st : State) :
    SchemeEngine.print (.number value) st = .ok (to_string value) st := by
  unfold SchemeEngine.print Object.Repr
  cases st.cells.length <;> simp [Object.ReprFuel]

theorem Counter.interpret_r (ord : ArgOrder) (k : Nat) (n m : Int) (extra : List Cell)
    (extraS : List Scope) (hlo : -2147483648 ≤ n) (hhi : n < 2147483647) :
    SchemeEngine.Interpret ord (k + 4) "(r)" (Counter.store n m extra extraS) =
      .ok (to_string (n + 1)) (Counter.store (n + 1) m
        (extra ++ [⟨.symbol "r", .null⟩, ⟨.null, .null⟩, ⟨.null, .null⟩, ⟨.null, .null⟩])
        (extraS ++ [⟨some 1, []⟩])) := by
  have hlen : 2 * "(r)".length + 2 = 8 := by decide
  have hdata : "(r)".data = ['(', 'r', ')'] := rfl
  simp only [SchemeEngine.Interpret, bind_apply, liftExcept, hdata, Counter.tokenizer_r, pure_apply,
    hlen, Counter.read_r, Tokenizer.IsEnd, Bool.not_true, Bool.false_eq_true, if_false,
    Counter.store, List.length_append, Counter.length_cells, List.append_assoc]
  rw [Counter.eval_call ord k "r" 1 1 n extra
    (Scope.mk none Counter.root :: Scope.mk (some 0) [("x", .number n)] ::
      Scope.mk (some 0) [("x", .number m)] :: extraS)
    [⟨0, ["x"], [.cell 11]⟩, ⟨1, [], [.cell 7, .symbol "x"]⟩, ⟨2, [], [.cell 7, .symbol "x"]⟩]
    Counter.root rfl Counter.root_set
    Counter.root_plus Counter.root_r rfl rfl (by decide) (by simp) hlo hhi]
  simp [print_number]

theorem Counter.cell8 (extra : List Cell) :
    (Counter.defined.cells ++ extra).getD 8 ⟨.null, .null⟩ = ⟨.symbol "x", .null⟩ := by
  rw [Counter.cell_defined 8 (by omega)]; decide!
theorem Counter.cell9 (extra : List Cell) :
    (Counter.defined.cells ++ extra).getD 9 ⟨.null, .null⟩ = ⟨.cell 7, .cell 8⟩ := by
  rw [Counter.cell_defined 9 (by omega)]; decide!
theorem Counter.cell10 (extra : List Cell) :
    (Counter.defined.cells ++ extra).getD 10 ⟨.null, .null⟩ = ⟨.null, .cell 9⟩ := by
  rw [Counter.cell_defined 10 (by omega)]; decide!
theorem Counter.cell11 (extra : List Cell) :
    (Counter.defined.cells ++ extra).getD 11 ⟨.null, .null⟩ = ⟨.symbol "lambda", .cell 10⟩ := by
  rw [Counter.cell_defined 11 (by omega)]; decide!

theorem Counter.cell_at (extra pre : List Cell) (c : Cell) (rest : List Cell) (d : Cell)
    (i : Nat) (hi : i = pre.length) :
    (Counter.defined.cells ++ (extra ++ (pre ++ c :: rest))).getD (21 + extra.length + i) d = c := by
  subst hi
  have := Counter.cell_new (extra ++ pre) c rest d
  simpa [List.append_assoc, Nat.add_assoc] using this

theorem lookup_root (cells : List Cell) (ns : List (String × Ref)) (restS : List Scope)
    (lambdas : List CustomLambdaFunction) (name : String) (value : Ref)
    (h : Scope.find ns name = some value) :
    EvalSymbol name 0 ⟨cells, Scope.mk none ns :: restS, lambdas⟩ =
      .ok value ⟨cells, Scope.mk none ns :: restS, lambdas⟩ := by
  simp only [EvalSymbol, bind_apply, getState_apply, Scope.HasVariable, Scope.GetVariable,
    List.length_cons]
  rw [HasVariableFuel_here _ _ _ _ (by simp [State.scope, h]),
    GetVariableFuel_here _ _ _ _ value (by simp [State.scope, h])]
  simp [pure_apply]

theorem lookup_child (cells : List Cell) (ns loc : List (String × Ref)) (restS : List Scope)
    (lambdas : List CustomLambdaFunction) (name : String) (value : Ref)
    (hloc : Scope.find loc name = none) (h : Scope.find ns name = some value) :
    EvalSymbol name (restS.length + 1)
        ⟨cells, Scope.mk none ns :: (restS ++ [Scope.mk (some 0) loc]), lambdas⟩ =
      .ok value ⟨cells, Scope.mk none ns :: (restS ++ [Scope.mk (some 0) loc]), lambdas⟩ := by
  have hexec : State.scope ⟨cells, Scope.mk none ns :: (restS ++ [Scope.mk (some 0) loc]),
      lambdas⟩ (restS.length + 1) = ⟨some 0, loc⟩ := by
    simp [State.scope, List.getD_append_right]
  have hroot : State.scope ⟨cells, Scope.mk none ns :: (restS ++ [Scope.mk (some 0) loc]),
      lambdas⟩ 0 = ⟨none, ns⟩ := by
    simp [State.scope]
  have hlen : (Scope.mk none ns :: (restS ++ [Scope.mk (some 0) loc])).length =
      restS.length + 1 + 1 := by simp
  simp only [EvalSymbol, bind_apply, getState_apply, Scope.HasVariable, Scope.GetVariable, hlen]
  rw [HasVariableFuel_up _ _ _ 0 _ (by rw [hexec]; exact hloc) (by rw [hexec]),
    GetVariableFuel_up _ _ _ 0 _ (by rw [hexec]; exact hloc) (by rw [hexec]),
    HasVariableFuel_here _ _ _ _ (by rw [hroot]; simp [h]),
    GetVariableFuel_here _ _ _ _ value (by rw [hroot]; exact h)]
  simp [pure_apply]

theorem Counter.eval_define (ord : ArgOrder) (k : Nat) (name : String) (n : Int)
    (extra : List Cell) (restS : List Scope) (restL : List CustomLambdaFunction)
    (ns : List (String × Ref))
    (hdefine : Scope.find ns "define" = some (.builtin .DefineFunction))
    (hrange : Scope.find ns "range" = some (.lambda 0))
    (hlambda : Scope.find ns "lambda" = some (.builtin .LambdaFunction)) :
    Eval ord (k + 4) (.cell (21 + extra.length + 4)) 0
        (State.mk
          (Counter.defined.cells ++ (extra ++ Counter.defineCells name n (21 + extra.length)))
          (Scope.mk none ns :: restS)
          (CustomLambdaFunction.mk 0 ["x"] [.cell 11] :: restL)) =
      .ok kSchemeNull
        (State.mk
          (Counter.defined.cells ++ (extra ++ (Counter.defineCells name n (21 + extra.length) ++
            [⟨.null, .null⟩, ⟨.null, .null⟩, ⟨.null, .null⟩])))
          (Scope.mk none (Scope.insert_or_assign ns name (.lambda (restL.length + 1))) ::
            (restS ++ [Scope.mk (some 0) [("x", .number n)]]))
          (CustomLambdaFunction.mk 0 ["x"] [.cell 11] ::
            (restL ++ [CustomLambdaFunction.mk (restS.length + 1) [] [.cell 7, .symbol "x"]]))) := by
  -- flattening of the three combinations
  have hvecD : ∀ scopes lambdas, Cell.ToVector (21 + extra.length + 4)
      (State.mk
        (Counter.defined.cells ++ (extra ++ Counter.defineCells name n (21 + extra.length)))
        scopes lambdas) =
      .ok [.symbol "define", .symbol name, .cell (21 + extra.length + 1)]
        (State.mk
          (Counter.defined.cells ++ (extra ++ (Counter.defineCells name n (21 + extra.length) ++
            [⟨.null, .null⟩])))
          scopes lambdas) := by
    intro scopes lambdas
    rw [ToVector_of_chain _ _ (.symbol "define") (.cell (21 + extra.length + 3))
      [.symbol name, .cell (21 + extra.length + 1)] .null
      (by simp only [State.cell, Counter.defineCells]
          exact Counter.cell_at extra [_, _, _, _] _ [] _ 4 rfl)
      (by simp)
      (Chain.cons (x := .symbol name) (y := .cell (21 + extra.length + 2))
        (by simp only [State.cell, Counter.defineCells, List.append_assoc, List.cons_append,
              List.nil_append]
            exact Counter.cell_at extra [_, _, _] _ [_, _] _ 3 rfl)
        (Chain.cons (x := .cell (21 + extra.length + 1)) (y := .null)
          (by simp only [State.cell, Counter.defineCells, List.append_assoc, List.cons_append,
                List.nil_append]
              exact Counter.cell_at extra [_, _] _ [_, _, _] _ 2 rfl)
          (Chain.done _ (by simp))))
      (by simp [Counter.length_cells] ; omega)]
    simp [Counter.defineCells]
  have hvecR : ∀ scopes lambdas, Cell.ToVector (21 + extra.length + 1)
      (State.mk
        (Counter.defined.cells ++ (extra ++ (Counter.defineCells name n (21 + extra.length) ++
            [⟨.null, .null⟩])))
        scopes lambdas) =
      .ok [.symbol "range", .number n]
        (State.mk
          (Counter.defined.cells ++ (extra ++ (Counter.defineCells name n (21 + extra.length) ++
            [⟨.null, .null⟩, ⟨.null, .null⟩])))
          scopes lambdas) := by
    intro scopes lambdas
    rw [ToVector_of_chain _ _ (.symbol "range") (.cell (21 + extra.length))
      [.number n] .null
      (by simp only [State.cell, Counter.defineCells, List.append_assoc, List.cons_append,
            List.nil_append]
          exact Counter.cell_at extra [_] _ [_, _, _, _] _ 1 rfl)
      (by simp)
      (Chain.cons (x := .number n) (y := .null)
        (by simp only [State.cell, Counter.defineCells, List.append_assoc, List.cons_append,
              List.nil_append]
            exact Counter.cell_at extra [] _ [_, _, _, _, _, _] _ 0 rfl)
        (Chain.done _ (by simp)))
      (by simp [Counter.length_cells])]
    simp [Counter.defineCells]
  have hvecL : ∀ scopes lambdas, Cell.ToVector 11
      (State.mk
        (Counter.defined.cells ++ (extra ++ (Counter.defineCells name n (21 + extra.length) ++
            [⟨.null, .null⟩, ⟨.null, .null⟩])))
        scopes lambdas) =
      .ok [.symbol "lambda", .cell (21 + extra.length + 7), .cell 7, .symbol "x"]
        (State.mk
          (Counter.defined.cells ++ (extra ++ (Counter.defineCells name n (21 + extra.length) ++
            [⟨.null, .null⟩, ⟨.null, .null⟩, ⟨.null, .null⟩])))
          scopes lambdas) := by
    intro scopes lambdas
    rw [ToVector_of_chain _ 11 (.symbol "lambda") (.cell 10)
      [.null, .cell 7, .symbol "x"] .null
      (by simp only [State.cell, Counter.cell11])
      (by simp)
      (Chain.cons (x := .null) (y := .cell 9)
        (by simp only [State.cell, List.append_assoc, Counter.cell10])
        (Chain.cons (x := .cell 7) (y := .cell 8)
          (by simp only [State.cell, List.append_assoc, Counter.cell9])
          (Chain.cons (x := .symbol "x") (y := .null)
            (by simp only [State.cell, List.append_assoc, Counter.cell8])
            (Chain.done _ (by simp)))))
      (by simp [Counter.length_cells] ; omega)]
    simp [Counter.defineCells, Counter.length_cells]
    omega
  have hvecN : ∀ scopes lambdas, Cell.ToVector (21 + extra.length + 7)
      (State.mk
        (Counter.defined.cells ++ (extra ++ (Counter.defineCells name n (21 + extra.length) ++
            [⟨.null, .null⟩, ⟨.null, .null⟩, ⟨.null, .null⟩])))
        scopes lambdas) =
      .ok []
        (State.mk
          (Counter.defined.cells ++ (extra ++ (Counter.defineCells name n (21 + extra.length) ++
            [⟨.null, .null⟩, ⟨.null, .null⟩, ⟨.null, .null⟩])))
          scopes lambdas) := by
    intro scopes lambdas
    have hc : State.cell (State.mk
        (Counter.defined.cells ++ (extra ++ (Counter.defineCells name n (21 + extra.length) ++
            [⟨.null, .null⟩, ⟨.null, .null⟩, ⟨.null, .null⟩])))
        scopes lambdas) (21 + extra.length + 7) = ⟨.null, .null⟩ := by
      simp only [State.cell, Counter.defineCells, List.append_assoc, List.cons_append,
        List.nil_append]
      exact Counter.cell_at extra [_, _, _, _, _, _, _] _ [] _ 7 rfl
    simp [Cell.ToVector, hc]
  unfold Eval
  rw [Eval_cell ord (k + 3) _ 0 (by omega)]
  rw [EvalInstruction_builtin ord _ _ 0 (.symbol "define")
    [.symbol name, .cell (21 + extra.length + 1)] .DefineFunction _ _ _ (hvecD _ _)
    (by rw [Eval_symbol]; exact lookup_root _ _ _ _ _ _ hdefine)]
  -- the call `(range n)`
  have hcall : (interp ord (k + 3)).Eval (.cell (21 + extra.length + 1)) 0
      (State.mk
        (Counter.defined.cells ++ (extra ++ (Counter.defineCells name n (21 + extra.length) ++
            [⟨.null, .null⟩])))
        (Scope.mk none ns :: restS)
        (CustomLambdaFunction.mk 0 ["x"] [.cell 11] :: restL)) =
      .ok (.lambda (restL.length + 1))
        (State.mk
          (Counter.defined.cells ++ (extra ++ (Counter.defineCells name n (21 + extra.length) ++
            [⟨.null, .null⟩, ⟨.null, .null⟩, ⟨.null, .null⟩])))
          (Scope.mk none ns :: (restS ++ [Scope.mk (some 0) [("x", .number n)]]))
          (CustomLambdaFunction.mk 0 ["x"] [.cell 11] ::
            (restL ++ [CustomLambdaFunction.mk (restS.length + 1) [] [.cell 7, .symbol "x"]])))
      := by
    rw [Eval_cell ord (k + 2) _ 0 (by omega)]
    have hfunR : (interp ord (k + 2)).Eval (.symbol "range") 0
        (State.mk
          (Counter.defined.cells ++ (extra ++ (Counter.defineCells name n (21 + extra.length) ++
            [⟨.null, .null⟩, ⟨.null, .null⟩])))
          (Scope.mk none ns :: restS)
          (CustomLambdaFunction.mk 0 ["x"] [.cell 11] :: restL)) =
        .ok (.lambda 0)
          (State.mk
            (Counter.defined.cells ++ (extra ++
              (Counter.defineCells name n (21 + extra.length) ++
                [⟨.null, .null⟩, ⟨.null, .null⟩])))
            (Scope.mk none ns :: restS)
            (CustomLambdaFunction.mk 0 ["x"] [.cell 11] :: restL)) := by
      rw [Eval_symbol]; exact lookup_root _ _ _ _ _ _ hrange
    rw [EvalInstruction_lambda ord _ _ 0 0 (.symbol "range") [.number n]
      (CustomLambdaFunction.mk 0 ["x"] [.cell 11]) _ _ _ (hvecR _ _) hfunR (by simp)]
    simp only [CustomLambdaFunction.ApprovesNumberOfArguments, List.length_cons, List.length_nil,
      beq_self_eq_true, if_true, CustomLambdaFunction.Apply, bind_apply, makeScope,
      CustomLambdaFunction.PopulateExecutionScope, Eval_number, Scope.DefineVariable, pure_apply,
      CustomLambdaFunction.body]
    have hget : ((Scope.mk none ns :: restS) ++ [Scope.mk (some 0) []]).getD (restS.length + 1)
        ⟨none, []⟩ = Scope.mk (some 0) [] := by
      simp [List.getD_append_right]
    have hsetS : ((Scope.mk none ns :: restS) ++ [Scope.mk (some 0) []]).set (restS.length + 1)
        (Scope.mk (some 0) [("x", .number n)]) =
        Scope.mk none ns :: (restS ++ [Scope.mk (some 0) [("x", .number n)]]) := by
      simp
    simp only [State.assign, State.scope, hget, Scope.insert_or_assign, hsetS]
    rw [Eval_cell ord (k + 1) 11 _ (by decide)]
    rw [EvalInstruction_builtin ord _ 11 _ (.symbol "lambda")
      [.cell (21 + extra.length + 7), .cell 7, .symbol "x"] .LambdaFunction _ _ _ (hvecL _ _)
      (by rw [Eval_symbol]
          exact lookup_child _ _ _ _ _ _ _ (by simp [Scope.find]) hlambda)]
    simp [Builtin.ApprovesNumberOfArguments, Builtin.Apply, LambdaFunction.Apply, bind_apply,
      subscript_zero, hvecN, LambdaFunction.parameters, pure_apply, makeLambda]
  simp only [Builtin.ApprovesNumberOfArguments, Builtin.Apply, DefineFunction.Apply, bind_apply,
    subscript_zero, RequireSymbolArgument, pure_apply, List.length_cons, List.length_nil,
    subscript, List.getElem?_cons_succ, List.getElem?_cons_zero, hcall]
  simp [Scope.DefineVariable, State.assign, State.scope]

theorem Tokenizer_Next_space (rest : List Char) (token_ : Token) (terminated_ : Bool) :
    Tokenizer.Next ⟨' ' :: rest, token_, terminated_⟩ = Tokenizer.Next ⟨rest, token_, terminated_⟩ := by
  simp [Tokenizer.Next, List.dropWhile, isgraph]

theorem Counter.defineText_data (c : Char) (n : Int) :
    (Counter.defineText c n).data =
      '(' :: 'd' :: 'e' :: 'f' :: 'i' :: 'n' :: 'e' :: ' ' :: c :: ' ' :: '(' :: 'r' :: 'a' ::
        'n' :: 'g' :: 'e' :: ' ' :: ((to_string n).data ++ [')', ')']) := by
  simp [Counter.defineText, String.data_append, String.singleton]

theorem Counter.tokens_define (c : Char) (name : String)
    (hc : (c = 'r' ∧ name = "r") ∨ (c = 's' ∧ name = "s")) (n : Int)
    (hlo : -2147483647 ≤ n) (hhi : n ≤ 2147483647) :
    Tokenizer.new (Counter.defineText c n).data =
      .ok ⟨'d' :: 'e' :: 'f' :: 'i' :: 'n' :: 'e' :: ' ' :: c :: ' ' :: '(' :: 'r' :: 'a' ::
        'n' :: 'g' :: 'e' :: ' ' :: ((to_string n).data ++ [')', ')']), .BracketOpen, false⟩ ∧
    Tokenizer.Next ⟨'d' :: 'e' :: 'f' :: 'i' :: 'n' :: 'e' :: ' ' :: c :: ' ' :: '(' :: 'r' ::
        'a' :: 'n' :: 'g' :: 'e' :: ' ' :: ((to_string n).data ++ [')', ')']), .BracketOpen,
        false⟩ =
      .ok ⟨' ' :: c :: ' ' :: '(' :: 'r' :: 'a' ::
        'n' :: 'g' :: 'e' :: ' ' :: ((to_string n).data ++ [')', ')']), .SymbolToken "define",
        false⟩ ∧
    Tokenizer.Next ⟨' ' :: c :: ' ' :: '(' :: 'r' :: 'a' ::
        'n' :: 'g' :: 'e' :: ' ' :: ((to_string n).data ++ [')', ')']), .SymbolToken "define",
        false⟩ =
      .ok ⟨' ' :: '(' :: 'r' :: 'a' ::
        'n' :: 'g' :: 'e' :: ' ' :: ((to_string n).data ++ [')', ')']), .SymbolToken name,
        false⟩ ∧
    Tokenizer.Next ⟨' ' :: '(' :: 'r' :: 'a' ::
        'n' :: 'g' :: 'e' :: ' ' :: ((to_string n).data ++ [')', ')']), .SymbolToken name,
        false⟩ =
      .ok ⟨'r' :: 'a' :: 'n' :: 'g' :: 'e' :: ' ' :: ((to_string n).data ++ [')', ')']),
        .BracketOpen, false⟩ ∧
    Tokenizer.Next ⟨'r' :: 'a' :: 'n' :: 'g' :: 'e' :: ' ' :: ((to_string n).data ++ [')', ')']),
        .BracketOpen, false⟩ =
      .ok ⟨' ' :: ((to_string n).data ++ [')', ')']), .SymbolToken "range", false⟩ ∧
    Tokenizer.Next ⟨' ' :: ((to_string n).data ++ [')', ')']), .SymbolToken "range", false⟩ =
      .ok ⟨[')', ')'], .ConstantToken n, false⟩ ∧
    Tokenizer.Next ⟨[')', ')'], .ConstantToken n, false⟩ = .ok ⟨[')'], .BracketClose, false⟩ ∧
    Tokenizer.Next ⟨[')'], .BracketClose, false⟩ = .ok ⟨[], .BracketClose, false⟩ ∧
    Tokenizer.Next ⟨[], .BracketClose, false⟩ = .ok ⟨[], .BracketClose, true⟩ := by
  refine ⟨?_, ?_, ?_, ?_, ?_, ?_, ?_, ?_, ?_⟩
  · rw [Counter.defineText_data]
    simp [Tokenizer.new, Tokenizer.Next, List.dropWhile, isgraph, Tokenizer.IsSymbolBeginning,
      isalpha, isdigit]
  · simp [Tokenizer.Next, List.dropWhile, List.takeWhile, isgraph, Tokenizer.IsSymbolBeginning,
      Tokenizer.IsSymbolCharacter, isalpha, isdigit]
  · rcases hc with ⟨rfl, rfl⟩ | ⟨rfl, rfl⟩ <;>
    · simp [Tokenizer.Next, List.dropWhile, List.takeWhile, isgraph, Tokenizer.IsSymbolBeginning,
        Tokenizer.IsSymbolCharacter, isalpha, isdigit]
  · simp [Tokenizer.Next, List.dropWhile, List.takeWhile, isgraph, Tokenizer.IsSymbolBeginning,
      Tokenizer.IsSymbolCharacter, isalpha, isdigit]
  · simp [Tokenizer.Next, List.dropWhile, List.takeWhile, isgraph, Tokenizer.IsSymbolBeginning,
      Tokenizer.IsSymbolCharacter, isalpha, isdigit]
  · rw [Tokenizer_Next_space]
    exact Tokenizer_Next_literal n hlo hhi ')' (by decide) [')'] _ _
  · simp [Tokenizer.Next, List.dropWhile, isgraph, Tokenizer.IsSymbolBeginning, isalpha, isdigit]
  · decide
  · decide

theorem Counter.read_define (c : Char) (name : String)
    (hc : (c = 'r' ∧ name = "r") ∨ (c = 's' ∧ name = "s")) (n : Int)
    (hlo : -2147483647 ≤ n) (hhi : n ≤ 2147483647) (j : Nat) (st : State) :
    Read (j + 8) ⟨'d' :: 'e' :: 'f' :: 'i' :: 'n' :: 'e' :: ' ' :: c :: ' ' :: '(' :: 'r' ::
        'a' :: 'n' :: 'g' :: 'e' :: ' ' :: ((to_string n).data ++ [')', ')']), .BracketOpen,
        false⟩ st =
      .ok (.cell (st.cells.length + 4), ⟨[], .BracketClose, true⟩)
        { st with cells := st.cells ++ Counter.defineCells name n st.cells.length } := by
  obtain ⟨_, h1, h2, h3, h4, h5, h6, h7, h8⟩ := Counter.tokens_define c name hc n hlo hhi
  have hname : name ≠ "#t" ∧ name ≠ "#f" := by
    rcases hc with ⟨_, rfl⟩ | ⟨_, rfl⟩ <;> decide
  simp only [Read, ReadList, Tokenizer.IsEnd, Tokenizer.GetToken, bind_apply, liftExcept,
    h1, h2, h3, h4, h5, h6, h7, h8, pure_apply, Bool.false_eq_true, if_false, RequireNotEnd,
    makeCell, String.reduceEq, hname.1, hname.2, ne_eq, not_true_eq_false, reduceCtorEq,
    not_false_eq_true, if_true]
  simp [Counter.defineCells]

theorem Counter.cell0 (extra : List Cell) :
    (Counter.defined.cells ++ extra).getD 0 ⟨.null, .null⟩ = ⟨.null, .null⟩ := by
  rw [Counter.cell_defined 0 (by omega)]; decide!

theorem print_kSchemeNull (st : State) (h : (st.cell 0).first = .null) :
    SchemeEngine.print kSchemeNull st = .ok "()" st := by
  unfold SchemeEngine.print kSchemeNull
  rw [Repr_of_empty st 0 h]

theorem Counter.defineText_length (c : Char) (n : Int) :
    ∃ j, 2 * (Counter.defineText c n).length + 2 = j + 8 := by
  refine ⟨2 * (Counter.defineText c n).length + 2 - 8, ?_⟩
  have : 17 ≤ (Counter.defineText c n).length := by
    rw [String.length, Counter.defineText_data]
    simp
  omega

theorem Counter.interpret_define (ord : ArgOrder) (k : Nat) (c : Char) (name : String)
    (hc : (c = 'r' ∧ name = "r") ∨ (c = 's' ∧ name = "s")) (n : Int)
    (hlo : -2147483647 ≤ n) (hhi : n ≤ 2147483647)
    (extra : List Cell) (restS : List Scope) (restL : List CustomLambdaFunction)
    (ns : List (String × Ref))
    (hdefine : Scope.find ns "define" = some (.builtin .DefineFunction))
    (hrange : Scope.find ns "range" = some (.lambda 0))
    (hlambda : Scope.find ns "lambda" = some (.builtin .LambdaFunction)) :
    SchemeEngine.Interpret ord (k + 4) (Counter.defineText c n)
        (State.mk (Counter.defined.cells ++ extra) (Scope.mk none ns :: restS)
          (CustomLambdaFunction.mk 0 ["x"] [.cell 11] :: restL)) =
      .ok "()"
        (State.mk
          (Counter.defined.cells ++ (extra ++ (Counter.defineCells name n (21 + extra.length) ++
            [⟨.null, .null⟩, ⟨.null, .null⟩, ⟨.null, .null⟩])))
          (Scope.mk none (Scope.insert_or_assign ns name (.lambda (restL.length + 1))) ::
            (restS ++ [Scope.mk (some 0) [("x", .number n)]]))
          (CustomLambdaFunction.mk 0 ["x"] [.cell 11] ::
            (restL ++ [CustomLambdaFunction.mk (restS.length + 1) [] [.cell 7, .symbol "x"]]))) := by
  obtain ⟨h0, -⟩ := Counter.tokens_define c name hc n hlo hhi
  obtain ⟨j, hj⟩ := Counter.defineText_length c n
  simp only [SchemeEngine.Interpret, bind_apply, liftExcept, h0, pure_apply, hj,
    Counter.read_define c name hc n hlo hhi, Tokenizer.IsEnd, Bool.not_true, Bool.false_eq_true,
    if_false, List.length_append, Counter.length_cells, List.append_assoc]
  rw [Counter.eval_define ord k name n extra restS restL ns hdefine hrange hlambda]
  simp only []
  rw [print_kSchemeNull _ (by simp only [State.cell, Counter.cell0])]

theorem Interpret_eq (ord : ArgOrder) (fuel : Nat) (text : String) (st : State) :
    SchemeEngine.Interpret ord fuel text st =
      match (do
          let tokenizer ← liftExcept (Tokenizer.new text.data)
          Read (2 * text.length + 2) tokenizer) st with
      | .ok (obj, tokenizer) st1 =>
        if tokenizer.IsEnd then
          match Eval ord fuel obj 0 st1 with
          | .ok value st2 => SchemeEngine.print value st2
          | .fail f st2 => .fail f st2
        else .fail .SyntaxError st1
      | .fail f st1 => .fail f st1 := by
  simp only [SchemeEngine.Interpret, bind_apply]
  cases liftExcept (Tokenizer.new text.data) st with
  | fail f st1 => rfl
  | ok tokenizer st1 =>
    simp only []
    cases Read (2 * text.length + 2) tokenizer st1 with
    | fail f st2 => rfl
    | ok p st2 =>
      obtain ⟨obj, tok⟩ := p
      cases h : tok.IsEnd
      · simp [h, raise_apply, bind_apply]
      · simp only [h, Bool.not_true, Bool.false_eq_true, if_false, if_true, bind_apply]
        cases Eval ord fuel obj 0 st2 <;> rfl

theorem Counter.range_facts :
    ∃ st1 st2 st3 st4 : State,
      (do
        let tokenizer ← liftExcept (Tokenizer.new Counter.rangeText.data)
        Read (2 * Counter.rangeText.length + 2) tokenizer) SchemeEngine.initial =
        .ok (.cell 17, ⟨[], .BracketClose, true⟩) st1 ∧
      Cell.ToVector 17 st1 = .ok [.symbol "define", .symbol "range", .cell 14] st2 ∧
      EvalSymbol "define" 0 st2 = .ok (.builtin .DefineFunction) st2 ∧
      Cell.ToVector 14 st2 = .ok [.symbol "lambda", .cell 1, .cell 11] st3 ∧
      EvalSymbol "lambda" 0 st3 = .ok (.builtin .LambdaFunction) st3 ∧
      LambdaFunction.Apply [.cell 1, .cell 11] 0 st3 = .ok (.lambda 0) st4 ∧
      Scope.DefineVariable 0 "range" (.lambda 0) st4 = .ok () Counter.defined ∧
      SchemeEngine.print kSchemeNull Counter.defined = .ok "()" Counter.defined := by
  refine ⟨(Example.read [] Counter.rangeText).state,
    (Cell.ToVector 17 (Example.read [] Counter.rangeText).state).state,
    (Cell.ToVector 14 (Cell.ToVector 17 (Example.read [] Counter.rangeText).state).state).state,
    (LambdaFunction.Apply [.cell 1, .cell 11] 0
      (Cell.ToVector 14
        (Cell.ToVector 17 (Example.read [] Counter.rangeText).state).state).state).state, ?_⟩
  decide!

theorem Counter.interpret_range (ord : ArgOrder) (k : Nat) :
    SchemeEngine.Interpret ord (k + 4) Counter.rangeText SchemeEngine.initial =
      .ok "()" Counter.defined := by
  obtain ⟨st1, st2, st3, st4, hread, hvec, hfun, hvec2, hfun2, hlam, hdef, hprint⟩ :=
    Counter.range_facts
  rw [Interpret_eq, hread]
  simp only [Tokenizer.IsEnd, if_true]
  unfold Eval
  rw [Eval_cell ord (k + 3) 17 0 (by decide)]
  rw [EvalInstruction_builtin ord _ 17 0 _ _ .DefineFunction _ _ _ hvec
    (by rw [Eval_symbol]; exact hfun)]
  have hinner : (interp ord (k + 3)).Eval (.cell 14) 0 st2 =
      LambdaFunction.Apply [.cell 1, .cell 11] 0 st3 := by
    rw [Eval_cell ord (k + 2) 14 0 (by decide)]
    rw [EvalInstruction_builtin ord _ 14 0 _ _ .LambdaFunction _ _ _ hvec2
      (by rw [Eval_symbol]; exact hfun2)]
    simp [Builtin.ApprovesNumberOfArguments, Builtin.Apply]
  simp only [Builtin.ApprovesNumberOfArguments, Builtin.Apply, DefineFunction.Apply, bind_apply,
    subscript_zero, RequireSymbolArgument, pure_apply, List.length_cons, List.length_nil,
    subscript, List.getElem?_cons_succ, List.getElem?_cons_zero, hinner, hlam, hdef, hprint]
  rw [if_pos (by decide)]
  exact hprint

theorem Counter.interpret_s (ord : ArgOrder) (k : Nat) (n m : Int) (extra : List Cell)
    (extraS : List Scope) (hlo : -2147483648 ≤ m) (hhi : m < 2147483647) :
    SchemeEngine.Interpret ord (k + 4) "(s)" (Counter.store n m extra extraS) =
      .ok (to_string (m + 1)) (Counter.store n (m + 1)
        (extra ++ [⟨.symbol "s", .null⟩, ⟨.null, .null⟩, ⟨.null, .null⟩, ⟨.null, .null⟩])
        (extraS ++ [⟨some 2, []⟩])) := by
  have hlen : 2 * "(s)".length + 2 = 8 := by decide
  have hdata : "(s)".data = ['(', 's', ')'] := rfl
  simp only [SchemeEngine.Interpret, bind_apply, liftExcept, hdata, Counter.tokenizer_s, pure_apply,
    hlen, Counter.read_s, Tokenizer.IsEnd, Bool.not_true, Bool.false_eq_true, if_false,
    Counter.store, List.length_append, Counter.length_cells, List.append_assoc]
  rw [Counter.eval_call ord k "s" 2 2 m extra
    (Scope.mk none Counter.root :: Scope.mk (some 0) [("x", .number n)] ::
      Scope.mk (some 0) [("x", .number m)] :: extraS)
    [⟨0, ["x"], [.cell 11]⟩, ⟨1, [], [.cell 7, .symbol "x"]⟩, ⟨2, [], [.cell 7, .symbol "x"]⟩]
    Counter.root rfl Counter.root_set
    Counter.root_plus Counter.root_s rfl rfl (by decide) (by simp) hlo hhi]
  simp [print_number]

theorem session_cons_ok (ord : ArgOrder) (fuel : Nat) (text : String) (rest : List String)
    (st st1 : State) (out : String)
    (h : SchemeEngine.Interpret ord fuel text st = .ok out st1) :
    SchemeEngine.session ord fuel (text :: rest) st =
      (.ok out :: (SchemeEngine.session ord fuel rest st1).1,
        (SchemeEngine.session ord fuel rest st1).2) := by
  simp [SchemeEngine.session, h, Res.outcome, Res.state]

theorem Counter.session_calls (ord : ArgOrder) (k : Nat) (calls : List Bool) :
    ∀ (n m : Int) (extra : List Cell) (extraS : List Scope),
      -2147483648 ≤ n → n + calls.count true ≤ 2147483647 →
      -2147483648 ≤ m → m + calls.count false ≤ 2147483647 →
      (SchemeEngine.session ord (k + 4) (calls.map Counter.callText)
        (Counter.store n m extra extraS)).1 = Counter.expected n m calls := by
  induction calls with
  | nil => intros; rfl
  | cons which rest ih =>
    intro n m extra extraS hn hnk hm hmj
    cases which with
    | true =>
      simp only [List.count_cons_self, List.count_cons_of_ne (by decide : true ≠ false),
        Nat.cast_add, Nat.cast_one] at hnk hmj
      have hr := Counter.interpret_r ord k n m extra extraS hn (by omega)
      simp only [List.map_cons, Counter.callText, if_true, Counter.expected]
      rw [session_cons_ok ord _ _ _ _ _ _ hr]
      simp only [List.cons.injEq, true_and]
      exact ih _ _ _ _ (by omega) (by omega) hm hmj
    | false =>
      simp only [List.count_cons_self, List.count_cons_of_ne (by decide : false ≠ true),
        Nat.cast_add, Nat.cast_one] at hnk hmj
      have hs := Counter.interpret_s ord k n m extra extraS hm (by omega)
      simp only [List.map_cons, Counter.callText, Bool.false_eq_true, if_false, Counter.expected]
      rw [session_cons_ok ord _ _ _ _ _ _ hs]
      simp only [List.cons.injEq, true_and]
      exact ih _ _ _ _ hn hnk (by omega) (by omega)

theorem Counter.defined_shape :
    Counter.defined = State.mk (Counter.defined.cells ++ [])
      [Scope.mk none (Counter.defined.scope 0).namespace_]
      [CustomLambdaFunction.mk 0 ["x"] [.cell 11]] := by decide!

theorem Counter.defined_names :
    Scope.find (Counter.defined.scope 0).namespace_ "define" = some (.builtin .DefineFunction) ∧
    Scope.find (Counter.defined.scope 0).namespace_ "range" = some (.lambda 0) ∧
    Scope.find (Counter.defined.scope 0).namespace_ "lambda" = some (.builtin .LambdaFunction) ∧
    Scope.find (Scope.insert_or_assign (Counter.defined.scope 0).namespace_ "r" (.lambda 1))
      "define" = some (.builtin .DefineFunction) ∧
    Scope.find (Scope.insert_or_assign (Counter.defined.scope 0).namespace_ "r" (.lambda 1))
      "range" = some (.lambda 0) ∧
    Scope.find (Scope.insert_or_assign (Counter.defined.scope 0).namespace_ "r" (.lambda 1))
      "lambda" = some (.builtin .LambdaFunction) := by decide!

theorem Counter.defineText_r (n : Int) :
    "(define r (range " ++ to_string n ++ "))" = Counter.defineText 'r' n := by
  simp only [Counter.defineText]
  rfl

theorem Counter.defineText_s (n : Int) :
    "(define s (range " ++ to_string n ++ "))" = Counter.defineText 's' n := by
  simp only [Counter.defineText]
  rfl

/-! ## C1: a single symbol in place of the parameter list -/

/-- C1, as stated, fails: `((lambda x x) 1 2 3)` does not pass the arity check; the call ends in
a runtime error instead of printing `(1 2 3)`. -/
theorem C1_rest_parameter_counterexample :
    SchemeEngine.outcomes .leftToRight 100 ["((lambda x x) 1 2 3)"] = [.error .RuntimeError] ∧
    SchemeEngine.outcomes .rightToLeft 100 ["((lambda x x) 1 2 3)"] = [.error .RuntimeError] := by
  constructor <;> decide!

/-- C1, amended: `lambda` given a single symbol `x` in place of the parameter list builds a
procedure with the one parameter `x`.  A call with exactly one argument expression `e` evaluates
`e` in the scope of the caller and runs the body in a fresh scope, child of the scope the lambda
was created in, where `x` is bound to the value of `e` itself; a call with any other number of
arguments fails the arity check with a runtime error. -/
theorem C1_single_symbol_is_one_parameter (ord : ArgOrder) (rec : Interp) (x : String)
    (body args : List Ref) (birth expression scope id : Nat) (head : Ref) (st st1 st2 : State)
    (hvec : Cell.ToVector expression st = .ok (head :: args) st1)
    (hfun : rec.Eval head scope st1 = .ok (.lambda id) st2)
    (hlam : st2.lambdas[id]? = some ⟨birth, [x], body⟩) :
    (∀ s : State, LambdaFunction.Apply (.symbol x :: body) birth s =
      .ok (.lambda s.lambdas.length) { s with lambdas := s.lambdas ++ [⟨birth, [x], body⟩] }) ∧
    (∀ e value st3, args = [e] →
      rec.Eval e scope { st2 with scopes := st2.scopes ++ [⟨some birth, []⟩] } = .ok value st3 →
      EvalInstruction ord rec expression scope st =
        CustomLambdaFunction.body rec body st2.scopes.length
          (st3.assign st2.scopes.length x value)) ∧
    (args.length ≠ 1 → EvalInstruction ord rec expression scope st = .fail .RuntimeError st2) := by
  refine ⟨?_, ?_, ?_⟩
  · intro s
    simp [LambdaFunction.Apply, bind_apply, subscript_zero, makeLambda]
  · intro e value st3 he hval
    subst he
    rw [EvalInstruction_lambda ord rec expression scope id head [e] _ st st1 st2 hvec hfun hlam]
    simp [CustomLambdaFunction.ApprovesNumberOfArguments, CustomLambdaFunction.Apply,
      CustomLambdaFunction.PopulateExecutionScope, bind_apply, pure_apply, makeScope, hval,
      Scope.DefineVariable]
  · intro hlen
    rw [EvalInstruction_lambda ord rec expression scope id head args _ st st1 st2 hvec hfun hlam]
    simp [CustomLambdaFunction.ApprovesNumberOfArguments, hlen]

/-- C1, witness: after `(define f (lambda x x))` the call `(f 5)`, read at cell `10`, runs the
body `x` in the fresh scope `1` with `x` bound to the number `5`, and `(f 1 2 3)` would not pass
the arity check. -/
theorem C1_single_symbol_is_one_parameter_witness :
    Cell.ToVector 10 (Example.read ["(define f (lambda x x))"] "(f 5)").state =
      .ok [.symbol "f", .number 5]
        (Cell.ToVector 10 (Example.read ["(define f (lambda x x))"] "(f 5)").state).state ∧
    EvalInstruction .leftToRight (interp .leftToRight 2) 10 0
        (Example.read ["(define f (lambda x x))"] "(f 5)").state =
      CustomLambdaFunction.body (interp .leftToRight 2) [.symbol "x"] 1
        (State.assign
          { (Cell.ToVector 10 (Example.read ["(define f (lambda x x))"] "(f 5)").state).state with
              scopes := (Cell.ToVector 10
                (Example.read ["(define f (lambda x x))"] "(f 5)").state).state.scopes ++
                  [⟨some 0, []⟩] }
          1 "x" (.number 5)) :=
  ⟨by decide!,
   (C1_single_symbol_is_one_parameter .leftToRight (interp .leftToRight 2) "x" [.symbol "x"]
    [.number 5] 0 10 0 0 (.symbol "f") (Example.read ["(define f (lambda x x))"] "(f 5)").state
    (Cell.ToVector 10 (Example.read ["(define f (lambda x x))"] "(f 5)").state).state
    (Cell.ToVector 10 (Example.read ["(define f (lambda x x))"] "(f 5)").state).state
    (by decide!) (by decide!) (by decide!)).2.1
    (.number 5) (.number 5)
    { (Cell.ToVector 10 (Example.read ["(define f (lambda x x))"] "(f 5)").state).state with
        scopes := (Cell.ToVector 10
          (Example.read ["(define f (lambda x x))"] "(f 5)").state).state.scopes ++
            [⟨some 0, []⟩] }
    rfl (by decide!)⟩

/-! ## C2: per-closure state -/

/-- C2, as stated, fails outside the range of `int`: after `(define r (range 2147483647))` the
first call `(r)` does not return `2147483648`, which the `int` of `Number` cannot hold (the sum in
`PlusOperator::Apply` overflows; wrapped around, it prints `-2147483648`), and for the integer
`2147483648` the text `(define r (range 2147483648))` is not even read: `std::stoi` throws
`std::out_of_range`, `r` stays unbound and `(r)` signals a name error. -/
theorem C2_counter_overflow_counterexample :
    SchemeEngine.outcomes .leftToRight 100
      ["(define range (lambda (x) (lambda () (set! x (+ x 1)) x)))",
        "(define r (range 2147483647))", "(r)"] =
      [.ok "()", .ok "()", .ok "-2147483648"] ∧
    SchemeEngine.outcomes .rightToLeft 100
      ["(define range (lambda (x) (lambda () (set! x (+ x 1)) x)))",
        "(define r (range 2147483647))", "(r)"] =
      [.ok "()", .ok "()", .ok "-2147483648"] ∧
    SchemeEngine.outcomes .leftToRight 100
      ["(define range (lambda (x) (lambda () (set! x (+ x 1)) x)))",
        "(define r (range 2147483648))", "(r)"] =
      [.ok "()", .error .StdOutOfRange, .error .NameError] := by
  refine ⟨?_, ?_, ?_⟩ <;> decide!

/-- C2, amended: on a fresh engine, after the definition of `range`, `(define r (range n))` and
`(define s (range m))` with `n` and `m` written as decimal literals, any sequence `calls` of calls
`(r)` (`true`) and `(s)` (`false`), interleaved in any way, prints what `Counter.expected` lists:
the k-th call of `r` prints `n + k` and the j-th call of `s` prints `m + j`, provided the literals
are at least `-2147483647` and the counts stay within `int`, that is `n` plus the number of calls
of `r` and `m` plus the number of calls of `s` are at most `2147483647`.  The three definitions
print `()`.  This holds for either order of evaluation and every nesting bound of at least 4. -/
theorem C2_per_closure_state (ord : ArgOrder) (k : Nat) (n m : Int) (calls : List Bool)
    (hn : -2147483647 ≤ n) (hnk : n + calls.count true ≤ 2147483647)
    (hm : -2147483647 ≤ m) (hmj : m + calls.count false ≤ 2147483647) :
    SchemeEngine.outcomes ord (k + 4)
      ("(define range (lambda (x) (lambda () (set! x (+ x 1)) x)))" ::
        ("(define r (range " ++ to_string n ++ "))") ::
        ("(define s (range " ++ to_string m ++ "))") :: calls.map Counter.callText) =
      .ok "()" :: .ok "()" :: .ok "()" :: Counter.expected n m calls := by
  obtain ⟨h1, h2, h3, h4, h5, h6⟩ := Counter.defined_names
  have hr := (congrArg (SchemeEngine.Interpret ord (k + 4) (Counter.defineText 'r' n))
    Counter.defined_shape).trans
    (Counter.interpret_define ord k 'r' "r" (Or.inl ⟨rfl, rfl⟩) n hn (by omega) [] [] [] _
      h1 h2 h3)
  have hs := Counter.interpret_define ord k 's' "s" (Or.inr ⟨rfl, rfl⟩) m hm (by omega)
    ([] ++ (Counter.defineCells "r" n (21 + ([] : List Cell).length) ++
               [⟨.null, .null⟩, ⟨.null, .null⟩, ⟨.null, .null⟩]))
    ([] ++ [Scope.mk (some 0) [("x", .number n)]])
    ([] ++ [CustomLambdaFunction.mk (([] : List Scope).length + 1) [] [.cell 7, .symbol "x"]])
    (Scope.insert_or_assign (Counter.defined.scope 0).namespace_ "r"
      (.lambda (([] : List CustomLambdaFunction).length + 1))) h4 h5 h6
  have hrange : "(define range (lambda (x) (lambda () (set! x (+ x 1)) x)))" =
      Counter.rangeText := rfl
  unfold SchemeEngine.outcomes
  rw [hrange, Counter.defineText_r, Counter.defineText_s,
    session_cons_ok ord _ _ _ _ _ _ (Counter.interpret_range ord k),
    session_cons_ok ord _ _ _ _ _ _ hr, session_cons_ok ord _ _ _ _ _ _ hs]
  simp only [List.cons.injEq, true_and]
  have hshape : ∀ (cells : List Cell), State.mk (Counter.defined.cells ++ cells)
      (Scope.mk none
          (Scope.insert_or_assign
            (Scope.insert_or_assign (Counter.defined.scope 0).namespace_ "r"
              (Ref.lambda (([] : List CustomLambdaFunction).length + 1)))
            "s"
            (Ref.lambda (([] ++ [CustomLambdaFunction.mk (([] : List Scope).length + 1) []
              [.cell 7, .symbol "x"]]).length + 1))) ::
        ([] ++ [Scope.mk (some 0) [("x", .number n)]] ++ [Scope.mk (some 0) [("x", .number m)]]))
      (CustomLambdaFunction.mk 0 ["x"] [.cell 11] ::
        ([] ++ [CustomLambdaFunction.mk (([] : List Scope).length + 1) [] [.cell 7, .symbol "x"]] ++
          [CustomLambdaFunction.mk (([] ++ [Scope.mk (some 0) [("x", .number n)]]).length + 1) []
            [.cell 7, .symbol "x"]])) = Counter.store n m cells [] := by
    intro cells
    simp [Counter.store, Counter.root]
  rw [hshape]
  exact Counter.session_calls ord k calls n m _ _ (by omega) hnk (by omega) hmj

/-- C2, witness: the session of the test with a second counter `s` started at `-3` and its calls
interleaved with those of `r`, started at `10`. -/
theorem C2_per_closure_state_witness :
    SchemeEngine.outcomes .leftToRight 4
      ["(define range (lambda (x) (lambda () (set! x (+ x 1)) x)))",
        "(define r (range 10))", "(define s (range -3))",
        "(r)", "(r)", "(s)", "(r)", "(s)"] =
      [.ok "()", .ok "()", .ok "()", .ok "11", .ok "12", .ok "-2", .ok "13", .ok "-1"] := by
  have h := C2_per_closure_state .leftToRight 0 10 (-3) [true, true, false, true, false]
    (by decide) (by decide) (by decide) (by decide)
  have hr : "(define r (range " ++ to_string 10 ++ "))" = "(define r (range 10))" := by decide
  have hs : "(define s (range " ++ to_string (-3) ++ "))" = "(define s (range -3))" := by decide
  have he : Counter.expected 10 (-3) [true, true, false, true, false] =
      [.ok "11", .ok "12", .ok "-2", .ok "13", .ok "-1"] := by decide
  rw [hr, hs, he] at h
  exact h

/-! ## C3: `car` and `cdr` -/

/-- C4, at the failing input: a pair whose tail is the empty list obtained from `'()` is rendered
with a blank before the closing parenthesis, so `(cons 1 (cons 2 '()))` prints `(1 2 )` and not
`(1 2)`; `(cons 1 2)` prints `(1 . 2)` and `(list 1 2 3)` prints `(1 2 3)`. -/
theorem C4_cons_onto_quoted_empty_list_rendering :
    ∀ ord : ArgOrder, SchemeEngine.outcomes ord 100
        ["(cons 1 (cons 2 '()))", "(cons 1 '())", "(cons 1 (list))", "(cons 1 2)", "(list 1 2 3)"] =
      [.ok "(1 2 )", .ok "(1 )", .ok "(1 )", .ok "(1 . 2)", .ok "(1 2 3)"] := by
  intro ord
  cases ord <;> decide!

/-! ## C5: printing a quoted expression -/

/-- C5, at the failing inputs: a quoted list with the empty list as an element is not printed as
it was written: `(quote (1 ()))` prints `(1 )`, `(quote (() 1))` prints `()` and
`(quote (1 () 2))` prints `(1 )`; a list without such an element is printed as written. -/
theorem C5_quote_of_list_with_empty_element :
    ∀ ord : ArgOrder, SchemeEngine.outcomes ord 100
        ["(quote (1 ()))", "(quote (() 1))", "(quote (1 () 2))", "(quote (1 (2 3) . 4))"] =
      [.ok "(1 )", .ok "()", .ok "(1 )", .ok "(1 (2 3) . 4)"] := by
  intro ord
  cases ord <;> decide!

/-! ## C6: division by zero -/

/-- C6, at the failing input: `DivisionOperator::Apply` divides without testing the divisor, so
`(/ 1 0)` and `(/ 7 2 0)` execute an `int` division by zero, whose behaviour is undefined, and no
runtime error is thrown. -/
theorem C6_division_by_zero_is_not_checked :
    ∀ ord : ArgOrder, SchemeEngine.outcomes ord 100 ["(/ 1 0)", "(/ 7 2 0)", "(/ 7 2)"] =
      [.error .UndefinedBehaviour, .error .UndefinedBehaviour, .ok "3"] := by
  intro ord
  cases ord <;> decide!

/-! ## C7 and C8: arity violations -/

/-- C7, as stated, fails for `quote`: `(quote)` and `(quote 1 2)` signal a runtime error, not a
syntax error. -/
theorem C7_quote_arity_counterexample :
    SchemeEngine.outcomes .leftToRight 100 ["(quote)", "(quote 1 2)"] =
      [.error .RuntimeError, .error .RuntimeError] := by
  decide!

/-- C7, amended: the arity predicates are `quote`: exactly 1, `lambda`: at least 2, `define`:
exactly 2, `set!`: exactly 2, `if`: 2 or 3; a combination whose head evaluates to one of
`lambda`, `define`, `set!`, `if` and whose argument count fails the predicate signals a syntax
error, and one whose head evaluates to `quote` signals a runtime error. -/
theorem C7_special_form_arity (ord : ArgOrder) (rec : Interp) (expression scope : Nat)
    (head : Ref) (args : List Ref) (f : Builtin) (st st1 st2 : State)
    (hvec : Cell.ToVector expression st = .ok (head :: args) st1)
    (hfun : rec.Eval head scope st1 = .ok (.builtin f) st2)
    (harity : f.ApprovesNumberOfArguments args = false) :
    ((Builtin.QuoteFunction.ApprovesNumberOfArguments args = true ↔ args.length = 1) ∧
     (Builtin.LambdaFunction.ApprovesNumberOfArguments args = true ↔ 2 ≤ args.length) ∧
     (Builtin.DefineFunction.ApprovesNumberOfArguments args = true ↔ args.length = 2) ∧
     (Builtin.SetFunction.ApprovesNumberOfArguments args = true ↔ args.length = 2) ∧
     (Builtin.IfOperator.ApprovesNumberOfArguments args = true ↔
        args.length = 2 ∨ args.length = 3)) ∧
    ((f = .LambdaFunction ∨ f = .DefineFunction ∨ f = .SetFunction ∨ f = .IfOperator) →
      EvalInstruction ord rec expression scope st = .fail .SyntaxError st2) ∧
    (f = .QuoteFunction →
      EvalInstruction ord rec expression scope st = .fail .RuntimeError st2) := by
  have hEI := EvalInstruction_builtin ord rec expression scope head args f st st1 st2 hvec hfun
  rw [harity] at hEI
  refine ⟨⟨?_, ?_, ?_, ?_, ?_⟩, ?_, ?_⟩
  · simp [Builtin.ApprovesNumberOfArguments]
  · simp [Builtin.ApprovesNumberOfArguments]; omega
  · simp [Builtin.ApprovesNumberOfArguments]
  · simp [Builtin.ApprovesNumberOfArguments]
  · simp [Builtin.ApprovesNumberOfArguments]; omega
  · intro hf
    rw [hEI]
    rcases hf with hf | hf | hf | hf <;> subst hf <;> simp [Builtin.IsSpecialFormFunction]
  · intro hf
    rw [hEI]
    subst hf
    simp [Builtin.IsSpecialFormFunction]

/-- C7, witness: `(if 1)`, read at cell `2` of a fresh engine, signals a syntax error. -/
theorem C7_special_form_arity_witness :
    Cell.ToVector 2 (Example.read [] "(if 1)").state =
      .ok [.symbol "if", .number 1] (Cell.ToVector 2 (Example.read [] "(if 1)").state).state ∧
    EvalInstruction .leftToRight (interp .leftToRight 2) 2 0 (Example.read [] "(if 1)").state =
      .fail .SyntaxError (Cell.ToVector 2 (Example.read [] "(if 1)").state).state :=
  ⟨by decide!,
   (C7_special_form_arity .leftToRight (interp .leftToRight 2) 2 0 (.symbol "if") [.number 1]
    .IfOperator (Example.read [] "(if 1)").state
    (Cell.ToVector 2 (Example.read [] "(if 1)").state).state
    (Cell.ToVector 2 (Example.read [] "(if 1)").state).state
    (by decide!) (by decide!) (by decide)).2.1 (Or.inr (Or.inr (Or.inr rfl)))⟩

/-- C8, as stated, fails for `set-car!` and `set-cdr!`: `(set-car! 1)` and `(set-cdr!)` signal a
syntax error, not a runtime error. -/
theorem C8_set_car_arity_counterexample :
    SchemeEngine.outcomes .leftToRight 100 ["(set-car! 1)", "(set-cdr!)"] =
      [.error .SyntaxError, .error .SyntaxError] := by
  decide!

/-- C8, amended: a combination whose argument count fails the arity predicate signals a runtime
error when its head evaluates to a built-in other than `lambda`, `define`, `set!`, `set-car!`,
`set-cdr!` and `if` (so also for `quote`), or to a user lambda (whose predicate asks for as many
arguments as it has parameters); for `set-car!` and `set-cdr!` it signals a syntax error.  A
comparison operator does not accept exactly one argument. -/
theorem C8_procedure_arity (ord : ArgOrder) (rec : Interp) (expression scope : Nat)
    (head function : Ref) (args : List Ref) (st st1 st2 : State)
    (hvec : Cell.ToVector expression st = .ok (head :: args) st1)
    (hfun : rec.Eval head scope st1 = .ok function st2) :
    (∀ f : Builtin, function = .builtin f → f.ApprovesNumberOfArguments args = false →
      (f ≠ .LambdaFunction → f ≠ .DefineFunction → f ≠ .SetFunction → f ≠ .SetCarFunction →
        f ≠ .SetCdrFunction → f ≠ .IfOperator →
        EvalInstruction ord rec expression scope st = .fail .RuntimeError st2) ∧
      (f = .SetCarFunction ∨ f = .SetCdrFunction →
        EvalInstruction ord rec expression scope st = .fail .SyntaxError st2)) ∧
    (∀ (id : Nat) (self : CustomLambdaFunction), function = .lambda id →
      st2.lambdas[id]? = some self → args.length ≠ self.arg_names.length →
      EvalInstruction ord rec expression scope st = .fail .RuntimeError st2) ∧
    (∀ (f : Builtin) (x : Ref),
      f = .LessOperator ∨ f = .LeqOperator ∨ f = .GreaterOperator ∨ f = .GeqOperator ∨
        f = .EqualsOperator → f.ApprovesNumberOfArguments [x] = false) := by
  refine ⟨?_, ?_, ?_⟩
  · intro f hf harity
    subst hf
    have hEI := EvalInstruction_builtin ord rec expression scope head args f st st1 st2 hvec hfun
    rw [harity] at hEI
    rw [hEI]
    constructor
    · intro h1 h2 h3 h4 h5 h6
      cases f <;> simp_all [Builtin.IsSpecialFormFunction]
    · intro h
      rcases h with h | h <;> subst h <;> simp [Builtin.IsSpecialFormFunction]
  · intro id self hf hlam hlen
    subst hf
    rw [EvalInstruction_lambda ord rec expression scope id head args self st st1 st2 hvec hfun hlam]
    simp [CustomLambdaFunction.ApprovesNumberOfArguments, hlen]
  · intro f x hf
    rcases hf with hf | hf | hf | hf | hf <;> subst hf <;> rfl

/-- C8, witness: `(car)`, read at cell `1` of a fresh engine, signals a runtime error. -/
theorem C8_procedure_arity_witness :
    Cell.ToVector 1 (Example.read [] "(car)").state =
      .ok [.symbol "car"] (Cell.ToVector 1 (Example.read [] "(car)").state).state ∧
    EvalInstruction .leftToRight (interp .leftToRight 2) 1 0 (Example.read [] "(car)").state =
      .fail .RuntimeError (Cell.ToVector 1 (Example.read [] "(car)").state).state :=
  ⟨by decide!,
   ((C8_procedure_arity .leftToRight (interp .leftToRight 2) 1 0 (.symbol "car")
    (.builtin .CarFunction) [] (Example.read [] "(car)").state
    (Cell.ToVector 1 (Example.read [] "(car)").state).state
    (Cell.ToVector 1 (Example.read [] "(car)").state).state
    (by decide!) (by decide!)).1 .CarFunction rfl (by decide)).1
    (by decide) (by decide) (by decide) (by decide) (by decide) (by decide)⟩

/-! ## C9: evaluating the empty list -/

/-- C9, at the failing inputs: `()` as the whole input signals a runtime error, but an empty
list inside a combination reaches `Eval` as a fresh empty cell, which is neither a null pointer
nor `kSchemeNull`: `EvalInstruction` then takes element `0` of an empty deque, whose behaviour is
undefined, and no runtime error is thrown for `(car ())`, `(+ 1 ())` and `(())`. -/
theorem C9_empty_list_inside_combination :
    ∀ ord : ArgOrder, SchemeEngine.outcomes ord 100 ["()", "(car ())", "(+ 1 ())", "(())"] =
      [.error .RuntimeError, .error .UndefinedBehaviour, .error .UndefinedBehaviour,
       .error .UndefinedBehaviour] := by
  intro ord
  cases ord <;> decide!

/-! ## C10: `list-ref` -/

/-- C10, at the failing inputs: `list-ref` has no lower bound test, so `(list-ref '(1 2) -1)`
indexes the deque with a negative number (undefined behaviour) instead of signalling a runtime
error; on a list built by `cons` onto `'()` the flattened sequence has one element more than the
list, so index `k` returns `()` instead of an error; and a quoted list that starts with `()`
flattens to the empty sequence, so index `0` is an error.  Within `0 <= i < k` of a quoted or
`list`-built list the element is returned, and `i = k` is a runtime error there. -/
theorem C10_list_ref_bounds :
    ∀ ord : ArgOrder, SchemeEngine.outcomes ord 100
        ["(list-ref '(1 2) -1)", "(list-ref (cons 1 (cons 2 '())) 2)", "(list-ref '(() 1) 0)",
         "(list-ref '(1 2) 0)", "(list-ref '(1 2) 1)", "(list-ref '(1 2) 2)",
         "(list-ref (list 1 2) 1)", "(list-ref (list 1 2) 2)"] =
      [.error .UndefinedBehaviour, .ok "()", .error .RuntimeError,
       .ok "1", .ok "2", .error .RuntimeError, .ok "2", .error .RuntimeError] := by
  intro ord
  cases ord <;> decide!

/-! ## Evaluation of a run of arguments -/

theorem Eval_each_cons (rec : Interp) (scope : Nat) (a : Ref) (rest : List Ref) (vs : List Ref)
    (st st1 : State) (h : Eval.each rec scope (a :: rest) st = .ok vs st1) :
    ∃ v ws s, rec.Eval a scope st = .ok v s ∧ Eval.each rec scope rest s = .ok ws st1 ∧
      vs = v :: ws := by
  simp only [Eval.each, bind_apply] at h
  cases ha : rec.Eval a scope st with
  | fail f s => simp [ha] at h
  | ok v s =>
    simp only [ha] at h
    cases hr : Eval.each rec scope rest s with
    | fail f s2 => simp [hr] at h
    | ok ws s2 =>
      simp only [hr, pure_apply, Res.ok.injEq] at h
      exact ⟨v, ws, s, rfl, by rw [hr, h.2], h.1.symm⟩

/-! ## C11: `list-tail` -/

/-- C11, at the failing inputs: on a list built by `cons` onto `'()` the flattened sequence of
`Cell::ToVector` counts the empty cell that ends the list, so the bounds test of `list-tail`
accepts the index `k + 1`: `(list-tail (cons 1 (cons 2 '())) 3)` returns `()` instead of
signalling a runtime error (index `4` is an error); and a quoted list whose first element is `()`
flattens to the empty sequence, so `(list-tail '(() 1) 1)` is a runtime error instead of `(1)`.
On quoted and `list`-built lists without `()` as first element the claim holds at the inputs
tried: an index up to `k` gives the sublist, `k` gives `()`, and `k + 1` is a runtime error. -/
theorem C11_list_tail_bounds :
    ∀ ord : ArgOrder, SchemeEngine.outcomes ord 100
        ["(list-tail (cons 1 (cons 2 '())) 3)", "(list-tail (cons 1 (cons 2 '())) 4)",
         "(list-tail '(() 1) 1)", "(list-tail '(1 2 3) 1)", "(list-tail '(1 2 3) 3)",
         "(list-tail '(1 2 3) 4)", "(list-tail (list 1 2 3) 3)", "(list-tail (list 1 2 3) 4)"] =
      [.ok "()", .error .RuntimeError, .error .RuntimeError, .ok "(2 3)", .ok "()",
       .error .RuntimeError, .ok "()", .error .RuntimeError] := by
  intro ord
  cases ord <;> decide!

/-! ## C12: the sugared form of `define` -/

theorem cell_append (cells extra : List Cell) (scopes scopes1 : List Scope)
    (lambdas lambdas1 : List CustomLambdaFunction) (a : Nat) (h : a < cells.length) :
    (State.mk (cells ++ extra) scopes1 lambdas1).cell a = (State.mk cells scopes lambdas).cell a := by
  simp only [State.cell, List.getD_eq_getElem?_getD, List.getElem?_append_left h]

theorem Chain_cell_inv (st : State) (a : Nat) (heads : List Ref) (last : Ref)
    (hc : Chain st (.cell a) heads last) :
    ∃ rest, heads = (st.cell a).first :: rest ∧ Chain st (st.cell a).second rest last := by
  generalize hr : Ref.cell a = r at hc
  cases hc with
  | done last hlast => exact absurd hr.symm (hlast a)
  | step b rest last hrest =>
    cases hr
    exact ⟨rest, rfl, hrest⟩

theorem Chain_deterministic (st : State) (r : Ref) (h1 : List Ref) (l1 : Ref)
    (hc1 : Chain st r h1 l1) : ∀ (h2 : List Ref) (l2 : Ref), Chain st r h2 l2 → h1 = h2 := by
  induction hc1 with
  | done last hlast =>
    intro h2 l2 hc2
    cases hc2 with
    | done _ _ => rfl
    | step a _ _ _ => exact absurd rfl (hlast a)
  | step a heads last _ ih =>
    intro h2 l2 hc2
    obtain ⟨rest, hh, hrest⟩ := Chain_cell_inv st a h2 l2 hc2
    rw [hh, ih rest l2 hrest]

theorem HasVariableFuel_scopes (st st1 : State) (h : st1.scopes = st.scopes) (name : String) :
    ∀ fuel s, Scope.HasVariableFuel st1 fuel s name = Scope.HasVariableFuel st fuel s name ∧
      Scope.GetVariableFuel st1 fuel s name = Scope.GetVariableFuel st fuel s name := by
  intro fuel
  induction fuel with
  | zero => intro s; exact ⟨rfl, rfl⟩
  | succ fuel ih =>
    intro s
    have hs : st1.scope s = st.scope s := by simp [State.scope, h]
    simp only [Scope.HasVariableFuel, Scope.GetVariableFuel, hs]
    constructor
    · split
      · rfl
      · split
        · exact (ih _).1
        · rfl
    · split
      · rfl
      · split
        · exact (ih _).2
        · rfl

theorem EvalSymbol_scopes (st : State) (cells1 : List Cell) (lambdas1 : List CustomLambdaFunction)
    (name : String) (scope : Nat) (value : Ref)
    (hhas : Scope.HasVariable st scope name = true)
    (hget : Scope.GetVariable st scope name = value) :
    EvalSymbol name scope (State.mk cells1 st.scopes lambdas1) =
      .ok value (State.mk cells1 st.scopes lambdas1) := by
  have h := HasVariableFuel_scopes st (State.mk cells1 st.scopes lambdas1) rfl name
    st.scopes.length scope
  simp only [Scope.HasVariable, Scope.GetVariable] at hhas hget
  simp [EvalSymbol, bind_apply, getState_apply, Scope.HasVariable, Scope.GetVariable, h.1, h.2,
    hhas, hget, pure_apply]

theorem WellScoped_parent (st : State) (h : st.WellScoped = true) (s p : Nat)
    (hp : (st.scope s).parent = some p) : p < s ∧ s < st.scopes.length := by
  have hs : s < st.scopes.length := by
    by_contra hge
    have : st.scope s = ⟨none, []⟩ := by
      simp only [State.scope]
      exact List.getD_eq_default _ _ (by omega)
    rw [this] at hp
    cases hp
  refine ⟨?_, hs⟩
  simp only [State.WellScoped, List.all_eq_true, List.mem_range] at h
  have := h s hs
  rw [hp] at this
  simpa using this

theorem Resolves_fuel (st : State) (h : st.WellScoped = true) (name : String) (s d : Nat)
    (hr : Scope.Resolves st name s d) :
    ∀ fuel, s < fuel →
      Scope.HasVariableFuel st fuel s name = true ∧
      (∀ value, Scope.find (st.scope d).namespace_ name = some value →
        Scope.GetVariableFuel st fuel s name = value) ∧
      (∀ value, Scope.SetVariableFuel st fuel s name value = st.assign d name value) := by
  induction hr with
  | here d hd =>
    intro fuel hfuel
    obtain ⟨j, rfl⟩ : ∃ j, fuel = j + 1 := ⟨fuel - 1, by omega⟩
    refine ⟨HasVariableFuel_here st j d name hd, ?_, ?_⟩
    · intro value hv
      exact GetVariableFuel_here st j d name value hv
    · intro value
      exact SetVariableFuel_here st j d name value hd
  | up s p d hnone hp _ ih =>
    intro fuel hfuel
    obtain ⟨j, rfl⟩ : ∃ j, fuel = j + 1 := ⟨fuel - 1, by omega⟩
    have hlt := (WellScoped_parent st h s p hp).1
    have := ih j (by omega)
    rw [HasVariableFuel_up st j s p name hnone hp]
    refine ⟨this.1, ?_, ?_⟩
    · intro value hv
      rw [GetVariableFuel_up st j s p name hnone hp]
      exact this.2.1 value hv
    · intro value
      rw [SetVariableFuel_up st j s p name _ hnone hp]
      exact this.2.2 value

theorem scope_in_range (st : State) (s : Nat) (h : st.scope s ≠ ⟨none, []⟩) :
    s < st.scopes.length := by
  by_contra hge
  exact h (by simp only [State.scope]; exact List.getD_eq_default _ _ (by omega))

theorem Resolves_binds (st : State) (name : String) (s d : Nat)
    (hr : Scope.Resolves st name s d) :
    (Scope.find (st.scope d).namespace_ name).isSome = true ∧ s < st.scopes.length ∧
      d < st.scopes.length := by
  induction hr with
  | here d hd =>
    have : d < st.scopes.length := by
      apply scope_in_range
      intro h0
      rw [h0] at hd
      simp [Scope.find] at hd
    exact ⟨hd, this, this⟩
  | up s p d _ hp _ ih =>
    refine ⟨ih.1, ?_, ih.2.2⟩
    apply scope_in_range
    intro h0
    rw [h0] at hp
    cases hp

theorem Resolves_lookup (st : State) (h : st.WellScoped = true) (name : String) (s d : Nat)
    (hr : Scope.Resolves st name s d) (value : Ref)
    (hv : Scope.find (st.scope d).namespace_ name = some value) :
    EvalSymbol name s st = .ok value st := by
  have hs := (Resolves_binds st name s d hr).2.1
  have := Resolves_fuel st h name s d hr st.scopes.length hs
  simp [EvalSymbol, bind_apply, getState_apply, Scope.HasVariable, Scope.GetVariable, this.1,
    this.2.1 value hv, pure_apply]

theorem find_insert_or_assign (name : String) (value : Ref) :
    ∀ ns : List (String × Ref),
      Scope.find (Scope.insert_or_assign ns name value) name = some value := by
  intro ns
  induction ns with
  | nil => simp [Scope.insert_or_assign, Scope.find]
  | cons kv rest ih =>
    obtain ⟨key, old⟩ := kv
    by_cases hk : key = name
    · simp [Scope.insert_or_assign, Scope.find, hk]
    · simp [Scope.insert_or_assign, Scope.find, hk, ih]

theorem assign_scope_same (st : State) (d : Nat) (name : String) (value : Ref)
    (hd : d < st.scopes.length) :
    (st.assign d name value).scope d =
      ⟨(st.scope d).parent, Scope.insert_or_assign (st.scope d).namespace_ name value⟩ := by
  simp [State.assign, State.scope, List.getD_eq_getElem?_getD, List.getElem?_set_self hd]

theorem assign_scope_other (st : State) (d s : Nat) (name : String) (value : Ref)
    (hne : s ≠ d) : (st.assign d name value).scope s = st.scope s := by
  simp [State.assign, State.scope, List.getD_eq_getElem?_getD,
    List.getElem?_set_ne (Ne.symm hne)]

theorem assign_WellScoped (st : State) (h : st.WellScoped = true) (d : Nat) (name : String)
    (value : Ref) : (st.assign d name value).WellScoped = true := by
  simp only [State.WellScoped, List.all_eq_true, List.mem_range] at h ⊢
  intro s hs
  have hlen : (st.assign d name value).scopes.length = st.scopes.length := by
    simp [State.assign]
  rw [hlen] at hs
  have := h s hs
  by_cases hsd : s = d
  · subst hsd
    rw [assign_scope_same st s name value hs]
    exact this
  · rw [assign_scope_other st d s name value hsd]
    exact this

theorem assign_Resolves (st : State) (name : String) (value : Ref) (s d : Nat)
    (hr : Scope.Resolves st name s d) :
    Scope.Resolves (st.assign d name value) name s d := by
  have hb := Resolves_binds st name s d hr
  induction hr with
  | here d _ =>
    apply Scope.Resolves.here
    rw [assign_scope_same st d name value hb.2.2, find_insert_or_assign]
    rfl
  | up s p d hnone hp hrest ih =>
    have hne : s ≠ d := by
      intro hsd
      subst hsd
      rw [hnone] at hb
      simp at hb
    have hb2 := Resolves_binds st name p d hrest
    exact Scope.Resolves.up s p d (by rw [assign_scope_other st d s name value hne]; exact hnone)
      (by rw [assign_scope_other st d s name value hne]; exact hp) (ih hb2)

theorem unbound_HasVariableFuel (st : State) (name : String) :
    ∀ (fuel s : Nat),
      (∀ d, Scope.Reaches st s d → Scope.find (st.scope d).namespace_ name = none) →
      Scope.HasVariableFuel st fuel s name = false := by
  intro fuel
  induction fuel with
  | zero => intro s _; rfl
  | succ fuel ih =>
    intro s h
    have hs := h s (Scope.Reaches.here s)
    simp only [Scope.HasVariableFuel, hs, Option.isSome_none, Bool.false_eq_true, if_false]
    cases hp : (st.scope s).parent with
    | none => rfl
    | some p =>
      exact ih p (fun d hd => h d (Scope.Reaches.up s p d hp hd))

/-- C13: `(set! x e)` evaluated in frame `scope`.  If no frame reached from `scope` through
parent links binds `x`, the call signals a name error and leaves the store as it was (`e` is not
evaluated, nothing is bound).  `(define x e)` in a frame binds `x` in that very frame.  If the
lookup of `x` from `scope` ends in frame `D` (`D` is `scope` or an ancestor, and no frame before
`D` on the way binds `x`), before and after the evaluation of `e` to `v`, in stores where every
frame was allocated after its parent, then `set!` returns `()` and replaces the binding of `x`
in `D`: a lookup of `x` from `D`, and from `scope`, then yields `v`.  On a fresh engine: `set!`
of an undefined name is a name error and defines nothing; after `(define x 1)`, `(set! x 2)` at
top level and `(set! x 5)` inside a procedure change the binding at top level, and a `set!` of a
parameter named `x` does not. -/
theorem C13_set_semantics (rec : Interp) (x : String) (e : Ref) (scope : Nat) (st : State) :
    ((∀ d, Scope.Reaches st scope d → Scope.find (st.scope d).namespace_ x = none) →
      SetFunction.Apply rec [.symbol x, e] scope st = .fail .NameError st) ∧
    (∀ (v : Ref) (st1 : State), rec.Eval e scope st = .ok v st1 → scope < st1.scopes.length →
      DefineFunction.Apply rec [.symbol x, e] scope st =
        .ok kSchemeNull (st1.assign scope x v) ∧
      Scope.Resolves (st1.assign scope x v) x scope scope) ∧
    (∀ (D : Nat) (v : Ref) (st1 : State), st.WellScoped = true → Scope.Resolves st x scope D →
      rec.Eval e scope st = .ok v st1 → st1.WellScoped = true → Scope.Resolves st1 x scope D →
      SetFunction.Apply rec [.symbol x, e] scope st = .ok kSchemeNull (st1.assign D x v) ∧
      EvalSymbol x D (st1.assign D x v) = .ok v (st1.assign D x v) ∧
      EvalSymbol x scope (st1.assign D x v) = .ok v (st1.assign D x v)) ∧
    (∀ o : ArgOrder, SchemeEngine.outcomes o 100
        ["(set! x 1)", "x", "(define x 1)", "(set! x 2)", "x", "(define (f) (set! x 5))",
         "(f)", "x", "(define (g x) (set! x 7))", "(g 0)", "x"] =
      [.error .NameError, .error .NameError, .ok "()", .ok "()", .ok "2", .ok "()", .ok "()",
       .ok "5", .ok "()", .ok "()", .ok "5"]) := by
  refine ⟨?_, ?_, ?_, ?_⟩
  · intro h
    have := unbound_HasVariableFuel st x st.scopes.length scope h
    simp [SetFunction.Apply, bind_apply, subscript_zero, RequireSymbolArgument, pure_apply,
      getState_apply, Scope.HasVariable, this, raise_apply]
  · intro v st1 he hs
    constructor
    · simp [DefineFunction.Apply, bind_apply, subscript_zero, RequireSymbolArgument, pure_apply,
        subscript, he, Scope.DefineVariable]
    · apply Scope.Resolves.here
      rw [assign_scope_same st1 scope x v hs, find_insert_or_assign]
      rfl
  · intro D v st1 hw hr he hw1 hr1
    have hb := Resolves_binds st x scope D hr
    have hb1 := Resolves_binds st1 x scope D hr1
    have hfuel := Resolves_fuel st hw x scope D hr st.scopes.length hb.2.1
    have hfuel1 := Resolves_fuel st1 hw1 x scope D hr1 st1.scopes.length hb1.2.1
    have hfind : Scope.find ((st1.assign D x v).scope D).namespace_ x = some v := by
      rw [assign_scope_same st1 D x v hb1.2.2, find_insert_or_assign]
    refine ⟨?_, ?_, ?_⟩
    · simp [SetFunction.Apply, bind_apply, subscript_zero, RequireSymbolArgument, pure_apply,
        getState_apply, Scope.HasVariable, hfuel.1, subscript, he, Scope.SetVariable,
        hfuel1.2.2 v]
    · exact Resolves_lookup _ (assign_WellScoped st1 hw1 D x v) x D D
        (Scope.Resolves.here D (by rw [hfind]; rfl)) v hfind
    · exact Resolves_lookup _ (assign_WellScoped st1 hw1 D x v) x scope D
        (assign_Resolves st1 x v scope D hr1) v hfind
  · intro o
    cases o <;> decide!

/-- C13, witness: a store whose root frame `0` binds `x` to `1` and whose frame `1` is a child
of the root that binds nothing; `(set! x 2)` evaluated in frame `1` replaces the binding of `x`
in the root frame. -/
theorem C13_set_semantics_witness :
    (State.mk [Cell.mk .null .null]
        [Scope.mk none [("x", .number 1)], Scope.mk (some 0) []] []).WellScoped = true ∧
    Scope.Resolves (State.mk [Cell.mk .null .null]
        [Scope.mk none [("x", .number 1)], Scope.mk (some 0) []] []) "x" 1 0 ∧
    SetFunction.Apply (interp .leftToRight 1) [.symbol "x", .number 2] 1
        (State.mk [Cell.mk .null .null]
          [Scope.mk none [("x", .number 1)], Scope.mk (some 0) []] []) =
      .ok kSchemeNull
        ((State.mk [Cell.mk .null .null]
          [Scope.mk none [("x", .number 1)], Scope.mk (some 0) []] []).assign 0 "x"
          (.number 2)) :=
  ⟨by decide,
   Scope.Resolves.up 1 0 0 (by decide) (by decide) (Scope.Resolves.here 0 (by decide)),
   ((C13_set_semantics (interp .leftToRight 1) "x" (.number 2) 1
      (State.mk [Cell.mk .null .null]
        [Scope.mk none [("x", .number 1)], Scope.mk (some 0) []] [])).2.2.1 0 (.number 2)
      (State.mk [Cell.mk .null .null]
        [Scope.mk none [("x", .number 1)], Scope.mk (some 0) []] []) (by decide)
      (Scope.Resolves.up 1 0 0 (by decide) (by decide) (Scope.Resolves.here 0 (by decide)))
      (by decide) (by decide)
      (Scope.Resolves.up 1 0 0 (by decide) (by decide)
        (Scope.Resolves.here 0 (by decide)))).1⟩

/-! ## C14: lexical scope -/

theorem AndOperator_loop_run (rec : Interp) (scope : Nat) (post : List Ref) (e : Ref) :
    ∀ (pre : List Ref) (vs : List Ref) (st st1 : State),
      Eval.each rec scope pre st = .ok vs st1 →
      (∀ w ∈ vs, w ≠ .null ∧ w ≠ kSchemeFalse) →
      AndOperator.loop rec scope (pre ++ e :: post) st =
        AndOperator.loop rec scope (e :: post) st1 := by
  intro pre
  induction pre with
  | nil =>
    intro vs st st1 h _
    simp only [Eval.each, pure_apply, Res.ok.injEq] at h
    rw [List.nil_append, h.2]
  | cons a pre ih =>
    intro vs st st1 h hvs
    simp only [Eval.each, bind_apply] at h
    cases ha : rec.Eval a scope st with
    | fail f s => simp [ha] at h
    | ok v s =>
      simp only [ha] at h
      cases hr : Eval.each rec scope pre s with
      | fail f s2 => simp [hr] at h
      | ok ws s2 =>
        simp only [hr, pure_apply, Res.ok.injEq] at h
        obtain ⟨h1, h2⟩ := h
        subst h1 h2
        have hv := hvs v (by simp)
        have hws : ∀ w ∈ ws, w ≠ .null ∧ w ≠ kSchemeFalse := fun w hw => hvs w (by simp [hw])
        have hne : pre ++ e :: post ≠ [] := by simp
        obtain ⟨b, bs, hb⟩ : ∃ b bs, pre ++ e :: post = b :: bs := by
          cases hp : pre ++ e :: post with
          | nil => exact absurd hp hne
          | cons b bs => exact ⟨b, bs, rfl⟩
        have hbool : Object.AsBoolean v s = .ok true s := by
          cases v <;> simp_all [Object.AsBoolean, pure_apply, kSchemeFalse]
        rw [List.cons_append, hb]
        simp only [AndOperator.loop, bind_apply, ha, hbool, Bool.not_true, Bool.false_eq_true,
          if_false]
        rw [← hb]
        exact ih ws s _ hr hws

theorem OrOperator_loop_run (rec : Interp) (scope : Nat) (post : List Ref) (e : Ref) :
    ∀ (pre : List Ref) (vs : List Ref) (st st1 : State),
      Eval.each rec scope pre st = .ok vs st1 →
      (∀ w ∈ vs, w = kSchemeFalse) →
      OrOperator.loop rec scope (pre ++ e :: post) st =
        OrOperator.loop rec scope (e :: post) st1 := by
  intro pre
  induction pre with
  | nil =>
    intro vs st st1 h _
    simp only [Eval.each, pure_apply, Res.ok.injEq] at h
    rw [List.nil_append, h.2]
  | cons a pre ih =>
    intro vs st st1 h hvs
    simp only [Eval.each, bind_apply] at h
    cases ha : rec.Eval a scope st with
    | fail f s => simp [ha] at h
    | ok v s =>
      simp only [ha] at h
      cases hr : Eval.each rec scope pre s with
      | fail f s2 => simp [hr] at h
      | ok ws s2 =>
        simp only [hr, pure_apply, Res.ok.injEq] at h
        obtain ⟨h1, h2⟩ := h
        subst h1 h2
        have hv := hvs v (by simp)
        have hws : ∀ w ∈ ws, w = kSchemeFalse := fun w hw => hvs w (by simp [hw])
        have hne : pre ++ e :: post ≠ [] := by simp
        obtain ⟨b, bs, hb⟩ : ∃ b bs, pre ++ e :: post = b :: bs := by
          cases hp : pre ++ e :: post with
          | nil => exact absurd hp hne
          | cons b bs => exact ⟨b, bs, rfl⟩
        have hbool : Object.AsBoolean v s = .ok false s := by
          rw [hv]; rfl
        rw [List.cons_append, hb]
        simp only [OrOperator.loop, bind_apply, ha, hbool, Bool.false_eq_true, if_false]
        rw [← hb]
        exact ih ws s _ hr hws

theorem AndOperator_loop_stop (rec : Interp) (scope : Nat) (e : Ref) (post : List Ref)
    (st st1 : State) (h : rec.Eval e scope st = .ok kSchemeFalse st1) :
    AndOperator.loop rec scope (e :: post) st = .ok kSchemeFalse st1 := by
  cases post with
  | nil => simpa [AndOperator.loop] using h
  | cons b bs =>
    simp [AndOperator.loop, bind_apply, h, kSchemeFalse, Object.AsBoolean, pure_apply]

theorem OrOperator_loop_stop (rec : Interp) (scope : Nat) (e v : Ref) (post : List Ref)
    (st st1 : State) (h : rec.Eval e scope st = .ok v st1) (hnull : v ≠ .null)
    (hv : v ≠ kSchemeFalse) :
    OrOperator.loop rec scope (e :: post) st = .ok v st1 := by
  cases post with
  | nil => simpa [OrOperator.loop] using h
  | cons b bs =>
    have hbool : Object.AsBoolean v st1 = .ok true st1 := by
      cases v <;> simp_all [Object.AsBoolean, pure_apply, kSchemeFalse]
    simp [OrOperator.loop, bind_apply, h, hbool, pure_apply]

/-- C16: `(and)` is `#t` and `(or)` is `#f`.  When the arguments `pre` before `e` have been
evaluated from left to right to values `vs`, none of them `#f`, and `e` then evaluates to `v`:
`and` returns `#f` if `v` is `#f`, whatever arguments `post` follow, and none of them is
evaluated (the store is the one left by `e`); if `e` is the last argument, `and` returns `v`.
Dually, when all of `vs` are `#f`: `or` returns `v` if `v` is not `#f`, without evaluating `post`,
and returns `v` if `e` is the last argument.  On a fresh engine `(and #f (/ 1 0))` prints `#f`
and `(or 1 (/ 1 0))` prints `1`. -/
theorem C16_and_or_short_circuit (rec : Interp) (scope : Nat) (pre post : List Ref) (e v : Ref)
    (vs : List Ref) (st st1 st2 : State)
    (hpre : Eval.each rec scope pre st = .ok vs st1)
    (he : rec.Eval e scope st1 = .ok v st2) :
    AndOperator.Apply rec [] scope st = .ok kSchemeTrue st ∧
    OrOperator.Apply rec [] scope st = .ok kSchemeFalse st ∧
    ((∀ w ∈ vs, w ≠ .null ∧ w ≠ kSchemeFalse) →
      (v = kSchemeFalse →
        AndOperator.Apply rec (pre ++ e :: post) scope st = .ok kSchemeFalse st2) ∧
      AndOperator.Apply rec (pre ++ [e]) scope st = .ok v st2) ∧
    ((∀ w ∈ vs, w = kSchemeFalse) →
      (v ≠ .null → v ≠ kSchemeFalse →
        OrOperator.Apply rec (pre ++ e :: post) scope st = .ok v st2) ∧
      OrOperator.Apply rec (pre ++ [e]) scope st = .ok v st2) ∧
    (∀ ord : ArgOrder, SchemeEngine.outcomes ord 100
        ["(and)", "(or)", "(and #f (/ 1 0))", "(or 1 (/ 1 0))", "(and 1 2 3)", "(and 1 #f 3)",
         "(or #f #f)", "(or #f 2 3)"] =
      [.ok "#t", .ok "#f", .ok "#f", .ok "1", .ok "3", .ok "#f", .ok "#f", .ok "2"]) := by
  refine ⟨rfl, rfl, ?_, ?_, ?_⟩
  · intro hvs
    constructor
    · intro hv
      subst hv
      simp only [AndOperator.Apply, List.isEmpty_eq_true, List.append_eq_nil, List.cons_ne_nil,
        and_false, if_false]
      rw [AndOperator_loop_run rec scope post e pre vs st st1 hpre hvs]
      exact AndOperator_loop_stop rec scope e post st1 st2 he
    · simp only [AndOperator.Apply, List.isEmpty_eq_true, List.append_eq_nil, List.cons_ne_nil,
        and_false, if_false]
      rw [AndOperator_loop_run rec scope [] e pre vs st st1 hpre hvs]
      simpa [AndOperator.loop] using he
  · intro hvs
    constructor
    · intro hnull hv
      simp only [OrOperator.Apply, List.isEmpty_eq_true, List.append_eq_nil, List.cons_ne_nil,
        and_false, if_false]
      rw [OrOperator_loop_run rec scope post e pre vs st st1 hpre hvs]
      exact OrOperator_loop_stop rec scope e v post st1 st2 he hnull hv
    · simp only [OrOperator.Apply, List.isEmpty_eq_true, List.append_eq_nil, List.cons_ne_nil,
        and_false, if_false]
      rw [OrOperator_loop_run rec scope [] e pre vs st st1 hpre hvs]
      simpa [OrOperator.loop] using he
  · intro ord
    cases ord <;> decide!

/-- C16, witness: in `(and 1 #f undefined)` the argument `1` evaluates to a value that is not
`#f`, then `#f` evaluates to `#f`, and `and` returns `#f` without evaluating the unbound symbol
that follows. -/
theorem C16_and_or_short_circuit_witness :
    Eval.each (interp .leftToRight 1) 0 [.number 1] SchemeEngine.initial =
      .ok [.number 1] SchemeEngine.initial ∧
    AndOperator.Apply (interp .leftToRight 1) [.number 1, .boolean false, .symbol "undefined"] 0
        SchemeEngine.initial = .ok kSchemeFalse SchemeEngine.initial :=
  ⟨by decide!,
   ((C16_and_or_short_circuit (interp .leftToRight 1) 0 [.number 1] [.symbol "undefined"]
    (.boolean false) (.boolean false) [.number 1] SchemeEngine.initial SchemeEngine.initial
    SchemeEngine.initial (by decide!) (by decide!)).2.2.1 (by decide)).1 rfl⟩

/-! ## C17: comparison chains -/

theorem chain_append_singleton (R : Int → Int → Prop) :
    ∀ (l : List Int) (a b : Int),
      List.Chain R a (l ++ [b]) ↔ List.Chain R a l ∧ R (l.getLastD a) b := by
  intro l
  induction l with
  | nil => intro a b; simp
  | cons x l ih =>
    intro a b
    simp only [List.cons_append, List.chain_cons, ih x b, List.getLastD_cons]
    tauto

theorem CompareOperator_loop_run (rel : Int → Int → Bool) (rec : Interp) (scope : Nat)
    (rest : List Ref) :
    ∀ (pre : List Ref) (xs : List Int) (previous : Int) (st st1 : State),
      Eval.each rec scope pre st = .ok (xs.map .number) st1 →
      List.Chain (fun a b => rel a b = true) previous xs →
      CompareOperator.loop rel rec scope (pre ++ rest) previous st =
        CompareOperator.loop rel rec scope rest (xs.getLastD previous) st1 := by
  intro pre
  induction pre with
  | nil =>
    intro xs previous st st1 h _
    simp only [Eval.each, pure_apply, Res.ok.injEq] at h
    cases xs with
    | nil => simp [h.2]
    | cons x xs => simp at h
  | cons a pre ih =>
    intro xs previous st st1 h hchain
    obtain ⟨v, ws, s, ha, hr, hvs⟩ := Eval_each_cons rec scope a pre _ st st1 h
    cases xs with
    | nil => simp at hvs
    | cons x xs =>
      simp only [List.map_cons, List.cons.injEq] at hvs
      obtain ⟨hx, hws⟩ := hvs
      subst hx hws
      rw [List.chain_cons] at hchain
      simp only [List.cons_append, CompareOperator.loop, bind_apply, ha, RequireNumberArgument,
        pure_apply, hchain.1, Bool.not_true, Bool.false_eq_true, if_false, List.getLastD_cons]
      exact ih xs x s st1 hr hchain.2

theorem CompareOperator_Apply_run (rel : Int → Int → Bool) (rec : Interp) (scope : Nat)
    (pre post : List Ref) (e v : Ref) (xs : List Int) (st st1 st2 : State)
    (hpre : Eval.each rec scope pre st = .ok (xs.map .number) st1)
    (hchain : xs.Chain' (fun a b => rel a b = true))
    (he : rec.Eval e scope st1 = .ok v st2) :
    ((∀ x, v ≠ .number x) → (∃ text, Object.Repr st2 v = .ok text) →
      CompareOperator.Apply rel rec (pre ++ e :: post) scope st = .fail .RuntimeError st2) ∧
    (∀ y, v = .number y → ¬ (xs ++ [y]).Chain' (fun a b => rel a b = true) →
      CompareOperator.Apply rel rec (pre ++ e :: post) scope st = .ok kSchemeFalse st2) := by
  have hfail : (∀ x, v ≠ .number x) → (∃ text, Object.Repr st2 v = .ok text) →
      (RequireNumberArgument v st2 : Res Int) = .fail .RuntimeError st2 := by
    intro hv ⟨text, ht⟩
    cases v with
    | number x => exact absurd rfl (hv x)
    | _ => simp [RequireNumberArgument, raiseWithRepr, ht, raise_apply]
  cases pre with
  | nil =>
    simp only [Eval.each, pure_apply, Res.ok.injEq] at hpre
    obtain ⟨hxs, hst⟩ := hpre
    subst hst
    have hx : xs = [] := by
      cases xs with
      | nil => rfl
      | cons x xs => simp at hxs
    subst hx
    constructor
    · intro hv hrepr
      simp [CompareOperator.Apply, bind_apply, subscript_zero, he, hfail hv hrepr]
    · intro y _ hno
      simp at hno
  | cons a pre =>
    obtain ⟨w, ws, s, ha, hr, hvs⟩ := Eval_each_cons rec scope a pre _ st st1 hpre
    cases xs with
    | nil => simp at hvs
    | cons x xs =>
      simp only [List.map_cons, List.cons.injEq] at hvs
      obtain ⟨hx, hws⟩ := hvs
      subst hx hws
      have hloop := CompareOperator_loop_run rel rec scope (e :: post) pre xs x s st1 hr hchain
      constructor
      · intro hv hrepr
        simp only [CompareOperator.Apply, List.cons_append, List.isEmpty_cons,
          Bool.false_eq_true, if_false, bind_apply, subscript_zero, ha, RequireNumberArgument,
          pure_apply, List.drop_succ_cons, List.drop_zero, hloop]
        simp [CompareOperator.loop, bind_apply, he, hfail hv hrepr]
      · intro y hy hno
        subst hy
        have hrel : rel (xs.getLastD x) y = false := by
          have := (chain_append_singleton (fun a b => rel a b = true) xs x y).not.mp hno
          simp only [not_and] at this
          simpa using this hchain
        simp only [CompareOperator.Apply, List.cons_append, List.isEmpty_cons,
          Bool.false_eq_true, if_false, bind_apply, subscript_zero, ha, RequireNumberArgument,
          pure_apply, List.drop_succ_cons, List.drop_zero, hloop]
        simp only [CompareOperator.loop, bind_apply, he, RequireNumberArgument, pure_apply, hrel,
          Bool.not_false, if_true]

/-- C18, as stated, fails: `(< 2 1 (quote a))` returns `#f`.  The loop of the comparison
operators returns at the first adjacent pair that violates the relation; the arguments after it
are neither evaluated nor type-checked, so `(< 2 1 (/ 1 0))` and `(= 1 2 undefined)` return `#f`
too. -/
theorem C18_comparison_counterexample :
    SchemeEngine.outcomes .leftToRight 100
        ["(< 2 1 (quote a))", "(< 2 1 (/ 1 0))", "(= 1 2 undefined)"] =
      [.ok "#f", .ok "#f", .ok "#f"] ∧
    SchemeEngine.outcomes .rightToLeft 100
        ["(< 2 1 (quote a))", "(< 2 1 (/ 1 0))", "(= 1 2 undefined)"] =
      [.ok "#f", .ok "#f", .ok "#f"] := by
  constructor <;> decide!

/-- C18, amended: a call of `<`, `<=`, `>`, `>=` or `=` evaluates and type-checks its arguments
from left to right up to the first adjacent pair that violates the relation.  When the
arguments `pre` before `e` have been evaluated to numbers `xs` with the relation holding between
every two adjacent ones, and `e` evaluates to `v`: if `v` is not a number (and is an object that
can be rendered for the message) the call signals a runtime error; if `v` is a number that
violates the relation with the last of `xs`, the call returns `#f` in the store left by `e`,
whatever arguments `post` follow: they are not evaluated. -/
theorem C18_comparison_type_check (ord : ArgOrder) (rec : Interp) (f : Builtin)
    (rel : Int → Int → Bool)
    (hf : (f = .LessOperator ∧ rel = fun x y => decide (x < y)) ∨
      (f = .LeqOperator ∧ rel = fun x y => decide (x ≤ y)) ∨
      (f = .GreaterOperator ∧ rel = fun x y => decide (x > y)) ∨
      (f = .GeqOperator ∧ rel = fun x y => decide (x ≥ y)) ∨
      (f = .EqualsOperator ∧ rel = fun x y => decide (x = y)))
    (scope : Nat) (pre post : List Ref) (e v : Ref) (xs : List Int) (st st1 st2 : State)
    (hpre : Eval.each rec scope pre st = .ok (xs.map .number) st1)
    (hchain : xs.Chain' (fun a b => rel a b = true))
    (he : rec.Eval e scope st1 = .ok v st2) :
    ((∀ x, v ≠ .number x) → (∃ text, Object.Repr st2 v = .ok text) →
      f.Apply ord rec (pre ++ e :: post) scope st = .fail .RuntimeError st2) ∧
    (∀ y, v = .number y → ¬ (xs ++ [y]).Chain' (fun a b => rel a b = true) →
      f.Apply ord rec (pre ++ e :: post) scope st = .ok kSchemeFalse st2) ∧
    (∀ o : ArgOrder, SchemeEngine.outcomes o 100
        ["(< 1 2 (quote a))", "(< (quote a) 1)", "(< 1 (quote a) 0)", "(= 1 1 car)",
         "(>= 2 1 #t 0)", "(< 2 1 (quote a))", "(<= 1 2 1 (quote a))"] =
      [.error .RuntimeError, .error .RuntimeError, .error .RuntimeError, .error .RuntimeError,
       .error .RuntimeError, .ok "#f", .ok "#f"]) := by
  have h := CompareOperator_Apply_run rel rec scope pre post e v xs st st1 st2 hpre hchain he
  refine ⟨?_, ?_, ?_⟩
  · rcases hf with ⟨h1, h2⟩ | ⟨h1, h2⟩ | ⟨h1, h2⟩ | ⟨h1, h2⟩ | ⟨h1, h2⟩ <;> subst h1 <;>
      subst h2 <;> exact h.1
  · rcases hf with ⟨h1, h2⟩ | ⟨h1, h2⟩ | ⟨h1, h2⟩ | ⟨h1, h2⟩ | ⟨h1, h2⟩ <;> subst h1 <;>
      subst h2 <;> exact h.2
  · intro o
    cases o <;> decide!

/-- C18, witness: `<` applied to `2`, `1` and a third argument: the argument before `1`
evaluates to the number `2`, `1` violates `2 < 1`, and the call returns `#f` without evaluating
the third argument, here a null pointer, which cannot be evaluated. -/
theorem C18_comparison_type_check_witness :
    Eval.each (interp .leftToRight 1) 0 [.number 2] SchemeEngine.initial =
      .ok [.number 2] SchemeEngine.initial ∧
    Builtin.Apply .leftToRight (interp .leftToRight 1) .LessOperator
        [.number 2, .number 1, .null] 0 SchemeEngine.initial =
      .ok kSchemeFalse SchemeEngine.initial :=
  ⟨by decide!,
   (C18_comparison_type_check .leftToRight (interp .leftToRight 1) .LessOperator
    (fun x y => decide (x < y)) (Or.inl ⟨rfl, rfl⟩) 0 [.number 2] [.null] (.number 1) (.number 1)
    [2] SchemeEngine.initial SchemeEngine.initial SchemeEngine.initial (by decide!)
    (by simp) (by decide!)).2.1 1 rfl (by simp)⟩

/-! ## C19: sums -/

theorem PlusOperator_loop_numbers (rec : Interp) (scope : Nat) :
    ∀ (args : List Ref) (xs : List Int) (acc : Int) (st st1 : State),
      Eval.each rec scope args st = .ok (xs.map .number) st1 →
      (∀ i ≤ xs.length, -2147483648 ≤ acc + (xs.take i).sum ∧
        acc + (xs.take i).sum ≤ 2147483647) →
      PlusOperator.loop rec scope args acc st = .ok (acc + xs.sum) st1 := by
  intro args
  induction args with
  | nil =>
    intro xs acc st st1 h _
    simp only [Eval.each, pure_apply, Res.ok.injEq] at h
    cases xs with
    | nil => simp [PlusOperator.loop, pure_apply, h.2]
    | cons x xs => simp at h
  | cons a rest ih =>
    intro xs acc st st1 h hsum
    obtain ⟨v, ws, s, ha, hr, hvs⟩ := Eval_each_cons rec scope a rest _ st st1 h
    cases xs with
    | nil => simp at hvs
    | cons x xs =>
      simp only [List.map_cons, List.cons.injEq] at hvs
      obtain ⟨hx, hws⟩ := hvs
      subst hx hws
      have h1 := hsum 1 (by simp)
      simp only [List.take_succ_cons, List.take_zero, List.sum_cons, List.sum_nil,
        add_zero] at h1
      simp only [PlusOperator.loop, bind_apply, ha, RequireNumberArgument, pure_apply]
      rw [wrap_of_range _ h1.1 h1.2, ih xs (acc + x) s st1 hr, List.sum_cons, add_assoc]
      intro i hi
      have := hsum (i + 1) (by simp; omega)
      simp only [List.take_succ_cons, List.sum_cons] at this
      omega

/-- C19, as stated, fails: `Number` holds an `int`, so `(+ 2147483647 1)` does not print
`2147483648` (the sum wraps around to `-2147483648`), and the literal `2147483648` is not even
read: `std::stoi` throws `std::out_of_range`. -/
theorem C19_sum_counterexample :
    SchemeEngine.outcomes .leftToRight 100 ["(+ 2147483647 1)", "(+ 2147483648 0)"] =
      [.ok "-2147483648", .error .StdOutOfRange] ∧
    SchemeEngine.outcomes .rightToLeft 100 ["(+ 2147483647 1)", "(+ 2147483648 0)"] =
      [.ok "-2147483648", .error .StdOutOfRange] := by
  constructor <;> decide!

/-- C19, amended: when the arguments of `+` evaluate, from left to right, to the numbers
`x1..xn` and every partial sum `x1 + ... + xi` fits in a signed 32-bit integer, `(+ x1 ... xn)`
returns the number `x1 + ... + xn`, in the store left by the last argument; with no argument it
returns `0`.  On a fresh engine `(+)` prints `0`, `(+ 1 2 3)` prints `6` and
`(+ 2147483646 1)` prints `2147483647`. -/
theorem C19_sum_within_int (ord : ArgOrder) (rec : Interp) (scope : Nat) (args : List Ref)
    (xs : List Int) (st st1 : State)
    (hargs : Eval.each rec scope args st = .ok (xs.map .number) st1)
    (hsum : ∀ i ≤ xs.length, -2147483648 ≤ (xs.take i).sum ∧ (xs.take i).sum ≤ 2147483647) :
    Builtin.ApprovesNumberOfArguments .PlusOperator args = true ∧
    Builtin.Apply ord rec .PlusOperator args scope st = .ok (.number xs.sum) st1 ∧
    Builtin.Apply ord rec .PlusOperator [] scope st = .ok (.number 0) st ∧
    (∀ o : ArgOrder, SchemeEngine.outcomes o 100
        ["(+)", "(+ 5)", "(+ 1 2 3)", "(+ 2147483646 1)", "(+ -2147483647 -1)",
         "(+ (+ 1 2) (+ 3 4))"] =
      [.ok "0", .ok "5", .ok "6", .ok "2147483647", .ok "-2147483648", .ok "10"]) := by
  refine ⟨rfl, ?_, rfl, ?_⟩
  · simp only [Builtin.Apply, PlusOperator.Apply, bind_apply]
    rw [PlusOperator_loop_numbers rec scope args xs 0 st st1 hargs (by simpa using hsum)]
    simp [pure_apply]
  · intro o
    cases o <;> decide!

/-- C19, witness: the arguments `1 2 3` evaluate to themselves, the partial sums are `0`, `1`,
`3` and `6`, and the sum is `6`. -/
theorem C19_sum_within_int_witness :
    Eval.each (interp .leftToRight 1) 0 [.number 1, .number 2, .number 3] SchemeEngine.initial =
      .ok [.number 1, .number 2, .number 3] SchemeEngine.initial ∧
    Builtin.Apply .leftToRight (interp .leftToRight 1) .PlusOperator
        [.number 1, .number 2, .number 3] 0 SchemeEngine.initial =
      .ok (.number 6) SchemeEngine.initial :=
  ⟨by decide!,
   (C19_sum_within_int .leftToRight (interp .leftToRight 1) 0 [.number 1, .number 2, .number 3]
    [1, 2, 3] SchemeEngine.initial SchemeEngine.initial (by decide!) (by decide)).2.1⟩

/-! ## C20: arithmetic identities on literals -/

theorem Tokenizer_Next_signed (sign digits : List Char)
    (hsign : sign = [] ∨ sign = ['+'] ∨ sign = ['-'])
    (hne : digits ≠ []) (hdigits : ∀ c ∈ digits, isdigit c = true)
    (hval : digitsValue digits ≤ 2147483647)
    (stop : Char) (hstop : isdigit stop = false) (rest : List Char) (token_ : Token)
    (terminated_ : Bool) :
    Tokenizer.Next ⟨(Literal.text sign digits).data ++ stop :: rest, token_, terminated_⟩ =
      .ok ⟨stop :: rest, .ConstantToken (Literal.value sign digits), terminated_⟩ := by
  cases digits with
  | nil => exact absurd rfl hne
  | cons c cs =>
    have hc := hdigits c (by simp)
    have hread := ReadInt_digits c cs stop rest hdigits hstop hval
    have hc1 : 48 ≤ c.toNat ∧ c.toNat ≤ 57 := by simpa [isdigit] using hc
    rcases hsign with h | h | h <;> subst h
    · rcases isdigit_cases c hc with h | h | h | h | h | h | h | h | h | h <;> subst h <;>
        simp [Literal.text, Literal.value, Tokenizer.Next, List.dropWhile, isgraph,
          Tokenizer.IsSymbolBeginning, isalpha, isdigit, hread]
    · simp [Literal.text, Literal.value, Tokenizer.Next, List.dropWhile, isgraph,
        Tokenizer.IsSymbolBeginning, isalpha, isdigit, hread, hc]
      exact hc1
    · simp [Literal.text, Literal.value, Tokenizer.Next, List.dropWhile, isgraph,
        Tokenizer.IsSymbolBeginning, isalpha, isdigit, hread, hc]
      exact hc1

theorem Literal_value_range (sign digits : List Char) (hval : digitsValue digits ≤ 2147483647) :
    -2147483647 ≤ Literal.value sign digits ∧ Literal.value sign digits ≤ 2147483647 := by
  unfold Literal.value
  split <;> omega

theorem cell_at_append (cells extra : List Cell) (scopes : List Scope)
    (lambdas : List CustomLambdaFunction) (i : Nat) (c : Cell) (h : extra[i]? = some c) :
    (State.mk (cells ++ extra) scopes lambdas).cell (cells.length + i) = c := by
  simp [State.cell, List.getD_eq_getElem?_getD, List.getElem?_append_right, h]

theorem Tokenizer_Next_open (rest : List Char) (token_ : Token) (terminated_ : Bool) :
    Tokenizer.Next ⟨'(' :: rest, token_, terminated_⟩ = .ok ⟨rest, .BracketOpen, terminated_⟩ := by
  simp [Tokenizer.Next, List.dropWhile, isgraph, Tokenizer.IsSymbolBeginning, isalpha, isdigit]

theorem Tokenizer_Next_close (rest : List Char) (token_ : Token) (terminated_ : Bool) :
    Tokenizer.Next ⟨')' :: rest, token_, terminated_⟩ =
      .ok ⟨rest, .BracketClose, terminated_⟩ := by
  simp [Tokenizer.Next, List.dropWhile, isgraph, Tokenizer.IsSymbolBeginning, isalpha, isdigit]

theorem Tokenizer_Next_end (token_ : Token) (terminated_ : Bool) :
    Tokenizer.Next ⟨[], token_, terminated_⟩ = .ok ⟨[], token_, true⟩ := by
  simp [Tokenizer.Next, List.dropWhile]

theorem Tokenizer_Next_abs (rest : List Char) (token_ : Token) (terminated_ : Bool) :
    Tokenizer.Next ⟨'a' :: 'b' :: 's' :: ' ' :: rest, token_, terminated_⟩ =
      .ok ⟨' ' :: rest, .SymbolToken "abs", terminated_⟩ := by
  simp [Tokenizer.Next, List.dropWhile, List.takeWhile, isgraph, Tokenizer.IsSymbolBeginning,
    Tokenizer.IsSymbolCharacter, isalpha, isdigit]

theorem Tokenizer_Next_minus (rest : List Char) (token_ : Token) (terminated_ : Bool) :
    Tokenizer.Next ⟨'-' :: ' ' :: rest, token_, terminated_⟩ =
      .ok ⟨' ' :: rest, .SymbolToken "-", terminated_⟩ := by
  simp [Tokenizer.Next, List.dropWhile, isgraph, Tokenizer.IsSymbolBeginning, isalpha, isdigit]

theorem Tokenizer_Next_plus (rest : List Char) (token_ : Token) (terminated_ : Bool) :
    Tokenizer.Next ⟨'+' :: ' ' :: rest, token_, terminated_⟩ =
      .ok ⟨' ' :: rest, .SymbolToken "+", terminated_⟩ := by
  simp [Tokenizer.Next, List.dropWhile, isgraph, Tokenizer.IsSymbolBeginning, isalpha, isdigit]

theorem Tokenizer_Next_times (rest : List Char) (token_ : Token) (terminated_ : Bool) :
    Tokenizer.Next ⟨'*' :: ' ' :: rest, token_, terminated_⟩ =
      .ok ⟨' ' :: rest, .SymbolToken "*", terminated_⟩ := by
  simp [Tokenizer.Next, List.dropWhile, List.takeWhile, isgraph, Tokenizer.IsSymbolBeginning,
    Tokenizer.IsSymbolCharacter, isalpha, isdigit]

theorem Tokenizer_Next_digit (d : Char) (value : Int)
    (hd : (d = '0' ∧ value = 0) ∨ (d = '1' ∧ value = 1)) (rest : List Char) (token_ : Token)
    (terminated_ : Bool) :
    Tokenizer.Next ⟨d :: ' ' :: rest, token_, terminated_⟩ =
      .ok ⟨' ' :: rest, .ConstantToken value, terminated_⟩ := by
  rcases hd with ⟨rfl, rfl⟩ | ⟨rfl, rfl⟩ <;>
    simp [Tokenizer.Next, List.dropWhile, List.takeWhile, isgraph, Tokenizer.IsSymbolBeginning,
      isalpha, isdigit, Tokenizer.ReadInt, stoi]

theorem Literal.read_abs (sign digits : List Char)
    (hsign : sign = [] ∨ sign = ['+'] ∨ sign = ['-'])
    (hne : digits ≠ []) (hdigits : ∀ c ∈ digits, isdigit c = true)
    (hval : digitsValue digits ≤ 2147483647) (j : Nat) (st : State) :
    Read (j + 5)
        ⟨'a' :: 'b' :: 's' :: ' ' :: ((Literal.text sign digits).data ++ [')']), .BracketOpen,
          false⟩ st =
      .ok (.cell (st.cells.length + 1), ⟨[], .BracketClose, true⟩)
        (State.mk (st.cells ++ [Cell.mk (.number (Literal.value sign digits)) .null,
          Cell.mk (.symbol "abs") (.cell st.cells.length)]) st.scopes st.lambdas) := by
  have hlit := Tokenizer_Next_signed sign digits hsign hne hdigits hval ')' (by decide) []
  simp only [Read, ReadList, Tokenizer.IsEnd, Tokenizer.GetToken, bind_apply, liftExcept,
    Tokenizer_Next_abs, Tokenizer_Next_space, hlit, Tokenizer_Next_close, Tokenizer_Next_end,
    pure_apply, Bool.false_eq_true, if_false, RequireNotEnd, makeCell, String.reduceEq, ne_eq,
    not_true_eq_false, reduceCtorEq, not_false_eq_true, if_true]
  simp

theorem Literal.eval_abs (ord : ArgOrder) (k : Nat) (n : Int)
    (hlo : -2147483647 ≤ n) (hhi : n ≤ 2147483647) (st : State)
    (hhas : Scope.HasVariable st 0 "abs" = true)
    (hget : Scope.GetVariable st 0 "abs" = .builtin .AbsFunction) :
    Eval ord (k + 3) (.cell (st.cells.length + 1)) 0
        (State.mk (st.cells ++ [Cell.mk (.number n) .null,
          Cell.mk (.symbol "abs") (.cell st.cells.length)]) st.scopes st.lambdas) =
      .ok (.number |n|)
        (State.mk (st.cells ++ [Cell.mk (.number n) .null,
          Cell.mk (.symbol "abs") (.cell st.cells.length), Cell.mk .null .null])
          st.scopes st.lambdas) := by
  have hvec := ToVector_of_chain
    (State.mk (st.cells ++ [Cell.mk (.number n) .null,
      Cell.mk (.symbol "abs") (.cell st.cells.length)]) st.scopes st.lambdas)
    (st.cells.length + 1) (.symbol "abs") (.cell st.cells.length) [.number n] .null
    (cell_at_append _ _ _ _ 1 _ rfl) (by simp)
    (Chain.cons (x := .number n) (y := .null)
      (by
        have := cell_at_append st.cells [Cell.mk (.number n) .null,
          Cell.mk (.symbol "abs") (.cell st.cells.length), Cell.mk .null .null] st.scopes
          st.lambdas 0 _ rfl
        simpa using this)
      (Chain.done _ (by simp)))
    (by simp)
  simp only [List.map_cons, List.map_nil, reduceCtorEq, if_false, if_true, List.append_nil,
    List.append_assoc, List.cons_append, List.nil_append] at hvec
  have hfun := EvalSymbol_scopes st (st.cells ++ [Cell.mk (.number n) .null,
      Cell.mk (.symbol "abs") (.cell st.cells.length), Cell.mk .null .null]) st.lambdas "abs" 0 _
    hhas hget
  unfold Eval
  rw [Eval_cell ord (k + 2) _ 0 (by omega),
    EvalInstruction_builtin ord _ _ 0 (.symbol "abs") [.number n] .AbsFunction _ _ _ hvec
      (by rw [Eval_symbol]; exact hfun)]
  have habs : wrap |n| = |n| := wrap_of_range _ (by have := abs_nonneg n; omega)
    (by rw [abs_le]; omega)
  simp [Builtin.ApprovesNumberOfArguments, Builtin.Apply, AbsFunction.Apply, bind_apply,
    subscript_zero, Eval_number, RequireNumberArgument, pure_apply, habs]

theorem Literal.read_negate (sign digits : List Char)
    (hsign : sign = [] ∨ sign = ['+'] ∨ sign = ['-'])
    (hne : digits ≠ []) (hdigits : ∀ c ∈ digits, isdigit c = true)
    (hval : digitsValue digits ≤ 2147483647) (j : Nat) (st : State) :
    Read (j + 8)
        ⟨'-' :: ' ' :: '(' :: '-' :: ' ' :: ((Literal.text sign digits).data ++ [')', ')']),
          .BracketOpen, false⟩ st =
      .ok (.cell (st.cells.length + 3), ⟨[], .BracketClose, true⟩)
        (State.mk (st.cells ++ [Cell.mk (.number (Literal.value sign digits)) .null,
          Cell.mk (.symbol "-") (.cell st.cells.length),
          Cell.mk (.cell (st.cells.length + 1)) .null,
          Cell.mk (.symbol "-") (.cell (st.cells.length + 2))]) st.scopes st.lambdas) := by
  have hlit := Tokenizer_Next_signed sign digits hsign hne hdigits hval ')' (by decide) [')']
  simp only [Read, ReadList, Tokenizer.IsEnd, Tokenizer.GetToken, bind_apply, liftExcept,
    Tokenizer_Next_minus, Tokenizer_Next_open, Tokenizer_Next_space, hlit, Tokenizer_Next_close,
    Tokenizer_Next_end, pure_apply, Bool.false_eq_true, if_false, RequireNotEnd, makeCell,
    String.reduceEq, ne_eq, not_true_eq_false, reduceCtorEq, not_false_eq_true, if_true]
  simp

theorem Literal.read_binary (c d : Char) (name : String) (value : Int)
    (hc : (c = '*' ∧ name = "*") ∨ (c = '+' ∧ name = "+"))
    (hd : (d = '0' ∧ value = 0) ∨ (d = '1' ∧ value = 1))
    (sign digits : List Char)
    (hsign : sign = [] ∨ sign = ['+'] ∨ sign = ['-'])
    (hne : digits ≠ []) (hdigits : ∀ c ∈ digits, isdigit c = true)
    (hval : digitsValue digits ≤ 2147483647) (j : Nat) (st : State) :
    Read (j + 6)
        ⟨c :: ' ' :: d :: ' ' :: ((Literal.text sign digits).data ++ [')']), .BracketOpen,
          false⟩ st =
      .ok (.cell (st.cells.length + 2), ⟨[], .BracketClose, true⟩)
        (State.mk (st.cells ++ [Cell.mk (.number (Literal.value sign digits)) .null,
          Cell.mk (.number value) (.cell st.cells.length),
          Cell.mk (.symbol name) (.cell (st.cells.length + 1))]) st.scopes st.lambdas) := by
  have hlit := Tokenizer_Next_signed sign digits hsign hne hdigits hval ')' (by decide) []
  have hdigit := Tokenizer_Next_digit d value hd
  rcases hc with ⟨rfl, rfl⟩ | ⟨rfl, rfl⟩ <;>
  · simp only [Read, ReadList, Tokenizer.IsEnd, Tokenizer.GetToken, bind_apply, liftExcept,
      Tokenizer_Next_times, Tokenizer_Next_plus, hdigit, Tokenizer_Next_space, hlit,
      Tokenizer_Next_close, Tokenizer_Next_end, pure_apply, Bool.false_eq_true, if_false,
      RequireNotEnd, makeCell, String.reduceEq, ne_eq, not_true_eq_false, reduceCtorEq,
      not_false_eq_true, if_true]
    simp

theorem Literal.eval_negate (ord : ArgOrder) (k : Nat) (n : Int)
    (hlo : -2147483647 ≤ n) (hhi : n ≤ 2147483647) (st : State)
    (hhas : Scope.HasVariable st 0 "-" = true)
    (hget : Scope.GetVariable st 0 "-" = .builtin .MinusOperator) :
    Eval ord (k + 3) (.cell (st.cells.length + 3)) 0
        (State.mk (st.cells ++ [Cell.mk (.number n) .null,
          Cell.mk (.symbol "-") (.cell st.cells.length),
          Cell.mk (.cell (st.cells.length + 1)) .null,
          Cell.mk (.symbol "-") (.cell (st.cells.length + 2))]) st.scopes st.lambdas) =
      .ok (.number n)
        (State.mk (st.cells ++ [Cell.mk (.number n) .null,
          Cell.mk (.symbol "-") (.cell st.cells.length),
          Cell.mk (.cell (st.cells.length + 1)) .null,
          Cell.mk (.symbol "-") (.cell (st.cells.length + 2)), Cell.mk .null .null,
          Cell.mk .null .null]) st.scopes st.lambdas) := by
  have hvec := ToVector_of_chain
    (State.mk (st.cells ++ [Cell.mk (.number n) .null,
      Cell.mk (.symbol "-") (.cell st.cells.length),
      Cell.mk (.cell (st.cells.length + 1)) .null,
      Cell.mk (.symbol "-") (.cell (st.cells.length + 2))]) st.scopes st.lambdas)
    (st.cells.length + 3) (.symbol "-") (.cell (st.cells.length + 2))
    [.cell (st.cells.length + 1)] .null
    (cell_at_append _ _ _ _ 3 _ rfl) (by simp)
    (Chain.cons (x := .cell (st.cells.length + 1)) (y := .null)
      (by
        have := cell_at_append st.cells [Cell.mk (.number n) .null,
          Cell.mk (.symbol "-") (.cell st.cells.length),
          Cell.mk (.cell (st.cells.length + 1)) .null,
          Cell.mk (.symbol "-") (.cell (st.cells.length + 2)), Cell.mk .null .null] st.scopes
          st.lambdas 2 _ rfl
        simpa using this)
      (Chain.done _ (by simp)))
    (by simp)
  simp only [List.map_cons, List.map_nil, reduceCtorEq, if_false, if_true, List.append_nil,
    List.append_assoc, List.cons_append, List.nil_append] at hvec
  have hfun := EvalSymbol_scopes st (st.cells ++ [Cell.mk (.number n) .null,
      Cell.mk (.symbol "-") (.cell st.cells.length),
      Cell.mk (.cell (st.cells.length + 1)) .null,
      Cell.mk (.symbol "-") (.cell (st.cells.length + 2)), Cell.mk .null .null]) st.lambdas "-" 0 _
    hhas hget
  have hvec2 := ToVector_of_chain
    (State.mk (st.cells ++ [Cell.mk (.number n) .null,
      Cell.mk (.symbol "-") (.cell st.cells.length),
      Cell.mk (.cell (st.cells.length + 1)) .null,
      Cell.mk (.symbol "-") (.cell (st.cells.length + 2)), Cell.mk .null .null]) st.scopes
      st.lambdas)
    (st.cells.length + 1) (.symbol "-") (.cell st.cells.length) [.number n] .null
    (cell_at_append _ _ _ _ 1 _ rfl) (by simp)
    (Chain.cons (x := .number n) (y := .null)
      (by
        have := cell_at_append st.cells [Cell.mk (.number n) .null,
          Cell.mk (.symbol "-") (.cell st.cells.length),
          Cell.mk (.cell (st.cells.length + 1)) .null,
          Cell.mk (.symbol "-") (.cell (st.cells.length + 2)), Cell.mk .null .null,
          Cell.mk .null .null] st.scopes st.lambdas 0 _ rfl
        simpa using this)
      (Chain.done _ (by simp)))
    (by simp)
  simp only [List.map_cons, List.map_nil, reduceCtorEq, if_false, if_true, List.append_nil,
    List.append_assoc, List.cons_append, List.nil_append] at hvec2
  have hfun2 := EvalSymbol_scopes st (st.cells ++ [Cell.mk (.number n) .null,
      Cell.mk (.symbol "-") (.cell st.cells.length),
      Cell.mk (.cell (st.cells.length + 1)) .null,
      Cell.mk (.symbol "-") (.cell (st.cells.length + 2)), Cell.mk .null .null,
      Cell.mk .null .null]) st.lambdas "-" 0 _ hhas hget
  have hneg : wrap (-n) = -n := wrap_of_range _ (by omega) (by omega)
  have hneg2 : wrap (- -n) = n := by rw [neg_neg]; exact wrap_of_range _ (by omega) (by omega)
  have hinner : (interp ord (k + 2)).Eval (.cell (st.cells.length + 1)) 0
      (State.mk (st.cells ++ [Cell.mk (.number n) .null,
        Cell.mk (.symbol "-") (.cell st.cells.length),
        Cell.mk (.cell (st.cells.length + 1)) .null,
        Cell.mk (.symbol "-") (.cell (st.cells.length + 2)), Cell.mk .null .null]) st.scopes
        st.lambdas) =
      .ok (.number (-n))
        (State.mk (st.cells ++ [Cell.mk (.number n) .null,
          Cell.mk (.symbol "-") (.cell st.cells.length),
          Cell.mk (.cell (st.cells.length + 1)) .null,
          Cell.mk (.symbol "-") (.cell (st.cells.length + 2)), Cell.mk .null .null,
          Cell.mk .null .null]) st.scopes st.lambdas) := by
    rw [Eval_cell ord (k + 1) _ 0 (by omega),
      EvalInstruction_builtin ord _ _ 0 (.symbol "-") [.number n] .MinusOperator _ _ _ hvec2
        (by rw [Eval_symbol]; exact hfun2)]
    simp [Builtin.ApprovesNumberOfArguments, Builtin.Apply, MinusOperator.Apply, bind_apply,
      subscript_zero, Eval_number, RequireNumberArgument, pure_apply, hneg]
  unfold Eval
  rw [Eval_cell ord (k + 2) _ 0 (by omega),
    EvalInstruction_builtin ord _ _ 0 (.symbol "-") [.cell (st.cells.length + 1)] .MinusOperator
      _ _ _ hvec (by rw [Eval_symbol]; exact hfun)]
  simp only [Builtin.ApprovesNumberOfArguments, Builtin.Apply, MinusOperator.Apply, bind_apply,
    subscript_zero, hinner, RequireNumberArgument, pure_apply, List.drop_succ_cons,
    List.drop_zero, List.isEmpty_nil, if_true, hneg2, List.isEmpty_cons, Bool.not_false]

theorem Literal.eval_binary (ord : ArgOrder) (k : Nat) (name : String) (f : Builtin)
    (value : Int)
    (hf : (name = "*" ∧ f = .MultiplyOperator ∧ value = 1) ∨
      (name = "+" ∧ f = .PlusOperator ∧ value = 0)) (n : Int)
    (hlo : -2147483647 ≤ n) (hhi : n ≤ 2147483647) (st : State)
    (hhas : Scope.HasVariable st 0 name = true)
    (hget : Scope.GetVariable st 0 name = .builtin f) :
    Eval ord (k + 3) (.cell (st.cells.length + 2)) 0
        (State.mk (st.cells ++ [Cell.mk (.number n) .null,
          Cell.mk (.number value) (.cell st.cells.length),
          Cell.mk (.symbol name) (.cell (st.cells.length + 1))]) st.scopes st.lambdas) =
      .ok (.number n)
        (State.mk (st.cells ++ [Cell.mk (.number n) .null,
          Cell.mk (.number value) (.cell st.cells.length),
          Cell.mk (.symbol name) (.cell (st.cells.length + 1)), Cell.mk .null .null])
          st.scopes st.lambdas) := by
  have hvec := ToVector_of_chain
    (State.mk (st.cells ++ [Cell.mk (.number n) .null,
      Cell.mk (.number value) (.cell st.cells.length),
      Cell.mk (.symbol name) (.cell (st.cells.length + 1))]) st.scopes st.lambdas)
    (st.cells.length + 2) (.symbol name) (.cell (st.cells.length + 1))
    [.number value, .number n] .null
    (cell_at_append _ _ _ _ 2 _ rfl) (by simp)
    (Chain.cons (x := .number value) (y := .cell st.cells.length)
      (by
        have := cell_at_append st.cells [Cell.mk (.number n) .null,
          Cell.mk (.number value) (.cell st.cells.length),
          Cell.mk (.symbol name) (.cell (st.cells.length + 1)), Cell.mk .null .null] st.scopes
          st.lambdas 1 _ rfl
        simpa using this)
      (Chain.cons (x := .number n) (y := .null)
        (by
          have := cell_at_append st.cells [Cell.mk (.number n) .null,
            Cell.mk (.number value) (.cell st.cells.length),
            Cell.mk (.symbol name) (.cell (st.cells.length + 1)), Cell.mk .null .null] st.scopes
            st.lambdas 0 _ rfl
          simpa using this)
        (Chain.done _ (by simp))))
    (by simp)
  simp only [List.map_cons, List.map_nil, reduceCtorEq, if_false, if_true, List.append_nil,
    List.append_assoc, List.cons_append, List.nil_append] at hvec
  have hfun := EvalSymbol_scopes st (st.cells ++ [Cell.mk (.number n) .null,
      Cell.mk (.number value) (.cell st.cells.length),
      Cell.mk (.symbol name) (.cell (st.cells.length + 1)), Cell.mk .null .null]) st.lambdas name
    0 _ hhas hget
  have hn : wrap n = n := wrap_of_range _ (by omega) (by omega)
  unfold Eval
  rw [Eval_cell ord (k + 2) _ 0 (by omega),
    EvalInstruction_builtin ord _ _ 0 (.symbol name) [.number value, .number n] f _ _ _ hvec
      (by rw [Eval_symbol]; exact hfun)]
  rcases hf with ⟨_, rfl, rfl⟩ | ⟨_, rfl, rfl⟩
  · have h1 : wrap 1 = 1 := by decide
    simp [Builtin.ApprovesNumberOfArguments, Builtin.Apply, MultiplyOperator.Apply,
      MultiplyOperator.loop, bind_apply, Eval_number, RequireNumberArgument, pure_apply, h1, hn]
  · have h0 : wrap 0 = 0 := by decide
    simp [Builtin.ApprovesNumberOfArguments, Builtin.Apply, PlusOperator.Apply,
      PlusOperator.loop, bind_apply, Eval_number, RequireNumberArgument, pure_apply, h0, hn]

theorem Interpret_number (ord : ArgOrder) (fuel : Nat) (text : String) (st st1 st2 : State)
    (input : List Char) (obj : Ref) (value : Int)
    (hdata : text.data = '(' :: input)
    (hread : Read (2 * text.length + 2) ⟨input, .BracketOpen, false⟩ st =
      .ok (obj, ⟨[], .BracketClose, true⟩) st1)
    (heval : Eval ord fuel obj 0 st1 = .ok (.number value) st2) :
    SchemeEngine.Interpret ord fuel text st = .ok (to_string value) st2 := by
  rw [Interpret_eq]
  simp only [bind_apply, liftExcept, hdata, Tokenizer.new, Tokenizer_Next_open, pure_apply,
    hread, Tokenizer.IsEnd, if_true, heval, print_number]

theorem outcomes_single (ord : ArgOrder) (fuel : Nat) (text out : String) (st1 : State)
    (h : SchemeEngine.Interpret ord fuel text SchemeEngine.initial = .ok out st1) :
    SchemeEngine.outcomes ord fuel [text] = [.ok out] := by
  unfold SchemeEngine.outcomes
  rw [session_cons_ok ord fuel text [] _ st1 out h]
  rfl

theorem initial_names :
    Scope.HasVariable SchemeEngine.initial 0 "abs" = true ∧
    Scope.GetVariable SchemeEngine.initial 0 "abs" = .builtin .AbsFunction ∧
    Scope.HasVariable SchemeEngine.initial 0 "-" = true ∧
    Scope.GetVariable SchemeEngine.initial 0 "-" = .builtin .MinusOperator ∧
    Scope.HasVariable SchemeEngine.initial 0 "*" = true ∧
    Scope.GetVariable SchemeEngine.initial 0 "*" = .builtin .MultiplyOperator ∧
    Scope.HasVariable SchemeEngine.initial 0 "+" = true ∧
    Scope.GetVariable SchemeEngine.initial 0 "+" = .builtin .PlusOperator := by decide!

/-- C20: for every integer literal the reader accepts, that is an optional sign `+` or `-`
followed by a non-empty run of digits whose value is at most `2147483647`, with `n` the value of
the literal: on a fresh engine `(abs n)` prints the absolute value of `n`, and `(- (- n))`,
`(* 1 n)` and `(+ 0 n)` print `n`, for either order of evaluation and every nesting bound of at
least 3. -/
theorem C20_arithmetic_identities (ord : ArgOrder) (k : Nat) (sign digits : List Char)
    (hsign : sign = [] ∨ sign = ['+'] ∨ sign = ['-'])
    (hne : digits ≠ []) (hdigits : ∀ c ∈ digits, isdigit c = true)
    (hval : digitsValue digits ≤ 2147483647) :
    SchemeEngine.outcomes ord (k + 3) ["(abs " ++ Literal.text sign digits ++ ")"] =
      [.ok (to_string |Literal.value sign digits|)] ∧
    SchemeEngine.outcomes ord (k + 3) ["(- (- " ++ Literal.text sign digits ++ "))"] =
      [.ok (to_string (Literal.value sign digits))] ∧
    SchemeEngine.outcomes ord (k + 3) ["(* 1 " ++ Literal.text sign digits ++ ")"] =
      [.ok (to_string (Literal.value sign digits))] ∧
    SchemeEngine.outcomes ord (k + 3) ["(+ 0 " ++ Literal.text sign digits ++ ")"] =
      [.ok (to_string (Literal.value sign digits))] := by
  obtain ⟨ha1, ha2, hm1, hm2, ht1, ht2, hp1, hp2⟩ := initial_names
  obtain ⟨hlo, hhi⟩ := Literal_value_range sign digits hval
  refine ⟨?_, ?_, ?_, ?_⟩
  · have hdata : ("(abs " ++ Literal.text sign digits ++ ")").data =
        '(' :: 'a' :: 'b' :: 's' :: ' ' :: ((Literal.text sign digits).data ++ [')']) := by
      simp [String.data_append]
    obtain ⟨j, hj⟩ : ∃ j, 2 * ("(abs " ++ Literal.text sign digits ++ ")").length + 2 = j + 5 :=
      ⟨2 * ("(abs " ++ Literal.text sign digits ++ ")").length + 2 - 5, by
        rw [String.length, hdata]; simp; omega⟩
    exact outcomes_single ord _ _ _ _
      (Interpret_number ord _ _ _ _ _ _ _ _ hdata
        (by rw [hj]; exact Literal.read_abs sign digits hsign hne hdigits hval j _)
        (Literal.eval_abs ord k _ hlo hhi _ ha1 ha2))
  · have hdata : ("(- (- " ++ Literal.text sign digits ++ "))").data =
        '(' :: '-' :: ' ' :: '(' :: '-' :: ' ' ::
          ((Literal.text sign digits).data ++ [')', ')']) := by
      simp [String.data_append]
    obtain ⟨j, hj⟩ : ∃ j, 2 * ("(- (- " ++ Literal.text sign digits ++ "))").length + 2 =
        j + 8 :=
      ⟨2 * ("(- (- " ++ Literal.text sign digits ++ "))").length + 2 - 8, by
        rw [String.length, hdata]; simp; omega⟩
    exact outcomes_single ord _ _ _ _
      (Interpret_number ord _ _ _ _ _ _ _ _ hdata
        (by rw [hj]; exact Literal.read_negate sign digits hsign hne hdigits hval j _)
        (Literal.eval_negate ord k _ hlo hhi _ hm1 hm2))
  · have hdata : ("(* 1 " ++ Literal.text sign digits ++ ")").data =
        '(' :: '*' :: ' ' :: '1' :: ' ' :: ((Literal.text sign digits).data ++ [')']) := by
      simp [String.data_append]
    obtain ⟨j, hj⟩ : ∃ j, 2 * ("(* 1 " ++ Literal.text sign digits ++ ")").length + 2 = j + 6 :=
      ⟨2 * ("(* 1 " ++ Literal.text sign digits ++ ")").length + 2 - 6, by
        rw [String.length, hdata]; simp; omega⟩
    exact outcomes_single ord _ _ _ _
      (Interpret_number ord _ _ _ _ _ _ _ _ hdata
        (by
          rw [hj]
          exact Literal.read_binary '*' '1' "*" 1 (Or.inl ⟨rfl, rfl⟩) (Or.inr ⟨rfl, rfl⟩) sign
            digits hsign hne hdigits hval j _)
        (Literal.eval_binary ord k "*" .MultiplyOperator 1 (Or.inl ⟨rfl, rfl, rfl⟩) _ hlo hhi _
          ht1 ht2))
  · have hdata : ("(+ 0 " ++ Literal.text sign digits ++ ")").data =
        '(' :: '+' :: ' ' :: '0' :: ' ' :: ((Literal.text sign digits).data ++ [')']) := by
      simp [String.data_append]
    obtain ⟨j, hj⟩ : ∃ j, 2 * ("(+ 0 " ++ Literal.text sign digits ++ ")").length + 2 = j + 6 :=
      ⟨2 * ("(+ 0 " ++ Literal.text sign digits ++ ")").length + 2 - 6, by
        rw [String.length, hdata]; simp; omega⟩
    exact outcomes_single ord _ _ _ _
      (Interpret_number ord _ _ _ _ _ _ _ _ hdata
        (by
          rw [hj]
          exact Literal.read_binary '+' '0' "+" 0 (Or.inr ⟨rfl, rfl⟩) (Or.inl ⟨rfl, rfl⟩) sign
            digits hsign hne hdigits hval j _)
        (Literal.eval_binary ord k "+" .PlusOperator 0 (Or.inr ⟨rfl, rfl, rfl⟩) _ hlo hhi _
          hp1 hp2))

/-- C20, witness: the literal `-42` (sign `-`, digits `4` and `2`, value `-42`). -/
theorem C20_arithmetic_identities_witness :
    SchemeEngine.outcomes .leftToRight 3 ["(abs -42)"] = [.ok "42"] ∧
    SchemeEngine.outcomes .leftToRight 3 ["(- (- -42))"] = [.ok "-42"] ∧
    SchemeEngine.outcomes .leftToRight 3 ["(* 1 -42)"] = [.ok "-42"] ∧
    SchemeEngine.outcomes .leftToRight 3 ["(+ 0 -42)"] = [.ok "-42"] := by
  have h := C20_arithmetic_identities .leftToRight 0 ['-'] ['4', '2'] (by decide) (by decide)
    (by decide) (by decide)
  have ht : Literal.text ['-'] ['4', '2'] = "-42" := by decide
  have hv : Literal.value ['-'] ['4', '2'] = -42 := by decide
  have ha : to_string |(-42 : Int)| = "42" := by decide
  have hs : to_string (-42 : Int) = "-42" := by decide
  rw [ht, hv, ha, hs] at h
  exact h

/-! ## Further facts about frames -/

theorem find_insert_or_assign_other (name other : String) (value : Ref) (h : other ≠ name) :
    ∀ ns : List (String × Ref),
      Scope.find (Scope.insert_or_assign ns name value) other = Scope.find ns other := by
  intro ns
  induction ns with
  | nil => simp [Scope.insert_or_assign, Scope.find, Ne.symm h]
  | cons kv rest ih =>
    obtain ⟨key, old⟩ := kv
    by_cases hk : key = name
    · subst hk
      simp [Scope.insert_or_assign, Scope.find, Ne.symm h]
    · by_cases hko : key = other
      · subst hko
        simp [Scope.insert_or_assign, Scope.find, hk]
      · simp [Scope.insert_or_assign, Scope.find, hk, hko, ih]

/-! ## Signed digit runs -/

theorem takeWhile_digits_tail (cs tail : List Char) (hcs : ∀ d ∈ cs, isdigit d = true)
    (htail : ∀ d rest, tail = d :: rest → isdigit d = false) :
    (cs ++ tail).takeWhile isdigit = cs ∧ (cs ++ tail).dropWhile isdigit = tail := by
  cases tail with
  | nil =>
    simp only [List.append_nil]
    exact ⟨List.takeWhile_eq_self_iff.mpr hcs, List.dropWhile_eq_nil_iff.mpr hcs⟩
  | cons stop rest => exact takeWhile_digits cs stop rest hcs (htail stop rest rfl)

theorem ReadInt_run (c : Char) (cs tail : List Char) (hcs : ∀ d ∈ c :: cs, isdigit d = true)
    (htail : ∀ d rest, tail = d :: rest → isdigit d = false) :
    Tokenizer.ReadInt c (cs ++ tail) =
      if digitsValue (c :: cs) ≤ 2147483647 then .ok ((digitsValue (c :: cs) : Int), tail)
      else .error .StdOutOfRange := by
  have h := takeWhile_digits_tail cs tail (fun d hd => hcs d (by simp [hd])) htail
  unfold Tokenizer.ReadInt stoi
  rw [h.1, h.2]
  simp only [digitsValue]
  by_cases hv : List.foldl (fun acc c => acc * 10 + (c.toNat - 48)) 0 (c :: cs) ≤ 2147483647
  · rw [if_neg (by omega), if_pos hv]
  · rw [if_pos (by omega), if_neg hv]

/-- A digit run, with or without a sign before it, is lexed as one `ConstantToken` up to the
first character that is not a digit, unless `std::stoi` throws. -/
theorem Tokenizer_Next_sign_run (sign digits tail : List Char)
    (hsign : sign = [] ∨ sign = ['+'] ∨ sign = ['-'])
    (hne : digits ≠ []) (hdigits : ∀ c ∈ digits, isdigit c = true)
    (htail : ∀ d rest, tail = d :: rest → isdigit d = false)
    (token_ : Token) (terminated_ : Bool) :
    Tokenizer.Next ⟨(Literal.text sign digits).data ++ tail, token_, terminated_⟩ =
      if digitsValue digits ≤ 2147483647 then
        .ok ⟨tail, .ConstantToken (Literal.value sign digits), terminated_⟩
      else .error .StdOutOfRange := by
  cases digits with
  | nil => exact absurd rfl hne
  | cons c cs =>
    have hc := hdigits c (by simp)
    have hread := ReadInt_run c cs tail hdigits htail
    have hc1 : 48 ≤ c.toNat ∧ c.toNat ≤ 57 := by simpa [isdigit] using hc
    by_cases hv : digitsValue (c :: cs) ≤ 2147483647
    · rw [if_pos hv] at hread
      rw [if_pos hv]
      rcases hsign with h | h | h <;> subst h
      · rcases isdigit_cases c hc with h | h | h | h | h | h | h | h | h | h <;> subst h <;>
          simp [Literal.text, Literal.value, Tokenizer.Next, List.dropWhile, isgraph,
            Tokenizer.IsSymbolBeginning, isalpha, isdigit, hread]
      · simp [Literal.text, Literal.value, Tokenizer.Next, List.dropWhile, isgraph,
          Tokenizer.IsSymbolBeginning, isalpha, isdigit, hread, hc]
        exact hc1
      · simp [Literal.text, Literal.value, Tokenizer.Next, List.dropWhile, isgraph,
          Tokenizer.IsSymbolBeginning, isalpha, isdigit, hread, hc]
        exact hc1
    · rw [if_neg hv] at hread
      rw [if_neg hv]
      rcases hsign with h | h | h <;> subst h
      · rcases isdigit_cases c hc with h | h | h | h | h | h | h | h | h | h <;> subst h <;>
          simp [Literal.text, Tokenizer.Next, List.dropWhile, isgraph,
            Tokenizer.IsSymbolBeginning, isalpha, isdigit, hread]
      · simp [Literal.text, Tokenizer.Next, List.dropWhile, isgraph,
          Tokenizer.IsSymbolBeginning, isalpha, isdigit, hread, hc]
        exact hc1
      · simp [Literal.text, Tokenizer.Next, List.dropWhile, isgraph,
          Tokenizer.IsSymbolBeginning, isalpha, isdigit, hread, hc]
        exact hc1

/-! ## Stores without dangling addresses -/

theorem Closed_cell (st : State) (h : st.Closed = true) (a : Nat) (ha : a < st.cells.length) :
    (st.cell a).first.InStore st = true ∧ (st.cell a).second.InStore st = true := by
  simp only [State.Closed, List.all_eq_true, Bool.and_eq_true] at h
  have hcell : st.cell a = st.cells[a] := by
    simp [State.cell, List.getD_eq_getElem?_getD, List.getElem?_eq_getElem ha]
  have := h st.cells[a] (List.getElem_mem ha)
  rw [hcell]
  constructor
  · cases hf : st.cells[a].first <;> simp_all [Ref.InStore]
  · cases hs : st.cells[a].second <;> simp_all [Ref.InStore]

theorem InStore_cell (st : State) (a : Nat) (h : (Ref.cell a).InStore st = true) :
    a < st.cells.length := by
  simpa [Ref.InStore] using h

theorem Chain_append_closed (st : State) (hclosed : st.Closed = true) (extra : List Cell)
    (scopes1 : List Scope) (lambdas1 : List CustomLambdaFunction) (r : Ref) (heads : List Ref)
    (last : Ref) (hc : Chain st r heads last) (hr : r.InStore st = true) :
    Chain (State.mk (st.cells ++ extra) scopes1 lambdas1) r heads last := by
  induction hc with
  | done last hlast => exact Chain.done last hlast
  | step a heads last _ ih =>
    have ha : a < st.cells.length := InStore_cell st a hr
    have hcell : (State.mk (st.cells ++ extra) scopes1 lambdas1).cell a = st.cell a :=
      cell_append st.cells extra st.scopes scopes1 st.lambdas lambdas1 a ha
    exact Chain.cons (x := (st.cell a).first) (y := (st.cell a).second) hcell
      (ih (Closed_cell st hclosed a ha).2)

theorem Chain_addresses_closed (st : State) (hclosed : st.Closed = true) (r : Ref)
    (heads : List Ref) (last : Ref) (hc : Chain st r heads last) (hr : r.InStore st = true) :
    ∃ addrs : List Nat, addrs.length = heads.length ∧ addrs.Nodup ∧
      (∀ a ∈ addrs, a < st.cells.length) ∧
      (∀ a ∈ addrs, ∃ hs, Chain st (.cell a) hs last ∧ hs.length ≤ heads.length) := by
  induction hc with
  | done last _ => exact ⟨[], rfl, List.nodup_nil, by simp, by simp⟩
  | step a heads last hrest ih =>
    have ha : a < st.cells.length := InStore_cell st a hr
    obtain ⟨addrs, hlen, hnodup, hrange, hsub⟩ := ih (Closed_cell st hclosed a ha).2
    have hfull : Chain st (.cell a) ((st.cell a).first :: heads) last :=
      Chain.step a heads last hrest
    refine ⟨a :: addrs, by simp [hlen], ?_, ?_, ?_⟩
    · rw [List.nodup_cons]
      refine ⟨?_, hnodup⟩
      intro hmem
      obtain ⟨hs, hchain, hle⟩ := hsub a hmem
      have := Chain_deterministic st _ _ _ hfull hs last hchain
      rw [← this] at hle
      simp at hle
    · intro b hb
      rcases List.mem_cons.mp hb with h | h
      · rw [h]; exact ha
      · exact hrange b h
    · intro b hb
      rcases List.mem_cons.mp hb with h | h
      · rw [h]; exact ⟨_, hfull, le_refl _⟩
      · obtain ⟨hs, hchain, hle⟩ := hsub b h
        exact ⟨hs, hchain, by simp; omega⟩

/-- A chain of cells in a store without dangling addresses visits no cell twice, so it is not
longer than the store. -/
theorem Chain_length_le_closed (st : State) (hclosed : st.Closed = true) (r : Ref)
    (heads : List Ref) (last : Ref) (hc : Chain st r heads last) (hr : r.InStore st = true) :
    heads.length ≤ st.cells.length := by
  obtain ⟨addrs, hlen, hnodup, hrange, -⟩ :=
    Chain_addresses_closed st hclosed r heads last hc hr
  rw [← hlen]
  have hsub : addrs.toFinset ⊆ Finset.range st.cells.length := by
    intro a ha
    rw [List.mem_toFinset] at ha
    exact Finset.mem_range.mpr (hrange a ha)
  have := Finset.card_le_card hsub
  rwa [List.toFinset_card_of_nodup hnodup, Finset.card_range] at this

/-- What `Cell::ToVector` returns on a chain of cells: nothing when the first cell has no head;
otherwise the heads, a fresh empty cell standing for each absent one, then the last tail unless
it is a null pointer. -/
theorem ToVector_of_chain_closed (st : State) (hclosed : st.Closed = true) (a : Nat)
    (ha : a < st.cells.length) (heads : List Ref) (last : Ref)
    (hchain : Chain st (.cell a) heads last) :
    ((st.cell a).first = .null → Cell.ToVector a st = .ok [] st) ∧
    ((st.cell a).first ≠ .null →
      Cell.ToVector a st =
        .ok (heads.map (fun h => if h = .null then .cell st.cells.length else h) ++
            (if last = .null then [] else [last]))
          (State.mk (st.cells ++ [Cell.mk .null .null]) st.scopes st.lambdas)) := by
  constructor
  · intro h
    simp [Cell.ToVector, h]
  · intro h
    obtain ⟨rest, hheads, hrest⟩ := Chain_cell_inv st a heads last hchain
    have hlen := Chain_length_le_closed st hclosed _ _ _ hchain (by simp [Ref.InStore, ha])
    have hrest1 := Chain_append_closed st hclosed [Cell.mk .null .null] st.scopes st.lambdas _ _ _
      hrest (Closed_cell st hclosed a ha).2
    have := ToVector_of_chain st a (st.cell a).first (st.cell a).second rest last rfl h hrest1
      (by rw [hheads] at hlen; simp at hlen; omega)
    rw [this, hheads]
    simp [h]

/-! ## Rendering in a store that grows -/

theorem ReprFuel_mono (st : State) : ∀ (fuel : Nat) (v : Ref) (r : String),
    Object.ReprFuel st fuel v = .ok r → Object.ReprFuel st (fuel + 1) v = .ok r := by
  intro fuel
  induction fuel with
  | zero =>
    intro v r h
    cases v with
    | cell a =>
      simp only [Object.ReprFuel] at h ⊢
      by_cases hf : (st.cell a).first = .null
      · simpa [hf] using h
      · simp [hf] at h
    | _ => simp_all [Object.ReprFuel]
  | succ fuel ih =>
    intro v r h
    cases v with
    | cell a =>
      simp only [Object.ReprFuel] at h ⊢
      by_cases hf : (st.cell a).first = .null
      · simpa [hf] using h
      · simp only [hf, if_false] at h ⊢
        cases h1 : Object.ReprFuel st fuel (st.cell a).first with
        | error e => simp [h1] at h
        | ok r1 =>
          rw [ih _ _ h1]
          simp only [h1] at h
          by_cases hs : (st.cell a).second = .null
          · simpa [hs] using h
          · simp only [hs, if_false] at h ⊢
            cases h2 : Object.ReprFuel st fuel (st.cell a).second with
            | error e => simp [h2] at h
            | ok r2 =>
              rw [ih _ _ h2]
              simpa [h2] using h
    | _ => simp_all [Object.ReprFuel]

theorem ReprFuel_mono_le (st : State) (fuel more : Nat) (v : Ref) (r : String)
    (h : Object.ReprFuel st fuel v = .ok r) : Object.ReprFuel st (fuel + more) v = .ok r := by
  induction more with
  | zero => exact h
  | succ more ih => exact ReprFuel_mono st _ v r ih

theorem ReprFuel_append (st : State) (hclosed : st.Closed = true) (extra : List Cell)
    (scopes1 : List Scope) (lambdas1 : List CustomLambdaFunction) :
    ∀ (fuel : Nat) (v : Ref), v.InStore st = true →
      Object.ReprFuel (State.mk (st.cells ++ extra) scopes1 lambdas1) fuel v =
        Object.ReprFuel st fuel v := by
  intro fuel
  induction fuel with
  | zero =>
    intro v hv
    cases v with
    | cell a =>
      have ha := InStore_cell st a hv
      simp only [Object.ReprFuel,
        cell_append st.cells extra st.scopes scopes1 st.lambdas lambdas1 a ha]
    | _ => simp [Object.ReprFuel]
  | succ fuel ih =>
    intro v hv
    cases v with
    | cell a =>
      have ha := InStore_cell st a hv
      have hc := Closed_cell st hclosed a ha
      simp only [Object.ReprFuel,
        cell_append st.cells extra st.scopes scopes1 st.lambdas lambdas1 a ha]
      rw [ih _ hc.1, ih _ hc.2]
    | _ => simp [Object.ReprFuel]

/-- A value that renders in a store without dangling addresses renders the same once cells
have been appended to the store. -/
theorem Repr_append (st : State) (hclosed : st.Closed = true) (extra : List Cell)
    (scopes1 : List Scope) (lambdas1 : List CustomLambdaFunction) (v : Ref) (r : String)
    (hv : v.InStore st = true) (h : Object.Repr st v = .ok r) :
    Object.Repr (State.mk (st.cells ++ extra) scopes1 lambdas1) v = .ok r := by
  unfold Object.Repr at h ⊢
  rw [ReprFuel_append st hclosed extra scopes1 lambdas1 _ v hv]
  simp only [List.length_append]
  exact ReprFuel_mono_le st _ _ v r h

/-! ## C21: integer literals -/

/-- C21, at the failing inputs: `ConstantToken` holds an `int` and `ReadInt` converts the digit
run with `std::stoi`.  The literals `2147483648`, `-2147483648` and `9223372036854775807`, all
within the 64-bit range, produce no token: `std::stoi` throws `std::out_of_range`.  For
`9223372036854775808`, which does not fit 64 bits either, the exception is the same
`std::out_of_range`, not a syntax error, and it leaves `Interpret` as such. -/
theorem C21_integer_literal_counterexample :
    Tokenizer.new "2147483648".data = .error .StdOutOfRange ∧
    Tokenizer.new "-2147483648".data = .error .StdOutOfRange ∧
    Tokenizer.new "9223372036854775807".data = .error .StdOutOfRange ∧
    Tokenizer.new "9223372036854775808".data = .error .StdOutOfRange ∧
    SchemeEngine.outcomes .leftToRight 100 ["2147483648", "9223372036854775808"] =
      [.error .StdOutOfRange, .error .StdOutOfRange] ∧
    SchemeEngine.outcomes .rightToLeft 100 ["2147483648", "9223372036854775808"] =
      [.error .StdOutOfRange, .error .StdOutOfRange] := by
  refine ⟨?_, ?_, ?_, ?_, ?_, ?_⟩ <;> decide!

/-- C21, amended: for every decimal literal, that is an optional sign `+` or `-` and a
non-empty run of digits, followed by the end of the text or by a character that is not a digit,
whose digit run has a value of at most `2147483647`: the tokenizer holds one `ConstantToken`
with the value of the literal and the stream is left at what follows the literal, so that for a
literal alone the next call of `Next` reports the end.  On a fresh engine the literals
`2147483647`, `-2147483647`, `+15` and `007` print as `2147483647`, `-2147483647`, `15`, `7`. -/
theorem C21_integer_literal_within_int (sign digits tail : List Char)
    (hsign : sign = [] ∨ sign = ['+'] ∨ sign = ['-'])
    (hne : digits ≠ []) (hdigits : ∀ c ∈ digits, isdigit c = true)
    (htail : ∀ d rest, tail = d :: rest → isdigit d = false) :
    (digitsValue digits ≤ 2147483647 →
      Tokenizer.new ((Literal.text sign digits).data ++ tail) =
        .ok (Tokenizer.mk tail (.ConstantToken (Literal.value sign digits)) false) ∧
      Tokenizer.Next (Tokenizer.mk [] (.ConstantToken (Literal.value sign digits)) false) =
        .ok (Tokenizer.mk [] (.ConstantToken (Literal.value sign digits)) true)) ∧
    (∀ ord : ArgOrder, SchemeEngine.outcomes ord 100
        ["2147483647", "-2147483647", "+15", "007"] =
      [.ok "2147483647", .ok "-2147483647", .ok "15", .ok "7"]) := by
  have h := Tokenizer_Next_sign_run sign digits tail hsign hne hdigits htail (.ConstantToken 0)
    false
  refine ⟨?_, ?_⟩
  · intro hv
    rw [if_pos hv] at h
    exact ⟨h, Tokenizer_Next_end _ _⟩
  · intro ord
    cases ord <;> decide!

/-- C21, witness: the literal `-42` followed by a closing bracket. -/
theorem C21_integer_literal_within_int_witness :
    Tokenizer.new ((Literal.text ['-'] ['4', '2']).data ++ [')']) =
      .ok (Tokenizer.mk [')'] (.ConstantToken (Literal.value ['-'] ['4', '2'])) false) ∧
    Literal.value ['-'] ['4', '2'] = -42 :=
  ⟨((C21_integer_literal_within_int ['-'] ['4', '2'] [')'] (Or.inr (Or.inr rfl)) (by decide)
      (by decide) (by intro d rest h; cases h; decide)).1 (by decide)).1,
   by decide⟩

/-! ## Steps of `ReadList` -/

theorem ReadList_end (fuel : Nat) (t : Tokenizer) (st : State) (hend : t.IsEnd = true) :
    ReadList (fuel + 1) t st = .fail .SyntaxError st := by
  simp only [ReadList, RequireNotEnd, hend, if_true, bind_apply, raise_apply]

theorem ReadList_close (fuel : Nat) (t t1 : Tokenizer) (st : State) (hend : t.IsEnd = false)
    (htok : t.GetToken = .BracketClose) (hnext : t.Next = .ok t1) :
    ReadList (fuel + 1) t st = .ok (.null, t1) st := by
  simp only [ReadList, RequireNotEnd, hend, Bool.false_eq_true, if_false, bind_apply, pure_apply,
    htok, liftExcept, hnext]

theorem ReadList_dot (fuel : Nat) (t : Tokenizer) (st : State) (hend : t.IsEnd = false)
    (htok : t.GetToken = .DotToken) :
    ReadList (fuel + 1) t st = .fail .SyntaxError st := by
  simp only [ReadList, RequireNotEnd, hend, Bool.false_eq_true, if_false, bind_apply, pure_apply,
    htok, raise_apply]

theorem ReadList_first_fail (fuel : Nat) (t : Tokenizer) (st s : State) (f : Fault)
    (hend : t.IsEnd = false) (h1 : t.GetToken ≠ .BracketClose) (h2 : t.GetToken ≠ .DotToken)
    (hr : Read fuel t st = .fail f s) :
    ReadList (fuel + 1) t st = .fail f s := by
  simp only [ReadList, RequireNotEnd, hend, Bool.false_eq_true, if_false, bind_apply, pure_apply]
  cases htok : t.GetToken <;> simp only [htok, ne_eq, not_true_eq_false] at h1 h2 <;>
    simp only [bind_apply, hr]

theorem ReadList_first_end (fuel : Nat) (t t1 : Tokenizer) (st s1 : State) (first : Ref)
    (hend : t.IsEnd = false) (h1 : t.GetToken ≠ .BracketClose) (h2 : t.GetToken ≠ .DotToken)
    (hr : Read fuel t st = .ok (first, t1) s1) (hend1 : t1.IsEnd = true) :
    ReadList (fuel + 1) t st = .fail .SyntaxError s1 := by
  simp only [ReadList, RequireNotEnd, hend, Bool.false_eq_true, if_false, bind_apply, pure_apply]
  cases htok : t.GetToken <;> simp only [htok, ne_eq, not_true_eq_false] at h1 h2 <;>
    simp only [bind_apply, hr, hend1, if_true, raise_apply]

theorem ReadList_last (fuel : Nat) (t t1 t2 : Tokenizer) (st s1 : State) (first : Ref)
    (hend : t.IsEnd = false) (h1 : t.GetToken ≠ .BracketClose) (h2 : t.GetToken ≠ .DotToken)
    (hr : Read fuel t st = .ok (first, t1) s1) (hend1 : t1.IsEnd = false)
    (htok1 : t1.GetToken = .BracketClose) (hnext1 : t1.Next = .ok t2) :
    ReadList (fuel + 1) t st =
      .ok (.cell s1.cells.length, t2)
        (State.mk (s1.cells ++ [Cell.mk first .null]) s1.scopes s1.lambdas) := by
  simp only [ReadList, RequireNotEnd, hend, Bool.false_eq_true, if_false, bind_apply, pure_apply]
  cases htok : t.GetToken <;> simp only [htok, ne_eq, not_true_eq_false] at h1 h2 <;>
    simp only [bind_apply, pure_apply, hr, hend1, Bool.false_eq_true, if_false, htok1,
      liftExcept, hnext1, makeCell]

theorem ReadList_more_fail (fuel : Nat) (t t1 : Tokenizer) (st s1 s : State) (first : Ref)
    (f : Fault)
    (hend : t.IsEnd = false) (h1 : t.GetToken ≠ .BracketClose) (h2 : t.GetToken ≠ .DotToken)
    (hr : Read fuel t st = .ok (first, t1) s1) (hend1 : t1.IsEnd = false)
    (h3 : t1.GetToken ≠ .BracketClose) (h4 : t1.GetToken ≠ .DotToken)
    (hr2 : ReadList fuel t1 s1 = .fail f s) :
    ReadList (fuel + 1) t st = .fail f s := by
  simp only [ReadList, RequireNotEnd, hend, Bool.false_eq_true, if_false, bind_apply, pure_apply]
  cases htok : t.GetToken <;> simp only [htok, ne_eq, not_true_eq_false] at h1 h2 <;>
    simp only [bind_apply, pure_apply, hr, hend1, Bool.false_eq_true, if_false] <;>
    cases htok1 : t1.GetToken <;> simp only [htok1, ne_eq, not_true_eq_false] at h3 h4 <;>
    simp only [bind_apply, hr2]

theorem ReadList_more (fuel : Nat) (t t1 t3 : Tokenizer) (st s1 s3 : State) (first ro : Ref)
    (hend : t.IsEnd = false) (h1 : t.GetToken ≠ .BracketClose) (h2 : t.GetToken ≠ .DotToken)
    (hr : Read fuel t st = .ok (first, t1) s1) (hend1 : t1.IsEnd = false)
    (h3 : t1.GetToken ≠ .BracketClose) (h4 : t1.GetToken ≠ .DotToken)
    (hr2 : ReadList fuel t1 s1 = .ok (ro, t3) s3) :
    ReadList (fuel + 1) t st =
      .ok (.cell s3.cells.length, t3)
        (State.mk (s3.cells ++ [Cell.mk first ro]) s3.scopes s3.lambdas) := by
  simp only [ReadList, RequireNotEnd, hend, Bool.false_eq_true, if_false, bind_apply, pure_apply]
  cases htok : t.GetToken <;> simp only [htok, ne_eq, not_true_eq_false] at h1 h2 <;>
    simp only [bind_apply, pure_apply, hr, hend1, Bool.false_eq_true, if_false] <;>
    cases htok1 : t1.GetToken <;> simp only [htok1, ne_eq, not_true_eq_false] at h3 h4 <;>
    simp only [bind_apply, pure_apply, hr2, makeCell]

theorem ReadList_dot_fail (fuel : Nat) (t t1 t2 : Tokenizer) (st s1 s : State) (first : Ref)
    (f : Fault)
    (hend : t.IsEnd = false) (h1 : t.GetToken ≠ .BracketClose) (h2 : t.GetToken ≠ .DotToken)
    (hr : Read fuel t st = .ok (first, t1) s1) (hend1 : t1.IsEnd = false)
    (htok1 : t1.GetToken = .DotToken) (hnext1 : t1.Next = .ok t2)
    (hr2 : Read fuel t2 s1 = .fail f s) :
    ReadList (fuel + 1) t st = .fail f s := by
  simp only [ReadList, RequireNotEnd, hend, Bool.false_eq_true, if_false, bind_apply, pure_apply]
  cases htok : t.GetToken <;> simp only [htok, ne_eq, not_true_eq_false] at h1 h2 <;>
    simp only [bind_apply, pure_apply, hr, hend1, Bool.false_eq_true, if_false, htok1,
      liftExcept, hnext1, hr2]

theorem ReadList_dot_open (fuel : Nat) (t t1 t2 t3 : Tokenizer) (st s1 s3 : State)
    (first second : Ref)
    (hend : t.IsEnd = false) (h1 : t.GetToken ≠ .BracketClose) (h2 : t.GetToken ≠ .DotToken)
    (hr : Read fuel t st = .ok (first, t1) s1) (hend1 : t1.IsEnd = false)
    (htok1 : t1.GetToken = .DotToken) (hnext1 : t1.Next = .ok t2)
    (hr2 : Read fuel t2 s1 = .ok (second, t3) s3)
    (h3 : t3.IsEnd = true ∨ t3.GetToken ≠ .BracketClose) :
    ReadList (fuel + 1) t st = .fail .SyntaxError s3 := by
  simp only [ReadList, RequireNotEnd, hend, Bool.false_eq_true, if_false, bind_apply, pure_apply]
  cases htok : t.GetToken <;> simp only [htok, ne_eq, not_true_eq_false] at h1 h2 <;>
    simp only [bind_apply, pure_apply, hr, hend1, Bool.false_eq_true, if_false, htok1,
      liftExcept, hnext1, hr2] <;>
    cases hend3 : t3.IsEnd <;>
    simp only [hend3, Bool.false_eq_true, if_false, if_true, raise_apply, pure_apply,
      false_or, reduceCtorEq] at h3 ⊢ <;>
    simp only [ne_eq, h3, not_false_eq_true, if_true, raise_apply]

theorem ReadList_dotted (fuel : Nat) (t t1 t2 t3 t4 : Tokenizer) (st s1 s3 : State)
    (first second : Ref)
    (hend : t.IsEnd = false) (h1 : t.GetToken ≠ .BracketClose) (h2 : t.GetToken ≠ .DotToken)
    (hr : Read fuel t st = .ok (first, t1) s1) (hend1 : t1.IsEnd = false)
    (htok1 : t1.GetToken = .DotToken) (hnext1 : t1.Next = .ok t2)
    (hr2 : Read fuel t2 s1 = .ok (second, t3) s3) (hend3 : t3.IsEnd = false)
    (htok3 : t3.GetToken = .BracketClose) (hnext3 : t3.Next = .ok t4) :
    ReadList (fuel + 1) t st =
      .ok (.cell s3.cells.length, t4)
        (State.mk (s3.cells ++ [Cell.mk first second]) s3.scopes s3.lambdas) := by
  simp only [ReadList, RequireNotEnd, hend, Bool.false_eq_true, if_false, bind_apply, pure_apply]
  cases htok : t.GetToken <;> simp only [htok, ne_eq, not_true_eq_false] at h1 h2 <;>
    simp only [bind_apply, pure_apply, hr, hend1, Bool.false_eq_true, if_false, htok1,
      liftExcept, hnext1, hr2, hend3, htok3, ne_eq, not_true_eq_false, hnext3, makeCell]

/-! ## The tokens the reader consumes -/

theorem Yields_end (t : Tokenizer) (toks : List Token) (h : t.IsEnd = true)
    (hy : Tokenizer.Yields t toks) : toks = [] := by
  cases hy with
  | done _ _ => rfl
  | next _ t1 rest hne _ _ => rw [h] at hne; cases hne

theorem Yields_not_end (t : Tokenizer) (toks : List Token) (h : t.IsEnd = false)
    (hy : Tokenizer.Yields t toks) :
    ∃ t1 rest, t.Next = .ok t1 ∧ Tokenizer.Yields t1 rest ∧ toks = t.GetToken :: rest := by
  cases hy with
  | done _ he => rw [h] at he; cases he
  | next _ t1 rest _ hnext hrest => exact ⟨t1, rest, hnext, hrest, rfl⟩

theorem neverCloses_skip (d : Nat) (tok : Token) (rest : List Token)
    (h1 : tok ≠ .BracketOpen) (h2 : tok ≠ .BracketClose) :
    Token.neverCloses d (tok :: rest) = Token.neverCloses d rest := by
  cases tok <;> simp_all [Token.neverCloses]

theorem neverCloses_close (d : Nat) (rest : List Token)
    (h : Token.neverCloses d (.BracketClose :: rest) = true) :
    1 ≤ d ∧ Token.neverCloses (d - 1) rest = true := by
  cases d with
  | zero => simp [Token.neverCloses] at h
  | succ d => simpa [Token.neverCloses] using h

theorem Reader_tokens : ∀ fuel : Nat,
    (∀ t toks st, Tokenizer.Yields t toks →
      match Read fuel t st with
      | .ok (_, t1) _ => ∃ toks1, Tokenizer.Yields t1 toks1 ∧ toks1.length ≤ toks.length ∧
          (toks ≠ [] → toks1.length < toks.length) ∧
          ∀ d, Token.neverCloses d toks = true → Token.neverCloses d toks1 = true
      | .fail f _ => 2 * toks.length + 1 ≤ fuel → f = .SyntaxError) ∧
    (∀ t toks st, Tokenizer.Yields t toks →
      match ReadList fuel t st with
      | .ok (_, t1) _ => ∃ toks1, Tokenizer.Yields t1 toks1 ∧ toks1.length < toks.length ∧
          ∀ d, Token.neverCloses d toks = true →
            1 ≤ d ∧ Token.neverCloses (d - 1) toks1 = true
      | .fail f _ => 2 * toks.length + 2 ≤ fuel → f = .SyntaxError) := by
  intro fuel
  induction fuel with
  | zero =>
    constructor
    · intro t toks st _
      simp only [Read, raise_apply]
      intro h; omega
    · intro t toks st _
      simp only [ReadList, raise_apply]
      intro h; omega
  | succ fuel ih =>
    obtain ⟨ihR, ihL⟩ := ih
    constructor
    · intro t toks st hy
      simp only [Read]
      cases hend : t.IsEnd with
      | true =>
        simp only [if_true, pure_apply]
        exact ⟨toks, hy, le_refl _, fun h => absurd (Yields_end t toks hend hy) h, fun d h => h⟩
      | false =>
        obtain ⟨t2, rest, hnext, hy2, rfl⟩ := Yields_not_end t toks hend hy
        simp only [Bool.false_eq_true, if_false, bind_apply, hnext, liftExcept, pure_apply]
        cases htok : t.GetToken with
        | ConstantToken v =>
          simp only [pure_apply]
          exact ⟨rest, hy2, by simp, fun _ => by simp, fun d h => by
            simpa [Token.neverCloses] using h⟩
        | SymbolToken name =>
          simp only []
          split_ifs <;>
          exact ⟨rest, hy2, by simp, fun _ => by simp, fun d h => by
            simpa [Token.neverCloses] using h⟩
        | QuoteToken =>
          simp only [bind_apply]
          have ih2 := ihR t2 rest st hy2
          cases hr : Read fuel t2 st with
          | fail f s =>
            rw [hr] at ih2
            simp only [] at ih2 ⊢
            intro hf
            exact ih2 (by simp at hf; omega)
          | ok p s =>
            obtain ⟨q, t3⟩ := p
            rw [hr] at ih2
            simp only [makeCell, pure_apply] at ih2 ⊢
            obtain ⟨toks1, h1, h2, -, h4⟩ := ih2
            exact ⟨toks1, h1, by simp; omega, fun _ => by simp; omega, fun d h => h4 d (by
              simpa [Token.neverCloses] using h)⟩
        | BracketOpen =>
          simp only []
          have ih2 := ihL t2 rest st hy2
          cases hr : ReadList fuel t2 st with
          | fail f s =>
            rw [hr] at ih2
            simp only [] at ih2 ⊢
            intro hf
            exact ih2 (by simp at hf; omega)
          | ok p s =>
            obtain ⟨q, t3⟩ := p
            rw [hr] at ih2
            simp only [] at ih2 ⊢
            obtain ⟨toks1, h1, h2, h3⟩ := ih2
            exact ⟨toks1, h1, by simp; omega, fun _ => by simp; omega, fun d h => by
              have := h3 (d + 1) (by simpa [Token.neverCloses] using h)
              simpa using this.2⟩
        | BracketClose => simp [raise_apply]
        | DotToken => simp [raise_apply]
        | UnknownToken c => simp [raise_apply]
    · intro t toks st hy
      cases hend : t.IsEnd with
      | true =>
        rw [ReadList_end fuel t st hend]
        simp only [implies_true]
      | false =>
        obtain ⟨t2, rest, hnext, hy2, rfl⟩ := Yields_not_end t toks hend hy
        by_cases hc : t.GetToken = .BracketClose
        · rw [ReadList_close fuel t t2 st hend hc hnext, hc]
          exact ⟨rest, hy2, by simp, fun d h => neverCloses_close d rest h⟩
        by_cases hd : t.GetToken = .DotToken
        · rw [ReadList_dot fuel t st hend hd]
          simp only [implies_true]
        have ih1 := ihR t (t.GetToken :: rest) st hy
        cases hr : Read fuel t st with
        | fail f s =>
          rw [hr] at ih1
          rw [ReadList_first_fail fuel t st s f hend hc hd hr]
          intro hf
          exact ih1 (by simp only [List.length_cons] at hf ⊢; omega)
        | ok p s3 =>
          obtain ⟨first, t3⟩ := p
          rw [hr] at ih1
          obtain ⟨toks3, hy3, -, hlt3, hnc3⟩ := ih1
          have hlt3 := hlt3 (by simp)
          simp only [List.length_cons] at hlt3
          cases hend3 : t3.IsEnd with
          | true =>
            rw [ReadList_first_end fuel t t3 st s3 first hend hc hd hr hend3]
            simp only [implies_true]
          | false =>
            obtain ⟨t4, rest3, hnext3, hy4, rfl⟩ := Yields_not_end t3 toks3 hend3 hy3
            simp only [List.length_cons] at hlt3
            by_cases hc3 : t3.GetToken = .BracketClose
            · rw [ReadList_last fuel t t3 t4 st s3 first hend hc hd hr hend3 hc3 hnext3]
              rw [hc3] at hnc3
              exact ⟨rest3, hy4, by simp only [List.length_cons]; omega,
                fun d h => neverCloses_close d rest3 (hnc3 d h)⟩
            by_cases hd3 : t3.GetToken = .DotToken
            · rw [hd3] at hnc3
              have ih5 := ihR t4 rest3 s3 hy4
              cases hr4 : Read fuel t4 s3 with
              | fail f s =>
                rw [hr4] at ih5
                rw [ReadList_dot_fail fuel t t3 t4 st s3 s first f hend hc hd hr hend3 hd3
                  hnext3 hr4]
                intro hf
                exact ih5 (by simp only [List.length_cons] at hf; omega)
              | ok p s5 =>
                obtain ⟨second, t5⟩ := p
                rw [hr4] at ih5
                obtain ⟨toks5, hy5, hle5, -, hnc5⟩ := ih5
                cases hend5 : t5.IsEnd with
                | true =>
                  rw [ReadList_dot_open fuel t t3 t4 t5 st s3 s5 first second hend hc hd hr
                    hend3 hd3 hnext3 hr4 (Or.inl hend5)]
                  simp only [implies_true]
                | false =>
                  obtain ⟨t6, rest5, hnext5, hy6, rfl⟩ := Yields_not_end t5 toks5 hend5 hy5
                  by_cases hc5 : t5.GetToken = .BracketClose
                  · rw [ReadList_dotted fuel t t3 t4 t5 t6 st s3 s5 first second hend hc hd hr
                      hend3 hd3 hnext3 hr4 hend5 hc5 hnext5]
                    rw [hc5] at hnc5 hle5
                    simp only [List.length_cons] at hle5
                    refine ⟨rest5, hy6, by simp only [List.length_cons]; omega, fun d h => ?_⟩
                    apply neverCloses_close d rest5
                    apply hnc5 d
                    have := hnc3 d h
                    simpa [Token.neverCloses] using this
                  · rw [ReadList_dot_open fuel t t3 t4 t5 st s3 s5 first second hend hc hd hr
                      hend3 hd3 hnext3 hr4 (Or.inr hc5)]
                    simp only [implies_true]
            have ih3 := ihL t3 (t3.GetToken :: rest3) s3 hy3
            cases hr3 : ReadList fuel t3 s3 with
            | fail f s =>
              rw [hr3] at ih3
              rw [ReadList_more_fail fuel t t3 st s3 s first f hend hc hd hr hend3 hc3 hd3 hr3]
              intro hf
              exact ih3 (by simp only [List.length_cons] at hf ⊢; omega)
            | ok p s5 =>
              obtain ⟨restobj, t5⟩ := p
              rw [hr3] at ih3
              rw [ReadList_more fuel t t3 t5 st s3 s5 first restobj hend hc hd hr hend3 hc3 hd3
                hr3]
              obtain ⟨toks5, hy5, hlt5, hnc5⟩ := ih3
              simp only [List.length_cons] at hlt5
              exact ⟨toks5, hy5, by simp only [List.length_cons]; omega,
                fun d h => hnc5 d (hnc3 d h)⟩

theorem ReadInt_rest (c : Char) (rest : List Char) (value : Int) (rest1 : List Char)
    (h : Tokenizer.ReadInt c rest = .ok (value, rest1)) : rest1.length ≤ rest.length := by
  unfold Tokenizer.ReadInt at h
  split at h
  · cases h
  · simp only [Except.ok.injEq, Prod.mk.injEq] at h
    rw [← h.2]
    exact (List.dropWhile_sublist _).length_le

/-- A call of `Next` that does not reach the end of the stream consumes at least one
character. -/
theorem Next_shrinks (t t1 : Tokenizer) (h : t.Next = .ok t1) (hne : t1.terminated_ = false) :
    t1.in_.length < t.in_.length := by
  unfold Tokenizer.Next at h
  have hsub := (List.dropWhile_sublist (fun c => !isgraph c) (l := t.in_)).length_le
  cases hdrop : t.in_.dropWhile (fun c => !isgraph c) with
  | nil =>
    rw [hdrop] at h
    cases h
    cases hne
  | cons symbol rest =>
    rw [hdrop] at h hsub
    simp only [List.length_cons] at hsub
    have hsym : (rest.dropWhile Tokenizer.IsSymbolCharacter).length ≤ rest.length :=
      (List.dropWhile_sublist _).length_le
    have hint : ∀ (c : Char) (cs : List Char) (f : Int → Int),
        (match Tokenizer.ReadInt c cs with
          | .error e => (.error e : Except Fault Tokenizer)
          | .ok (value, rest) => .ok ⟨rest, .ConstantToken (f value), t.terminated_⟩) = .ok t1 →
        t1.in_.length ≤ cs.length := by
      intro c cs f hm
      cases hr : Tokenizer.ReadInt c cs with
      | error e => rw [hr] at hm; cases hm
      | ok p =>
        obtain ⟨value, rest1⟩ := p
        rw [hr] at hm
        cases hm
        exact ReadInt_rest c cs value rest1 hr
    have hsign : ∀ (name : String) (f : Int → Int),
        (match rest with
          | digit :: rest1 =>
            if isdigit digit = true then
              match Tokenizer.ReadInt digit rest1 with
              | .error e => (.error e : Except Fault Tokenizer)
              | .ok (value, rest) => .ok ⟨rest, .ConstantToken (f value), t.terminated_⟩
            else .ok ⟨rest, .SymbolToken name, t.terminated_⟩
          | [] => .ok ⟨rest, .SymbolToken name, t.terminated_⟩) = .ok t1 →
        t1.in_.length ≤ rest.length := by
      intro name f hm
      cases rest with
      | nil => cases hm; exact le_refl _
      | cons digit rest1 =>
        simp only [] at hm
        by_cases hd : isdigit digit = true
        · rw [if_pos hd] at hm
          have := hint digit rest1 f hm
          simp only [List.length_cons]
          omega
        · rw [if_neg hd] at hm
          cases hm
          exact le_refl _
    simp only [] at h
    by_cases h1 : Tokenizer.IsSymbolBeginning symbol = true
    · rw [if_pos h1] at h
      cases h
      simp only []
      omega
    rw [if_neg h1] at h
    by_cases h2 : isdigit symbol = true
    · rw [if_pos h2] at h
      have := hint symbol rest (fun v => v) h
      omega
    rw [if_neg h2] at h
    by_cases h3 : symbol = '('
    · rw [if_pos h3] at h; cases h; simp only []; omega
    rw [if_neg h3] at h
    by_cases h4 : symbol = ')'
    · rw [if_pos h4] at h; cases h; simp only []; omega
    rw [if_neg h4] at h
    by_cases h5 : symbol = Char.ofNat 39
    · rw [if_pos h5] at h; cases h; simp only []; omega
    rw [if_neg h5] at h
    by_cases h6 : symbol = '.'
    · rw [if_pos h6] at h; cases h; simp only []; omega
    rw [if_neg h6] at h
    by_cases h7 : symbol = '+'
    · rw [if_pos h7] at h
      have := hsign "+" (fun v => v) h
      omega
    rw [if_neg h7] at h
    by_cases h8 : symbol = '-'
    · rw [if_pos h8] at h
      have := hsign "-" (fun v => -v) h
      omega
    rw [if_neg h8] at h
    by_cases h9 : symbol = '/'
    · rw [if_pos h9] at h; cases h; simp only []; omega
    rw [if_neg h9] at h
    cases h
    simp only []
    omega

theorem Yields_length (t : Tokenizer) (toks : List Token) (hy : Tokenizer.Yields t toks) :
    toks.length ≤ if t.terminated_ = true then 0 else t.in_.length + 1 := by
  induction hy with
  | done t he =>
    simp only [Tokenizer.IsEnd] at he
    simp [he]
  | next t t1 rest hne hnext _ ih =>
    simp only [Tokenizer.IsEnd] at hne
    simp only [hne, Bool.false_eq_true, if_false, List.length_cons]
    cases h1 : t1.terminated_ with
    | true =>
      simp only [h1, if_true] at ih
      omega
    | false =>
      simp only [h1, Bool.false_eq_true, if_false] at ih
      have := Next_shrinks t t1 hnext h1
      omega

/-- A text has at most as many tokens as characters. -/
theorem Yields_new_length (input : List Char) (t : Tokenizer) (toks : List Token)
    (hnew : Tokenizer.new input = .ok t) (hy : Tokenizer.Yields t toks) :
    toks.length ≤ input.length := by
  have h := Yields_length t toks hy
  cases h1 : t.terminated_ with
  | true =>
    simp only [h1, if_true] at h
    omega
  | false =>
    simp only [h1, Bool.false_eq_true, if_false] at h
    have := Next_shrinks _ t hnew h1
    simp only [] at this
    omega

/-! ## The reader only allocates cells -/

theorem Extends_refl (st : State) : st.Extends st := ⟨rfl, rfl, [], by simp⟩

theorem Extends_trans (st2 st1 st : State) (h2 : st2.Extends st1) (h1 : st1.Extends st) :
    st2.Extends st := by
  obtain ⟨a2, b2, e2, c2⟩ := h2
  obtain ⟨a1, b1, e1, c1⟩ := h1
  exact ⟨a2.trans a1, b2.trans b1, e1 ++ e2, by rw [c2, c1, List.append_assoc]⟩

theorem Extends_pure {α : Type} (a : α) : ∀ st, ((pure a : M α) st).state.Extends st :=
  fun st => Extends_refl st

theorem Extends_raise {α : Type} (f : Fault) (st : State) :
    ((raise f : M α) st).state.Extends st :=
  Extends_refl st

theorem Extends_liftExcept {α : Type} (e : Except Fault α) :
    ∀ st, ((liftExcept e : M α) st).state.Extends st := by
  intro st
  cases e <;> exact Extends_refl st

theorem Extends_makeCell (first second : Ref) :
    ∀ st, ((makeCell first second) st).state.Extends st :=
  fun _ => ⟨rfl, rfl, [⟨first, second⟩], rfl⟩

theorem Extends_RequireNotEnd (t : Tokenizer) : ∀ st, ((RequireNotEnd t) st).state.Extends st := by
  intro st
  unfold RequireNotEnd
  split <;> exact Extends_refl st

theorem Extends_bind {α β : Type} (m : M α) (f : α → M β)
    (hm : ∀ st, (m st).state.Extends st) (hf : ∀ a st, (f a st).state.Extends st) :
    ∀ st, ((m >>= f) st).state.Extends st := by
  intro st
  rw [bind_apply]
  have h1 := hm st
  cases hr : m st with
  | fail e s => rw [hr] at h1; exact h1
  | ok a s =>
    rw [hr] at h1
    exact Extends_trans _ _ _ (hf a s) h1

theorem Reader_frame : ∀ fuel : Nat,
    (∀ t st, (Read fuel t st).state.Extends st) ∧
    (∀ t st, (ReadList fuel t st).state.Extends st) := by
  intro fuel
  induction fuel with
  | zero =>
    constructor
    · intro t st; simp only [Read]; exact Extends_raise _ st
    · intro t st; simp only [ReadList]; exact Extends_raise _ st
  | succ fuel ih =>
    obtain ⟨ihR, ihL⟩ := ih
    constructor
    · intro t st
      simp only [Read]
      split
      · exact Extends_pure _ _
      · apply Extends_bind
        · exact Extends_liftExcept _
        · intro t2 s2
          generalize t.GetToken = tok
          cases tok <;> simp only []
          case ConstantToken => exact Extends_pure _ _
          case SymbolToken =>
            split_ifs <;> exact Extends_pure _ _
          case QuoteToken =>
            apply Extends_bind
            · exact ihR _
            · intro p s3
              apply Extends_bind
              · exact Extends_makeCell _ _
              · intro inner s4
                apply Extends_bind
                · exact Extends_makeCell _ _
                · intro outer s5
                  exact Extends_pure _ _
          case BracketOpen => exact ihL _ _
          all_goals exact Extends_raise _ _
    · intro t st
      simp only [ReadList]
      apply Extends_bind
      · exact Extends_RequireNotEnd _
      · intro _ s1
        generalize t.GetToken = tok
        cases tok <;> simp only []
        case BracketClose =>
          apply Extends_bind
          · exact Extends_liftExcept _
          · intro _ _
            exact Extends_pure _ _
        case DotToken => exact Extends_raise _ _
        all_goals
          apply Extends_bind
          · exact ihR _
          · intro p s2
            apply Extends_bind
            · exact Extends_RequireNotEnd _
            · intro _ s3
              generalize p.2.GetToken = tok3
              cases tok3 <;> simp only []
              case BracketClose =>
                apply Extends_bind
                · exact Extends_liftExcept _
                · intro _ _
                  apply Extends_bind
                  · exact Extends_makeCell _ _
                  · intro _ _
                    exact Extends_pure _ _
              case DotToken =>
                apply Extends_bind
                · exact Extends_liftExcept _
                · intro _ _
                  apply Extends_bind
                  · exact ihR _
                  · intro q _
                    apply Extends_bind
                    · exact Extends_RequireNotEnd _
                    · intro _ _
                      split_ifs
                      · exact Extends_raise _ _
                      · apply Extends_bind
                        · exact Extends_liftExcept _
                        · intro _ _
                          apply Extends_bind
                          · exact Extends_makeCell _ _
                          · intro _ _
                            exact Extends_pure _ _
              all_goals
                apply Extends_bind
                · exact ihL _
                · intro _ _
                  apply Extends_bind
                  · exact Extends_makeCell _ _
                  · intro _ _
                    exact Extends_pure _ _

/-! ## The reader on a well-formed expression -/

theorem Yields_cons (t : Tokenizer) (tok : Token) (rest : List Token)
    (hy : Tokenizer.Yields t (tok :: rest)) :
    t.IsEnd = false ∧ t.GetToken = tok ∧ ∃ t1, t.Next = .ok t1 ∧ Tokenizer.Yields t1 rest := by
  have hend : t.IsEnd = false := by
    cases he : t.IsEnd with
    | false => rfl
    | true => exact absurd (Yields_end t _ he hy) (by simp)
  obtain ⟨t1, rest1, hnext, hy1, heq⟩ := Yields_not_end t _ hend hy
  simp only [List.cons.injEq] at heq
  exact ⟨hend, heq.1.symm, t1, hnext, heq.2 ▸ hy1⟩

theorem Parses_head : ∀ (b : Bool) (e : List Token), Token.Parses b e →
    ∃ tok rest, e = tok :: rest ∧ tok ≠ .DotToken ∧ (b = false → tok ≠ .BracketClose) ∧
      (tok = .BracketClose → rest = []) := by
  intro b e h
  induction h with
  | constant v => exact ⟨_, _, rfl, by simp, by simp, by simp⟩
  | symbol n => exact ⟨_, _, rfl, by simp, by simp, by simp⟩
  | quote e _ _ => exact ⟨_, _, rfl, by simp, by simp, by simp⟩
  | list body _ _ => exact ⟨_, _, rfl, by simp, by simp, by simp⟩
  | close => exact ⟨_, _, rfl, by simp, by simp, by simp⟩
  | cons e rest _ _ ihe _ =>
    obtain ⟨tok, r, rfl, h1, h2, -⟩ := ihe
    exact ⟨tok, r ++ rest, by simp, h1, by simp, fun h => absurd h (h2 rfl)⟩
  | dotted e1 e2 _ _ ih1 _ =>
    obtain ⟨tok, r, rfl, h1, h2, -⟩ := ih1
    exact ⟨tok, r ++ Token.DotToken :: (e2 ++ [Token.BracketClose]), by simp, h1, by simp,
      fun h => absurd h (h2 rfl)⟩

theorem Parses_length : ∀ (b : Bool) (e : List Token), Token.Parses b e → 1 ≤ e.length := by
  intro b e h
  obtain ⟨tok, rest, rfl, -⟩ := Parses_head b e h
  simp

/-- On the tokens of a well-formed expression followed by `more`, the reader returns and leaves
the tokenizer at `more`. -/
theorem Reader_parses : ∀ (b : Bool) (e : List Token), Token.Parses b e →
    ∀ (t : Tokenizer) (more : List Token) (st : State) (fuel : Nat),
      Tokenizer.Yields t (e ++ more) → 2 * e.length ≤ fuel →
      (b = false →
        ∃ obj t1 st1, Read fuel t st = .ok (obj, t1) st1 ∧ Tokenizer.Yields t1 more) ∧
      (b = true →
        ∃ obj t1 st1, ReadList fuel t st = .ok (obj, t1) st1 ∧ Tokenizer.Yields t1 more) := by
  intro b e h
  induction h with
  | constant v =>
    intro t more st fuel hy hfuel
    obtain ⟨f, rfl⟩ : ∃ f, fuel = f + 1 := ⟨fuel - 1, by simp at hfuel; omega⟩
    obtain ⟨hend, htok, t1, hnext, hy1⟩ := Yields_cons t _ _ hy
    refine ⟨fun _ => ⟨.number v, t1, st, ?_, hy1⟩, by simp⟩
    simp [Read, hend, htok, hnext, bind_apply, liftExcept, pure_apply]
  | symbol n =>
    intro t more st fuel hy hfuel
    obtain ⟨f, rfl⟩ : ∃ f, fuel = f + 1 := ⟨fuel - 1, by simp at hfuel; omega⟩
    obtain ⟨hend, htok, t1, hnext, hy1⟩ := Yields_cons t _ _ hy
    refine ⟨fun _ => ?_, by simp⟩
    by_cases h1 : n = "#t"
    · exact ⟨kSchemeTrue, t1, st, by
        simp [Read, hend, htok, hnext, bind_apply, liftExcept, pure_apply, h1], hy1⟩
    · by_cases h2 : n = "#f"
      · exact ⟨kSchemeFalse, t1, st, by
          simp [Read, hend, htok, hnext, bind_apply, liftExcept, pure_apply, h2], hy1⟩
      · exact ⟨.symbol n, t1, st, by
          simp [Read, hend, htok, hnext, bind_apply, liftExcept, pure_apply, h1, h2], hy1⟩
  | quote e _ ih =>
    intro t more st fuel hy hfuel
    obtain ⟨f, rfl⟩ : ∃ f, fuel = f + 1 := ⟨fuel - 1, by simp at hfuel; omega⟩
    obtain ⟨hend, htok, t1, hnext, hy1⟩ := Yields_cons t _ _ hy
    obtain ⟨q, t2, s2, hr, hy2⟩ := (ih t1 more st f hy1 (by simp at hfuel; omega)).1 rfl
    refine ⟨fun _ => ?_, by simp⟩
    simp only [Read, hend, htok, hnext, bind_apply, liftExcept, pure_apply, hr, makeCell,
      Bool.false_eq_true, if_false]
    exact ⟨_, _, _, rfl, hy2⟩
  | list body _ ih =>
    intro t more st fuel hy hfuel
    obtain ⟨f, rfl⟩ : ∃ f, fuel = f + 1 := ⟨fuel - 1, by simp at hfuel; omega⟩
    obtain ⟨hend, htok, t1, hnext, hy1⟩ := Yields_cons t _ _ hy
    obtain ⟨q, t2, s2, hr, hy2⟩ := (ih t1 more st f hy1 (by simp at hfuel; omega)).2 rfl
    refine ⟨fun _ => ⟨q, t2, s2, ?_, hy2⟩, by simp⟩
    simp [Read, hend, htok, hnext, bind_apply, liftExcept, pure_apply, hr]
  | close =>
    intro t more st fuel hy hfuel
    obtain ⟨f, rfl⟩ : ∃ f, fuel = f + 1 := ⟨fuel - 1, by simp at hfuel; omega⟩
    obtain ⟨hend, htok, t1, hnext, hy1⟩ := Yields_cons t _ _ hy
    refine ⟨by simp, fun _ => ⟨.null, t1, st, ?_, hy1⟩⟩
    simp [ReadList, RequireNotEnd, hend, htok, hnext, bind_apply, liftExcept, pure_apply]
  | cons e rest he hrest ihe ihrest =>
    intro t more st fuel hy hfuel
    have hle := Parses_length _ _ he
    have hlr := Parses_length _ _ hrest
    obtain ⟨f, rfl⟩ : ∃ f, fuel = f + 1 := ⟨fuel - 1, by simp at hfuel; omega⟩
    simp only [List.length_append] at hfuel
    rw [List.append_assoc] at hy
    obtain ⟨tok, r, he1, hdot, hclose, -⟩ := Parses_head _ _ he
    have hy0 := hy
    rw [he1] at hy0
    obtain ⟨hend, htok, -, -, -⟩ := Yields_cons t _ _ hy0
    obtain ⟨first, t1, s1, hr, hy1⟩ := (ihe t (rest ++ more) st f hy (by omega)).1 rfl
    obtain ⟨tok2, r2, hrest1, hdot2, -, hlast⟩ := Parses_head _ _ hrest
    have hy1a := hy1
    rw [hrest1] at hy1a
    obtain ⟨hend1, htok1, t2, hnext1, hy2⟩ := Yields_cons t1 _ _ hy1a
    refine ⟨by simp, fun _ => ?_⟩
    by_cases hc : tok2 = .BracketClose
    · have hr2 := hlast hc
      subst hr2
      rw [hc] at htok1
      exact ⟨_, t2, _, ReadList_last f t t1 t2 st s1 first hend (by rw [htok]; exact hclose rfl)
        (by rw [htok]; exact hdot) hr hend1 htok1 hnext1, by simpa using hy2⟩
    · obtain ⟨ro, t3, s3, hr3, hy3⟩ := (ihrest t1 more s1 f hy1 (by omega)).2 rfl
      exact ⟨_, t3, _, ReadList_more f t t1 t3 st s1 s3 first ro hend
        (by rw [htok]; exact hclose rfl) (by rw [htok]; exact hdot) hr hend1
        (by rw [htok1]; exact hc) (by rw [htok1]; exact hdot2) hr3, hy3⟩
  | dotted e1 e2 he1 he2 ih1 ih2 =>
    intro t more st fuel hy hfuel
    have hl1 := Parses_length _ _ he1
    have hl2 := Parses_length _ _ he2
    obtain ⟨f, rfl⟩ : ∃ f, fuel = f + 1 := ⟨fuel - 1, by simp at hfuel; omega⟩
    simp only [List.length_append, List.length_cons, List.length_nil] at hfuel
    have hy0 : Tokenizer.Yields t
        (e1 ++ (Token.DotToken :: (e2 ++ (Token.BracketClose :: more)))) := by
      simpa [List.append_assoc] using hy
    obtain ⟨tok, r, he1a, hdot, hclose, -⟩ := Parses_head _ _ he1
    have hy0a := hy0
    rw [he1a] at hy0a
    obtain ⟨hend, htok, -, -, -⟩ := Yields_cons t _ _ hy0a
    obtain ⟨first, t1, s1, hr, hy1⟩ := (ih1 t _ st f hy0 (by omega)).1 rfl
    obtain ⟨hend1, htok1, t2, hnext1, hy2⟩ := Yields_cons t1 _ _ hy1
    obtain ⟨second, t3, s3, hr2, hy3⟩ := (ih2 t2 _ s1 f hy2 (by omega)).1 rfl
    obtain ⟨hend3, htok3, t4, hnext3, hy4⟩ := Yields_cons t3 _ _ hy3
    exact ⟨by simp, fun _ => ⟨_, t4, _, ReadList_dotted f t t1 t2 t3 t4 st s1 s3 first second
      hend (by rw [htok]; exact hclose rfl) (by rw [htok]; exact hdot) hr hend1 htok1 hnext1
      hr2 hend3 htok3 hnext3, hy4⟩⟩

/-! ## C22: one expression per call -/

/-- C22: let the tokens of `text` be those of one well-formed expression `e` (a number, a
symbol, a quoted expression, or a bracketed list, proper or dotted, of such expressions)
followed by at least one further token.  Then `Interpret`, on every store and for every nesting
bound of the evaluator, signals a syntax error, and the store it leaves is the one it was given
with the cells of the reader appended: every frame, the root frame included, and every lambda
is as before the call.  On a fresh engine `(define x 1) 2` signals a syntax error and leaves `x`
unbound. -/
theorem C22_one_expression_per_call (ord : ArgOrder) (k : Nat) (text : String) (st : State)
    (t : Tokenizer) (e more : List Token)
    (hnew : Tokenizer.new text.data = .ok t)
    (hy : Tokenizer.Yields t (e ++ more))
    (he : Token.Parses false e) (hmore : more ≠ []) :
    (∃ st1, SchemeEngine.Interpret ord k text st = .fail .SyntaxError st1 ∧ st1.Extends st ∧
      ∀ s, st1.scope s = st.scope s) ∧
    (∀ o : ArgOrder, SchemeEngine.outcomes o 100
        ["(define x 1) 2", "x", "1 2", "(car '(1)))"] =
      [.error .SyntaxError, .error .NameError, .error .SyntaxError,
       .error .SyntaxError]) := by
  constructor
  · have hlen := Yields_new_length text.data t (e ++ more) hnew hy
    have htext : text.length = text.data.length := rfl
    obtain ⟨obj, t1, st1, hr, hy1⟩ := (Reader_parses false e he t more st (2 * text.length + 2)
      hy (by simp only [List.length_append] at hlen; omega)).1 rfl
    have hend : t1.IsEnd = false := by
      cases h : t1.IsEnd with
      | false => rfl
      | true => exact absurd (Yields_end t1 more h hy1) hmore
    have hframe := (Reader_frame (2 * text.length + 2)).1 t st
    rw [hr] at hframe
    refine ⟨st1, ?_, hframe, ?_⟩
    · rw [Interpret_eq]
      simp only [bind_apply, liftExcept, hnew, pure_apply, hr, hend, Bool.false_eq_true,
        if_false]
    · intro s
      simp only [State.scope]
      rw [show st1.scopes = st.scopes from hframe.1]
  · intro o
    cases o <;> decide!

/-- C22, witness: the text `(define x 1) 2` holds the tokens of the expression `(define x 1)`
followed by the token `2`. -/
theorem C22_one_expression_per_call_witness :
    Tokenizer.new "(define x 1) 2".data =
      .ok (Tokenizer.mk "define x 1) 2".data .BracketOpen false) ∧
    ∃ st1, SchemeEngine.Interpret .leftToRight 100 "(define x 1) 2" SchemeEngine.initial =
        .fail .SyntaxError st1 ∧ st1.Extends SchemeEngine.initial ∧
      ∀ s, st1.scope s = SchemeEngine.initial.scope s :=
  ⟨by decide,
   (C22_one_expression_per_call .leftToRight 100 "(define x 1) 2" SchemeEngine.initial
    (Tokenizer.mk "define x 1) 2".data .BracketOpen false)
    [.BracketOpen, .SymbolToken "define", .SymbolToken "x", .ConstantToken 1, .BracketClose]
    [.ConstantToken 2] (by decide)
    (Tokenizer.Yields.next _ (Tokenizer.mk " x 1) 2".data (.SymbolToken "define") false) _ rfl
      (by decide)
      (Tokenizer.Yields.next _ (Tokenizer.mk " 1) 2".data (.SymbolToken "x") false) _ rfl
        (by decide)
        (Tokenizer.Yields.next _ (Tokenizer.mk ") 2".data (.ConstantToken 1) false) _ rfl
          (by decide)
          (Tokenizer.Yields.next _ (Tokenizer.mk " 2".data .BracketClose false) _ rfl
            (by decide)
            (Tokenizer.Yields.next _ (Tokenizer.mk [] (.ConstantToken 2) false) _ rfl
              (by decide)
              (Tokenizer.Yields.next _ (Tokenizer.mk [] (.ConstantToken 2) true) _ rfl
                (by decide) (Tokenizer.Yields.done _ rfl)))))))
    (Token.Parses.list _
      (Token.Parses.cons [.SymbolToken "define"] _ (Token.Parses.symbol "define")
        (Token.Parses.cons [.SymbolToken "x"] _ (Token.Parses.symbol "x")
          (Token.Parses.cons [.ConstantToken 1] _ (Token.Parses.constant 1)
            Token.Parses.close))))
    (by simp)).1⟩

/-! ## C23: `SchemeEngine::Init` -/

theorem Builtin.name_injective (f g : Builtin) (h : f.name = g.name) : f = g := by
  have key : ∀ f : Builtin,
      SchemeEngine.functions.find? (fun g => g.name == f.name) = some f := by
    intro f
    cases f <;> decide
  have hf := key f
  rw [h, key g] at hf
  exact (Option.some.inj hf).symm

theorem Builtin.mem_functions (f : Builtin) : f ∈ SchemeEngine.functions := by
  cases f <;> decide

theorem insert_or_assign_of_find (name : String) (value : Ref) :
    ∀ ns : List (String × Ref), Scope.find ns name = some value →
      Scope.insert_or_assign ns name value = ns := by
  intro ns
  induction ns with
  | nil => simp [Scope.find]
  | cons kv rest ih =>
    obtain ⟨key, old⟩ := kv
    intro h
    by_cases hk : key = name
    · simp only [Scope.find, hk, if_true, Option.some.injEq] at h
      simp [Scope.insert_or_assign, hk, h]
    · simp only [Scope.find, hk, if_false] at h
      simp [Scope.insert_or_assign, hk, ih h]

theorem set_getD_self {α : Type} (d : α) : ∀ (l : List α) (i : Nat), l.set i (l.getD i d) = l := by
  intro l
  induction l with
  | nil => intro i; rfl
  | cons x xs ih =>
    intro i
    cases i with
    | zero => rfl
    | succ i =>
      simp only [List.set_cons_succ, List.cons.injEq, true_and]
      exact ih i

theorem assign_of_find (st : State) (s : Nat) (name : String) (value : Ref)
    (h : Scope.find (st.scope s).namespace_ name = some value) : st.assign s name value = st := by
  simp only [State.assign, insert_or_assign_of_find name value _ h]
  have : Scope.mk (st.scope s).parent (st.scope s).namespace_ = st.scopes.getD s ⟨none, []⟩ := rfl
  rw [this, set_getD_self]

theorem assign_out_of_range (st : State) (s : Nat) (name : String) (value : Ref)
    (h : st.scopes.length ≤ s) : st.assign s name value = st := by
  simp only [State.assign]
  rw [List.set_eq_of_length_le h]

theorem PopulateScope_eq (fs : List Builtin) : ∀ st : State,
    SchemeEngine.PopulateScope fs st =
      .ok () (fs.foldl (fun s f => s.assign 0 f.name (.builtin f)) st) := by
  induction fs with
  | nil => intro st; rfl
  | cons f rest ih =>
    intro st
    simp only [SchemeEngine.PopulateScope, SchemeEngine.AddFunctionToScope, Scope.DefineVariable,
      bind_apply, List.foldl_cons]
    exact ih _

theorem populate_frame (fs : List Builtin) : ∀ st : State,
    (fs.foldl (fun s f => s.assign 0 f.name (.builtin f)) st).scopes.length = st.scopes.length ∧
    (fs.foldl (fun s f => s.assign 0 f.name (.builtin f)) st).cells = st.cells ∧
    (fs.foldl (fun s f => s.assign 0 f.name (.builtin f)) st).lambdas = st.lambdas ∧
    ((fs.foldl (fun s f => s.assign 0 f.name (.builtin f)) st).scope 0).parent =
      (st.scope 0).parent ∧
    (∀ s, s ≠ 0 →
      (fs.foldl (fun s f => s.assign 0 f.name (.builtin f)) st).scope s = st.scope s) ∧
    (∀ name, (∀ f ∈ fs, f.name ≠ name) →
      Scope.find ((fs.foldl (fun s f => s.assign 0 f.name (.builtin f)) st).scope 0).namespace_
        name = Scope.find (st.scope 0).namespace_ name) := by
  induction fs with
  | nil => intro st; simp
  | cons f rest ih =>
    intro st
    obtain ⟨h1, h2, h3, h4, h5, h6⟩ := ih (st.assign 0 f.name (.builtin f))
    simp only [List.foldl_cons]
    refine ⟨?_, ?_, ?_, ?_, ?_, ?_⟩
    · rw [h1]; simp [State.assign]
    · rw [h2]; rfl
    · rw [h3]; rfl
    · rw [h4]
      by_cases h0 : 0 < st.scopes.length
      · rw [assign_scope_same st 0 _ _ h0]
      · rw [assign_out_of_range st 0 _ _ (by omega)]
    · intro s hs
      rw [h5 s hs, assign_scope_other st 0 s _ _ hs]
    · intro name hname
      rw [h6 name (fun g hg => hname g (by simp [hg]))]
      by_cases h0 : 0 < st.scopes.length
      · rw [assign_scope_same st 0 _ _ h0]
        exact find_insert_or_assign_other _ _ _ (Ne.symm (hname f (by simp))) _
      · rw [assign_out_of_range st 0 _ _ (by omega)]

theorem populate_find (fs : List Builtin) : ∀ st : State, 0 < st.scopes.length →
    ∀ f ∈ fs,
      Scope.find ((fs.foldl (fun s f => s.assign 0 f.name (.builtin f)) st).scope 0).namespace_
        f.name = some (.builtin f) := by
  induction fs with
  | nil => intro st _ f hf; simp at hf
  | cons g rest ih =>
    intro st h0 f hf
    simp only [List.foldl_cons]
    by_cases hrest : f ∈ rest
    · exact ih _ (by simpa [State.assign] using h0) f hrest
    · have hfg : f = g := by
        rcases List.mem_cons.mp hf with h | h
        · exact h
        · exact absurd h hrest
      subst hfg
      rw [(populate_frame rest (st.assign 0 f.name (.builtin f))).2.2.2.2.2 f.name
        (fun h hh hname => hrest (by rw [← Builtin.name_injective h f hname]; exact hh)),
        assign_scope_same st 0 _ _ h0]
      exact find_insert_or_assign _ _ _

theorem foldl_assign_fixed (fs : List Builtin) (st : State)
    (h : ∀ f ∈ fs, st.assign 0 f.name (.builtin f) = st) :
    fs.foldl (fun s f => s.assign 0 f.name (.builtin f)) st = st := by
  induction fs with
  | nil => rfl
  | cons f rest ih =>
    simp only [List.foldl_cons]
    rw [h f (by simp)]
    exact ih (fun g hg => h g (by simp [hg]))

theorem Repr_builtin (st : State) (f : Builtin) : Object.Repr st (.builtin f) = .ok f.name := by
  unfold Object.Repr
  cases st.cells.length <;> rfl

theorem PopulateScope_twice (fs : List Builtin) (st : State) :
    (SchemeEngine.PopulateScope fs st).state =
      fs.foldl (fun s f => s.assign 0 f.name (.builtin f)) st ∧
    SchemeEngine.PopulateScope fs (SchemeEngine.PopulateScope fs st).state =
      .ok () (SchemeEngine.PopulateScope fs st).state := by
  have hs : (SchemeEngine.PopulateScope fs st).state =
      fs.foldl (fun s f => s.assign 0 f.name (.builtin f)) st := by
    rw [PopulateScope_eq]; rfl
  refine ⟨hs, ?_⟩
  have hfix := foldl_assign_fixed fs (SchemeEngine.PopulateScope fs st).state (by
    intro f hf
    by_cases h0 : 0 < st.scopes.length
    · apply assign_of_find
      rw [hs]
      exact populate_find fs st h0 f hf
    · apply assign_out_of_range
      rw [hs, (populate_frame fs st).1]
      omega)
  rw [PopulateScope_eq fs (SchemeEngine.PopulateScope fs st).state, hfix]

/-- C23: for every store, `Init()` called on the store that `Init()` has left returns and leaves
it exactly as it is.  After `Init()`, if the engine has its root frame, every built-in is bound
in the root frame under the name its `Repr()` returns; a name that is the name of no built-in
is bound in the root frame as it was before, the root frame keeps its parent, and the other
frames, the cells and the lambdas are untouched.  The store of a freshly initialised engine is
left unchanged by another `Init()`. -/
theorem C23_init_idempotent (st : State) :
    SchemeEngine.Init (SchemeEngine.Init st).state = .ok () (SchemeEngine.Init st).state ∧
    (0 < st.scopes.length → ∀ f : Builtin,
      Scope.find ((SchemeEngine.Init st).state.scope 0).namespace_ f.name =
        some (.builtin f) ∧
      Object.Repr (SchemeEngine.Init st).state (.builtin f) = .ok f.name) ∧
    (∀ name, (∀ f : Builtin, f.name ≠ name) →
      Scope.find ((SchemeEngine.Init st).state.scope 0).namespace_ name =
        Scope.find (st.scope 0).namespace_ name) ∧
    ((SchemeEngine.Init st).state.scope 0).parent = (st.scope 0).parent ∧
    (∀ s, s ≠ 0 → (SchemeEngine.Init st).state.scope s = st.scope s) ∧
    (SchemeEngine.Init st).state.cells = st.cells ∧
    (SchemeEngine.Init st).state.lambdas = st.lambdas ∧
    SchemeEngine.Init SchemeEngine.initial = .ok () SchemeEngine.initial := by
  have hstate : (SchemeEngine.Init st).state =
      SchemeEngine.functions.foldl (fun s f => s.assign 0 f.name (.builtin f)) st :=
    (PopulateScope_twice SchemeEngine.functions st).1
  have hfr := populate_frame SchemeEngine.functions st
  refine ⟨(PopulateScope_twice SchemeEngine.functions st).2, ?_, ?_, ?_, ?_, ?_, ?_, ?_⟩
  · intro h0 f
    refine ⟨?_, ?_⟩
    · rw [hstate]
      exact populate_find SchemeEngine.functions st h0 f (Builtin.mem_functions f)
    · exact Repr_builtin _ f
  · intro name hname
    rw [hstate]
    exact hfr.2.2.2.2.2 name (fun f _ => hname f)
  · rw [hstate]; exact hfr.2.2.2.1
  · intro s hs
    rw [hstate]; exact hfr.2.2.2.2.1 s hs
  · rw [hstate]; exact hfr.2.1
  · rw [hstate]; exact hfr.2.2.1
  · exact (PopulateScope_twice SchemeEngine.functions SchemeEngine.new).2

/-- C23, witness: the engine as its constructor leaves it has a root frame, and after `Init()`
the name `car` is bound there to the built-in `car`; the name `x`, which no built-in has, is
unbound as before. -/
theorem C23_init_idempotent_witness :
    0 < SchemeEngine.new.scopes.length ∧
    Scope.find ((SchemeEngine.Init SchemeEngine.new).state.scope 0).namespace_ "car" =
      some (.builtin .CarFunction) ∧
    Scope.find ((SchemeEngine.Init SchemeEngine.new).state.scope 0).namespace_ "x" =
      Scope.find (SchemeEngine.new.scope 0).namespace_ "x" :=
  ⟨by decide,
   ((C23_init_idempotent SchemeEngine.new).2.1 (by decide) .CarFunction).1,
   (C23_init_idempotent SchemeEngine.new).2.2.1 "x" (by intro f; cases f <;> decide)⟩

/-! ## C24: lists that are not closed -/

theorem ReadList_unclosed (t : Tokenizer) (toks : List Token) (fuel : Nat) (st : State)
    (hy : Tokenizer.Yields t toks) (hopen : Token.neverCloses 0 toks = true)
    (hfuel : 2 * toks.length + 2 ≤ fuel) :
    ∃ st1, ReadList fuel t st = .fail .SyntaxError st1 := by
  have h := (Reader_tokens fuel).2 t toks st hy
  cases hr : ReadList fuel t st with
  | ok p s =>
    obtain ⟨obj, t1⟩ := p
    rw [hr] at h
    simp only [] at h
    obtain ⟨toks1, -, -, hd⟩ := h
    have := (hd 0 hopen).1
    omega
  | fail f s =>
    rw [hr] at h
    simp only [] at h
    rw [h hfuel]
    exact ⟨s, rfl⟩

theorem Read_unclosed : ∀ (toks : List Token) (t : Tokenizer) (fuel : Nat) (st : State),
    Tokenizer.Yields t toks → Token.endsInsideList toks = true → 2 * toks.length + 1 ≤ fuel →
    ∃ st1, Read fuel t st = .fail .SyntaxError st1 := by
  intro toks
  induction toks with
  | nil => intro t fuel st _ h; simp [Token.endsInsideList] at h
  | cons tok rest ih =>
    intro t fuel st hy hopen hfuel
    obtain ⟨k, rfl⟩ : ∃ k, fuel = k + 1 := ⟨fuel - 1, by omega⟩
    have hend : t.IsEnd = false := by
      cases he : t.IsEnd with
      | false => rfl
      | true => exact absurd (Yields_end t _ he hy) (by simp)
    obtain ⟨t2, rest2, hnext, hy2, heq⟩ := Yields_not_end t _ hend hy
    simp only [List.cons.injEq] at heq
    obtain ⟨htok, rfl⟩ := heq
    simp only [Read, hend, Bool.false_eq_true, if_false, bind_apply, hnext, liftExcept,
      pure_apply, ← htok]
    cases tok with
    | QuoteToken =>
      obtain ⟨s1, h1⟩ := ih t2 k st hy2 (by simpa [Token.endsInsideList] using hopen)
        (by simp at hfuel; omega)
      simp only [bind_apply, h1]
      exact ⟨s1, rfl⟩
    | BracketOpen =>
      obtain ⟨s1, h1⟩ := ReadList_unclosed t2 rest k st hy2
        (by simpa [Token.endsInsideList] using hopen) (by simp at hfuel; omega)
      simp only [h1]
      exact ⟨s1, rfl⟩
    | _ => simp [Token.endsInsideList] at hopen

/-- C24: let `toks` be the tokens a tokenizer holds from its current token up to the end of
the input.  If no closing bracket among `toks` closes the list that is open when the first of
them is read, `ReadList` signals a syntax error; if `toks` start, after any number of quote
marks, with an opening bracket that no closing bracket among the tokens after it closes, `Read`
signals a syntax error, and so does `Interpret` on a text with these tokens, for every store
and every nesting bound of the evaluator.  None of them returns a value.  On a fresh engine
`(`, `(1 2`, `(1 . 2`, `(a (b)` and `'(1` each signal a syntax error, and the unfinished
`(define x 1` defines nothing. -/
theorem C24_unclosed_list (t : Tokenizer) (toks : List Token) (st : State)
    (hy : Tokenizer.Yields t toks) :
    (Token.neverCloses 0 toks = true → ∀ fuel, 2 * toks.length + 2 ≤ fuel →
      ∃ st1, ReadList fuel t st = .fail .SyntaxError st1) ∧
    (Token.endsInsideList toks = true → ∀ fuel, 2 * toks.length + 1 ≤ fuel →
      ∃ st1, Read fuel t st = .fail .SyntaxError st1) ∧
    (Token.endsInsideList toks = true → ∀ (ord : ArgOrder) (k : Nat) (text : String),
      Tokenizer.new text.data = .ok t →
      ∃ st1, SchemeEngine.Interpret ord k text st = .fail .SyntaxError st1) ∧
    (∀ ord : ArgOrder, SchemeEngine.outcomes ord 100
        ["(", "(1 2", "(1 . 2", "(a (b)", "'(1", "(define x 1", "x"] =
      [.error .SyntaxError, .error .SyntaxError, .error .SyntaxError, .error .SyntaxError,
       .error .SyntaxError, .error .SyntaxError, .error .NameError]) := by
  refine ⟨?_, ?_, ?_, ?_⟩
  · intro hopen fuel hfuel
    exact ReadList_unclosed t toks fuel st hy hopen hfuel
  · intro hopen fuel hfuel
    exact Read_unclosed toks t fuel st hy hopen hfuel
  · intro hopen ord k text hnew
    have hlen := Yields_new_length text.data t toks hnew hy
    obtain ⟨st1, h1⟩ := Read_unclosed toks t (2 * text.length + 2) st hy hopen (by
      have : text.length = text.data.length := rfl
      omega)
    refine ⟨st1, ?_⟩
    rw [Interpret_eq]
    simp only [bind_apply, liftExcept, hnew, pure_apply, h1]
  · intro ord
    cases ord <;> decide!

/-- C24, witness: the text `(1` holds the tokens `(` and `1`; the list opened by the bracket is
not closed, and `Interpret` signals a syntax error. -/
theorem C24_unclosed_list_witness :
    Tokenizer.new "(1".data = .ok (Tokenizer.mk ['1'] .BracketOpen false) ∧
    Token.endsInsideList [.BracketOpen, .ConstantToken 1] = true ∧
    ∃ st1, SchemeEngine.Interpret .leftToRight 100 "(1" SchemeEngine.initial =
      .fail .SyntaxError st1 :=
  ⟨by decide, by decide,
   (C24_unclosed_list (Tokenizer.mk ['1'] .BracketOpen false) [.BracketOpen, .ConstantToken 1]
      SchemeEngine.initial
      (Tokenizer.Yields.next (Tokenizer.mk ['1'] .BracketOpen false)
        (Tokenizer.mk [] (.ConstantToken 1) false) [.ConstantToken 1] rfl (by decide)
        (Tokenizer.Yields.next (Tokenizer.mk [] (.ConstantToken 1) false)
          (Tokenizer.mk [] (.ConstantToken 1) true) [] rfl (by decide)
          (Tokenizer.Yields.done _ rfl)))).2.2.1 (by decide) .leftToRight 100 "(1"
      (by decide)⟩

/-! ## C25: a sign before a digit -/

/-- C25, at the failing inputs: a `-` is one of the characters that continue a symbol
(`IsSymbolCharacter`), so a `-` that directly follows a symbol character is consumed by
`ReadSymbol` and never reaches the sign rule of `Next`: `x-1`, where the `-` is immediately
followed by a digit, is the one symbol `x-1` and not the symbol `x` and the number `-1`, and
`x-y` is the one symbol `x-y`, with no symbol `-` in it.  On a fresh engine
`(define x-1 5)` defines the variable `x-1`. -/
theorem C25_sign_inside_symbol_counterexample :
    Tokenizer.new "x-1".data = .ok (Tokenizer.mk [] (.SymbolToken "x-1") false) ∧
    Tokenizer.new "x-y".data = .ok (Tokenizer.mk [] (.SymbolToken "x-y") false) ∧
    SchemeEngine.outcomes .leftToRight 100 ["(define x-1 5)", "x-1"] = [.ok "()", .ok "5"] ∧
    SchemeEngine.outcomes .rightToLeft 100 ["(define x-1 5)", "x-1"] = [.ok "()", .ok "5"] := by
  refine ⟨?_, ?_, ?_, ?_⟩ <;> decide!

/-- C25, amended: when `Next` meets a `+` or a `-` at the start of a token (at the start of the
text, or after white space, a bracket, a quote mark, a dot, a number, or, for `+`, a symbol):
if a digit follows immediately, the sign and the whole run of digits after it (up to the end of
the text or to the first character that is not a digit) become one `ConstantToken`, positive
for `+` and negative for `-` (for a digit run of value at most `2147483647`, which `std::stoi`
accepts); if the text ends after the sign or a character other than a digit follows, the token
is the symbol `+` or `-` and the stream is left right after the sign.  So `(+1 2)` is read as
the same expression as `(1 2)`, and on a fresh engine it signals a runtime error, as `(-1 2)`
does, while `(+ 1 2)` prints `3`, `(- 1 2)` prints `-1` and `(+ +1 -2)` prints `-1`. -/
theorem C25_sign_at_token_start (c : Char) (hc : c = '+' ∨ c = '-') (stream : List Char)
    (token_ : Token) (terminated_ : Bool) :
    (∀ digits tail, stream = digits ++ tail → digits ≠ [] →
      (∀ d ∈ digits, isdigit d = true) → (∀ d rest, tail = d :: rest → isdigit d = false) →
      digitsValue digits ≤ 2147483647 →
      Tokenizer.Next (Tokenizer.mk (c :: stream) token_ terminated_) =
        .ok (Tokenizer.mk tail
          (.ConstantToken (if c = '-' then -(digitsValue digits : Int) else digitsValue digits))
          terminated_)) ∧
    ((∀ d rest, stream = d :: rest → isdigit d = false) →
      Tokenizer.Next (Tokenizer.mk (c :: stream) token_ terminated_) =
        .ok (Tokenizer.mk stream (.SymbolToken (String.singleton c)) terminated_)) ∧
    Example.read [] "(+1 2)" = Example.read [] "(1 2)" ∧
    (∀ ord : ArgOrder, SchemeEngine.outcomes ord 100
        ["(+1 2)", "(+ 1 2)", "(-1 2)", "(- 1 2)", "(+ +1 -2)", "(1 2)"] =
      [.error .RuntimeError, .ok "3", .error .RuntimeError, .ok "-1", .ok "-1",
       .error .RuntimeError]) := by
  refine ⟨?_, ?_, ?_, ?_⟩
  · intro digits tail hstream hne hdigits htail hval
    subst hstream
    rcases hc with h | h <;> subst h
    · have := Tokenizer_Next_sign_run ['+'] digits tail (Or.inr (Or.inl rfl)) hne hdigits htail
        token_ terminated_
      rw [if_pos hval] at this
      simpa [Literal.text, Literal.value] using this
    · have := Tokenizer_Next_sign_run ['-'] digits tail (Or.inr (Or.inr rfl)) hne hdigits htail
        token_ terminated_
      rw [if_pos hval] at this
      simpa [Literal.text, Literal.value] using this
  · intro hstream
    cases stream with
    | nil =>
      rcases hc with h | h <;> subst h <;>
        simp [Tokenizer.Next, List.dropWhile, isgraph, Tokenizer.IsSymbolBeginning, isalpha,
          isdigit] <;> rfl
    | cons d rest =>
      have hd := hstream d rest rfl
      have hd1 : ¬ (48 ≤ d.toNat ∧ d.toNat ≤ 57) := by simpa [isdigit] using hd
      rcases hc with h | h <;> subst h <;>
        simp [Tokenizer.Next, List.dropWhile, isgraph, Tokenizer.IsSymbolBeginning, isalpha,
          isdigit] <;> rw [if_neg hd1] <;> rfl
  · decide!
  · intro ord
    cases ord <;> decide!

/-- C25, witness: in `-12)` the sign and the two digits are one token, the number `-12`; in
`- 12)` the sign alone is the symbol `-`. -/
theorem C25_sign_at_token_start_witness :
    Tokenizer.Next (Tokenizer.mk ['-', '1', '2', ')'] .BracketOpen false) =
      .ok (Tokenizer.mk [')'] (.ConstantToken (-12)) false) ∧
    Tokenizer.Next (Tokenizer.mk ['-', ' ', '1', '2', ')'] .BracketOpen false) =
      .ok (Tokenizer.mk [' ', '1', '2', ')'] (.SymbolToken "-") false) :=
  ⟨(C25_sign_at_token_start '-' (Or.inr rfl) ['1', '2', ')'] .BracketOpen false).1 ['1', '2']
      [')'] rfl (by decide) (by decide) (by intro d rest h; cases h; decide) (by decide),
   (C25_sign_at_token_start '-' (Or.inr rfl) [' ', '1', '2', ')'] .BracketOpen false).2.1
      (by intro d rest h; cases h; decide)⟩

/-! ## C26: `Cell::ToVector` -/

/-- C26, what the code does and where it leaves the claim: in a store without dangling
addresses, let the cells from `a` on be linked through their tails, with heads `heads`, up to
the first tail `last` that is not a cell.  If the cell `a` has no head, `ToVector` returns the
empty sequence, whatever follows; otherwise it returns the heads in order, a freshly allocated
empty cell in place of each absent head, followed by `last` unless `last` is a null pointer.
An empty cell met on the way is not the end of the list: it counts as one more element.  So the
quoted list `(() 1)`, whose first element is `()`, flattens to no element at all, and the list
`(cons 1 '())`, of one element, flattens to two, the number `1` and an empty cell; while
`(list 1 2)` flattens to its two elements, `(1 2 . 3)` to `1`, `2`, `3`, and `(1 () 2)` to three
elements, the second one an empty cell. -/
theorem C26_flatten_arguments (st : State) (a : Nat) (heads : List Ref) (last : Ref)
    (hclosed : st.Closed = true) (ha : a < st.cells.length)
    (hchain : Chain st (.cell a) heads last) :
    ((st.cell a).first = .null → Cell.ToVector a st = .ok [] st) ∧
    ((st.cell a).first ≠ .null →
      Cell.ToVector a st =
        .ok (heads.map (fun h => if h = .null then .cell st.cells.length else h) ++
            (if last = .null then [] else [last]))
          (State.mk (st.cells ++ [Cell.mk .null .null]) st.scopes st.lambdas)) ∧
    ((Example.value [] "'(() 1)").outcome = .ok (.cell 2) ∧
      (Cell.ToVector 2 (Example.value [] "'(() 1)").state).outcome = .ok []) ∧
    ((Example.value [] "(cons 1 '())").outcome = .ok (.cell 8) ∧
      (Cell.ToVector 8 (Example.value [] "(cons 1 '())").state).outcome =
        .ok [.number 1, .cell 9] ∧
      ((Example.value [] "(cons 1 '())").state.cell 8).second = .cell 7 ∧
      (Example.value [] "(cons 1 '())").state.cell 7 = Cell.mk .null .null) ∧
    ((Example.value [] "(list 1 2)").outcome = .ok (.cell 6) ∧
      (Cell.ToVector 6 (Example.value [] "(list 1 2)").state).outcome =
        .ok [.number 1, .number 2]) ∧
    ((Example.value [] "'(1 2 . 3)").outcome = .ok (.cell 2) ∧
      (Cell.ToVector 2 (Example.value [] "'(1 2 . 3)").state).outcome =
        .ok [.number 1, .number 2, .number 3]) ∧
    ((Example.value [] "'(1 () 2)").outcome = .ok (.cell 3) ∧
      (Cell.ToVector 3 (Example.value [] "'(1 () 2)").state).outcome =
        .ok [.number 1, .cell 7, .number 2]) := by
  have h := ToVector_of_chain_closed st hclosed a ha heads last hchain
  refine ⟨h.1, h.2, ⟨?_, ?_⟩, ⟨?_, ?_, ?_, ?_⟩, ⟨?_, ?_⟩, ⟨?_, ?_⟩, ⟨?_, ?_⟩⟩ <;> decide!

/-- C26, witness: the list `(1 2)` stored in the cells `2` and `1` flattens to `1`, `2`. -/
theorem C26_flatten_arguments_witness :
    (State.mk [Cell.mk .null .null, Cell.mk (.number 2) .null,
      Cell.mk (.number 1) (.cell 1)] [] []).Closed = true ∧
    Cell.ToVector 2 (State.mk [Cell.mk .null .null, Cell.mk (.number 2) .null,
        Cell.mk (.number 1) (.cell 1)] [] []) =
      .ok [.number 1, .number 2]
        (State.mk [Cell.mk .null .null, Cell.mk (.number 2) .null,
          Cell.mk (.number 1) (.cell 1), Cell.mk .null .null] [] []) :=
  ⟨by decide,
   (C26_flatten_arguments (State.mk [Cell.mk .null .null, Cell.mk (.number 2) .null,
      Cell.mk (.number 1) (.cell 1)] [] []) 2 [.number 1, .number 2] .null (by decide)
      (by decide)
      (Chain.cons (x := .number 1) (y := .cell 1) rfl
        (Chain.cons (x := .number 2) (y := .null) rfl (Chain.done .null (by simp))))).2.1
      (by decide)⟩

/-! ## C27: `car` and `cdr` of a `cons` -/

theorem ConsFunction_Apply_values (ord : ArgOrder) (rec : Interp) (scope : Nat) (a b va vb : Ref)
    (st4 st5 st6 : State)
    (hargs : (ord = .leftToRight ∧ rec.Eval a scope st4 = .ok va st5 ∧
        rec.Eval b scope st5 = .ok vb st6) ∨
      (ord = .rightToLeft ∧ rec.Eval b scope st4 = .ok vb st5 ∧
        rec.Eval a scope st5 = .ok va st6)) :
    ConsFunction.Apply ord rec [a, b] scope st4 =
      .ok (.cell st6.cells.length)
        (State.mk (st6.cells ++ [Cell.mk va vb]) st6.scopes st6.lambdas) := by
  rcases hargs with ⟨ho, h1, h2⟩ | ⟨ho, h1, h2⟩ <;> subst ho <;>
    simp [ConsFunction.Apply, bind_apply, subscript, pure_apply, h1, h2, makeCell]

/-- C27: in a combination `(car (cons a b))` or `(cdr (cons a b))` (the flattened outer
expression is `[head, inner]` with `head` evaluating to the built-in `car` or `cdr`, the
flattened inner expression is `[head2, a, b]` with `head2` evaluating to the built-in `cons`),
when `a` and `b` evaluate without error to the objects `va` and `vb`, in the order the compiler
chose for the two arguments of the `Cell` constructor: `(car (cons a b))` returns `va` itself
and `(cdr (cons a b))` returns `vb` itself, in the store left by the two evaluations with the
new pair appended.  In a store without dangling addresses a value that rendered as `r` before
the pair was allocated renders as `r` in the final store, so the results print as `va` and `vb`
do.  On a fresh engine `(cdr (cons 1 '()))` and `(car (cons '() 1))` print `()`. -/
theorem C27_car_cdr_invert_cons (ord : ArgOrder) (k scope outer inner : Nat)
    (head head2 a b va vb : Ref) (f : Builtin) (st st1 st2 st3 st4 st5 st6 : State)
    (hvec : Cell.ToVector outer st = .ok [head, .cell inner] st1)
    (hfun : (interp ord (k + 1)).Eval head scope st1 = .ok (.builtin f) st2)
    (hinner : inner ≠ 0)
    (hvec2 : Cell.ToVector inner st2 = .ok [head2, a, b] st3)
    (hfun2 : (interp ord k).Eval head2 scope st3 = .ok (.builtin .ConsFunction) st4)
    (hargs : (ord = .leftToRight ∧ (interp ord k).Eval a scope st4 = .ok va st5 ∧
        (interp ord k).Eval b scope st5 = .ok vb st6) ∨
      (ord = .rightToLeft ∧ (interp ord k).Eval b scope st4 = .ok vb st5 ∧
        (interp ord k).Eval a scope st5 = .ok va st6))
    (hva : va ≠ .null) (hvb : vb ≠ .null) :
    (f = .CarFunction →
      EvalInstruction ord (interp ord (k + 1)) outer scope st =
        .ok va (State.mk (st6.cells ++ [Cell.mk va vb]) st6.scopes st6.lambdas)) ∧
    (f = .CdrFunction →
      EvalInstruction ord (interp ord (k + 1)) outer scope st =
        .ok vb (State.mk (st6.cells ++ [Cell.mk va vb]) st6.scopes st6.lambdas)) ∧
    (st6.Closed = true → ∀ v r, (v = va ∨ v = vb) → v.InStore st6 = true →
      Object.Repr st6 v = .ok r →
      Object.Repr (State.mk (st6.cells ++ [Cell.mk va vb]) st6.scopes st6.lambdas) v = .ok r) ∧
    (∀ o : ArgOrder, SchemeEngine.outcomes o 100
        ["(car (cons 1 2))", "(cdr (cons 1 2))", "(cdr (cons 1 '()))", "(car (cons '() 1))",
         "(car (cons (cons 1 2) 3))"] =
      [.ok "1", .ok "2", .ok "()", .ok "()", .ok "(1 . 2)"]) := by
  have hcons := ConsFunction_Apply_values ord (interp ord k) scope a b va vb st4 st5 st6 hargs
  have hinnerEval : (interp ord (k + 1)).Eval (.cell inner) scope st2 =
      .ok (.cell st6.cells.length)
        (State.mk (st6.cells ++ [Cell.mk va vb]) st6.scopes st6.lambdas) := by
    rw [Eval_cell ord k inner scope hinner,
      EvalInstruction_builtin ord (interp ord k) inner scope head2 [a, b] .ConsFunction st2 st3
        st4 hvec2 hfun2]
    simpa [Builtin.ApprovesNumberOfArguments, Builtin.Apply] using hcons
  have hcell : (State.mk (st6.cells ++ [Cell.mk va vb]) st6.scopes st6.lambdas).cell
      st6.cells.length = Cell.mk va vb := by
    have := cell_at_append st6.cells [Cell.mk va vb] st6.scopes st6.lambdas 0 _ rfl
    simpa using this
  have hEI := EvalInstruction_builtin ord (interp ord (k + 1)) outer scope head [.cell inner] f
    st st1 st2 hvec hfun
  refine ⟨?_, ?_, ?_, ?_⟩
  · intro hf
    subst hf
    rw [hEI]
    simp [Builtin.ApprovesNumberOfArguments, Builtin.Apply, CarFunction.Apply, bind_apply,
      subscript_zero, hinnerEval, RequirePairArgument, pure_apply, getState_apply, hcell, hva]
  · intro hf
    subst hf
    rw [hEI]
    simp [Builtin.ApprovesNumberOfArguments, Builtin.Apply, CdrFunction.Apply, bind_apply,
      subscript_zero, hinnerEval, RequirePairArgument, pure_apply, getState_apply, hcell, hva,
      hvb]
  · intro hclosed v r _ hv hr
    exact Repr_append st6 hclosed [Cell.mk va vb] st6.scopes st6.lambdas v r hv hr
  · intro o
    cases o <;> decide!

/-- C27, witness: `(car (cons 1 2))`, stored at cell `5` with the inner combination at cell
`3`, in a root frame that binds `car` and `cons`, returns the number `1`; the store left has the
two cells of the flattenings and the new pair appended. -/
theorem C27_car_cdr_invert_cons_witness :
    Cell.ToVector 5
        (State.mk
      [Cell.mk .null .null, Cell.mk (.number 2) .null, Cell.mk (.number 1) (.cell 1),
        Cell.mk (.symbol "cons") (.cell 2), Cell.mk (.cell 3) .null,
        Cell.mk (.symbol "car") (.cell 4)]
      [Scope.mk none [("car", .builtin .CarFunction), ("cons", .builtin .ConsFunction)]] []) =
      .ok [.symbol "car", .cell 3]
        (State.mk
      [Cell.mk .null .null, Cell.mk (.number 2) .null, Cell.mk (.number 1) (.cell 1),
        Cell.mk (.symbol "cons") (.cell 2), Cell.mk (.cell 3) .null,
        Cell.mk (.symbol "car") (.cell 4), Cell.mk .null .null]
      [Scope.mk none [("car", .builtin .CarFunction), ("cons", .builtin .ConsFunction)]] []) ∧
    EvalInstruction .leftToRight (interp .leftToRight 2) 5 0
        (State.mk
      [Cell.mk .null .null, Cell.mk (.number 2) .null, Cell.mk (.number 1) (.cell 1),
        Cell.mk (.symbol "cons") (.cell 2), Cell.mk (.cell 3) .null,
        Cell.mk (.symbol "car") (.cell 4)]
      [Scope.mk none [("car", .builtin .CarFunction), ("cons", .builtin .ConsFunction)]] []) =
      .ok (.number 1)
        (State.mk
      [Cell.mk .null .null, Cell.mk (.number 2) .null, Cell.mk (.number 1) (.cell 1),
        Cell.mk (.symbol "cons") (.cell 2), Cell.mk (.cell 3) .null,
        Cell.mk (.symbol "car") (.cell 4),
        Cell.mk .null .null, Cell.mk .null .null, Cell.mk (.number 1) (.number 2)]
      [Scope.mk none [("car", .builtin .CarFunction), ("cons", .builtin .ConsFunction)]] []) :=
  ⟨by decide,
   (C27_car_cdr_invert_cons .leftToRight 1 0 5 3 (.symbol "car") (.symbol "cons") (.number 1)
    (.number 2) (.number 1) (.number 2) .CarFunction
    (State.mk
      [Cell.mk .null .null, Cell.mk (.number 2) .null, Cell.mk (.number 1) (.cell 1),
        Cell.mk (.symbol "cons") (.cell 2), Cell.mk (.cell 3) .null,
        Cell.mk (.symbol "car") (.cell 4)]
      [Scope.mk none [("car", .builtin .CarFunction), ("cons", .builtin .ConsFunction)]] [])
    (State.mk
      [Cell.mk .null .null, Cell.mk (.number 2) .null, Cell.mk (.number 1) (.cell 1),
        Cell.mk (.symbol "cons") (.cell 2), Cell.mk (.cell 3) .null,
        Cell.mk (.symbol "car") (.cell 4), Cell.mk .null .null]
      [Scope.mk none [("car", .builtin .CarFunction), ("cons", .builtin .ConsFunction)]] [])
    (State.mk
      [Cell.mk .null .null, Cell.mk (.number 2) .null, Cell.mk (.number 1) (.cell 1),
        Cell.mk (.symbol "cons") (.cell 2), Cell.mk (.cell 3) .null,
        Cell.mk (.symbol "car") (.cell 4), Cell.mk .null .null]
      [Scope.mk none [("car", .builtin .CarFunction), ("cons", .builtin .ConsFunction)]] [])
    (State.mk
      [Cell.mk .null .null, Cell.mk (.number 2) .null, Cell.mk (.number 1) (.cell 1),
        Cell.mk (.symbol "cons") (.cell 2), Cell.mk (.cell 3) .null,
        Cell.mk (.symbol "car") (.cell 4),
        Cell.mk .null .null, Cell.mk .null .null]
      [Scope.mk none [("car", .builtin .CarFunction), ("cons", .builtin .ConsFunction)]] [])
    (State.mk
      [Cell.mk .null .null, Cell.mk (.number 2) .null, Cell.mk (.number 1) (.cell 1),
        Cell.mk (.symbol "cons") (.cell 2), Cell.mk (.cell 3) .null,
        Cell.mk (.symbol "car") (.cell 4),
        Cell.mk .null .null, Cell.mk .null .null]
      [Scope.mk none [("car", .builtin .CarFunction), ("cons", .builtin .ConsFunction)]] [])
    (State.mk
      [Cell.mk .null .null, Cell.mk (.number 2) .null, Cell.mk (.number 1) (.cell 1),
        Cell.mk (.symbol "cons") (.cell 2), Cell.mk (.cell 3) .null,
        Cell.mk (.symbol "car") (.cell 4),
        Cell.mk .null .null, Cell.mk .null .null]
      [Scope.mk none [("car", .builtin .CarFunction), ("cons", .builtin .ConsFunction)]] [])
    (State.mk
      [Cell.mk .null .null, Cell.mk (.number 2) .null, Cell.mk (.number 1) (.cell 1),
        Cell.mk (.symbol "cons") (.cell 2), Cell.mk (.cell 3) .null,
        Cell.mk (.symbol "car") (.cell 4),
        Cell.mk .null .null, Cell.mk .null .null]
      [Scope.mk none [("car", .builtin .CarFunction), ("cons", .builtin .ConsFunction)]] [])
    (by decide) (by decide) (by decide) (by decide) (by decide)
    (Or.inl ⟨rfl, by decide, by decide⟩) (by decide) (by decide)).1 rfl⟩

/-! ## C28: `list` -/

theorem ListFunction_cells_length (base : Nat) : ∀ vs : List Ref,
    (ListFunction.cells base vs).length = vs.length := by
  intro vs
  induction vs with
  | nil => rfl
  | cons v ws ih => simp [ListFunction.cells, ih]

theorem BuildList_values (rec : Interp) (scope : Nat) : ∀ (es vs : List Ref) (st st3 : State),
    Eval.each rec scope es st = .ok vs st3 →
    ListFunction.BuildList rec scope es st =
      .ok (if vs = [] then .null else .cell (st3.cells.length + vs.length - 1))
        (State.mk (st3.cells ++ ListFunction.cells st3.cells.length vs) st3.scopes
          st3.lambdas) := by
  intro es
  induction es with
  | nil =>
    intro vs st st3 h
    simp only [Eval.each, pure_apply, Res.ok.injEq] at h
    obtain ⟨rfl, rfl⟩ := h
    simp [ListFunction.BuildList, pure_apply, ListFunction.cells]
  | cons e rest ih =>
    intro vs st st3 h
    obtain ⟨v, ws, s, hv, hws, rfl⟩ := Eval_each_cons rec scope e rest vs st st3 h
    simp only [ListFunction.BuildList, bind_apply, hv, ih ws s st3 hws, makeCell,
      List.length_append, ListFunction_cells_length, ListFunction.cells, List.length_cons,
      reduceCtorEq, if_false, List.append_assoc]
    rw [show st3.cells.length + (ws.length + 1) - 1 = st3.cells.length + ws.length by omega]

theorem substr1_bracket (s : String) : substr1 ("(" ++ s) = s := by
  simp [substr1, String.data_append]

theorem intercalate_go (s : String) : ∀ (l : List String) (acc : String),
    String.intercalate.go acc s l = acc ++ String.intercalate.go "" s l := by
  intro l
  induction l with
  | nil => intro acc; simp [String.intercalate.go]
  | cons a as ih =>
    intro acc
    simp only [String.intercalate.go]
    rw [ih (acc ++ s ++ a), ih ("" ++ s ++ a)]
    simp [String.append_assoc]

theorem intercalate_cons_cons (s a b : String) (l : List String) :
    s.intercalate (a :: b :: l) = a ++ s ++ s.intercalate (b :: l) := by
  simp only [String.intercalate, String.intercalate.go]
  rw [intercalate_go s l (a ++ s ++ b), intercalate_go s l b]
  simp [String.append_assoc]

theorem list_cell_at (pre more : List Cell) (scopes : List Scope)
    (lambdas : List CustomLambdaFunction) (v : Ref) (ws : List Ref) :
    (State.mk (pre ++ (ListFunction.cells pre.length (v :: ws) ++ more)) scopes lambdas).cell
        (pre.length + ws.length) =
      Cell.mk v (if ws = [] then .null else .cell (pre.length + ws.length - 1)) := by
  apply cell_at_append
  rw [ListFunction.cells, List.append_assoc,
    List.getElem?_append_right (by simp [ListFunction_cells_length])]
  simp [ListFunction_cells_length]

theorem list_chain (pre : List Cell) (scopes : List Scope)
    (lambdas : List CustomLambdaFunction) : ∀ (vs : List Ref) (more : List Cell), vs ≠ [] →
    Chain (State.mk (pre ++ (ListFunction.cells pre.length vs ++ more)) scopes lambdas)
      (.cell (pre.length + vs.length - 1)) vs .null := by
  intro vs
  induction vs with
  | nil => intro more h; exact absurd rfl h
  | cons v ws ih =>
    intro more _
    rw [show pre.length + (v :: ws).length - 1 = pre.length + ws.length by simp]
    refine Chain.cons (list_cell_at pre more scopes lambdas v ws) ?_
    by_cases hws : ws = []
    · rw [if_pos hws, hws]
      exact Chain.done .null (by simp)
    · rw [if_neg hws]
      have := ih ([Cell.mk v (if ws = [] then .null else .cell (pre.length + ws.length - 1))] ++
        more) hws
      simpa [ListFunction.cells, List.append_assoc] using this

theorem list_repr (st3 : State) (hclosed : st3.Closed = true) (scopes : List Scope)
    (lambdas : List CustomLambdaFunction) :
    ∀ (vs : List Ref) (rs : List String) (more : List Cell) (fuel : Nat), vs ≠ [] →
      (∀ v ∈ vs, v ≠ .null ∧ v.InStore st3 = true) →
      List.Forall₂ (fun v r => Object.Repr st3 v = .ok r) vs rs →
      st3.cells.length + vs.length ≤ fuel →
      Object.ReprFuel
          (State.mk (st3.cells ++ (ListFunction.cells st3.cells.length vs ++ more)) scopes
            lambdas) fuel (.cell (st3.cells.length + vs.length - 1)) =
        .ok ("(" ++ " ".intercalate rs ++ ")") := by
  intro vs
  induction vs with
  | nil => intro rs more fuel h; exact absurd rfl h
  | cons v ws ih =>
    intro rs more fuel _ hvs hrs hfuel
    cases hrs with
    | cons hr hrest =>
      rename_i r rs1
      obtain ⟨f, rfl⟩ : ∃ f, fuel = f + 1 := ⟨fuel - 1, by simp at hfuel; omega⟩
      have hv := hvs v (by simp)
      have hrv : Object.ReprFuel
          (State.mk (st3.cells ++ (ListFunction.cells st3.cells.length (v :: ws) ++ more))
            scopes lambdas) f v = .ok r := by
        rw [ReprFuel_append st3 hclosed _ scopes lambdas f v hv.2]
        have := ReprFuel_mono_le st3 st3.cells.length (f - st3.cells.length) v r hr
        rwa [show st3.cells.length + (f - st3.cells.length) = f by simp at hfuel; omega] at this
      rw [show st3.cells.length + (v :: ws).length - 1 = st3.cells.length + ws.length by simp]
      simp only [Object.ReprFuel, list_cell_at st3.cells more scopes lambdas v ws, hv.1, if_false,
        hrv]
      by_cases hws : ws = []
      · subst hws
        cases hrest
        simp [String.intercalate, String.intercalate.go]
      · rw [if_neg hws]
        have hih := ih rs1
          ([Cell.mk v (if ws = [] then .null else .cell (st3.cells.length + ws.length - 1))] ++
            more) f hws (fun w hw => hvs w (by simp [hw])) hrest (by simp at hfuel; omega)
        have hstore : st3.cells ++ (ListFunction.cells st3.cells.length ws ++
            ([Cell.mk v (if ws = [] then .null else .cell (st3.cells.length + ws.length - 1))] ++
              more)) =
            st3.cells ++ (ListFunction.cells st3.cells.length (v :: ws) ++ more) := by
          simp [ListFunction.cells, List.append_assoc]
        rw [hstore] at hih
        simp only [reduceCtorEq, if_false, hih]
        cases hrest with
        | nil => exact absurd rfl hws
        | cons hr2 hrest2 =>
          rw [intercalate_cons_cons, String.append_assoc "(" _ ")", substr1_bracket]
          simp [String.append_assoc]

theorem ListPredicate_loop_of_chain (st : State) (r : Ref) (heads : List Ref) (last : Ref)
    (hc : Chain st r heads last) :
    ∀ fuel, heads.length ≤ fuel → ListPredicate.loop st fuel r = .ok last := by
  induction hc with
  | done last hlast =>
    intro fuel _
    cases last with
    | cell a => exact absurd rfl (hlast a)
    | _ => cases fuel <;> simp [ListPredicate.loop]
  | step a heads last _ ih =>
    intro fuel hfuel
    cases fuel with
    | zero => simp at hfuel
    | succ fuel =>
      simp only [ListPredicate.loop]
      exact ih fuel (by simpa using hfuel)

theorem Eval_each_length (rec : Interp) (scope : Nat) : ∀ (es vs : List Ref) (st st1 : State),
    Eval.each rec scope es st = .ok vs st1 → vs.length = es.length := by
  intro es
  induction es with
  | nil =>
    intro vs st st1 h
    simp only [Eval.each, pure_apply, Res.ok.injEq] at h
    rw [← h.1]
  | cons e rest ih =>
    intro vs st st1 h
    obtain ⟨v, ws, s, -, hws, rfl⟩ := Eval_each_cons rec scope e rest vs st st1 h
    simp [ih ws s st1 hws]

/-- C28: in a combination `(list e1 ... en)` (the flattened expression is `head :: es` and
`head` evaluates to the built-in `list`), when the arguments `es` evaluate from left to right to
the values `vs`.  With `n >= 1` arguments the combination returns a new cell from which `n`
cells are linked through their tails, holding `vs` in order as heads and ending in a null
pointer, that is the proper list of `vs`; in a store without dangling addresses, when the values
(none of them a null pointer) render as `rs`, the list renders as `(`, then `rs` separated by
single spaces, then `)`; and `list?` of the combination is `#t`.  With no argument the
combination builds nothing: it returns the one shared cell `kSchemeNull`, with whatever head and
tail that cell has at the time.  On a fresh engine `(list)` prints `()`, `(list 1 2 3)` prints
`(1 2 3)` and `(list '() 1)` prints `(() 1)`; but after `(set-car! (list) 1)` the combination
`(list)` prints `(1)`, and after `(set-cdr! (list) 2)` it prints `(1 . 2)` and `(list? (list))`
is `#f`. -/
theorem C28_list_builds_proper_list (ord : ArgOrder) (k scope expression : Nat) (head : Ref)
    (es vs : List Ref) (rs : List String) (st st1 st2 st3 : State)
    (hexpr : expression ≠ 0)
    (hvec : Cell.ToVector expression st = .ok (head :: es) st1)
    (hfun : (interp ord k).Eval head scope st1 = .ok (.builtin .ListFunction) st2)
    (hargs : Eval.each (interp ord k) scope es st2 = .ok vs st3) :
    vs.length = es.length ∧
    (es = [] →
      EvalInstruction ord (interp ord k) expression scope st = .ok kSchemeNull st2) ∧
    (es ≠ [] →
      EvalInstruction ord (interp ord k) expression scope st =
        .ok (.cell (st3.cells.length + vs.length - 1))
          (State.mk (st3.cells ++ ListFunction.cells st3.cells.length vs) st3.scopes
            st3.lambdas) ∧
      Chain (State.mk (st3.cells ++ ListFunction.cells st3.cells.length vs) st3.scopes
          st3.lambdas) (.cell (st3.cells.length + vs.length - 1)) vs .null ∧
      (st3.Closed = true → (∀ v ∈ vs, v ≠ .null ∧ v.InStore st3 = true) →
        List.Forall₂ (fun v r => Object.Repr st3 v = .ok r) vs rs →
        Object.Repr (State.mk (st3.cells ++ ListFunction.cells st3.cells.length vs) st3.scopes
            st3.lambdas) (.cell (st3.cells.length + vs.length - 1)) =
          .ok ("(" ++ " ".intercalate rs ++ ")")) ∧
      Builtin.Apply ord (interp ord (k + 1)) .ListPredicate [.cell expression] scope st =
        .ok kSchemeTrue
          (State.mk (st3.cells ++ ListFunction.cells st3.cells.length vs) st3.scopes
            st3.lambdas)) ∧
    (∀ o : ArgOrder, SchemeEngine.outcomes o 100
        ["(list)", "(list 1 2 3)", "(list (+ 1 2) 'a #t)", "(list '() 1)", "(list? (list))",
         "(list? (list 1 2 3))"] =
      [.ok "()", .ok "(1 2 3)", .ok "(3 a #t)", .ok "(() 1)", .ok "#t", .ok "#t"]) ∧
    (∀ o : ArgOrder, SchemeEngine.outcomes o 100
        ["(set-car! (list) 1)", "(list)", "(list? (list))", "(set-cdr! (list) 2)", "(list)",
         "(list? (list))", "(list 1 2)", "(list? (list 1 2))"] =
      [.ok "(1)", .ok "(1)", .ok "#t", .ok "(1 . 2)", .ok "(1 . 2)", .ok "#f", .ok "(1 2)",
       .ok "#t"]) := by
  have hlen := Eval_each_length (interp ord k) scope es vs st2 st3 hargs
  have hEI := EvalInstruction_builtin ord (interp ord k) expression scope head es .ListFunction
    st st1 st2 hvec hfun
  simp only [Builtin.ApprovesNumberOfArguments, if_true, Builtin.Apply] at hEI
  have hpred : Builtin.Apply ord (interp ord (k + 1)) .ListPredicate [.cell expression] scope st =
      (do
        let elem ← EvalInstruction ord (interp ord k) expression scope
        if !elem.IsCell then pure kSchemeFalse
        else
          let s ← getState
          let elem ← liftExcept (ListPredicate.loop s s.cells.length elem)
          if elem ≠ .null then pure kSchemeFalse else pure kSchemeTrue : M Ref) st := by
    simp only [Builtin.Apply, ListPredicate.Apply, bind_apply, subscript_zero,
      Eval_cell ord k expression scope hexpr]
  refine ⟨hlen, ?_, ?_, ?_, ?_⟩
  · intro hes
    subst hes
    rw [hEI]
    simp [ListFunction.Apply, pure_apply]
  · intro hes
    have hvs : vs ≠ [] := by
      intro h
      rw [h] at hlen
      exact hes (List.length_eq_zero.mp hlen.symm)
    have hval : EvalInstruction ord (interp ord k) expression scope st =
        .ok (.cell (st3.cells.length + vs.length - 1))
          (State.mk (st3.cells ++ ListFunction.cells st3.cells.length vs) st3.scopes
            st3.lambdas) := by
      rw [hEI]
      have hne : es.isEmpty = false := by
        cases es with
        | nil => exact absurd rfl hes
        | cons _ _ => rfl
      simp only [ListFunction.Apply, hne, Bool.false_eq_true, if_false]
      rw [BuildList_values (interp ord k) scope es vs st2 st3 hargs, if_neg hvs]
    have hchain := list_chain st3.cells st3.scopes st3.lambdas vs [] hvs
    rw [List.append_nil] at hchain
    refine ⟨hval, hchain, ?_, ?_⟩
    · intro hclosed hin hrs
      have := list_repr st3 hclosed st3.scopes st3.lambdas vs rs [] (st3.cells.length + vs.length)
        hvs hin hrs (le_refl _)
      rw [List.append_nil] at this
      unfold Object.Repr
      simpa [ListFunction_cells_length] using this
    · rw [hpred]
      have hloop := ListPredicate_loop_of_chain _ _ _ _ hchain
        (st3.cells.length + vs.length) (by omega)
      simp [bind_apply, hval, Ref.IsCell, getState_apply, ListFunction_cells_length, hloop,
        liftExcept, pure_apply]
  · intro o
    cases o <;> decide!
  · intro o
    cases o <;> decide!

/-- C28, witness: `(list 1 2)`, stored at cell `3` in a root frame that binds `list`, has its
two arguments evaluate to the numbers `1` and `2`, which render as `1` and `2`, and returns the
list of the cells `5` and `6`, which renders as `(1 2)`. -/
theorem C28_list_builds_proper_list_witness :
    Eval.each (interp .leftToRight 1) 0 [.number 1, .number 2]
        (State.mk
      [Cell.mk .null .null, Cell.mk (.number 2) .null, Cell.mk (.number 1) (.cell 1),
        Cell.mk (.symbol "list") (.cell 2), Cell.mk .null .null]
      [Scope.mk none [("list", .builtin .ListFunction)]] []) =
      .ok [.number 1, .number 2]
        (State.mk
      [Cell.mk .null .null, Cell.mk (.number 2) .null, Cell.mk (.number 1) (.cell 1),
        Cell.mk (.symbol "list") (.cell 2), Cell.mk .null .null]
      [Scope.mk none [("list", .builtin .ListFunction)]] []) ∧
    Object.Repr
        (State.mk
          ([Cell.mk .null .null, Cell.mk (.number 2) .null, Cell.mk (.number 1) (.cell 1),
        Cell.mk (.symbol "list") (.cell 2), Cell.mk .null .null] ++
            ListFunction.cells 5 [.number 1, .number 2])
          [Scope.mk none [("list", .builtin .ListFunction)]] [])
        (.cell (5 + 2 - 1)) =
      .ok ("(" ++ " ".intercalate ["1", "2"] ++ ")") ∧
    "(" ++ " ".intercalate ["1", "2"] ++ ")" = "(1 2)" :=
  ⟨by decide,
   ((C28_list_builds_proper_list .leftToRight 1 0 3 (.symbol "list") [.number 1, .number 2]
    [.number 1, .number 2] ["1", "2"]
    (State.mk
      [Cell.mk .null .null, Cell.mk (.number 2) .null, Cell.mk (.number 1) (.cell 1),
        Cell.mk (.symbol "list") (.cell 2)]
      [Scope.mk none [("list", .builtin .ListFunction)]] [])
    (State.mk
      [Cell.mk .null .null, Cell.mk (.number 2) .null, Cell.mk (.number 1) (.cell 1),
        Cell.mk (.symbol "list") (.cell 2), Cell.mk .null .null]
      [Scope.mk none [("list", .builtin .ListFunction)]] [])
    (State.mk
      [Cell.mk .null .null, Cell.mk (.number 2) .null, Cell.mk (.number 1) (.cell 1),
        Cell.mk (.symbol "list") (.cell 2), Cell.mk .null .null]
      [Scope.mk none [("list", .builtin .ListFunction)]] [])
    (State.mk
      [Cell.mk .null .null, Cell.mk (.number 2) .null, Cell.mk (.number 1) (.cell 1),
        Cell.mk (.symbol "list") (.cell 2), Cell.mk .null .null]
      [Scope.mk none [("list", .builtin .ListFunction)]] [])
    (by decide) (by decide) (by decide) (by decide)).2.2.1 (by decide)).2.2.1 (by decide)
    (by decide)
    (List.Forall₂.cons (by decide) (List.Forall₂.cons (by decide) List.Forall₂.nil)),
   by decide⟩

/-! ## C29: `Scope::SetVariable` -/

theorem Reaches_Resolves (st : State) (name : String) (s f : Nat)
    (hreach : Scope.Reaches st s f)
    (hbinds : (Scope.find (st.scope f).namespace_ name).isSome = true) :
    ∃ d, Scope.Resolves st name s d ∧ Scope.Reaches st s d ∧ Scope.Reaches st d f := by
  induction hreach with
  | here s => exact ⟨s, .here s hbinds, .here s, .here s⟩
  | up s p f hp hrest ih =>
    cases hfind : Scope.find (st.scope s).namespace_ name with
    | some v => exact ⟨s, .here s (by simp [hfind]), .here s, .up s p f hp hrest⟩
    | none =>
      obtain ⟨d, hres, hsd, hdf⟩ := ih hbinds
      exact ⟨d, .up s p d hfind hp hres, .up s p d hp hsd, hdf⟩

theorem insert_or_assign_keys (name : String) (value : Ref) :
    ∀ ns : List (String × Ref), (Scope.find ns name).isSome = true →
      (Scope.insert_or_assign ns name value).map Prod.fst = ns.map Prod.fst := by
  intro ns
  induction ns with
  | nil => simp [Scope.find]
  | cons kv rest ih =>
    obtain ⟨key, old⟩ := kv
    intro h
    by_cases hk : key = name
    · simp [Scope.insert_or_assign, hk]
    · simp only [Scope.find, hk, if_false] at h
      simp [Scope.insert_or_assign, hk, ih h]

/-- C29: in a store whose frames were each allocated after their parent, when some frame `f`
reached from frame `s` through parent pointers binds `name`, there is a frame `d`, the first one
on the way from `s` to `f` that binds `name`, such that `SetVariable(name, value)` called on `s`
leaves the store with `name` bound to `value` in `d` and nothing else changed: every other name
of `d` keeps its binding, `d` keeps its names and its parent, every other frame (a farther
ancestor that binds the same name included) is as it was, and so are the cells and the lambdas.
On a fresh engine a `set!` of a parameter `x` inside a call leaves the `x` of the root frame
alone, and a `set!` of `x` from a frame that does not bind it changes the root binding. -/
theorem C29_set_touches_one_binding (st : State) (name : String) (s f : Nat) (value : Ref)
    (hws : st.WellScoped = true) (hreach : Scope.Reaches st s f)
    (hbinds : (Scope.find (st.scope f).namespace_ name).isSome = true) :
    (∃ d, Scope.Resolves st name s d ∧ Scope.Reaches st d f ∧
      Scope.SetVariable s name value st = .ok () (st.assign d name value) ∧
      Scope.find ((st.assign d name value).scope d).namespace_ name = some value ∧
      (∀ other, other ≠ name →
        Scope.find ((st.assign d name value).scope d).namespace_ other =
          Scope.find (st.scope d).namespace_ other) ∧
      ((st.assign d name value).scope d).namespace_.map Prod.fst =
        (st.scope d).namespace_.map Prod.fst ∧
      ((st.assign d name value).scope d).parent = (st.scope d).parent ∧
      (∀ other, other ≠ d → (st.assign d name value).scope other = st.scope other) ∧
      (st.assign d name value).scopes.length = st.scopes.length ∧
      (st.assign d name value).cells = st.cells ∧
      (st.assign d name value).lambdas = st.lambdas) ∧
    (∀ ord : ArgOrder, SchemeEngine.outcomes ord 100
        ["(define x 1)", "(define f (lambda (x) (set! x 5) x))", "(f 3)", "x",
         "(define g (lambda (y) (set! x 7) y))", "(g 0)", "x"] =
      [.ok "()", .ok "()", .ok "5", .ok "1", .ok "()", .ok "0", .ok "7"]) := by
  constructor
  · obtain ⟨d, hres, -, hdf⟩ := Reaches_Resolves st name s f hreach hbinds
    have hb := Resolves_binds st name s d hres
    have hfuel := Resolves_fuel st hws name s d hres st.scopes.length hb.2.1
    refine ⟨d, hres, hdf, ?_, ?_, ?_, ?_, ?_, ?_, ?_, rfl, rfl⟩
    · simp only [Scope.SetVariable]
      rw [hfuel.2.2 value]
    · rw [assign_scope_same st d name value hb.2.2]
      exact find_insert_or_assign name value _
    · intro other hother
      rw [assign_scope_same st d name value hb.2.2]
      exact find_insert_or_assign_other name other value hother _
    · rw [assign_scope_same st d name value hb.2.2]
      exact insert_or_assign_keys name value _ hb.1
    · rw [assign_scope_same st d name value hb.2.2]
    · intro other hother
      exact assign_scope_other st d other name value hother
    · simp [State.assign]
  · intro ord
    cases ord <;> decide!

/-- C29, witness: frame `2` has parent `1`, which binds `x`, and frame `1` has the root frame
`0` as parent, which binds `x` too; `SetVariable` called on frame `2` changes the `x` of frame
`1` only. -/
theorem C29_set_touches_one_binding_witness :
    (State.mk [Cell.mk .null .null]
      [Scope.mk none [("x", .number 1), ("y", .number 2)],
       Scope.mk (some 0) [("z", .number 3), ("x", .number 4)],
       Scope.mk (some 1) [("y", .number 5)]] []).WellScoped = true ∧
    ∃ d, Scope.Resolves (State.mk [Cell.mk .null .null]
        [Scope.mk none [("x", .number 1), ("y", .number 2)],
         Scope.mk (some 0) [("z", .number 3), ("x", .number 4)],
         Scope.mk (some 1) [("y", .number 5)]] []) "x" 2 d ∧
      Scope.SetVariable 2 "x" (.number 9) (State.mk [Cell.mk .null .null]
        [Scope.mk none [("x", .number 1), ("y", .number 2)],
         Scope.mk (some 0) [("z", .number 3), ("x", .number 4)],
         Scope.mk (some 1) [("y", .number 5)]] []) =
        .ok () ((State.mk [Cell.mk .null .null]
          [Scope.mk none [("x", .number 1), ("y", .number 2)],
           Scope.mk (some 0) [("z", .number 3), ("x", .number 4)],
           Scope.mk (some 1) [("y", .number 5)]] []).assign d "x" (.number 9)) :=
  ⟨by decide,
   by
    obtain ⟨d, h1, -, h3, -⟩ := (C29_set_touches_one_binding (State.mk [Cell.mk .null .null]
      [Scope.mk none [("x", .number 1), ("y", .number 2)],
       Scope.mk (some 0) [("z", .number 3), ("x", .number 4)],
       Scope.mk (some 1) [("y", .number 5)]] []) "x" 2 0 (.number 9) (by decide)
      (Scope.Reaches.up 2 1 0 (by decide) (Scope.Reaches.up 1 0 0 (by decide)
        (Scope.Reaches.here 0))) (by decide)).1
    exact ⟨d, h1, h3⟩⟩

/-! ## C30: `list-ref` on a dotted chain -/

/-- C30, what the code does and where it leaves the claim: in a call of `list-ref` whose first
argument evaluates to the cell `a` and whose second argument evaluates to the number `n`, in a
store without dangling addresses where the cells from `a` on are linked through their tails, with
heads `xs`, up to a last tail `c` that is neither a cell nor a null pointer.  If the cell `a` has
a head: for `0 <= n < k`, `k` the length of `xs`, the call returns the element `n` of `xs` (a
freshly allocated empty cell if that head is absent), and for `n = k` it returns `c`.  If the
cell `a` has no head, that is for a quoted chain whose first element is `()`, the call signals
a runtime error for every `n >= 0`.  On a fresh engine `(list-ref '(1 . 2) 1)` prints `2`, but
`(list-ref '(() . 2) 0)` and `(list-ref '(() . 2) 1)` signal a runtime error instead of
returning `()` and `2`. -/
theorem C30_list_ref_improper (ord : ArgOrder) (rec : Interp) (scope : Nat) (p i : Ref)
    (a : Nat) (n : Int) (xs : List Ref) (c : Ref) (st st1 st2 : State)
    (hp : rec.Eval p scope st = .ok (.cell a) st1)
    (hi : rec.Eval i scope st1 = .ok (.number n) st2)
    (hclosed : st2.Closed = true) (ha : a < st2.cells.length)
    (hchain : Chain st2 (.cell a) xs c) (hc : c ≠ .null) :
    ((st2.cell a).first ≠ .null →
      (∀ x, 0 ≤ n → xs[n.toNat]? = some x →
        Builtin.Apply ord rec .ListRefFunction [p, i] scope st =
          .ok (if x = .null then .cell st2.cells.length else x)
            (State.mk (st2.cells ++ [Cell.mk .null .null]) st2.scopes st2.lambdas)) ∧
      (n = xs.length →
        Builtin.Apply ord rec .ListRefFunction [p, i] scope st =
          .ok c (State.mk (st2.cells ++ [Cell.mk .null .null]) st2.scopes st2.lambdas))) ∧
    ((st2.cell a).first = .null → 0 ≤ n →
      Builtin.Apply ord rec .ListRefFunction [p, i] scope st = .fail .RuntimeError st2) ∧
    (∀ o : ArgOrder, SchemeEngine.outcomes o 100
        ["(list-ref '(1 . 2) 1)", "(list-ref '(1 2 . 3) 2)", "(list-ref '(1 () . 3) 1)",
         "(list-ref (cons '() 2) 0)", "(list-ref '(() . 2) 0)", "(list-ref '(() . 2) 1)"] =
      [.ok "2", .ok "3", .ok "()", .ok "()", .error .RuntimeError,
       .error .RuntimeError]) := by
  have hvec := ToVector_of_chain_closed st2 hclosed a ha xs c hchain
  have hrun : Builtin.Apply ord rec .ListRefFunction [p, i] scope st =
      (do
        let list ← Cell.ToVector a
        if n ≥ (list.length : Int) then raiseWithRepr [.cell a, .number n] .RuntimeError
        else if n < 0 then raise .UndefinedBehaviour
        else subscript list n.toNat : M Ref) st2 := by
    simp [Builtin.Apply, ListRefFunction.Apply, bind_apply, subscript, pure_apply, hp, hi,
      RequirePairArgument, RequireNumberArgument]
  refine ⟨?_, ?_, ?_⟩
  · intro hfirst
    have hv := hvec.2 hfirst
    simp only [hc, if_false] at hv
    constructor
    · intro x hn hx
      have hlt : n.toNat < xs.length := by
        by_contra hge
        rw [List.getElem?_eq_none (by omega)] at hx
        cases hx
      have hx1 : xs[n.toNat] = x := by
        rw [List.getElem?_eq_getElem hlt] at hx
        exact Option.some.inj hx
      rw [hrun]
      simp only [bind_apply, hv, List.length_append, List.length_map, List.length_singleton]
      rw [if_neg (by push_cast; omega), if_neg (by omega)]
      simp [subscript, List.getElem?_append_left, hlt, hx1, pure_apply]
    · intro hn
      rw [hrun]
      simp only [bind_apply, hv, List.length_append, List.length_map, List.length_singleton]
      rw [if_neg (by push_cast; omega), if_neg (by omega)]
      have : n.toNat = xs.length := by omega
      simp [subscript, this, pure_apply]
  · intro hfirst hn
    have hnum : Object.Repr st2 (.number n) = .ok (to_string n) := by
      unfold Object.Repr
      cases st2.cells.length <;> rfl
    rw [hrun]
    simp only [bind_apply, hvec.1 hfirst, List.length_nil]
    rw [if_pos (by simpa using hn)]
    simp only [raiseWithRepr, Repr_of_empty st2 a hfirst, hnum, raise_apply]
  · intro o
    cases o <;> decide!

/-- C30, witness: with `p` bound to the pair `(1 . 2)`, stored in cell `1`, `list-ref` applied
to `p` and the index `1` returns the last tail `2`. -/
theorem C30_list_ref_improper_witness :
    (State.mk [Cell.mk .null .null, Cell.mk (.number 1) (.number 2)]
      [Scope.mk none [("p", .cell 1)]] []).Closed = true ∧
    Builtin.Apply .leftToRight (interp .leftToRight 1) .ListRefFunction
        [.symbol "p", .number 1] 0
        (State.mk [Cell.mk .null .null, Cell.mk (.number 1) (.number 2)]
          [Scope.mk none [("p", .cell 1)]] []) =
      .ok (.number 2)
        (State.mk [Cell.mk .null .null, Cell.mk (.number 1) (.number 2), Cell.mk .null .null]
          [Scope.mk none [("p", .cell 1)]] []) :=
  ⟨by decide,
   ((C30_list_ref_improper .leftToRight (interp .leftToRight 1) 0 (.symbol "p") (.number 1) 1 1
      [.number 1] (.number 2)
      (State.mk [Cell.mk .null .null, Cell.mk (.number 1) (.number 2)]
        [Scope.mk none [("p", .cell 1)]] [])
      (State.mk [Cell.mk .null .null, Cell.mk (.number 1) (.number 2)]
        [Scope.mk none [("p", .cell 1)]] [])
      (State.mk [Cell.mk .null .null, Cell.mk (.number 1) (.number 2)]
        [Scope.mk none [("p", .cell 1)]] [])
      (by decide) (by decide) (by decide) (by decide)
      (Chain.cons (x := .number 1) (y := .number 2) rfl (Chain.done (.number 2) (by simp)))
      (by simp)).1 (by decide)).2 (by decide)⟩

/-! ## C31: the order in which arguments are evaluated -/

theorem PlusOperator_loop_values (rec : Interp) (scope : Nat) :
    ∀ (args : List Ref) (xs : List Int) (acc : Int) (st st1 : State),
      Eval.each rec scope args st = .ok (xs.map .number) st1 →
      PlusOperator.loop rec scope args acc st =
        .ok (xs.foldl (fun sum x => wrap (sum + x)) acc) st1 := by
  intro args
  induction args with
  | nil =>
    intro xs acc st st1 h
    simp only [Eval.each, pure_apply, Res.ok.injEq] at h
    cases xs with
    | nil => simp [PlusOperator.loop, pure_apply, h.2]
    | cons x xs => simp at h
  | cons a rest ih =>
    intro xs acc st st1 h
    obtain ⟨v, ws, s, ha, hr, hvs⟩ := Eval_each_cons rec scope a rest _ st st1 h
    cases xs with
    | nil => simp at hvs
    | cons x xs =>
      simp only [List.map_cons, List.cons.injEq] at hvs
      obtain ⟨hx, hws⟩ := hvs
      subst hx hws
      simp only [PlusOperator.loop, bind_apply, ha, RequireNumberArgument, pure_apply]
      rw [ih xs _ s st1 hr, List.foldl_cons]

theorem MultiplyOperator_loop_values (rec : Interp) (scope : Nat) :
    ∀ (args : List Ref) (xs : List Int) (acc : Int) (st st1 : State),
      Eval.each rec scope args st = .ok (xs.map .number) st1 →
      MultiplyOperator.loop rec scope args acc st =
        .ok (xs.foldl (fun product x => wrap (product * x)) acc) st1 := by
  intro args
  induction args with
  | nil =>
    intro xs acc st st1 h
    simp only [Eval.each, pure_apply, Res.ok.injEq] at h
    cases xs with
    | nil => simp [MultiplyOperator.loop, pure_apply, h.2]
    | cons x xs => simp at h
  | cons a rest ih =>
    intro xs acc st st1 h
    obtain ⟨v, ws, s, ha, hr, hvs⟩ := Eval_each_cons rec scope a rest _ st st1 h
    cases xs with
    | nil => simp at hvs
    | cons x xs =>
      simp only [List.map_cons, List.cons.injEq] at hvs
      obtain ⟨hx, hws⟩ := hvs
      subst hx hws
      simp only [MultiplyOperator.loop, bind_apply, ha, RequireNumberArgument, pure_apply]
      rw [ih xs _ s st1 hr, List.foldl_cons]

theorem MinusOperator_loop_values (rec : Interp) (scope : Nat) :
    ∀ (args : List Ref) (xs : List Int) (acc : Int) (st st1 : State),
      Eval.each rec scope args st = .ok (xs.map .number) st1 →
      MinusOperator.loop rec scope args acc st =
        .ok (xs.foldl (fun result x => wrap (result - x)) acc) st1 := by
  intro args
  induction args with
  | nil =>
    intro xs acc st st1 h
    simp only [Eval.each, pure_apply, Res.ok.injEq] at h
    cases xs with
    | nil => simp [MinusOperator.loop, pure_apply, h.2]
    | cons x xs => simp at h
  | cons a rest ih =>
    intro xs acc st st1 h
    obtain ⟨v, ws, s, ha, hr, hvs⟩ := Eval_each_cons rec scope a rest _ st st1 h
    cases xs with
    | nil => simp at hvs
    | cons x xs =>
      simp only [List.map_cons, List.cons.injEq] at hvs
      obtain ⟨hx, hws⟩ := hvs
      subst hx hws
      simp only [MinusOperator.loop, bind_apply, ha, RequireNumberArgument, pure_apply]
      rw [ih xs _ s st1 hr, List.foldl_cons]

/-- C31: let the argument expressions `args`, evaluated one after the other from left to
right, each in the store the one before it left, give the values `vs` and the store `st1`.
Then `+`, `*` and `-` on `args`, when the values are numbers, return the sum, the product and
the difference of `vs` folded from the left (on `int`) in `st1`, and `list` on `args` returns
the list of `vs` allocated in `st1`: these four evaluate their arguments from left to right.
For `cons` the order of the two `Eval` calls, which are the arguments of one constructor call,
is the compiler's: when it is left to right, `cons` on `[a, b]` returns the pair of `va` and
`vb` in `st1`; when it is right to left, it is `cons` on `[b, a]`, whose second argument `a` is
then evaluated first, that returns the pair `(vb . va)` in `st1`.  On a fresh engine with a
counter `f`, `(list (f) (f) (f))`, `(- (f) (f))`, `(* (f) (+ (f) 10))` and
`(+ (f) (* 10 (f)))` print `(1 2 3)`, `-1`, `102` and `98` whatever the order is, and
`(cons (f) (f))` prints `(10 . 11)` when the order is left to right but `(11 . 10)` when it
is right to left: the effect of the second argument is then visible to the first. -/
theorem C31_argument_order (rec : Interp) (scope : Nat) (args vs : List Ref) (st st1 : State)
    (hargs : Eval.each rec scope args st = .ok vs st1) :
    (∀ (ord : ArgOrder) (xs : List Int), vs = xs.map .number →
      Builtin.Apply ord rec .PlusOperator args scope st =
        .ok (.number (xs.foldl (fun sum x => wrap (sum + x)) 0)) st1 ∧
      Builtin.Apply ord rec .MultiplyOperator args scope st =
        .ok (.number (xs.foldl (fun product x => wrap (product * x)) 1)) st1 ∧
      ∀ (x : Int) (ys : List Int), xs = x :: ys →
        Builtin.Apply ord rec .MinusOperator args scope st =
          .ok (.number (if ys = [] then wrap (-x)
            else ys.foldl (fun result y => wrap (result - y)) x)) st1) ∧
    (∀ ord : ArgOrder, args ≠ [] →
      Builtin.Apply ord rec .ListFunction args scope st =
        .ok (.cell (st1.cells.length + vs.length - 1))
          (State.mk (st1.cells ++ ListFunction.cells st1.cells.length vs) st1.scopes
            st1.lambdas)) ∧
    (∀ a b va vb : Ref, args = [a, b] → vs = [va, vb] →
      Builtin.Apply .leftToRight rec .ConsFunction [a, b] scope st =
        .ok (.cell st1.cells.length)
          (State.mk (st1.cells ++ [Cell.mk va vb]) st1.scopes st1.lambdas) ∧
      Builtin.Apply .rightToLeft rec .ConsFunction [b, a] scope st =
        .ok (.cell st1.cells.length)
          (State.mk (st1.cells ++ [Cell.mk vb va]) st1.scopes st1.lambdas)) ∧
    SchemeEngine.outcomes .leftToRight 100
        ["(define x 0)", "(define f (lambda () (set! x (+ x 1)) x))", "(list (f) (f) (f))",
         "(- (f) (f))", "(* (f) (+ (f) 10))", "(+ (f) (* 10 (f)))", "(cons (f) (f))"] =
      [.ok "()", .ok "()", .ok "(1 2 3)", .ok "-1", .ok "102", .ok "98", .ok "(10 . 11)"] ∧
    SchemeEngine.outcomes .rightToLeft 100
        ["(define x 0)", "(define f (lambda () (set! x (+ x 1)) x))", "(list (f) (f) (f))",
         "(- (f) (f))", "(* (f) (+ (f) 10))", "(+ (f) (* 10 (f)))", "(cons (f) (f))"] =
      [.ok "()", .ok "()", .ok "(1 2 3)", .ok "-1", .ok "102", .ok "98", .ok "(11 . 10)"] := by
  refine ⟨?_, ?_, ?_, by decide!, by decide!⟩
  · intro ord xs hxs
    subst hxs
    refine ⟨?_, ?_, ?_⟩
    · simp only [Builtin.Apply, PlusOperator.Apply, bind_apply]
      rw [PlusOperator_loop_values rec scope args xs 0 st st1 hargs]
      rfl
    · simp only [Builtin.Apply, MultiplyOperator.Apply, bind_apply]
      rw [MultiplyOperator_loop_values rec scope args xs 1 st st1 hargs]
      rfl
    · intro x ys hx
      subst hx
      cases args with
      | nil => simp [Eval.each, pure_apply] at hargs
      | cons a rest =>
        obtain ⟨v, ws, s, ha, hr, hvs⟩ := Eval_each_cons rec scope a rest _ st st1 hargs
        simp only [List.map_cons, List.cons.injEq] at hvs
        obtain ⟨hv, hws⟩ := hvs
        subst hv hws
        have hlen := Eval_each_length rec scope rest _ s st1 hr
        simp only [Builtin.Apply, MinusOperator.Apply, bind_apply, subscript,
          List.getElem?_cons_zero, pure_apply, ha, RequireNumberArgument, List.drop_succ_cons,
          List.drop_zero]
        cases ys with
        | nil =>
          cases rest with
          | nil =>
            simp only [Eval.each, pure_apply, Res.ok.injEq] at hr
            simp [pure_apply, hr.2]
          | cons r rs => simp at hlen
        | cons y ys =>
          cases rest with
          | nil => simp at hlen
          | cons r rs =>
            simp only [List.isEmpty_cons, Bool.false_eq_true, if_false, bind_apply]
            rw [MinusOperator_loop_values rec scope (r :: rs) (y :: ys) x s st1 hr]
            simp [pure_apply]
  · intro ord hne
    have hvs : vs ≠ [] := by
      intro h
      have hlen := Eval_each_length rec scope args vs st st1 hargs
      rw [h] at hlen
      exact hne (List.length_eq_zero.1 hlen.symm)
    have hempty : args.isEmpty = false := by
      cases args with
      | nil => exact absurd rfl hne
      | cons a rest => rfl
    simp only [Builtin.Apply, ListFunction.Apply, hempty, Bool.false_eq_true, if_false]
    rw [BuildList_values rec scope args vs st st1 hargs, if_neg hvs]
  · intro a b va vb ha hv
    subst ha hv
    obtain ⟨v, ws, s, h1, hr, hvs⟩ := Eval_each_cons rec scope a [b] _ st st1 hargs
    obtain ⟨v2, ws2, s2, h2, hr2, hvs2⟩ := Eval_each_cons rec scope b [] _ s st1 hr
    simp only [Eval.each, pure_apply, Res.ok.injEq] at hr2
    obtain ⟨hw, hs⟩ := hr2
    subst hw hs hvs2
    simp only [List.cons.injEq, and_true] at hvs
    obtain ⟨hva, hvb⟩ := hvs
    subst hva hvb
    exact ⟨ConsFunction_Apply_values .leftToRight rec scope a b _ _ st s s2
        (Or.inl ⟨rfl, h1, h2⟩),
      ConsFunction_Apply_values .rightToLeft rec scope b a _ _ st s s2
        (Or.inr ⟨rfl, h1, h2⟩)⟩

/-- C31, witness: the arguments `7` and `2` evaluate to themselves; `-` returns `5`, and
`cons` on the two in the other order, evaluated from right to left, returns the pair
`(2 . 7)`. -/
theorem C31_argument_order_witness :
    Eval.each (interp .leftToRight 1) 0 [.number 7, .number 2] SchemeEngine.initial =
      .ok [.number 7, .number 2] SchemeEngine.initial ∧
    Builtin.Apply .leftToRight (interp .leftToRight 1) .MinusOperator [.number 7, .number 2] 0
        SchemeEngine.initial = .ok (.number 5) SchemeEngine.initial ∧
    Builtin.Apply .rightToLeft (interp .leftToRight 1) .ConsFunction [.number 2, .number 7] 0
        SchemeEngine.initial =
      .ok (.cell SchemeEngine.initial.cells.length)
        (State.mk (SchemeEngine.initial.cells ++ [Cell.mk (.number 2) (.number 7)])
          SchemeEngine.initial.scopes SchemeEngine.initial.lambdas) :=
  have h := C31_argument_order (interp .leftToRight 1) 0 [.number 7, .number 2]
    [.number 7, .number 2] SchemeEngine.initial SchemeEngine.initial (by decide!)
  ⟨by decide!, ((h.1 .leftToRight [7, 2] rfl).2.2 7 [2] rfl),
    (h.2.2.1 (.number 7) (.number 2) (.number 7) (.number 2) rfl rfl).2⟩

/-! ## What the reader returns depends on the tokens only -/

theorem Yields_nil (t : Tokenizer) (hy : Tokenizer.Yields t []) : t.IsEnd = true := by
  cases hy with
  | done _ h => exact h

theorem Read_end (fuel : Nat) (t : Tokenizer) (st : State) (hend : t.IsEnd = true) :
    Read (fuel + 1) t st = .ok (.null, t) st := by
  simp [Read, hend, pure_apply]

theorem Read_open (fuel : Nat) (t t1 : Tokenizer) (st : State) (hend : t.IsEnd = false)
    (htok : t.GetToken = .BracketOpen) (hnext : t.Next = .ok t1) :
    Read (fuel + 1) t st = ReadList fuel t1 st := by
  simp [Read, hend, htok, hnext, bind_apply, liftExcept, pure_apply]

theorem Read_wrong_token (fuel : Nat) (t t1 : Tokenizer) (st : State) (hend : t.IsEnd = false)
    (htok : t.GetToken = .BracketClose ∨ t.GetToken = .DotToken) (hnext : t.Next = .ok t1) :
    Read (fuel + 1) t st = .fail .SyntaxError st := by
  rcases htok with htok | htok <;>
    simp [Read, hend, htok, hnext, bind_apply, liftExcept, pure_apply, raise_apply]

theorem Reader_function : ∀ (b : Bool) (e : List Token), Token.Parses b e →
    ∃ r : State → Ref × State,
      ∀ (t : Tokenizer) (more : List Token) (st : State) (fuel : Nat),
        Tokenizer.Yields t (e ++ more) → 2 * e.length ≤ fuel →
        (b = false →
          ∃ t1, Read fuel t st = .ok ((r st).1, t1) (r st).2 ∧ Tokenizer.Yields t1 more) ∧
        (b = true →
          ∃ t1, ReadList fuel t st = .ok ((r st).1, t1) (r st).2 ∧
            Tokenizer.Yields t1 more) := by
  intro b e h
  induction h with
  | constant v =>
    refine ⟨fun st => (.number v, st), ?_⟩
    intro t more st fuel hy hfuel
    obtain ⟨f, rfl⟩ : ∃ f, fuel = f + 1 := ⟨fuel - 1, by simp at hfuel; omega⟩
    obtain ⟨hend, htok, t1, hnext, hy1⟩ := Yields_cons t _ _ hy
    refine ⟨fun _ => ⟨t1, ?_, hy1⟩, by simp⟩
    simp [Read, hend, htok, hnext, bind_apply, liftExcept, pure_apply]
  | symbol n =>
    refine ⟨fun st => (if n = "#t" then kSchemeTrue else if n = "#f" then kSchemeFalse
      else .symbol n, st), ?_⟩
    intro t more st fuel hy hfuel
    obtain ⟨f, rfl⟩ : ∃ f, fuel = f + 1 := ⟨fuel - 1, by simp at hfuel; omega⟩
    obtain ⟨hend, htok, t1, hnext, hy1⟩ := Yields_cons t _ _ hy
    refine ⟨fun _ => ⟨t1, ?_, hy1⟩, by simp⟩
    by_cases h1 : n = "#t"
    · simp [Read, hend, htok, hnext, bind_apply, liftExcept, pure_apply, h1]
    · by_cases h2 : n = "#f"
      · simp [Read, hend, htok, hnext, bind_apply, liftExcept, pure_apply, h2]
      · simp [Read, hend, htok, hnext, bind_apply, liftExcept, pure_apply, h1, h2]
  | quote e _ ih =>
    obtain ⟨r, hr⟩ := ih
    refine ⟨fun st => (.cell ((r st).2.cells.length + 1),
      State.mk ((r st).2.cells ++ [Cell.mk (r st).1 .null,
        Cell.mk (.symbol "quote") (.cell (r st).2.cells.length)]) (r st).2.scopes
        (r st).2.lambdas), ?_⟩
    intro t more st fuel hy hfuel
    obtain ⟨f, rfl⟩ : ∃ f, fuel = f + 1 := ⟨fuel - 1, by simp at hfuel; omega⟩
    obtain ⟨hend, htok, t1, hnext, hy1⟩ := Yields_cons t _ _ hy
    obtain ⟨t2, hread, hy2⟩ := (hr t1 more st f hy1 (by simp at hfuel; omega)).1 rfl
    refine ⟨fun _ => ⟨t2, ?_, hy2⟩, by simp⟩
    simp [Read, hend, htok, hnext, bind_apply, liftExcept, pure_apply, hread, makeCell]
  | list body _ ih =>
    obtain ⟨r, hr⟩ := ih
    refine ⟨r, ?_⟩
    intro t more st fuel hy hfuel
    obtain ⟨f, rfl⟩ : ∃ f, fuel = f + 1 := ⟨fuel - 1, by simp at hfuel; omega⟩
    obtain ⟨hend, htok, t1, hnext, hy1⟩ := Yields_cons t _ _ hy
    obtain ⟨t2, hread, hy2⟩ := (hr t1 more st f hy1 (by simp at hfuel; omega)).2 rfl
    refine ⟨fun _ => ⟨t2, ?_, hy2⟩, by simp⟩
    rw [Read_open f t t1 st hend htok hnext, hread]
  | close =>
    refine ⟨fun st => (.null, st), ?_⟩
    intro t more st fuel hy hfuel
    obtain ⟨f, rfl⟩ : ∃ f, fuel = f + 1 := ⟨fuel - 1, by simp at hfuel; omega⟩
    obtain ⟨hend, htok, t1, hnext, hy1⟩ := Yields_cons t _ _ hy
    exact ⟨by simp, fun _ => ⟨t1, ReadList_close f t t1 st hend htok hnext, hy1⟩⟩
  | cons e rest he hrest ihe ihrest =>
    obtain ⟨re, hre⟩ := ihe
    obtain ⟨rr, hrr⟩ := ihrest
    refine ⟨fun st => (.cell (rr (re st).2).2.cells.length,
      State.mk ((rr (re st).2).2.cells ++ [Cell.mk (re st).1 (rr (re st).2).1])
        (rr (re st).2).2.scopes (rr (re st).2).2.lambdas), ?_⟩
    intro t more st fuel hy hfuel
    have hle := Parses_length _ _ he
    have hlr := Parses_length _ _ hrest
    obtain ⟨f, rfl⟩ : ∃ f, fuel = f + 1 := ⟨fuel - 1, by simp at hfuel; omega⟩
    simp only [List.length_append] at hfuel
    rw [List.append_assoc] at hy
    obtain ⟨tok, r, he1, hdot, hclose, -⟩ := Parses_head _ _ he
    have hy0 := hy
    rw [he1] at hy0
    obtain ⟨hend, htok, -, -, -⟩ := Yields_cons t _ _ hy0
    obtain ⟨t1, hread, hy1⟩ := (hre t (rest ++ more) st f hy (by omega)).1 rfl
    obtain ⟨tok2, r2, hrest1, hdot2, -, hlast⟩ := Parses_head _ _ hrest
    have hy1a := hy1
    rw [hrest1] at hy1a
    obtain ⟨hend1, htok1, t2, hnext1, hy2⟩ := Yields_cons t1 _ _ hy1a
    obtain ⟨t3, hread3, hy3⟩ := (hrr t1 more (re st).2 f hy1 (by omega)).2 rfl
    refine ⟨by simp, fun _ => ?_⟩
    by_cases hc : tok2 = .BracketClose
    · have hr2 := hlast hc
      subst hr2
      rw [hc] at htok1
      obtain ⟨g, hg⟩ : ∃ g, f = g + 1 := ⟨f - 1, by omega⟩
      have hclosed := ReadList_close g t1 t2 (re st).2 hend1 htok1 hnext1
      rw [← hg, hread3] at hclosed
      simp only [Res.ok.injEq, Prod.mk.injEq] at hclosed
      obtain ⟨⟨hnull, -⟩, hsame⟩ := hclosed
      beta_reduce
      rw [hnull, hsame]
      exact ⟨t2, ReadList_last f t t1 t2 st _ _ hend (by rw [htok]; exact hclose rfl)
        (by rw [htok]; exact hdot) hread hend1 htok1 hnext1, by simpa using hy2⟩
    · exact ⟨t3, ReadList_more f t t1 t3 st _ _ _ _ hend
        (by rw [htok]; exact hclose rfl) (by rw [htok]; exact hdot) hread hend1
        (by rw [htok1]; exact hc) (by rw [htok1]; exact hdot2) hread3, hy3⟩
  | dotted e1 e2 he1 he2 ih1 ih2 =>
    obtain ⟨r1, hr1⟩ := ih1
    obtain ⟨r2, hr2⟩ := ih2
    refine ⟨fun st => (.cell (r2 (r1 st).2).2.cells.length,
      State.mk ((r2 (r1 st).2).2.cells ++ [Cell.mk (r1 st).1 (r2 (r1 st).2).1])
        (r2 (r1 st).2).2.scopes (r2 (r1 st).2).2.lambdas), ?_⟩
    intro t more st fuel hy hfuel
    have hl1 := Parses_length _ _ he1
    have hl2 := Parses_length _ _ he2
    obtain ⟨f, rfl⟩ : ∃ f, fuel = f + 1 := ⟨fuel - 1, by simp at hfuel; omega⟩
    simp only [List.length_append, List.length_cons, List.length_nil] at hfuel
    have hy0 : Tokenizer.Yields t
        (e1 ++ (Token.DotToken :: (e2 ++ (Token.BracketClose :: more)))) := by
      simpa [List.append_assoc] using hy
    obtain ⟨tok, r, he1a, hdot, hclose, -⟩ := Parses_head _ _ he1
    have hy0a := hy0
    rw [he1a] at hy0a
    obtain ⟨hend, htok, -, -, -⟩ := Yields_cons t _ _ hy0a
    obtain ⟨t1, hread, hy1⟩ := (hr1 t _ st f hy0 (by omega)).1 rfl
    obtain ⟨hend1, htok1, t2, hnext1, hy2⟩ := Yields_cons t1 _ _ hy1
    obtain ⟨t3, hread2, hy3⟩ := (hr2 t2 _ (r1 st).2 f hy2 (by omega)).1 rfl
    obtain ⟨hend3, htok3, t4, hnext3, hy4⟩ := Yields_cons t3 _ _ hy3
    exact ⟨by simp, fun _ => ⟨t4, ReadList_dotted f t t1 t2 t3 t4 st _ _ _ _
      hend (by rw [htok]; exact hclose rfl) (by rw [htok]; exact hdot) hread hend1 htok1 hnext1
      hread2 hend3 htok3 hnext3, hy4⟩⟩

/-! ## C32: dotted pairs -/

/-- C32: let `a` and `b` be the tokens of two well-formed expressions (a number, a symbol, a
quoted expression, or a bracketed list, proper or dotted, of such expressions).  What `Read`
returns on the tokens of `a`, and on those of `b`, is a function of the store it starts from
(`ra`, `rb`: the object read and the store with its cells), whatever follows the tokens and
whatever the nesting bound, once it is large enough.  On the tokens of `(a . b)`, `Read`
returns one new cell, allocated after those of `a` and of `b`, whose head is the object read
from `a` and whose tail is the object read from `b`.  For the tokens `body` of the elements of a
list and its closing bracket, `(a . (body` and `(a body` are read as the same object in the same
store; so `(a . (b c))` is read as `(a b c)`, and `(a . ())` as `(a)`.  `Read` signals a syntax
error on an opening bracket directly followed by a dot; on `(a .` followed by the end of the
input, a closing bracket or another dot; and on `(a . b` followed by the end of the input or
any token other than a closing bracket. -/
theorem C32_dotted_pair (a b : List Token) (ha : Token.Parses false a)
    (hb : Token.Parses false b) :
    (∃ ra rb : State → Ref × State,
      (∀ (t : Tokenizer) (more : List Token) (st : State) (fuel : Nat),
        Tokenizer.Yields t (a ++ more) → 2 * a.length ≤ fuel →
        ∃ t1, Read fuel t st = .ok ((ra st).1, t1) (ra st).2 ∧ Tokenizer.Yields t1 more) ∧
      (∀ (t : Tokenizer) (more : List Token) (st : State) (fuel : Nat),
        Tokenizer.Yields t (b ++ more) → 2 * b.length ≤ fuel →
        ∃ t1, Read fuel t st = .ok ((rb st).1, t1) (rb st).2 ∧ Tokenizer.Yields t1 more) ∧
      ∀ (t : Tokenizer) (more : List Token) (st : State) (fuel : Nat),
        Tokenizer.Yields t
          (.BracketOpen :: (a ++ .DotToken :: (b ++ .BracketClose :: more))) →
        2 * (a.length + b.length + 1) ≤ fuel →
        ∃ t1, Read fuel t st =
            .ok (.cell (rb (ra st).2).2.cells.length, t1)
              (State.mk ((rb (ra st).2).2.cells ++ [Cell.mk (ra st).1 (rb (ra st).2).1])
                (rb (ra st).2).2.scopes (rb (ra st).2).2.lambdas) ∧
          Tokenizer.Yields t1 more) ∧
    (∀ body : List Token, Token.Parses true body →
      ∀ (t t2 : Tokenizer) (more : List Token) (st : State) (fuel fuel2 : Nat),
        Tokenizer.Yields t
          (.BracketOpen :: (a ++ .DotToken :: .BracketOpen :: (body ++ .BracketClose :: more))) →
        Tokenizer.Yields t2 (.BracketOpen :: (a ++ (body ++ more))) →
        2 * (a.length + body.length + 2) ≤ fuel → 2 * (a.length + body.length + 1) ≤ fuel2 →
        ∃ obj t1 t3 st1, Read fuel t st = .ok (obj, t1) st1 ∧
          Read fuel2 t2 st = .ok (obj, t3) st1 ∧
          Tokenizer.Yields t1 more ∧ Tokenizer.Yields t3 more) ∧
    (∀ (t : Tokenizer) (rest : List Token) (st : State) (fuel : Nat),
      Tokenizer.Yields t (.BracketOpen :: .DotToken :: rest) →
      Read (fuel + 2) t st = .fail .SyntaxError st) ∧
    (∀ (t : Tokenizer) (rest : List Token) (st : State) (fuel : Nat),
      Tokenizer.Yields t (.BracketOpen :: (a ++ .DotToken :: rest)) →
      (rest = [] ∨ (∃ more, rest = .BracketClose :: more) ∨ ∃ more, rest = .DotToken :: more) →
      2 * (a.length + 1) ≤ fuel →
      ∃ st1, Read fuel t st = .fail .SyntaxError st1) ∧
    (∀ (t : Tokenizer) (rest : List Token) (st : State) (fuel : Nat),
      Tokenizer.Yields t (.BracketOpen :: (a ++ .DotToken :: (b ++ rest))) →
      (∀ more, rest ≠ .BracketClose :: more) →
      2 * (a.length + b.length + 1) ≤ fuel →
      ∃ st1, Read fuel t st = .fail .SyntaxError st1) ∧
    ((Example.read [] "(a . (b c))").outcome.map Prod.fst =
        (Example.read [] "(a b c)").outcome.map Prod.fst ∧
      (Example.read [] "(a . (b c))").state = (Example.read [] "(a b c)").state ∧
      (Example.read [] "(a . ())").outcome.map Prod.fst =
        (Example.read [] "(a)").outcome.map Prod.fst ∧
      (Example.read [] "(a . ())").state = (Example.read [] "(a)").state ∧
      ∀ o : ArgOrder, SchemeEngine.outcomes o 100
          ["'(1 . 2)", "'(1 . (2 3))", "'(1 . ())", "'((1 . 2) . (3 . 4))", "'( . 1)",
           "'(1 . )", "'(1 .", "'(1 . . 2)", "'(1 . 2 3)", "'(1 . 2"] =
        [.ok "(1 . 2)", .ok "(1 2 3)", .ok "(1)", .ok "((1 . 2) 3 . 4)", .error .SyntaxError,
         .error .SyntaxError, .error .SyntaxError, .error .SyntaxError, .error .SyntaxError,
         .error .SyntaxError]) := by
  obtain ⟨ra, hra⟩ := Reader_function false a ha
  obtain ⟨rb, hrb⟩ := Reader_function false b hb
  have hla := Parses_length _ _ ha
  have hlb := Parses_length _ _ hb
  obtain ⟨tok, r, ha1, hdot, hclose, -⟩ := Parses_head _ _ ha
  -- the first element of the list, read after the opening bracket
  have hfirst : ∀ (t : Tokenizer) (tail : List Token) (st : State) (fuel : Nat),
      Tokenizer.Yields t (.BracketOpen :: (a ++ tail)) → 2 * (a.length + 1) ≤ fuel →
      ∃ f t0 t1, fuel = f + 2 ∧ Read fuel t st = ReadList (f + 1) t0 st ∧
        t0.IsEnd = false ∧ t0.GetToken ≠ .BracketClose ∧ t0.GetToken ≠ .DotToken ∧
        Read f t0 st = .ok ((ra st).1, t1) (ra st).2 ∧ Tokenizer.Yields t1 tail := by
    intro t tail st fuel hy hfuel
    obtain ⟨f, rfl⟩ : ∃ f, fuel = f + 2 := ⟨fuel - 2, by omega⟩
    obtain ⟨hend, htok, t0, hnext, hy0⟩ := Yields_cons t _ _ hy
    have hy0a := hy0
    rw [ha1] at hy0a
    obtain ⟨hend0, htok0, -, -, -⟩ := Yields_cons t0 _ _ hy0a
    obtain ⟨t1, hread, hy1⟩ := (hra t0 tail st f hy0 (by omega)).1 rfl
    exact ⟨f, t0, t1, rfl, Read_open (f + 1) t t0 st hend htok hnext, hend0,
      by rw [htok0]; exact hclose rfl, by rw [htok0]; exact hdot, hread, hy1⟩
  refine ⟨⟨ra, rb, fun t more st fuel hy hfuel => (hra t more st fuel hy hfuel).1 rfl,
    fun t more st fuel hy hfuel => (hrb t more st fuel hy hfuel).1 rfl, ?_⟩, ?_, ?_, ?_, ?_,
    ⟨by decide!, by decide!, by decide!, by decide!, ?_⟩⟩
  · intro t more st fuel hy hfuel
    obtain ⟨f, t0, t1, rfl, hopen, hend0, hc0, hd0, hread, hy1⟩ :=
      hfirst t _ st fuel hy (by omega)
    obtain ⟨hend1, htok1, t2, hnext1, hy2⟩ := Yields_cons t1 _ _ hy1
    obtain ⟨t3, hread2, hy3⟩ := (hrb t2 _ (ra st).2 f hy2 (by omega)).1 rfl
    obtain ⟨hend3, htok3, t4, hnext3, hy4⟩ := Yields_cons t3 _ _ hy3
    exact ⟨t4, by
      rw [hopen]
      exact ReadList_dotted f t0 t1 t2 t3 t4 st _ _ _ _ hend0 hc0 hd0 hread hend1 htok1 hnext1
        hread2 hend3 htok3 hnext3, hy4⟩
  · intro body hbody t t2 more st fuel fuel2 hy hy2 hfuel hfuel2
    obtain ⟨rr, hrr⟩ := Reader_function true body hbody
    have hlr := Parses_length _ _ hbody
    -- the dotted text
    obtain ⟨f, t0, t1, rfl, hopen, hend0, hc0, hd0, hread, hy1⟩ :=
      hfirst t _ st fuel hy (by omega)
    obtain ⟨hend1, htok1, u2, hnext1, hyu2⟩ := Yields_cons t1 _ _ hy1
    obtain ⟨hendu2, htoku2, u3, hnextu2, hyu3⟩ := Yields_cons u2 _ _ hyu2
    obtain ⟨g, hg⟩ : ∃ g, f = g + 1 := ⟨f - 1, by omega⟩
    obtain ⟨u4, hreadu, hyu4⟩ := (hrr u3 _ (ra st).2 g hyu3 (by omega)).2 rfl
    obtain ⟨hendu4, htoku4, u5, hnextu4, hyu5⟩ := Yields_cons u4 _ _ hyu4
    have hsecond : Read f u2 (ra st).2 = .ok ((rr (ra st).2).1, u4) (rr (ra st).2).2 := by
      rw [hg, Read_open g u2 u3 _ hendu2 htoku2 hnextu2, hreadu]
    have hdotted := ReadList_dotted f t0 t1 u2 u4 u5 st _ _ _ _ hend0 hc0 hd0 hread hend1
      htok1 hnext1 hsecond hendu4 htoku4 hnextu4
    -- the plain text
    obtain ⟨f2, v0, v1, rfl, hopen2, hendv0, hcv0, hdv0, hreadv, hyv1⟩ :=
      hfirst t2 _ st fuel2 hy2 (by omega)
    obtain ⟨tok2, r2, hbody1, hdot2, -, hlast⟩ := Parses_head _ _ hbody
    have hyv1a := hyv1
    rw [hbody1] at hyv1a
    obtain ⟨hendv1, htokv1, v2, hnextv1, hyv2⟩ := Yields_cons v1 _ _ hyv1a
    obtain ⟨v3, hreadv3, hyv3⟩ := (hrr v1 more (ra st).2 f2 hyv1 (by omega)).2 rfl
    refine ⟨_, u5, ?_, _, by rw [hopen]; exact hdotted, ?_, hyu5, ?_⟩
    · exact if tok2 = .BracketClose then v2 else v3
    · rw [hopen2]
      by_cases hc : tok2 = .BracketClose
      · have hr2 := hlast hc
        subst hr2
        rw [hc] at htokv1
        obtain ⟨g2, hg2⟩ : ∃ g2, f2 = g2 + 1 := ⟨f2 - 1, by omega⟩
        have hclosed := ReadList_close g2 v1 v2 (ra st).2 hendv1 htokv1 hnextv1
        rw [← hg2, hreadv3] at hclosed
        simp only [Res.ok.injEq, Prod.mk.injEq] at hclosed
        obtain ⟨⟨hnull, -⟩, hsame⟩ := hclosed
        rw [hnull, hsame, if_pos hc]
        exact ReadList_last f2 v0 v1 v2 st _ _ hendv0 hcv0 hdv0 hreadv hendv1 htokv1 hnextv1
      · rw [if_neg hc]
        exact ReadList_more f2 v0 v1 v3 st _ _ _ _ hendv0 hcv0 hdv0 hreadv hendv1
          (by rw [htokv1]; exact hc) (by rw [htokv1]; exact hdot2) hreadv3
    · by_cases hc : tok2 = .BracketClose
      · have hr2 := hlast hc
        subst hr2
        rw [if_pos hc]
        simpa using hyv2
      · rw [if_neg hc]
        exact hyv3
  · intro t rest st fuel hy
    obtain ⟨hend, htok, t0, hnext, hy0⟩ := Yields_cons t _ _ hy
    obtain ⟨hend0, htok0, -, -, -⟩ := Yields_cons t0 _ _ hy0
    rw [Read_open (fuel + 1) t t0 st hend htok hnext]
    exact ReadList_dot fuel t0 st hend0 htok0
  · intro t rest st fuel hy hrest hfuel
    obtain ⟨f, t0, t1, rfl, hopen, hend0, hc0, hd0, hread, hy1⟩ :=
      hfirst t _ st fuel hy (by omega)
    obtain ⟨hend1, htok1, t2, hnext1, hy2⟩ := Yields_cons t1 _ _ hy1
    obtain ⟨g, hg⟩ : ∃ g, f = g + 1 := ⟨f - 1, by omega⟩
    rw [hopen]
    rcases hrest with h | ⟨more, h⟩ | ⟨more, h⟩
    · subst h
      have hend2 := Yields_nil t2 hy2
      exact ⟨_, ReadList_dot_open f t0 t1 t2 t2 st _ _ _ .null hend0 hc0 hd0 hread hend1 htok1
        hnext1 (by rw [hg]; exact Read_end g t2 _ hend2) (Or.inl hend2)⟩
    · subst h
      obtain ⟨hend2, htok2, t3, hnext2, -⟩ := Yields_cons t2 _ _ hy2
      exact ⟨_, ReadList_dot_fail f t0 t1 t2 st _ _ _ _ hend0 hc0 hd0 hread hend1 htok1 hnext1
        (by rw [hg]; exact Read_wrong_token g t2 t3 _ hend2 (Or.inl htok2) hnext2)⟩
    · subst h
      obtain ⟨hend2, htok2, t3, hnext2, -⟩ := Yields_cons t2 _ _ hy2
      exact ⟨_, ReadList_dot_fail f t0 t1 t2 st _ _ _ _ hend0 hc0 hd0 hread hend1 htok1 hnext1
        (by rw [hg]; exact Read_wrong_token g t2 t3 _ hend2 (Or.inr htok2) hnext2)⟩
  · intro t rest st fuel hy hrest hfuel
    obtain ⟨f, t0, t1, rfl, hopen, hend0, hc0, hd0, hread, hy1⟩ :=
      hfirst t _ st fuel hy (by omega)
    obtain ⟨hend1, htok1, t2, hnext1, hy2⟩ := Yields_cons t1 _ _ hy1
    obtain ⟨t3, hread2, hy3⟩ := (hrb t2 _ (ra st).2 f hy2 (by omega)).1 rfl
    rw [hopen]
    refine ⟨_, ReadList_dot_open f t0 t1 t2 t3 st _ _ _ _ hend0 hc0 hd0 hread hend1 htok1
      hnext1 hread2 ?_⟩
    cases rest with
    | nil => exact Or.inl (Yields_nil t3 hy3)
    | cons tk more =>
      obtain ⟨-, htok3, -, -, -⟩ := Yields_cons t3 _ _ hy3
      refine Or.inr ?_
      rw [htok3]
      intro h
      exact hrest more (by rw [h])
  · intro o
    cases o <;> decide!

/-- C32, witness: with `a` the symbol `a` and an empty `body`, the tokens of `(a . ())` and of
`(a)` are read as the same object in the same store. -/
theorem C32_dotted_pair_witness :
    Tokenizer.new "(a . ())".data = .ok (Tokenizer.mk "a . ())".data .BracketOpen false) ∧
    Tokenizer.new "(a)".data = .ok (Tokenizer.mk "a)".data .BracketOpen false) ∧
    ∃ obj t1 t3 st1,
      Read 8 (Tokenizer.mk "a . ())".data .BracketOpen false) SchemeEngine.initial =
        .ok (obj, t1) st1 ∧
      Read 6 (Tokenizer.mk "a)".data .BracketOpen false) SchemeEngine.initial =
        .ok (obj, t3) st1 ∧
      Tokenizer.Yields t1 [] ∧ Tokenizer.Yields t3 [] :=
  ⟨by decide, by decide,
   (C32_dotted_pair [.SymbolToken "a"] [.ConstantToken 1] (Token.Parses.symbol "a")
    (Token.Parses.constant 1)).2.1 [.BracketClose] Token.Parses.close
    (Tokenizer.mk "a . ())".data .BracketOpen false)
    (Tokenizer.mk "a)".data .BracketOpen false) [] SchemeEngine.initial 8 6
    (Tokenizer.Yields.next _ (Tokenizer.mk " . ())".data (.SymbolToken "a") false) _ rfl
      (by decide)
      (Tokenizer.Yields.next _ (Tokenizer.mk " ())".data .DotToken false) _ rfl
        (by decide)
        (Tokenizer.Yields.next _ (Tokenizer.mk "))".data .BracketOpen false) _ rfl
          (by decide)
          (Tokenizer.Yields.next _ (Tokenizer.mk ")".data .BracketClose false) _ rfl
            (by decide)
            (Tokenizer.Yields.next _ (Tokenizer.mk [] .BracketClose false) _ rfl
              (by decide)
              (Tokenizer.Yields.next _ (Tokenizer.mk [] .BracketClose true) _ rfl
                (by decide) (Tokenizer.Yields.done _ rfl)))))))
    (Tokenizer.Yields.next _ (Tokenizer.mk ")".data (.SymbolToken "a") false) _ rfl
      (by decide)
      (Tokenizer.Yields.next _ (Tokenizer.mk [] .BracketClose false) _ rfl
        (by decide)
        (Tokenizer.Yields.next _ (Tokenizer.mk [] .BracketClose true) _ rfl
          (by decide) (Tokenizer.Yields.done _ rfl))))
    (by decide) (by decide)⟩

/-! ## C33: the shared empty list -/

/-- C33, at the failing input: `kSchemeNull` is an ordinary mutable `Cell`, and
`RequirePairArgument` accepts it.  On a fresh engine `(list)`, `cdr` of a one-element list and
`define` print `()`; after `(define x (list))`, `(set-car! x 1)` stores `1` in the head of the
shared cell, and from then on the value returned by `set-car!` itself, by `(list)`, by `cdr` of a
one-element list, by `define`, `set!` and `set-cdr!` prints `(1)`, and `(car (list))` is `1`. -/
theorem C33_shared_empty_list_is_mutable :
    ∀ ord : ArgOrder, SchemeEngine.outcomes ord 100
        ["(list)", "(cdr '(a))", "(define x (list))", "(set-car! x 1)", "(list)",
         "(cdr '(a))", "(define y 2)", "(set! y 3)", "(set-cdr! '(a) 4)", "(car (list))"] =
      [.ok "()", .ok "()", .ok "()", .ok "(1)", .ok "(1)", .ok "(1)", .ok "(1)", .ok "(1)",
       .ok "(1)", .ok "1"] := by
  intro ord
  cases ord <;> decide!

/-! ## C34: division -/

theorem DivisionOperator_loop_numbers (rec : Interp) (scope : Nat) :
    ∀ (args : List Ref) (ys : List Int) (acc : Int) (st st1 : State),
      Eval.each rec scope args st = .ok (ys.map .number) st1 →
      (∀ y ∈ ys, y ≠ 0) →
      (∀ i, (ys.take i).foldl Int.tdiv acc = -2147483648 → ys[i]? ≠ some (-1)) →
      DivisionOperator.loop rec scope args acc st = .ok (ys.foldl Int.tdiv acc) st1 := by
  intro args
  induction args with
  | nil =>
    intro ys acc st st1 h _ _
    simp only [Eval.each, pure_apply, Res.ok.injEq] at h
    cases ys with
    | nil => simp [DivisionOperator.loop, pure_apply, h.2]
    | cons y ys => simp at h
  | cons a rest ih =>
    intro ys acc st st1 h hnz hstep
    obtain ⟨v, ws, s, ha, hr, hvs⟩ := Eval_each_cons rec scope a rest _ st st1 h
    cases ys with
    | nil => simp at hvs
    | cons y ys =>
      simp only [List.map_cons, List.cons.injEq] at hvs
      obtain ⟨hy, hws⟩ := hvs
      subst hy hws
      have hy0 : y ≠ 0 := hnz y (by simp)
      have h0 : ¬(acc = -2147483648 ∧ y = -1) := by
        rintro ⟨h1, h2⟩
        exact hstep 0 (by simpa using h1) (by simp [h2])
      simp only [DivisionOperator.loop, bind_apply, ha, RequireNumberArgument, pure_apply]
      rw [if_neg hy0, if_neg h0, List.foldl_cons]
      refine ih ys (Int.tdiv acc y) s st1 hr (fun z hz => hnz z (by simp [hz])) ?_
      intro i hi
      have := hstep (i + 1) (by simpa using hi)
      simpa using this

theorem tdiv_fold_natAbs (bound : Nat) : ∀ (ys : List Int) (acc : Int),
    acc.natAbs ≤ bound → (ys.foldl Int.tdiv acc).natAbs ≤ bound := by
  intro ys
  induction ys with
  | nil => intro acc h; simpa using h
  | cons y ys ih =>
    intro acc h
    rw [List.foldl_cons]
    refine ih _ ?_
    rw [Int.natAbs_tdiv]
    exact le_trans (Nat.div_le_self _ _) h

/-- C34, as stated, fails: the quotient is computed on `int`.  The value `-2147483648`, which
`(- -2147483647 1)` produces, divided by `-1` has the quotient `2147483648`, which no `int`
holds; the behaviour of `result /= value` is then undefined, and `(/ x -1)` does not return
`2147483648`, at the first or at a later divisor. -/
theorem C34_division_counterexample :
    Int.tdiv (-2147483648) (-1) = 2147483648 ∧
    SchemeEngine.outcomes .leftToRight 100
        ["(- -2147483647 1)", "(/ (- -2147483647 1) -1)", "(/ (- -2147483647 1) 1 -1)"] =
      [.ok "-2147483648", .error .UndefinedBehaviour, .error .UndefinedBehaviour] ∧
    SchemeEngine.outcomes .rightToLeft 100
        ["(- -2147483647 1)", "(/ (- -2147483647 1) -1)", "(/ (- -2147483647 1) 1 -1)"] =
      [.ok "-2147483648", .error .UndefinedBehaviour, .error .UndefinedBehaviour] := by
  refine ⟨by decide, ?_, ?_⟩ <;> decide!

/-- C34, amended: when the arguments of `/` evaluate, from left to right, to the numbers `x`
and `y1..yn` with `n >= 1`, no `yi` is zero, and no step divides `-2147483648` by `-1` (no step
does when `x` is between `-2147483647` and `2147483647`), `(/ x y1 ... yn)` is accepted and
returns the number `((x quot y1) quot ...) quot yn`, with `quot` the division rounded toward
zero, in the store left by the last argument.  On a fresh engine `(/ -7 2)` and `(/ 7 -2)`
print `-3`, `(/ -7 -2)` prints `3`, `(/ 100 7 2)` prints `7`, and `(/ (- -2147483647 1) 2)`
prints `-1073741824`. -/
theorem C34_division_truncates (ord : ArgOrder) (rec : Interp) (scope : Nat) (args : List Ref)
    (x : Int) (ys : List Int) (st st1 : State)
    (hargs : Eval.each rec scope args st = .ok ((x :: ys).map .number) st1)
    (hne : ys ≠ [])
    (hnz : ∀ y ∈ ys, y ≠ 0)
    (hstep : (-2147483647 ≤ x ∧ x ≤ 2147483647) ∨
      ∀ i, (ys.take i).foldl Int.tdiv x = -2147483648 → ys[i]? ≠ some (-1)) :
    Builtin.ApprovesNumberOfArguments .DivisionOperator args = true ∧
    Builtin.Apply ord rec .DivisionOperator args scope st =
      .ok (.number (ys.foldl Int.tdiv x)) st1 ∧
    (∀ o : ArgOrder, SchemeEngine.outcomes o 100
        ["(/ -7 2)", "(/ 7 -2)", "(/ -7 -2)", "(/ 100 7 2)", "(/ (- -2147483647 1) 2)"] =
      [.ok "-3", .ok "-3", .ok "3", .ok "7", .ok "-1073741824"]) := by
  have hlen := Eval_each_length rec scope args _ st st1 hargs
  have hys : 1 ≤ ys.length := by
    cases ys with
    | nil => exact absurd rfl hne
    | cons y ys => simp
  cases args with
  | nil => simp at hlen
  | cons a rest =>
    obtain ⟨v, ws, s, ha, hr, hvs⟩ := Eval_each_cons rec scope a rest _ st st1 hargs
    simp only [List.map_cons, List.cons.injEq] at hvs
    obtain ⟨hx, hws⟩ := hvs
    subst hx hws
    have hstep1 : ∀ i, (ys.take i).foldl Int.tdiv x = -2147483648 → ys[i]? ≠ some (-1) := by
      rcases hstep with ⟨hlo, hhi⟩ | h
      · intro i hi
        have := tdiv_fold_natAbs 2147483647 (ys.take i) x (by omega)
        rw [hi] at this
        simp at this
      · exact h
    refine ⟨?_, ?_, ?_⟩
    · simp only [List.length_cons, List.length_map] at hlen
      simp [Builtin.ApprovesNumberOfArguments]
      omega
    · simp only [Builtin.Apply, DivisionOperator.Apply, bind_apply, subscript,
        List.getElem?_cons_zero, pure_apply, ha, RequireNumberArgument, List.drop_succ_cons,
        List.drop_zero]
      rw [DivisionOperator_loop_numbers rec scope rest ys x s st1 hr hnz hstep1]
    · intro o
      cases o <;> decide!

/-- C34, witness: the arguments `100 7 2` evaluate to themselves, and the quotient is `7`. -/
theorem C34_division_truncates_witness :
    Eval.each (interp .leftToRight 1) 0 [.number 100, .number 7, .number 2]
        SchemeEngine.initial =
      .ok [.number 100, .number 7, .number 2] SchemeEngine.initial ∧
    Builtin.Apply .leftToRight (interp .leftToRight 1) .DivisionOperator
        [.number 100, .number 7, .number 2] 0 SchemeEngine.initial =
      .ok (.number 7) SchemeEngine.initial :=
  ⟨by decide!,
   (C34_division_truncates .leftToRight (interp .leftToRight 1) 0
    [.number 100, .number 7, .number 2] 100 [7, 2] SchemeEngine.initial SchemeEngine.initial
    (by decide!) (by decide) (by decide) (Or.inl (by decide))).2.1⟩

/-! ## C35: reading at the end of the input -/

theorem Tokenizer_new_blank (input : List Char) (h : ∀ c ∈ input, isgraph c = false) :
    Tokenizer.new input = .ok ⟨[], .ConstantToken 0, true⟩ := by
  have hdrop : input.dropWhile (fun c => !isgraph c) = [] :=
    List.dropWhile_eq_nil_iff.2 (fun c hc => by simp [h c hc])
  simp [Tokenizer.new, Tokenizer.Next, hdrop]

theorem Read_quote_at_end (fuel : Nat) (st : State) :
    Read (fuel + 2) ⟨[], .QuoteToken, false⟩ st =
      .ok (.cell (st.cells.length + 1), ⟨[], .QuoteToken, true⟩)
        (State.mk (st.cells ++ [Cell.mk .null .null,
          Cell.mk (.symbol "quote") (.cell st.cells.length)]) st.scopes st.lambdas) := by
  simp [Read, Tokenizer.IsEnd, Tokenizer.GetToken, Tokenizer.Next, bind_apply, liftExcept,
    pure_apply, makeCell]

theorem Eval_quote_empty (ord : ArgOrder) (k : Nat) (st : State)
    (hhas : Scope.HasVariable st 0 "quote" = true)
    (hget : Scope.GetVariable st 0 "quote" = .builtin .QuoteFunction) :
    Eval ord (k + 2) (.cell (st.cells.length + 1)) 0
        (State.mk (st.cells ++ [Cell.mk .null .null,
          Cell.mk (.symbol "quote") (.cell st.cells.length)]) st.scopes st.lambdas) =
      .ok (.cell (st.cells.length + 2))
        (State.mk (st.cells ++ [Cell.mk .null .null,
          Cell.mk (.symbol "quote") (.cell st.cells.length), Cell.mk .null .null])
          st.scopes st.lambdas) := by
  have hc0 : ∀ extra, (State.mk (st.cells ++ [Cell.mk .null .null,
      Cell.mk (.symbol "quote") (.cell st.cells.length)] ++ extra) st.scopes st.lambdas).cell
        st.cells.length = ⟨.null, .null⟩ := by
    intro extra
    rw [List.append_assoc]
    exact cell_at_append st.cells _ st.scopes st.lambdas 0 _ rfl
  have hc1 : (State.mk (st.cells ++ [Cell.mk .null .null,
      Cell.mk (.symbol "quote") (.cell st.cells.length)]) st.scopes st.lambdas).cell
        (st.cells.length + 1) = ⟨.symbol "quote", .cell st.cells.length⟩ :=
    cell_at_append st.cells _ st.scopes st.lambdas 1 _ rfl
  have hvec := ToVector_of_chain (State.mk (st.cells ++ [Cell.mk .null .null,
      Cell.mk (.symbol "quote") (.cell st.cells.length)]) st.scopes st.lambdas)
    (st.cells.length + 1) (.symbol "quote") (.cell st.cells.length) [.null] .null hc1 (by simp)
    (by
      have h := @Chain.step (State.mk (st.cells ++ [Cell.mk .null .null,
        Cell.mk (.symbol "quote") (.cell st.cells.length)] ++ [Cell.mk .null .null])
        st.scopes st.lambdas) st.cells.length [] .null
      rw [hc0 [Cell.mk .null .null]] at h
      exact h (Chain.done .null (by simp)))
    (by simp)
  have hsym := EvalSymbol_scopes st (st.cells ++ [Cell.mk .null .null,
      Cell.mk (.symbol "quote") (.cell st.cells.length)] ++ [Cell.mk .null .null]) st.lambdas
    "quote" 0 _ hhas hget
  unfold Eval
  rw [Eval_cell ord (k + 1) _ 0 (by omega),
    EvalInstruction_builtin ord _ _ 0 _ _ .QuoteFunction _ _ _ hvec
      (by rw [Eval_symbol]; exact hsym)]
  simp [Builtin.ApprovesNumberOfArguments, Builtin.Apply, QuoteFunction.Apply, subscript,
    bind_apply, pure_apply]

/-- C35: on a tokenizer that is at the end of its stream `Read` returns the null value and
the tokenizer and the store as they were, for every nesting bound of at least one.  Hence
`Interpret` of a text without a graphical character (empty, or blanks only) signals a runtime
error, on every store, which it leaves as it was; and on every store in which `quote` is bound
to the built-in, `Interpret` of the text made of one quote character reads the two cells of
`(quote ())` and returns `()`.  On a fresh engine the texts of one quote character and
`(quote ())` are read as the same cells, and each prints `()`. -/
theorem C35_read_at_end (ord : ArgOrder) (k fuel : Nat) (t : Tokenizer) (text : String)
    (st : State) (hend : t.IsEnd = true)
    (hblank : ∀ c ∈ text.data, isgraph c = false)
    (hhas : Scope.HasVariable st 0 "quote" = true)
    (hget : Scope.GetVariable st 0 "quote" = .builtin .QuoteFunction) :
    Read (fuel + 1) t st = .ok (.null, t) st ∧
    SchemeEngine.Interpret ord (k + 1) text st = .fail .RuntimeError st ∧
    (Read (fuel + 2) ⟨[], .QuoteToken, false⟩ st =
        .ok (.cell (st.cells.length + 1), ⟨[], .QuoteToken, true⟩)
          (State.mk (st.cells ++ [Cell.mk .null .null,
            Cell.mk (.symbol "quote") (.cell st.cells.length)]) st.scopes st.lambdas) ∧
      SchemeEngine.Interpret ord (k + 2) "'" st =
        .ok "()" (State.mk (st.cells ++ [Cell.mk .null .null,
          Cell.mk (.symbol "quote") (.cell st.cells.length), Cell.mk .null .null])
          st.scopes st.lambdas)) ∧
    ((Example.read [] "'").outcome.map Prod.fst = .ok (.cell 2) ∧
      (Example.read [] "(quote ())").outcome.map Prod.fst = .ok (.cell 2) ∧
      (Example.read [] "'").state = (Example.read [] "(quote ())").state ∧
      ∀ o : ArgOrder, SchemeEngine.outcomes o 100 ["", "  ", "'", " ' ", "(quote ())", "()"] =
        [.error .RuntimeError, .error .RuntimeError, .ok "()", .ok "()", .ok "()",
         .error .RuntimeError]) := by
  refine ⟨?_, ?_, ⟨Read_quote_at_end fuel st, ?_⟩, by decide!, by decide!, by decide!, ?_⟩
  · simp [Read, hend, pure_apply]
  · have hread : Read (2 * text.length + 1 + 1) ⟨[], .ConstantToken 0, true⟩ st =
        .ok (.null, ⟨[], .ConstantToken 0, true⟩) st := by
      simp [Read, Tokenizer.IsEnd, pure_apply]
    simp only [SchemeEngine.Interpret, bind_apply, Tokenizer_new_blank text.data hblank,
      liftExcept, pure_apply, hread]
    simp [Tokenizer.IsEnd, Eval, interp_Eval, Eval.body, raise_apply, bind_apply]
  · have hnew : Tokenizer.new "'".data = .ok ⟨[], .QuoteToken, false⟩ := by decide
    have hread : Read (2 * "'".length + 2) ⟨[], .QuoteToken, false⟩ st = _ :=
      Read_quote_at_end (2 * "'".length) st
    simp only [SchemeEngine.Interpret, bind_apply, hnew, liftExcept, pure_apply, hread]
    simp only [Tokenizer.IsEnd, Bool.not_true, Bool.false_eq_true, if_false, bind_apply,
      Eval_quote_empty ord k st hhas hget, SchemeEngine.print]
    rw [Repr_of_empty _ _ (congrArg Cell.first (cell_at_append st.cells
      [Cell.mk .null .null, Cell.mk (.symbol "quote") (.cell st.cells.length),
        Cell.mk .null .null] st.scopes st.lambdas 2 ⟨.null, .null⟩ rfl))]
  · intro o
    cases o <;> decide!

/-- C35, witness: the tokenizer at the end of the empty text, the text of two blanks, and the
store of a fresh engine. -/
theorem C35_read_at_end_witness :
    Read 1 ⟨[], .ConstantToken 0, true⟩ SchemeEngine.initial =
        .ok (.null, ⟨[], .ConstantToken 0, true⟩) SchemeEngine.initial ∧
      SchemeEngine.Interpret .leftToRight 1 "  " SchemeEngine.initial =
        .fail .RuntimeError SchemeEngine.initial ∧
      (SchemeEngine.Interpret .leftToRight 2 "'" SchemeEngine.initial).outcome = .ok "()" :=
  have h := C35_read_at_end .leftToRight 0 0 ⟨[], .ConstantToken 0, true⟩ "  "
    SchemeEngine.initial rfl (by decide) (by decide!) (by decide!)
  ⟨h.1, h.2.1, by rw [h.2.2.1.2]; rfl⟩

end Scheme
